import Mathlib

/-!
# Verification development for the CasADi integrator core

Shallow embedding of `casadi/core/integrator.cpp`.

Conventions of the embedding:
* `double` values are exact rationals (`ℚ`); the only non-finite value the
  code stores, the default `event_acceptable_tol = inf`, is `⊤ : WithTop ℚ`.
* `casadi_int` values are unbounded integers (`Int`): the quantities are
  array sizes and small counters.
* C++ exceptions (`casadi_error`, `casadi_assert`) and nonzero return flags
  are values of `Except Err`.
* Enumerations declared in `integrator.hpp` / `integrator_impl.hpp` are
  numbered from zero in the order in which the switch statements of
  `integrator.cpp` list their enumerators.
-/

namespace Casadi

/-! ## Errors -/

/-- Failure modes of the integrator: every `casadi_assert` / `casadi_error`
site of the embedded functions, plus the nonzero return flags. -/
inductive Err where
  /-- Message "Number of forward sensitivities must be non-negative" -/
  | nfwdNegative
  /-- Message "Number of adjoint sensitivities must be non-negative" -/
  | nadjNegative
  /-- wrong arity or sparsity of the DAE oracle -/
  | shape
  /-- Message "Ill-posed ODE - no state" -/
  | noState
  /-- Message "Dimension mismatch" / "Inconsistent dimensions" -/
  | dimension
  /-- Message "Jacobian of the forward problem is structurally rank-deficient" -/
  | singularForward
  /-- Message "Jacobian of the backward problem is structurally rank-deficient" -/
  | singularBackward
  /-- Message "Maximum number of event iterations reached without convergence" -/
  | eventNonConvergence
  /-- Message "Too many event iterations during interval" -/
  | tooManyEvents
  /-- the consistency check of `trigger_event` returned 1 -/
  | eventConsistency
  /-- a `calc_function` call returned 1 -/
  | oracle
  /-- the virtual `advance_noevent` returned 1 -/
  | solver
  /-- Message "Number of finite elements must be strictly positive" -/
  | finiteElements
  /-- the loop bound of the embedding was exhausted (not a C++ outcome) -/
  | outOfFuel
  deriving DecidableEq, Repr

deriving instance DecidableEq for Except

/-! ## Public input/output schemes -/

/-- Embeds `enum IntegratorInput`, numbered in the order of `integrator_in(casadi_int)`. -/
def INTEGRATOR_X0 : Int := 0
/-- Second integrator input. -/
def INTEGRATOR_Z0 : Int := 1
/-- Third integrator input. -/
def INTEGRATOR_P : Int := 2
/-- Fourth integrator input. -/
def INTEGRATOR_U : Int := 3
/-- Fifth integrator input. -/
def INTEGRATOR_ADJ_XF : Int := 4
/-- Sixth integrator input. -/
def INTEGRATOR_ADJ_ZF : Int := 5
/-- Seventh integrator input. -/
def INTEGRATOR_ADJ_QF : Int := 6
/-- Number of integrator inputs. -/
def INTEGRATOR_NUM_IN : Int := 7

/-- Embeds `enum IntegratorOutput`, numbered in the order of `integrator_out(casadi_int)`. -/
def INTEGRATOR_XF : Int := 0
/-- Second integrator output. -/
def INTEGRATOR_ZF : Int := 1
/-- Third integrator output. -/
def INTEGRATOR_QF : Int := 2
/-- Fourth integrator output. -/
def INTEGRATOR_ADJ_X0 : Int := 3
/-- Fifth integrator output. -/
def INTEGRATOR_ADJ_Z0 : Int := 4
/-- Sixth integrator output. -/
def INTEGRATOR_ADJ_P : Int := 5
/-- Seventh integrator output. -/
def INTEGRATOR_ADJ_U : Int := 6
/-- Number of integrator outputs. -/
def INTEGRATOR_NUM_OUT : Int := 7

/-- Embeds `std::string integrator_in(casadi_int ind)`. -/
def integrator_in (ind : Int) : String :=
  match ind with
  | 0 => "x0"
  | 1 => "z0"
  | 2 => "p"
  | 3 => "u"
  | 4 => "adj_xf"
  | 5 => "adj_zf"
  | 6 => "adj_qf"
  | _ => ""

/-- Embeds `std::string integrator_out(casadi_int ind)`. -/
def integrator_out (ind : Int) : String :=
  match ind with
  | 0 => "xf"
  | 1 => "zf"
  | 2 => "qf"
  | 3 => "adj_x0"
  | 4 => "adj_z0"
  | 5 => "adj_p"
  | 6 => "adj_u"
  | _ => ""

/-- Embeds `casadi_int integrator_n_in()`. -/
def integrator_n_in : Int := INTEGRATOR_NUM_IN

/-- Embeds `casadi_int integrator_n_out()`. -/
def integrator_n_out : Int := INTEGRATOR_NUM_OUT

/-- Embeds `std::vector<std::string> integrator_in()`: a vector of
`integrator_n_in()` entries, entry `i` being `integrator_in(i)`. -/
def integrator_in_vec : List String :=
  (List.range integrator_n_in.toNat).map (fun i => integrator_in (i : Int))

/-- Embeds `std::vector<std::string> integrator_out()`: a vector of
`integrator_n_out()` entries, entry `i` being `integrator_out(i)`. -/
def integrator_out_vec : List String :=
  (List.range integrator_n_out.toNat).map (fun i => integrator_out (i : Int))

/-- Embeds `bool Integrator::grid_in(casadi_int i)`. -/
def grid_in (i : Int) : Bool :=
  match i with
  | 3 => true
  | 4 => true
  | 5 => true
  | 6 => true
  | _ => false

/-- Embeds `bool Integrator::grid_out(casadi_int i)`. -/
def grid_out (i : Int) : Bool :=
  match i with
  | 0 => true
  | 1 => true
  | 2 => true
  | 6 => true
  | _ => false

/-- Embeds `casadi_int Integrator::adjmap_out(casadi_int i)`. -/
def adjmap_out (i : Int) : Int :=
  match i with
  | 0 => INTEGRATOR_ADJ_X0
  | 1 => INTEGRATOR_ADJ_Z0
  | 2 => INTEGRATOR_ADJ_P
  | 3 => INTEGRATOR_ADJ_U
  | 4 => INTEGRATOR_XF
  | 5 => INTEGRATOR_ZF
  | 6 => INTEGRATOR_QF
  | _ => -1

/-! ## Configuration: `Integrator::Integrator` and `Integrator::init` -/

/-- Embeds `enum DynIn`, in the order of `to_string(DynIn)`. -/
def DYN_T : Int := 0
/-- Differential state input of the DAE. -/
def DYN_X : Int := 1
/-- Algebraic variable input of the DAE. -/
def DYN_Z : Int := 2
/-- Parameter input of the DAE. -/
def DYN_P : Int := 3
/-- Control input of the DAE. -/
def DYN_U : Int := 4
/-- Number of DAE inputs. -/
def DYN_NUM_IN : Int := 5

/-- Embeds `enum DynOut`, in the order of `to_string(DynOut)`. -/
def DYN_ODE : Int := 0
/-- Algebraic residual output of the DAE. -/
def DYN_ALG : Int := 1
/-- Quadrature output of the DAE. -/
def DYN_QUAD : Int := 2
/-- Zero-crossing output of the DAE. -/
def DYN_ZERO : Int := 3
/-- Number of DAE outputs. -/
def DYN_NUM_OUT : Int := 4

/-- Embeds `enum BDynIn`, in the order of `Integrator::bdyn_in(casadi_int)`. -/
def BDYN_X : Int := 1
/-- Backward DAE input `z`. -/
def BDYN_Z : Int := 2
/-- Backward DAE input `p`. -/
def BDYN_P : Int := 3
/-- Backward DAE input `u`. -/
def BDYN_U : Int := 4
/-- Backward DAE input `adj_ode`. -/
def BDYN_ADJ_ODE : Int := 9
/-- Backward DAE input `adj_alg`. -/
def BDYN_ADJ_ALG : Int := 10
/-- Backward DAE input `adj_quad`. -/
def BDYN_ADJ_QUAD : Int := 11
/-- Number of backward DAE inputs. -/
def BDYN_NUM_IN : Int := 13
/-- Backward DAE output `adj_p` (`enum BDynOut`, order of `bdyn_out`). -/
def BDYN_ADJ_P : Int := 3
/-- Backward DAE output `adj_u`. -/
def BDYN_ADJ_U : Int := 4
/-- Number of backward DAE outputs. -/
def BDYN_NUM_OUT : Int := 5

/-- An option value (`GenericType`), given by the results of the implicit
conversions that `init` applies to it (the conversions themselves live in
`generic_type.cpp`). -/
structure GenericType where
  /-- result of the conversion to `bool` -/
  to_bool : Bool := false
  /-- result of the conversion to `casadi_int` -/
  to_int : Int := 0
  /-- result of the conversion to `double`; `⊤` is `inf` -/
  to_double : WithTop ℚ := 0
  /-- result of the conversion to `std::vector<double>` -/
  to_double_vector : List ℚ := []
  /-- result of the conversion to `Function`: is it a non-null function? -/
  to_function_nonnull : Bool := false
  deriving DecidableEq

/-- Embeds `Dict`: the entries of the `std::map<std::string, GenericType>`, in
iteration order. -/
abbrev Dict := List (String × GenericType)

/-- Finite value of a `double` used as a time; times are finite in the
embedding. -/
def finite (d : WithTop ℚ) : ℚ := d.untop' 0

/-- What `init` uses of a `Sparsity`. -/
structure SparsityInfo where
  /-- Embeds `Sparsity::is_empty()` -/
  is_empty : Bool
  /-- Embeds `Sparsity::is_scalar()` -/
  is_scalar : Bool
  /-- Embeds `Sparsity::is_vector()` -/
  is_vector : Bool
  /-- Embeds `Sparsity::is_dense()` -/
  is_dense : Bool
  /-- Embeds `Sparsity::numel()` -/
  numel : Int

/-- What `init` uses of a `Function` (the oracle and its reverse-mode
derivative). -/
structure FunctionInfo where
  /-- Embeds `Function::n_in()` -/
  n_in : Int
  /-- Embeds `Function::n_out()` -/
  n_out : Int
  /-- Embeds `Function::sparsity_in(i)` -/
  sparsity_in : Int → SparsityInfo
  /-- Embeds `Function::sparsity_out(i)` -/
  sparsity_out : Int → SparsityInfo

/-- Embeds `Function::numel_in(i)`. -/
def FunctionInfo.numel_in (f : FunctionInfo) (i : Int) : Int := (f.sparsity_in i).numel

/-- Embeds `Function::numel_out(i)`. -/
def FunctionInfo.numel_out (f : FunctionInfo) (i : Int) : Int := (f.sparsity_out i).numel

/-- The collaborators that `init` consults. -/
structure InitEnv where
  /-- the DAE oracle `oracle_` -/
  oracle : FunctionInfo
  /-- Embeds `oracle_.reverse(nadj)` -/
  reverse : Int → FunctionInfo
  /-- Embeds `sp_jac_dae().is_singular()` for the configured dimensions -/
  sp_jac_dae_singular : Bool
  /-- Embeds `sp_jac_rdae().is_singular()` for the configured dimensions -/
  sp_jac_rdae_singular : Bool

/-- Data members of `class Integrator` that the embedded functions use. -/
structure Integrator where
  /-- initial time `t0_` -/
  t0 : ℚ
  /-- output times `tout_` -/
  tout : List ℚ
  /-- number of forward sensitivities `nfwd_` -/
  nfwd : Int
  /-- number of adjoint sensitivities `nadj_` -/
  nadj : Int
  /-- print statistics `print_stats_` -/
  print_stats : Bool
  /-- has the option `augmented_options` been stored -/
  augmented_options : Option GenericType
  /-- is `transition_` a non-null function -/
  transition_nonnull : Bool
  /-- maximum number of event iterations `max_event_iter_` -/
  max_event_iter : Int
  /-- maximum number of events `max_events_` -/
  max_events : Int
  /-- event tolerance `event_tol_` -/
  event_tol : WithTop ℚ
  /-- acceptable event tolerance `event_acceptable_tol_` -/
  event_acceptable_tol : WithTop ℚ
  /-- number of states, without sensitivities -/
  nx1 : Int
  /-- number of algebraic variables, without sensitivities -/
  nz1 : Int
  /-- number of quadratures, without sensitivities -/
  nq1 : Int
  /-- number of parameters, without sensitivities -/
  np1 : Int
  /-- number of controls, without sensitivities -/
  nu1 : Int
  /-- number of zero-crossing functions -/
  ne : Int
  /-- backward states, without sensitivities -/
  nrx1 : Int
  /-- backward algebraic variables, without sensitivities -/
  nrz1 : Int
  /-- backward parameters, without sensitivities -/
  nrp1 : Int
  /-- backward quadratures, without sensitivities -/
  nrq1 : Int
  /-- backward control quadratures, without sensitivities -/
  nuq1 : Int
  /-- number of states, with sensitivities -/
  nx : Int
  /-- number of algebraic variables, with sensitivities -/
  nz : Int
  /-- number of quadratures, with sensitivities -/
  nq : Int
  /-- number of parameters, with sensitivities -/
  np : Int
  /-- number of controls, with sensitivities -/
  nu : Int
  /-- backward states, with sensitivities -/
  nrx : Int
  /-- backward algebraic variables, with sensitivities -/
  nrz : Int
  /-- backward parameters, with sensitivities -/
  nrp : Int
  /-- backward quadratures, with sensitivities -/
  nrq : Int
  /-- backward control quadratures, with sensitivities -/
  nuq : Int
  /-- length of the work vectors `tmp1`, `tmp2` -/
  ntmp : Int
  deriving DecidableEq

/-- Constructor `Integrator::Integrator(name, oracle, t0, tout)`: stores
`t0_`, `tout_`, sets `np_ = -1` and the default options. Members that the
constructor leaves unset are zero here. -/
def Integrator.new (t0 : ℚ) (tout : List ℚ) : Integrator where
  t0 := t0
  tout := tout
  nfwd := 0
  nadj := 0
  print_stats := false
  augmented_options := none
  transition_nonnull := false
  max_event_iter := 3
  max_events := 20
  event_tol := ((1 / 1000000 : ℚ) : WithTop ℚ)
  event_acceptable_tol := ⊤
  nx1 := 0
  nz1 := 0
  nq1 := 0
  np1 := 0
  nu1 := 0
  ne := 0
  nrx1 := 0
  nrz1 := 0
  nrp1 := 0
  nrq1 := 0
  nuq1 := 0
  nx := 0
  nz := 0
  nq := 0
  np := -1
  nu := 0
  nrx := 0
  nrz := 0
  nrp := 0
  nrq := 0
  nuq := 0
  ntmp := 0

/-- Embeds `casadi_int Integrator::nt() const`: number of output times. -/
def Integrator.nt (self : Integrator) : Int := (self.tout.length : Int)

/-- The temporaries of `init` that hold the legacy options. -/
structure LegacyOptions where
  /-- local `t0`, default 0 -/
  t0 : ℚ := 0
  /-- local `tf`, default 1 -/
  tf : ℚ := 1
  /-- local `output_t0`, default false -/
  output_t0 : Bool := false
  /-- local `grid`, default empty -/
  grid : List ℚ := []
  /-- local `uses_legacy_options`, default false -/
  uses_legacy_options : Bool := false

/-- One pass of the "Read options" loop of `init` for the entry
`(key, v)`: the `if / else if` chain on `op.first`. The result is `none`
when no branch of the chain matches the key, i.e. `init` does not read it. -/
def read_option (s : Integrator × LegacyOptions) (key : String) (v : GenericType) :
    Option (Integrator × LegacyOptions) :=
  if key = "output_t0" then
    some (s.1, { s.2 with output_t0 := v.to_bool, uses_legacy_options := true })
  else if key = "print_stats" then
    some ({ s.1 with print_stats := v.to_bool }, s.2)
  else if key = "nfwd" then
    some ({ s.1 with nfwd := v.to_int }, s.2)
  else if key = "nadj" then
    some ({ s.1 with nadj := v.to_int }, s.2)
  else if key = "grid" then
    some (s.1, { s.2 with grid := v.to_double_vector, uses_legacy_options := true })
  else if key = "augmented_options" then
    some ({ s.1 with augmented_options := some v }, s.2)
  else if key = "transition" then
    some ({ s.1 with transition_nonnull := v.to_function_nonnull }, s.2)
  else if key = "max_event_iter" then
    some ({ s.1 with max_event_iter := v.to_int }, s.2)
  else if key = "max_events" then
    some ({ s.1 with max_events := v.to_int }, s.2)
  else if key = "event_tol" then
    some ({ s.1 with event_tol := v.to_double }, s.2)
  else if key = "event_acceptable_tol" then
    some ({ s.1 with event_acceptable_tol := v.to_double }, s.2)
  else if key = "t0" then
    some (s.1, { s.2 with t0 := finite v.to_double, uses_legacy_options := true })
  else if key = "tf" then
    some (s.1, { s.2 with tf := finite v.to_double, uses_legacy_options := true })
  else
    none

/-- The "Read options" loop of `init`. -/
def read_options (self : Integrator) (opts : Dict) : Integrator × LegacyOptions :=
  opts.foldl (fun s op => (read_option s op.1 op.2).getD s) (self, {})

/-- The block "Construct t0_ and tout_ based on legacy options" of `init`
(the deprecation warning has no effect on the state). -/
def apply_legacy (I : Integrator) (L : LegacyOptions) : Integrator :=
  if L.uses_legacy_options then
    let grid := if L.grid.isEmpty then [L.t0, L.tf] else L.grid
    { I with
      t0 := grid.headD 0
      tout := if !L.output_t0 then grid.tail else grid }
  else I

/-- The consistency checks of `init` on the input sparsities of the oracle. -/
def check_sparsity_in (oracle : FunctionInfo) : Bool :=
  (List.range DYN_NUM_IN.toNat).all fun i =>
    let sp := oracle.sparsity_in (i : Int)
    (if (i : Int) = DYN_T then (sp.is_empty || sp.is_scalar) else sp.is_vector) && sp.is_dense

/-- The consistency checks of `init` on the output sparsities of the oracle. -/
def check_sparsity_out (oracle : FunctionInfo) : Bool :=
  (List.range DYN_NUM_OUT.toNat).all fun i =>
    let sp := oracle.sparsity_out (i : Int)
    sp.is_vector && sp.is_dense

/-- The consistency checks of `init` on the backward DAE `rdae_`. -/
def check_rdae (I : Integrator) (rdae : FunctionInfo) : Except Err Unit := do
  if rdae.n_in ≠ BDYN_NUM_IN then throw Err.shape
  if rdae.n_out ≠ BDYN_NUM_OUT then throw Err.shape
  if rdae.numel_in BDYN_X ≠ I.nx1 then throw Err.dimension
  if rdae.numel_in BDYN_Z ≠ I.nz1 then throw Err.dimension
  if rdae.numel_in BDYN_P ≠ I.np1 then throw Err.dimension
  if rdae.numel_in BDYN_U ≠ I.nu1 then throw Err.dimension
  if rdae.numel_in BDYN_ADJ_ODE ≠ I.nx1 * I.nadj then throw Err.dimension
  if rdae.numel_in BDYN_ADJ_ALG ≠ I.nz1 * I.nadj then throw Err.dimension
  if rdae.numel_in BDYN_ADJ_QUAD ≠ I.nq1 * I.nadj then throw Err.dimension
  if rdae.numel_out BDYN_ADJ_P ≠ I.np1 * I.nadj then throw Err.dimension
  if rdae.numel_out BDYN_ADJ_U ≠ I.nu1 * I.nadj then throw Err.dimension

/-- The block "Get dimensions (excluding sensitivity equations), forward
problem" of `init`. -/
def Integrator.set_dims1 (I : Integrator) (oracle : FunctionInfo) : Integrator :=
  { I with
    nx1 := oracle.numel_in DYN_X
    nz1 := oracle.numel_in DYN_Z
    nq1 := oracle.numel_out DYN_QUAD
    np1 := oracle.numel_in DYN_P
    nu1 := oracle.numel_in DYN_U
    ne := oracle.numel_out DYN_ZERO }

/-- The assignments "Dimensions (excluding sensitivity equations), backward
problem" of `init`, taken when `nadj_ > 0`. -/
def Integrator.set_backward_dims1 (I : Integrator) : Integrator :=
  { I with nrx1 := I.nx1, nrz1 := I.nz1, nrp1 := I.nq1, nrq1 := I.np1, nuq1 := I.nu1 }

/-- The assignment "No backward problem" of `init`, taken when `nadj_ = 0`. -/
def Integrator.clear_backward_dims1 (I : Integrator) : Integrator :=
  { I with nrx1 := 0, nrz1 := 0, nrp1 := 0, nrq1 := 0, nuq1 := 0 }

/-- The block "Get dimensions (including sensitivity equations)" of `init`. -/
def Integrator.set_dims (I : Integrator) : Integrator :=
  { I with
    nx := I.nx1 * (1 + I.nfwd)
    nz := I.nz1 * (1 + I.nfwd)
    nq := I.nq1 * (1 + I.nfwd)
    np := I.np1 * (1 + I.nfwd)
    nu := I.nu1 * (1 + I.nfwd)
    nrx := I.nrx1 * I.nadj * (1 + I.nfwd)
    nrz := I.nrz1 * I.nadj * (1 + I.nfwd)
    nrp := I.nrp1 * I.nadj * (1 + I.nfwd)
    nrq := I.nrq1 * I.nadj * (1 + I.nfwd)
    nuq := I.nuq1 * I.nadj * (1 + I.nfwd) }

/-- The block "Length of tmp1, tmp2 vectors" of `init`. -/
def Integrator.set_ntmp (I : Integrator) : Integrator :=
  { I with ntmp := max (max (I.nx + I.nz) (I.nrx + I.nrz)) I.ne }

/-- The checks of `init` before the dimensions are read: sensitivity counts
and validity of the oracle. -/
def check_oracle (I : Integrator) (oracle : FunctionInfo) : Except Err Unit := do
  -- Consistency checks: Sensitivities
  if ¬ (I.nfwd ≥ 0) then throw Err.nfwdNegative
  if ¬ (I.nadj ≥ 0) then throw Err.nadjNegative
  -- Consistency check: Valid oracle
  if oracle.n_in ≠ DYN_NUM_IN then throw Err.shape
  if oracle.n_out ≠ DYN_NUM_OUT then throw Err.shape
  if ¬ check_sparsity_in oracle then throw Err.shape
  if ¬ check_sparsity_out oracle then throw Err.shape

/-- The checks of `init` after the forward dimensions are read. -/
def check_dims1 (I : Integrator) (oracle : FunctionInfo) : Except Err Unit := do
  if ¬ (I.nx1 > 0) then throw Err.noState
  if I.nx1 ≠ oracle.numel_out DYN_ODE then throw Err.dimension
  if I.nz1 ≠ oracle.numel_out DYN_ALG then throw Err.dimension

/-- The block "Backward problem, if any" of `init`. -/
def Integrator.backward_problem (I : Integrator) (env : InitEnv) : Except Err Integrator :=
  if I.nadj > 0 then do
    -- Generate backward DAE, consistency checks
    check_rdae I (env.reverse I.nadj)
    pure I.set_backward_dims1
  else
    pure I.clear_backward_dims1

/-- The block "Get the sparsities of the forward and reverse DAE" of `init`. -/
def check_singular (I : Integrator) (env : InitEnv) : Except Err Unit := do
  if env.sp_jac_dae_singular then throw Err.singularForward
  if I.nadj > 0 then
    if env.sp_jac_rdae_singular then throw Err.singularBackward

/-- Embeds `void Integrator::init(const Dict& opts)`, as far as it determines the
data members of `Integrator` (allocation of work vectors and creation of
the oracle functions do not change them). -/
def Integrator.init (self : Integrator) (opts : Dict) (env : InitEnv) :
    Except Err Integrator := do
  -- Read options
  let s := read_options self opts
  -- Construct t0_ and tout_ based on legacy options
  let I := apply_legacy s.1 s.2
  check_oracle I env.oracle
  let I := I.set_dims1 env.oracle
  check_dims1 I env.oracle
  let I ← I.backward_problem env
  let I := I.set_dims
  let I := I.set_ntmp
  check_singular I env
  pure I

/-- The names declared by the table `Integrator::options_` itself, in the
order of the initializer (its parent table is `OracleFunction::options_`). -/
def options_ : List String :=
  ["print_stats", "nfwd", "nadj", "t0", "tf", "grid", "augmented_options",
   "transition", "max_event_iter", "max_events", "event_tol", "output_t0"]

/-- The option names that a lookup in `Integrator::options_` finds: its own
entries and those of its base table `OracleFunction::options_`, whose names
are the parameter `base`. -/
def declared_options (base : List String) : List String := options_ ++ base

/-- The option keys for which the option-reading loop of `Integrator::init`
has a branch, in the order of the branches. -/
def init_keys : List String :=
  ["output_t0", "print_stats", "nfwd", "nadj", "grid", "augmented_options",
   "transition", "max_event_iter", "max_events", "event_tol",
   "event_acceptable_tol", "t0", "tf"]

/-! ## Work vectors -/

/-- Read `n` entries of a buffer starting at offset `off` (entries past the
end of the list read as the default). -/
def readBlock {α : Type} [Inhabited α] (buf : List α) (off n : Nat) : List α :=
  (List.range n).map fun i => buf.getD (off + i) default

/-- Write the block `vals` into a buffer at offset `off`, leaving all other
entries as they are; entries that would fall past the end of the buffer are
not stored. -/
def writeBlock {α : Type} [Inhabited α] (buf : List α) (off : Nat) (vals : List α) : List α :=
  (List.range buf.length).map fun i =>
    if off ≤ i ∧ i < off + vals.length then vals.getD (i - off) default else buf.getD i default

/-- Runtime helper `casadi_copy(x, n, y)` for a non-null destination `y`, given as the
buffer and the offset of the destination pointer in it: copies `n` entries
from `x`, or stores `n` zeros when the source pointer `x` is null. -/
def casadi_copy (x : Option (List ℚ)) (n : Nat) (y : List ℚ) (yoff : Nat) : List ℚ :=
  match x with
  | some xs => writeBlock y yoff (readBlock xs 0 n)
  | none => writeBlock y yoff (List.replicate n 0)

/-- Runtime helper `casadi_axpy(n, alpha, x, y)`: `y[i] += alpha * x[i]` for `i < n`; the
destination pointer is given as a buffer and an offset. -/
def casadi_axpy (n : Nat) (alpha : ℚ) (x : List ℚ) (y : List ℚ) (yoff : Nat) : List ℚ :=
  writeBlock y yoff ((List.range n).map fun i => y.getD (yoff + i) 0 + alpha * x.getD i 0)

/-- The struct `IntegratorMemory`; `solver` holds the members that a derived
memory class (such as `FixedStepMemory`) adds. -/
structure IntegratorMemory (σ : Type) where
  /-- work vector `q`, `nq` entries -/
  q : List ℚ
  /-- work vector `x`, `nx` entries -/
  x : List ℚ
  /-- work vector `z`, `nz` entries, stored directly after `x` -/
  z : List ℚ
  /-- work vector `p`, `np` entries -/
  p : List ℚ
  /-- work vector `u`, `nu` entries -/
  u : List ℚ
  /-- zero-crossing values `e`, `ne` entries -/
  e : List ℚ
  /-- time derivatives `edot` of the zero-crossing values -/
  edot : List ℚ
  /-- zero-crossing values `old_e` at the start of the interval -/
  old_e : List ℚ
  /-- state derivative `xdot` -/
  xdot : List ℚ
  /-- algebraic variable derivative `zdot` -/
  zdot : List ℚ
  /-- flags `event_triggered`, `ne` entries -/
  event_triggered : List Int
  /-- adjoint work vector `adj_x` -/
  adj_x : List ℚ
  /-- adjoint work vector `adj_z` -/
  adj_z : List ℚ
  /-- adjoint work vector `adj_p` -/
  adj_p : List ℚ
  /-- adjoint work vector `adj_q` -/
  adj_q : List ℚ
  /-- scratch vector `tmp1`, `ntmp` entries -/
  tmp1 : List ℚ
  /-- scratch vector `tmp2`, `ntmp` entries -/
  tmp2 : List ℚ
  /-- current output index `k` -/
  k : Int
  /-- current time `t` -/
  t : ℚ
  /-- next time to be visited by the integrator `t_next` -/
  t_next : ℚ
  /-- next output time `t_next_out` -/
  t_next_out : ℚ
  /-- time not to be exceeded by the integrator `t_stop` -/
  t_stop : ℚ
  /-- start of the current interval `t_start` -/
  t_start : ℚ
  /-- next change of the control input `t_step` -/
  t_step : ℚ
  /-- number of event iterations of the current `advance` call -/
  event_iter : Int
  /-- index of the event to be triggered, or -1 -/
  event_index : Int
  /-- number of events triggered during the current `eval` call -/
  num_events : Int
  /-- does the solver need to be reset -/
  reset_solver : Bool
  /-- members of the derived memory class -/
  solver : σ
  deriving DecidableEq

/-- The numerical functions that `calc_function` evaluates and the virtual
methods of `Integrator` that a step strategy implements. -/
structure Collaborators (σ : Type) where
  /-- Embeds `calc_function(m, name)`: from the argument pointers `m->arg` (a null
  pointer is `none`, a non-null pointer is the memory from it onwards) to
  all outputs of the function, or `none` when the call returns nonzero. -/
  calc_function : String → List (Option (List ℚ)) → Option (List (List ℚ))
  /-- Virtual `reset(m, first_call)`. -/
  reset : IntegratorMemory σ → Bool → IntegratorMemory σ
  /-- Virtual `advance_noevent(m)`; `none` when it returns nonzero. -/
  advance_noevent : IntegratorMemory σ → Option (IntegratorMemory σ)

/-- The virtual methods leave the members of `IntegratorMemory` that belong
to the driver's bookkeeping (times, output index, event counters and the
event bookkeeping vectors) as they found them. -/
structure Collaborators.Frame {σ : Type} (C : Collaborators σ) : Prop where
  /-- frame of `advance_noevent` -/
  advance_noevent_frame : ∀ m m1, C.advance_noevent m = some m1 →
    m1.k = m.k ∧ m1.t = m.t ∧ m1.t_next = m.t_next ∧ m1.t_next_out = m.t_next_out ∧
    m1.t_stop = m.t_stop ∧ m1.t_start = m.t_start ∧ m1.t_step = m.t_step ∧
    m1.event_iter = m.event_iter ∧ m1.event_index = m.event_index ∧
    m1.num_events = m.num_events ∧ m1.old_e = m.old_e ∧
    m1.event_triggered = m.event_triggered
  /-- frame of `reset` -/
  reset_frame : ∀ m b,
    (C.reset m b).k = m.k ∧ (C.reset m b).t = m.t ∧ (C.reset m b).t_next = m.t_next ∧
    (C.reset m b).t_next_out = m.t_next_out ∧ (C.reset m b).t_stop = m.t_stop ∧
    (C.reset m b).t_start = m.t_start ∧ (C.reset m b).t_step = m.t_step ∧
    (C.reset m b).event_iter = m.event_iter ∧ (C.reset m b).event_index = m.event_index ∧
    (C.reset m b).num_events = m.num_events ∧ (C.reset m b).old_e = m.old_e ∧
    (C.reset m b).event_triggered = m.event_triggered

/-- The memory `m1` agrees with `m` on the members that make up the driver's
bookkeeping: output index, times, event counters and the vectors `old_e` and
`event_triggered`. -/
def SameBookkeeping {σ : Type} (m m1 : IntegratorMemory σ) : Prop :=
  m1.k = m.k ∧ m1.t = m.t ∧ m1.t_next = m.t_next ∧ m1.t_next_out = m.t_next_out ∧
  m1.t_stop = m.t_stop ∧ m1.t_start = m.t_start ∧ m1.t_step = m.t_step ∧
  m1.event_iter = m.event_iter ∧ m1.event_index = m.event_index ∧
  m1.num_events = m.num_events ∧ m1.old_e = m.old_e ∧
  m1.event_triggered = m.event_triggered

/-- Name of the forward-mode derivative of a function, `forward_name(fcn, nfwd)`. -/
def forward_name (fcn : String) (nfwd : Int) : String :=
  "fwd" ++ toString nfwd ++ "_" ++ fcn

/-- Lift the return flag of a call: `none` (nonzero flag) becomes the error `e`. -/
def orFail {α : Type} (e : Err) (r : Option α) : Except Err α :=
  match r with
  | some a => .ok a
  | none => .error e

/-! ## Event subsystem -/

/-- Embeds `int Integrator::calc_edot(IntegratorMemory* m) const`. -/
def calc_edot {σ : Type} (C : Collaborators σ) (I : Integrator) (m : IntegratorMemory σ) :
    Except Err (IntegratorMemory σ) := do
  let nx := I.nx.toNat
  -- Evaluate the DAE and zero crossing function
  let r ← orFail Err.oracle
    (C.calc_function "dae" [some [m.t], some m.x, some m.z, some m.p, some m.u])
  let m := { m with
    xdot := writeBlock m.xdot 0 (r.getD DYN_ODE.toNat [])
    tmp1 := writeBlock m.tmp1 nx (r.getD DYN_ALG.toNat [])
    e := writeBlock m.e 0 (r.getD DYN_ZERO.toNat []) }
  -- Calculate de_dt using by forward mode AD applied to zero crossing function
  let dt_dt : ℚ := 1
  let r ← orFail Err.oracle
    (C.calc_function (forward_name "dae" 1)
      [some [m.t], some m.x, some m.z, some m.p, some m.u,
       some m.xdot, some (m.tmp1.drop nx), none, some m.e,
       some [dt_dt], some m.xdot, none, none, none])
  pure { m with edot := writeBlock m.edot 0 (r.getD DYN_ZERO.toNat []) }

/-- One pass of the loop "Find the next event, if any" of `predict_events`
for index `i`, on the locals `(t_event, event_index)`. -/
def predict_step {σ : Type} (m : IntegratorMemory σ) (s : ℚ × Int) (i : Nat) : ℚ × Int :=
  if m.event_triggered.getD i 0 = 0 then
    -- Check if zero crossing function is positive and moving in the negative direction
    if m.e.getD i 0 > 0 ∧ m.edot.getD i 0 < 0 then
      -- Projected zero-crossing time
      let t := m.t - m.e.getD i 0 / m.edot.getD i 0
      -- Save if earlier than current t_event
      if t < s.1 then (t, (i : Int)) else s
    else s
  else s

/-- Embeds `int Integrator::predict_events(IntegratorMemory* m) const`. -/
def predict_events {σ : Type} (C : Collaborators σ) (I : Integrator) (m : IntegratorMemory σ) :
    Except Err (IntegratorMemory σ) := do
  -- Event time same as stopping time, by default
  let t_event := m.t_stop
  let event_index : Int := -1
  -- Calculate m->e and m->edot
  let m ← calc_edot C I m
  -- Save the values of the zero-crossing functions
  let m := { m with old_e := casadi_copy (some m.e) I.ne.toNat m.old_e 0 }
  -- Find the next event, if any
  let s := (List.range I.ne.toNat).foldl (predict_step m) (t_event, event_index)
  -- Zero crossing projected
  if s.2 ≥ 0 then
    pure { m with t_stop := s.1, t_next := min m.t_next s.1 }
  else
    pure m

/-- Condition of the loop "Detect events" of `advance` under which index `i`
is examined at all: the event was not already triggered and `old_e[i] > 0`. -/
def detect_examined {σ : Type} (m : IntegratorMemory σ) (i : Nat) : Prop :=
  ¬ (m.event_triggered.getD i 0 ≠ 0 ∨ m.old_e.getD i 0 ≤ 0)

instance {σ : Type} (m : IntegratorMemory σ) (i : Nat) : Decidable (detect_examined m i) := by
  unfold detect_examined; infer_instance

/-- Condition "event was triggered or is projected to be triggered before
next output time" of the loop "Detect events" of `advance`. -/
def detect_crossing {σ : Type} (m : IntegratorMemory σ) (i : Nat) : Prop :=
  m.e.getD i 0 < 0 ∨
    (m.edot.getD i 0 < 0 ∧ m.e.getD i 0 + (m.t_next_out - m.t) * m.edot.getD i 0 < 0)

instance {σ : Type} (m : IntegratorMemory σ) (i : Nat) : Decidable (detect_crossing m i) := by
  unfold detect_crossing; infer_instance

/-- The zero-crossing estimate `t_zero` that the loop "Detect events" of
`advance` computes for index `i`: the linear extrapolation, or the midpoint of
the interval when the extrapolation is too small or `edot[i]` has the wrong
sign. -/
def zero_estimate {σ : Type} (m : IntegratorMemory σ) (i : Nat) : ℚ :=
  -- Projected zero-crossing time
  let t_zero := m.t - m.e.getD i 0 / m.edot.getD i 0
  -- If t_zero is too small or m->edot[i] has the wrong sign, fall back to bisection
  if t_zero ≤ m.t_start ∨ (m.e.getD i 0 < 0 ∧ m.edot.getD i 0 ≥ 0) then
    (1 / 2) * (m.t_start + m.t)
  else t_zero

/-- One pass of the loop "Detect events" of `advance` for index `i`. -/
def detect_step {σ : Type} (m : IntegratorMemory σ) (i : Nat) : IntegratorMemory σ :=
  -- Make sure that event was not already triggered
  if ¬ detect_examined m i then m
  -- Check if event was triggered or is projected to be triggered before next output time
  else if detect_crossing m i then
    let t_zero := zero_estimate m i
    -- Update t_next if earliest event so far
    if t_zero < m.t_next then
      { m with event_index := (i : Int), t_next := t_zero, t_stop := max m.t t_zero }
    else m
  else m

/-- The loop "Detect events" of `advance`. -/
def detect_events {σ : Type} (I : Integrator) (m : IntegratorMemory σ) : IntegratorMemory σ :=
  (List.range I.ne.toNat).foldl detect_step m

/-- Outcome of the convergence test at the end of an event iteration. -/
inductive Converge where
  /-- leave the loop (`break`) -/
  | done
  /-- Message "More iterations needed" -/
  | again
  /-- the `casadi_error` "Maximum number of event iterations reached without convergence" -/
  | fail
  deriving DecidableEq, Repr

/-- The tail of the loop body of `advance`, from "If no events, done" on. -/
def converge_test {σ : Type} (I : Integrator) (m : IntegratorMemory σ) : Converge :=
  -- If no events, done
  if m.event_index < 0 then Converge.done
  else
    -- Distance to new time step
    let t_diff : ℚ := |m.t_next - m.t|
    -- Check if converged
    if (t_diff : WithTop ℚ) < I.event_tol then Converge.done
    -- Maximum number of iterations reached?
    else if m.event_iter = I.max_event_iter then
      -- Throw error?
      if (t_diff : WithTop ℚ) ≥ I.event_acceptable_tol then Converge.fail
      else Converge.done
    -- More iterations needed
    else Converge.again

/-- The head of one pass of the loop "Event iterations" of `advance`, up to
and including the loop "Detect events". The flag of the result is `false`
when the pass leaves the loop at "If no events or no interval, done", and
`true` when it goes on to the convergence test. -/
def advance_step {σ : Type} (C : Collaborators σ) (I : Integrator) (m : IntegratorMemory σ) :
    Except Err (Bool × IntegratorMemory σ) := do
  -- Start a new event iteration, no event triggered
  let m := { m with event_iter := m.event_iter + 1, event_index := -1 }
  -- Advance solution in time
  let m ← orFail Err.solver (C.advance_noevent m)
  -- Update current time
  let m := { m with t := m.t_next }
  let m := { m with t_next := m.t_next_out }
  -- If no events or no interval, done
  if I.ne = 0 ∨ m.t_next_out = m.t_start then pure (false, m)
  else
    -- Recalculate m->e and m->edot
    let m ← calc_edot C I m
    -- By default, let integrator continue to the next input step change
    let m := { m with t_stop := m.t_step }
    -- Detect events
    pure (true, detect_events I m)

/-- One pass of the loop "Event iterations" of `advance`; the flag of the
result tells whether the loop continues with another pass. -/
def advance_iter {σ : Type} (C : Collaborators σ) (I : Integrator) (m : IntegratorMemory σ) :
    Except Err (Bool × IntegratorMemory σ) :=
  match advance_step C I m with
  | .error e => .error e
  | .ok (false, m1) => .ok (false, m1)
  | .ok (true, m1) =>
    match converge_test I m1 with
    | Converge.done => .ok (false, m1)
    | Converge.again => .ok (true, m1)
    | Converge.fail => .error Err.eventNonConvergence

/-- The loop "Event iterations" (`while (true)`) of `advance`, run for at
most `fuel` passes. -/
def advance_loop {σ : Type} (C : Collaborators σ) (I : Integrator) :
    Nat → IntegratorMemory σ → Except Err (IntegratorMemory σ)
  | 0, _ => .error Err.outOfFuel
  | fuel + 1, m =>
    match advance_iter C I m with
    | .error e => .error e
    | .ok (false, m1) => .ok m1
    | .ok (true, m1) => advance_loop C I fuel m1

/-- The statements of `advance` before the loop "Event iterations". -/
def advance_entry {σ : Type} (C : Collaborators σ) (I : Integrator) (m : IntegratorMemory σ) :
    Except Err (IntegratorMemory σ) := do
  -- Predict next event
  let m ← if I.ne > 0 ∧ m.t_next_out ≠ m.t_start then predict_events C I m else pure m
  -- Event iterations
  pure { m with event_iter := 0 }

/-- Embeds `int Integrator::advance(IntegratorMemory* m) const`, with at most `fuel`
event iterations. -/
def advance {σ : Type} (C : Collaborators σ) (I : Integrator) (fuel : Nat)
    (m : IntegratorMemory σ) : Except Err (IntegratorMemory σ) :=
  match advance_entry C I m with
  | .error e => .error e
  | .ok m0 => advance_loop C I fuel m0

/-- The memory at the start of pass `n + 1` of the loop "Event iterations",
when the first `n` passes all ended with "More iterations needed". -/
def advance_passes {σ : Type} (C : Collaborators σ) (I : Integrator) :
    Nat → IntegratorMemory σ → Option (IntegratorMemory σ)
  | 0, m => some m
  | n + 1, m =>
    match advance_iter C I m with
    | .ok (true, m1) => advance_passes C I n m1
    | _ => none

/-- Embeds `enum EventIn`, in the order of `to_string(EventIn)`: `index, t, x, z, p, u`. -/
def EVENT_NUM_IN : Int := 6
/-- First output of the transition function (`enum EventOut`). -/
def EVENT_POST_X : Int := 0
/-- Second output of the transition function. -/
def EVENT_POST_Z : Int := 1

/-- Embeds `has_function("transition")`: `init` registers the function "transition"
exactly when `transition_` is not null. -/
def has_transition (I : Integrator) : Bool := I.transition_nonnull

/-- The block `if (nfwd_ > 0)` of `trigger_event` that computes the
sensitivity of the event time and propagates it to the state vector; `ind`
is the index of the event. When it runs, `m->arg[DYN_T .. DYN_U]` still hold
the pointers to `t, x, z, p, u` stored by the preceding `calc_edot`. The
vector `tmp2` is stored directly after `tmp1` (`alloc_w(2 * ntmp_)` with
`m->tmp2 = m->tmp1 + ntmp_`), so the memory at the pointer `m->tmp1` is
`tmp1` followed by `tmp2`: what is written past the end of `tmp1` lands in
`tmp2`, and what would fall past the end of `tmp2` is not stored. -/
def event_time_sensitivity {σ : Type} (C : Collaborators σ) (I : Integrator) (ind : Nat)
    (m : IntegratorMemory σ) : Except Err (IntegratorMemory σ) := do
  let nx1 := I.nx1.toNat
  let r ← orFail Err.oracle
    (C.calc_function (forward_name "dae" I.nfwd)
      [some [m.t], some m.x, some m.z, some m.p, some m.u,
       some m.xdot, none, none, some m.e,
       none, some (m.x.drop nx1), some (m.z.drop I.nz1.toNat),
       some (m.p.drop I.np1.toNat), some (m.u.drop I.nu1.toNat)])
  let w := writeBlock (m.tmp1 ++ m.tmp2) 0 (r.getD DYN_ZERO.toNat [])
  -- Calculate sensitivity in t
  let w := (List.range I.nfwd.toNat).foldl
    (fun tmp1 i =>
      writeBlock tmp1 i [- tmp1.getD (ind + I.ne.toNat * i) 0 / m.edot.getD ind 0])
    w
  -- Propagate this sensitivity to the state vector
  let x := (List.range I.nfwd.toNat).foldl
    (fun x i => casadi_axpy nx1 (w.getD i 0) m.xdot x (nx1 * (1 + i)))
    m.x
  pure { m with x := x, tmp1 := w.take m.tmp1.length, tmp2 := w.drop m.tmp1.length }

/-- The block "Call event transition function, if any" of `trigger_event`,
taken when `has_function("transition")`; `ind` is the index of the event. The
return flag of the forward-mode call is not inspected by the code; when that
call fails its outputs are taken as not written. -/
def call_transition {σ : Type} (C : Collaborators σ) (I : Integrator) (ind : Nat)
    (m : IntegratorMemory σ) : Except Err (IntegratorMemory σ) := do
  let nx := I.nx.toNat
  let nx1 := I.nx1.toNat
  let nz1 := I.nz1.toNat
  -- Evaluate to tmp2
  let index : ℚ := (ind : ℚ)
  let r ← orFail Err.oracle
    (C.calc_function "transition"
      [some [index], some [m.t], some m.x, some m.z, some m.p, some m.u])
  let m := { m with
    tmp2 := writeBlock (writeBlock m.tmp2 0 (r.getD EVENT_POST_X.toNat []))
      nx (r.getD EVENT_POST_Z.toNat []) }
  -- Propagate forward sensitivities
  if I.nfwd > 0 then
    match C.calc_function (forward_name "transition" I.nfwd)
        [some [index], some [m.t], some m.x, some m.z, some m.p, some m.u,
         some m.tmp2, some (m.tmp2.drop nx),
         none, some m.tmp1, some (m.x.drop nx1), some (m.z.drop nz1),
         some (m.p.drop I.np1.toNat), some (m.u.drop I.nu1.toNat)] with
    | some r =>
      pure { m with
        tmp2 := writeBlock (writeBlock m.tmp2 nx1 (r.getD EVENT_POST_X.toNat []))
          (nx + nz1) (r.getD EVENT_POST_Z.toNat []) }
    | none => pure m
  else
    pure m

/-- The statement `casadi_copy(m->tmp2, nx_ + nz_, m->x)` of `trigger_event`:
`nx + nz` entries of `tmp2` are stored from the start of `x` on, the vector
`z` being stored directly after `x`. -/
def update_xz {σ : Type} (I : Integrator) (m : IntegratorMemory σ) : IntegratorMemory σ :=
  let xz := casadi_copy (some m.tmp2) (I.nx.toNat + I.nz.toNat) (m.x ++ m.z) 0
  { m with x := xz.take m.x.length, z := xz.drop m.x.length }

/-- The statement `if (nfwd_ > 0) ...` of `trigger_event` that holds the
computation of the event time sensitivity. -/
def sensitivity_stage {σ : Type} (C : Collaborators σ) (I : Integrator) (ind : Nat)
    (m : IntegratorMemory σ) : Except Err (IntegratorMemory σ) :=
  if I.nfwd > 0 then event_time_sensitivity C I ind m else pure m

/-- The statement `if (has_function("transition")) ...` of `trigger_event`. -/
def transition_stage {σ : Type} (C : Collaborators σ) (I : Integrator) (ind : Nat)
    (m : IntegratorMemory σ) : Except Err (IntegratorMemory σ) :=
  if has_transition I then call_transition C I ind m else pure m

/-- The last loop of `trigger_event`, "Propagate this sensitivity to the
state vector", followed by `*ind = -1`. -/
def trigger_finish {σ : Type} (I : Integrator) (m : IntegratorMemory σ) : IntegratorMemory σ :=
  let x := (List.range I.nfwd.toNat).foldl
    (fun x i => casadi_axpy I.nx1.toNat (- m.tmp1.getD i 0) m.xdot x (I.nx1.toNat * (1 + i)))
    m.x
  -- for now, do not trigger other events
  { m with x := x, event_index := -1 }

/-- Embeds `int Integrator::trigger_event(IntegratorMemory* m, casadi_int* ind) const`,
called with `ind = &m->event_index`. -/
def trigger_event {σ : Type} (C : Collaborators σ) (I : Integrator) (m : IntegratorMemory σ) :
    Except Err (IntegratorMemory σ) :=
  -- Throw an error if too many events are happening within a single control interval
  let m : IntegratorMemory σ := { m with num_events := m.num_events + 1 }
  if m.num_events > I.max_events then Except.error Err.tooManyEvents
  -- Consistency checks
  else if m.event_index < 0 ∨ m.event_triggered.getD m.event_index.toNat 0 ≠ 0 then
    Except.error Err.eventConsistency
  else
    let ind := m.event_index.toNat
    -- Mark event as triggered
    let m : IntegratorMemory σ :=
      { m with event_triggered := writeBlock m.event_triggered ind [1] }
    -- Sensitivity of the event time
    match sensitivity_stage C I ind m with
    | .error e => .error e
    | .ok m =>
      -- Call event transition function, if any
      match transition_stage C I ind m with
      | .error e => .error e
      | .ok m =>
        -- Update x, z
        let m := update_xz I m
        -- Calculate m->xdot and m->zdot
        match calc_edot C I m with
        | .error e => .error e
        | .ok m => .ok (trigger_finish I m)

/-! ## Time-stepping driver: forward sweep of `eval` -/

/-- The loop of `next_stop`, for `n` remaining passes (`n = nt - 1 - k`):
`u` is the memory from the control pointer onwards. -/
def next_stop_loop (I : Integrator) : Nat → Int → List ℚ → Int
  | 0, k, _ => k
  | n + 1, k, u =>
    -- Next control value
    let u_next := u.drop I.nu.toNat
    -- Check if there is any change in input from k to k + 1
    if (List.range I.nu.toNat).any (fun i => decide (u.getD i 0 ≠ u_next.getD i 0)) then k
    else next_stop_loop I n (k + 1) u_next

/-- Embeds `casadi_int Integrator::next_stop(casadi_int k, const double* u) const`;
a null pointer `u` is `none`. -/
def next_stop (I : Integrator) (k : Int) (u : Option (List ℚ)) : Int :=
  match u with
  | none => I.nt - 1
  | some us =>
    -- Integrate till the end if no input signals
    if I.nu = 0 then I.nt - 1
    -- Find the next discontinuity, if any
    else next_stop_loop I (I.nt - 1 - k).toNat k us

/-- The loop `while (m->event_index >= 0)` of `eval`, for at most `fuel` passes. -/
def trigger_loop {σ : Type} (C : Collaborators σ) (I : Integrator) :
    Nat → IntegratorMemory σ → Except Err (IntegratorMemory σ)
  | 0, m => if m.event_index ≥ 0 then .error Err.outOfFuel else .ok m
  | fuel + 1, m =>
    if m.event_index ≥ 0 then
      -- Trigger event, get any chained event
      match trigger_event C I m with
      | .error e => .error e
      | .ok m1 =>
        -- Solver needs to be reset
        trigger_loop C I fuel { m1 with reset_solver := true }
    else .ok m

/-- The block "Trigger all event, if any" of `eval`. -/
def trigger_all {σ : Type} (C : Collaborators σ) (I : Integrator) (fuel : Nat)
    (m : IntegratorMemory σ) : Except Err (IntegratorMemory σ) :=
  if m.event_index ≥ 0 then do
    -- Clear list of triggered events
    let m := { m with
      event_triggered := writeBlock m.event_triggered 0 (List.replicate I.ne.toNat 0) }
    -- Trigger the specific event and any chained events
    let m ← trigger_loop C I fuel m
    -- Move past event
    let m := { m with t_start := m.t }
    let m := { m with t_stop := m.t_step }
    pure { m with t_next := m.t_next_out }
  else pure m

/-- One pass of the loop "Keep integrating until we reach the next output
time" (`do ... while (m->t != m->t_next)`) of `eval`, on the memory and the
local `first_call`. -/
def integrate_pass {σ : Type} (C : Collaborators σ) (I : Integrator) (fuel : Nat)
    (s : Bool × IntegratorMemory σ) : Except Err (Bool × IntegratorMemory σ) := do
  -- Reset the solver
  let s := if s.2.reset_solver then
      (false, { C.reset s.2 s.1 with reset_solver := false })
    else s
  -- Advance solution
  let m ← advance C I fuel s.2
  -- Trigger all event, if any
  let m ← trigger_all C I fuel m
  pure (s.1, m)

/-- The loop `do ... while (m->t != m->t_next)` of `eval`, for at most `fuel`
passes. -/
def integrate_loop {σ : Type} (C : Collaborators σ) (I : Integrator) (fuel : Nat) :
    Nat → Bool × IntegratorMemory σ → Except Err (Bool × IntegratorMemory σ)
  | 0, _ => .error Err.outOfFuel
  | n + 1, s =>
    match integrate_pass C I fuel s with
    | .error e => .error e
    | .ok s1 => if s1.2.t ≠ s1.2.t_next then integrate_loop C I fuel n s1 else .ok s1

/-- Local state of the forward sweep of `eval`: the memory, the locals
`k_stop` and `first_call`, the moving input pointer `u` (`none` when null,
else the memory from the pointer onwards) and the blocks stored so far
through the moving output pointers `x`, `z`, `q` (taken as non-null). -/
structure ForwardState (σ : Type) where
  /-- the memory object `m` -/
  m : IntegratorMemory σ
  /-- local `k_stop` -/
  k_stop : Int
  /-- local `first_call` -/
  first_call : Bool
  /-- input pointer `u` -/
  u : Option (List ℚ)
  /-- blocks of the output `xf` stored so far -/
  xf : List (List ℚ)
  /-- blocks of the output `zf` stored so far -/
  zf : List (List ℚ)
  /-- blocks of the output `qf` stored so far -/
  qf : List (List ℚ)

/-- The head of the body of the loop "Integrate forward" of `eval` for the
grid index `k`, up to the loop "Keep integrating". -/
def interval_begin {σ : Type} (I : Integrator) (s : ForwardState σ) (k : Nat) :
    ForwardState σ :=
  let m := { s.m with k := (k : Int) }
  -- Start of the current interval
  let m := { m with t_start := m.t }
  -- Next output time
  let m := { m with t_next_out := I.tout.getD k 0 }
  -- By default, integrate until the next output time
  let m := { m with t_next := m.t_next_out }
  -- Handle changes in control input
  let s := if m.k > s.k_stop then
      -- Pass new controls
      let m := { m with u := casadi_copy s.u I.nu.toNat m.u 0 }
      -- Detect next stopping time
      let k_stop := next_stop I m.k s.u
      let m := { m with t_stop := I.tout.getD k_stop.toNat 0, t_step := I.tout.getD k_stop.toNat 0 }
      -- Need to reset solver
      { s with m := { m with reset_solver := true }, k_stop := k_stop }
    else { s with m := m }
  -- Mark all events as not triggered
  { s with m := { s.m with
      event_triggered := writeBlock s.m.event_triggered 0 (List.replicate I.ne.toNat 0) } }

/-- The statements "Get solution" that end the body of the loop "Integrate
forward" of `eval`: block `k` of `xf`, `zf`, `qf` is copied from the memory
and the pointers move on. -/
def interval_end {σ : Type} (I : Integrator) (s : ForwardState σ) : ForwardState σ :=
  { s with
    xf := s.xf ++ [readBlock s.m.x 0 I.nx.toNat]
    zf := s.zf ++ [readBlock s.m.z 0 I.nz.toNat]
    qf := s.qf ++ [readBlock s.m.q 0 I.nq.toNat]
    u := s.u.map (fun us => us.drop I.nu.toNat) }

/-- The body of the loop "Integrate forward" of `eval` for the grid index `k`. -/
def eval_interval {σ : Type} (C : Collaborators σ) (I : Integrator) (fuel : Nat)
    (s : ForwardState σ) (k : Nat) : Except Err (ForwardState σ) := do
  let s := interval_begin I s k
  -- Keep integrating until we reach the next output time
  let r ← integrate_loop C I fuel fuel (s.first_call, s.m)
  pure (interval_end I { s with first_call := r.1, m := r.2 })

/-- The input pointers of `eval` (`none` is a null pointer). -/
structure EvalArgs where
  /-- input `x0` -/
  x0 : Option (List ℚ)
  /-- input `z0` -/
  z0 : Option (List ℚ)
  /-- input `p` -/
  p : Option (List ℚ)
  /-- input `u`, one block per output time -/
  u : Option (List ℚ)
  /-- input `adj_xf`, one block per output time -/
  adj_xf : Option (List ℚ)
  /-- input `adj_zf`, one block per output time -/
  adj_zf : Option (List ℚ)
  /-- input `adj_qf`, one block per output time -/
  adj_qf : Option (List ℚ)

/-- The statements of `eval` before the loop "Integrate forward": initial
state and parameters are passed, the event counter is reset and the time is
taken to `t0`. -/
def eval_begin {σ : Type} (I : Integrator) (a : EvalArgs) (m : IntegratorMemory σ) :
    ForwardState σ :=
  -- Pass initial state, parameters
  let m := { m with q := casadi_copy none I.nq.toNat m.q 0 }
  let m := { m with x := casadi_copy a.x0 I.nx.toNat m.x 0 }
  let m := { m with z := casadi_copy a.z0 I.nz.toNat m.z 0 }
  let m := { m with p := casadi_copy a.p I.np.toNat m.p 0 }
  -- Reset number of events
  let m := { m with num_events := 0 }
  -- Take time to t0
  let m := { m with t := I.t0 }
  -- Do we need to reset the solver?
  let m := { m with reset_solver := false }
  { m := m, k_stop := -1, first_call := true, u := a.u, xf := [], zf := [], qf := [] }

/-- The first `n` passes of the loop "Integrate forward" of `eval`, started
from the state `s`. -/
def forward_intervals {σ : Type} (C : Collaborators σ) (I : Integrator) (fuel : Nat)
    (s : ForwardState σ) : Nat → Except Err (ForwardState σ)
  | 0 => .ok s
  | n + 1 =>
    match forward_intervals C I fuel s n with
    | .error e => .error e
    | .ok s1 => eval_interval C I fuel s1 n

/-- The forward part of `int Integrator::eval(...)`: everything up to
"Backwards integration, if needed". -/
def eval_forward {σ : Type} (C : Collaborators σ) (I : Integrator) (fuel : Nat)
    (a : EvalArgs) (m : IntegratorMemory σ) : Except Err (ForwardState σ) :=
  forward_intervals C I fuel (eval_begin I a m) I.tout.length

/-! ## Conditions of event prediction -/

/-- Members that decide what the loop "Detect events" does at an index, and
that the loop leaves as they are. -/
def DetectSame {σ : Type} (a m : IntegratorMemory σ) : Prop :=
  a.t = m.t ∧ a.t_start = m.t_start ∧ a.t_next_out = m.t_next_out ∧ a.e = m.e ∧
    a.edot = m.edot ∧ a.old_e = m.old_e ∧ a.event_triggered = m.event_triggered

/-- Block `j` of the controls counted from the pointer `u`: the `nu` entries
`u[j * nu], ..., u[(j + 1) * nu - 1]`. When `u` points to the control block
of the grid index `k`, this is the control block of the grid index `k + j`. -/
def control_block (I : Integrator) (us : List ℚ) (j : Nat) : List ℚ :=
  readBlock us (j * I.nu.toNat) I.nu.toNat

/-- The four legacy option names. -/
def legacy_keys : List String := ["t0", "tf", "grid", "output_t0"]

/-- Whether any of the legacy options is supplied in the dictionary. -/
def legacy_supplied (opts : Dict) : Bool :=
  opts.any fun op => decide (op.1 ∈ legacy_keys)

/-- The value supplied for the option `key`, if any. A `Dict` is a map, so
that at most one entry has the key; for a list with several entries of the
same key the last one counts, as it is the last one assigned by the
option-reading loop. -/
def option_value (opts : Dict) (key : String) : Option GenericType :=
  opts.reverse.lookup key

/-- The grid that the legacy options describe: the `grid` option, or
`[t0, tf]` with the defaults `t0 = 0` and `tf = 1` when that is empty or not
supplied. -/
def legacy_grid (opts : Dict) : List ℚ :=
  let t0 : ℚ := ((option_value opts "t0").map fun v => finite v.to_double).getD 0
  let tf : ℚ := ((option_value opts "tf").map fun v => finite v.to_double).getD 1
  let grid : List ℚ := ((option_value opts "grid").map fun v => v.to_double_vector).getD []
  if grid.isEmpty then [t0, tf] else grid

/-- The value of the legacy option `output_t0`, false when not supplied. -/
def legacy_output_t0 (opts : Dict) : Bool :=
  ((option_value opts "output_t0").map fun v => v.to_bool).getD false

/-! ## Fixed-step integrators: discretisation -/

/-- The data members that `FixedStepIntegrator` adds to `Integrator` and that
`FixedStepIntegrator::init` sets from the options and the time grid. -/
structure FixedStepIntegrator where
  /-- the base class part -/
  base : Integrator
  /-- target number of finite elements `nk_target_` -/
  nk_target : Int
  /-- cumulative number of finite elements `disc_`, one entry per grid point -/
  disc : List Int
  deriving DecidableEq

/-- The constructor of `FixedStepIntegrator`: default option `nk_target_ = 20`. -/
def FixedStepIntegrator.new (t0 : ℚ) (tout : List ℚ) : FixedStepIntegrator :=
  { base := Integrator.new t0 tout, nk_target := 20, disc := [] }

/-- The "Read options" loop of `FixedStepIntegrator::init`. -/
def read_finite_elements (nk_target : Int) (opts : Dict) : Int :=
  opts.foldl
    (fun nk op => if op.1 = "number_of_finite_elements" then op.2.to_int else nk) nk_target

/-- The loop `for (double t_next : tout_)` of `FixedStepIntegrator::init`, on
the remaining output times, the local `t_cur` and the vector `disc_`. -/
def disc_loop (h_target : ℚ) : List ℚ → ℚ → List Int → List Int
  | [], _, disc => disc
  | t_next :: rest, t_cur, disc =>
    disc_loop h_target rest t_next
      (disc ++ [disc.getLastD 0 + Int.ceil ((t_next - t_cur) / h_target)])

/-- Embeds `void FixedStepIntegrator::init(const Dict& opts)`, up to the construction
of `disc_`. -/
def FixedStepIntegrator.init (self : FixedStepIntegrator) (opts : Dict) (env : InitEnv) :
    Except Err FixedStepIntegrator := do
  -- Call the base class init
  let I ← self.base.init opts env
  -- Read options
  let nk_target := read_finite_elements self.nk_target opts
  -- Consistency check
  if ¬ (nk_target > 0) then throw Err.finiteElements
  -- Target interval length
  let h_target : ℚ := (I.tout.getLastD 0 - I.t0) / (nk_target : ℚ)
  -- Number of finite elements for each control interval and in total
  let disc := self.disc ++ [0]
  let disc := disc_loop h_target I.tout I.t0 disc
  pure { base := I, nk_target := nk_target, disc := disc }

/-- The local `nj` of `FixedStepIntegrator::advance_noevent` and
`FixedStepIntegrator::retreat` for the grid index `k`:
`disc_[k + 1] - disc_[k]`, the divisor of the step length `h`. -/
def FixedStepIntegrator.nj (self : FixedStepIntegrator) (k : Nat) : Int :=
  self.disc.getD (k + 1) 0 - self.disc.getD k 0

/-! ## Time-stepping driver: backward sweep of `eval` -/

/-- Runtime helper `casadi_clear(x, n)` for a non-null pointer `x`, given as a buffer and
the offset of the pointer in it: stores `n` zeros. -/
def casadi_clear (n : Nat) (x : List ℚ) (xoff : Nat) : List ℚ :=
  writeBlock x xoff (List.replicate n 0)

/-- Embeds `bool Integrator::all_zero(const double* v, casadi_int n)`; the pointer `v` is
given as the buffer it points into (`none` when null) and its offset. -/
def all_zero (v : Option (List ℚ)) (off n : Nat) : Bool :=
  match v with
  | none => true
  | some vs =>
    -- Quick return if trivially zero
    if n = 0 then true
    -- Loop over entries
    else (List.range n).all fun i => decide (vs.getD (off + i) 0 = 0)

/-- The loop of `next_stopB` with the counter `k` and the pointer `u` at the
offset `off` of the buffer `us`. -/
def next_stopB_loop (I : Integrator) (us : List ℚ) : Nat → Nat → Int
  | 0, _ => -1
  | k + 1, off =>
    -- Next control value
    let off_next := off - I.nu.toNat
    -- Check if there is any change in input from k to k + 1
    if (List.range I.nu.toNat).any
        (fun i => decide (us.getD (off + i) 0 ≠ us.getD (off_next + i) 0)) then (k : Int)
    else next_stopB_loop I us k off_next

/-- Embeds `casadi_int Integrator::next_stopB(casadi_int k, const double* u) const`; the
pointer `u` is given as the buffer it points into (`none` when null) and its
offset. -/
def next_stopB (I : Integrator) (k : Int) (u : Option (List ℚ)) (off : Nat) : Int :=
  match u with
  | none => -1
  | some us =>
    -- Integrate till the beginning if no input signals
    if I.nu = 0 then -1
    -- Find the next discontinuity, if any
    else if k ≤ 0 then k - 1
    else next_stopB_loop I us k.toNat off

/-- What the virtual `retreat` stores through its output pointers: `nrx`
entries through `adj_x` and `nrq` entries through `adj_p` (when these are
not null) and `nuq` entries through `adj_u`. -/
structure RetreatOut where
  /-- stored through `adj_x` -/
  adj_x : List ℚ
  /-- stored through `adj_p` -/
  adj_p : List ℚ
  /-- stored through `adj_u` -/
  adj_u : List ℚ

/-- The pure virtual functions of the backward sweep, which a step strategy
implements: `resetB(m)`, `impulseB(m, adj_x, adj_z, adj_q)` and
`retreat(m, u, adj_x, adj_p, adj_u)`. Input pointers are given as the memory
from the pointer onwards (`none` when null); the flag of `retreat` tells
whether `adj_x` and `adj_p` are passed (non-null). -/
structure BackwardCollaborators (σ : Type) where
  /-- virtual `resetB` -/
  resetB : IntegratorMemory σ → IntegratorMemory σ
  /-- virtual `impulseB` -/
  impulseB : IntegratorMemory σ → Option (List ℚ) → Option (List ℚ) → Option (List ℚ) →
    IntegratorMemory σ
  /-- virtual `retreat` -/
  retreat : IntegratorMemory σ → Option (List ℚ) → Bool → IntegratorMemory σ × RetreatOut

/-- A call of a virtual function made by the backward sweep, with the grid
index `m->k` at which it is made. -/
inductive BackwardCall where
  /-- a call of `impulseB` -/
  | impulseB (k : Nat)
  /-- a call of `retreat` -/
  | retreat (k : Nat)
  deriving DecidableEq, Repr

/-- Local state of the backward sweep of `eval`: the memory, the locals
`k_stop` and `any_impulse`, the output buffers `adj_x`, `adj_p`, `adj_u`
(taken as non-null; `adj_u` holds one block per output time), and the calls
of `impulseB` and `retreat` made so far, in order (a record kept by the
embedding, not a variable of the code). -/
structure BackwardState (σ : Type) where
  /-- the memory object `m` -/
  m : IntegratorMemory σ
  /-- local `k_stop` -/
  k_stop : Int
  /-- local `any_impulse` -/
  any_impulse : Bool
  /-- output `adj_x0` -/
  adj_x : List ℚ
  /-- output `adj_p` -/
  adj_p : List ℚ
  /-- output `adj_u`, all blocks -/
  adj_u : List ℚ
  /-- calls of the virtual functions so far -/
  calls : List BackwardCall

/-- The head of the body of the loop "Integrate backward" of `eval` for the
grid index `k`: the time is set and the impulse from the adjoint seeds at
`k`, if any, is added. The seed pointers `adj_xf`, `rz0`, `rp` point to
their blocks `k`. -/
def backward_impulse {σ : Type} (B : BackwardCollaborators σ) (I : Integrator) (a : EvalArgs)
    (s : BackwardState σ) (k : Nat) : BackwardState σ :=
  let m := { s.m with k := (k : Int) }
  let m := { m with t := I.tout.getD k 0 }
  -- Add impulse to backwards integration
  if (!all_zero a.adj_xf (I.nrx.toNat * k) I.nrx.toNat ||
      !all_zero a.adj_zf (I.nrz.toNat * k) I.nrz.toNat ||
      !all_zero a.adj_qf (I.nrp.toNat * k) I.nrp.toNat) = true then
    { s with
      m := B.impulseB m (a.adj_xf.map fun v => v.drop (I.nrx.toNat * k))
        (a.adj_zf.map fun v => v.drop (I.nrz.toNat * k))
        (a.adj_qf.map fun v => v.drop (I.nrp.toNat * k))
      any_impulse := true
      calls := s.calls ++ [BackwardCall.impulseB k] }
  else { s with m := m }

/-- The tail of the body of the loop "Integrate backward" of `eval` for the
grid index `k`, from "Next output time, or beginning" on. The pointers `u`
and `adj_u` point to their blocks `k`. -/
def backward_retreat {σ : Type} (B : BackwardCollaborators σ) (I : Integrator) (a : EvalArgs)
    (s : BackwardState σ) (k : Nat) : BackwardState σ :=
  -- Next output time, or beginning
  let k_next : Int := (k : Int) - 1
  let m := { s.m with t_next := if k_next < 0 then I.t0 else I.tout.getD k_next.toNat 0 }
  -- Update integrator stopping time
  let k_stop := if k_next < s.k_stop then next_stopB I (k : Int) a.u (I.nu.toNat * k)
    else s.k_stop
  let m := { m with t_stop := if k_stop < 0 then I.t0 else I.tout.getD k_stop.toNat 0 }
  -- Proceed to the previous time point or t0
  if s.any_impulse = true then
    let r := B.retreat m (a.u.map fun v => v.drop (I.nu.toNat * k)) (decide (k = 0))
    { s with
      m := r.1
      k_stop := k_stop
      adj_x := if k = 0 then casadi_copy (some r.2.adj_x) I.nrx.toNat s.adj_x 0 else s.adj_x
      adj_p := if k = 0 then casadi_copy (some r.2.adj_p) I.nrq.toNat s.adj_p 0 else s.adj_p
      adj_u := casadi_copy (some r.2.adj_u) I.nuq.toNat s.adj_u (I.nuq.toNat * k)
      calls := s.calls ++ [BackwardCall.retreat k] }
  else
    { s with
      m := m
      k_stop := k_stop
      adj_u := casadi_clear I.nuq.toNat s.adj_u (I.nuq.toNat * k)
      adj_x := if k = 0 then casadi_clear I.nrx.toNat s.adj_x 0 else s.adj_x
      adj_p := if k = 0 then casadi_clear I.nrq.toNat s.adj_p 0 else s.adj_p }

/-- The body of the loop "Integrate backward" of `eval` for the grid index `k`. -/
def backward_interval {σ : Type} (B : BackwardCollaborators σ) (I : Integrator) (a : EvalArgs)
    (s : BackwardState σ) (k : Nat) : BackwardState σ :=
  backward_retreat B I a (backward_impulse B I a s k) k

/-- The first `n` passes of the loop "Integrate backward" of `eval`
(`for (m->k = nt(); m->k-- > 0; )`), for the grid indices `nt - 1` down to
`nt - n`. -/
def backward_intervals {σ : Type} (B : BackwardCollaborators σ) (I : Integrator)
    (a : EvalArgs) (s : BackwardState σ) : Nat → BackwardState σ
  | 0 => s
  | n + 1 =>
    backward_interval B I a (backward_intervals B I a s n) (I.tout.length - 1 - n)

/-- The loop "adj_u should contain the contribution from the grid point, not
cumulative" of `eval`: pass `k` subtracts block `k + 1` from block `k`. -/
def correct_adj_u (I : Integrator) (adj_u : List ℚ) : List ℚ :=
  (List.range (I.tout.length - 1)).foldl
    (fun buf k =>
      casadi_axpy I.nuq.toNat (-1) (buf.drop (I.nuq.toNat * (k + 1))) buf (I.nuq.toNat * k))
    adj_u

/-- The block "Backwards integration, if needed" of `eval`, entered with the
memory `m` left by the forward sweep and the output buffers. -/
def eval_backward {σ : Type} (B : BackwardCollaborators σ) (I : Integrator) (a : EvalArgs)
    (m : IntegratorMemory σ) (k_stop : Int) (adj_x adj_p adj_u : List ℚ) : BackwardState σ :=
  let s : BackwardState σ :=
    { m := m, k_stop := k_stop, any_impulse := false, adj_x := adj_x, adj_p := adj_p,
      adj_u := adj_u, calls := [] }
  if I.nrx > 0 then
    -- Next stop time due to step change in input
    let s := { s with k_stop := I.nt }
    -- Reset the solver
    let s := { s with m := B.resetB s.m }
    -- Integrate backward
    let s := backward_intervals B I a s I.tout.length
    let s := { s with m := { s.m with k := -1 } }
    -- adj_u should contain the contribution from the grid point, not cumulative
    { s with
      m := { s.m with k := max 0 (I.nt - 1) }
      adj_u := correct_adj_u I s.adj_u }
  else s

/-- Embeds `int Integrator::eval(...)`: the forward sweep followed by the backward
sweep; the result holds the outputs `xf`, `zf`, `qf` (in the forward state)
and `adj_x0`, `adj_p`, `adj_u` (in the backward state). -/
def eval {σ : Type} (C : Collaborators σ) (B : BackwardCollaborators σ) (I : Integrator)
    (fuel : Nat) (a : EvalArgs) (m : IntegratorMemory σ) (adj_x adj_p adj_u : List ℚ) :
    Except Err (ForwardState σ × BackwardState σ) :=
  match eval_forward C I fuel a m with
  | .error e => .error e
  | .ok f => .ok (f, eval_backward B I a f.m f.k_stop adj_x adj_p adj_u)

/-- Some entry of the block of `n` entries at the offset `off` of the input
`v` is nonzero (never so for a null pointer). -/
def entry_nonzero (v : Option (List ℚ)) (off n : Nat) : Prop :=
  match v with
  | none => False
  | some vs => ∃ i, i < n ∧ vs.getD (off + i) 0 ≠ 0

instance (v : Option (List ℚ)) (off n : Nat) : Decidable (entry_nonzero v off n) := by
  unfold entry_nonzero
  cases v <;> infer_instance

/-- Some adjoint seed entry (`adj_xf`, `adj_zf` or `adj_qf`) at the grid
index `k` is nonzero. -/
def seed_nonzero (I : Integrator) (a : EvalArgs) (k : Nat) : Prop :=
  entry_nonzero a.adj_xf (I.nrx.toNat * k) I.nrx.toNat ∨
  entry_nonzero a.adj_zf (I.nrz.toNat * k) I.nrz.toNat ∨
  entry_nonzero a.adj_qf (I.nrp.toNat * k) I.nrp.toNat

instance (I : Integrator) (a : EvalArgs) (k : Nat) : Decidable (seed_nonzero I a k) := by
  unfold seed_nonzero
  infer_instance

/-- The virtual methods of the forward sweep leave the control vector `u` of
the memory as they found it (in the forward sweep `m->u` is written by
`set_u` only). -/
structure Collaborators.KeepsControls {σ : Type} (C : Collaborators σ) : Prop where
  /-- Embeds `advance_noevent` does not write `m->u` -/
  advance_noevent_u : ∀ m m1, C.advance_noevent m = some m1 → m1.u = m.u
  /-- Embeds `reset` does not write `m->u` -/
  reset_u : ∀ m b, (C.reset m b).u = m.u
/-- State of the control bookkeeping of the forward sweep of `eval` after
`n` grid intervals, for the non-null control input `us`: the input pointer
stands at block `n`; before the first interval `k_stop = -1`; after that,
`n - 1 ≤ k_stop ≤ nt - 1`, the control vector of the memory holds the block
`n - 1`, the stop time is `t_step = tout[k_stop]`, the blocks
`n - 1 .. k_stop` are all equal and, unless `k_stop` is the last index, the
block `k_stop` differs from the next one. -/
def ControlsInv {σ : Type} (I : Integrator) (us : List ℚ) (n : Nat) (s : ForwardState σ) :
    Prop :=
  s.u = some (us.drop (I.nu.toNat * n)) ∧ s.m.u.length = I.nu.toNat ∧
  (n = 0 → s.k_stop = -1) ∧
  (0 < n →
    (n : Int) - 1 ≤ s.k_stop ∧ s.k_stop ≤ I.nt - 1 ∧
    readBlock s.m.u 0 I.nu.toNat = control_block I us (n - 1) ∧
    s.m.t_stop = s.m.t_step ∧ s.m.t_step = I.tout.getD s.k_stop.toNat 0 ∧
    (∀ j : Nat, n - 1 ≤ j → (j : Int) ≤ s.k_stop →
      control_block I us j = control_block I us (n - 1)) ∧
    (s.k_stop + 1 < I.nt →
      control_block I us s.k_stop.toNat ≠ control_block I us (s.k_stop.toNat + 1)))

/-! ## Structural Jacobian of the DAE -/

/-- Modelled from the spec: a structural sparsity pattern (class `Sparsity` of
the core library), "the superset of nonzero positions a Jacobian may have":
the number of rows `size1`, the number of columns `size2`, and the indicator
`nz` of the structural nonzeros. -/
structure Sparsity where
  /-- number of rows, `size1()` -/
  size1 : Nat
  /-- number of columns, `size2()` -/
  size2 : Nat
  /-- whether the entry in row `r` and column `c` is a structural nonzero -/
  nz : Nat → Nat → Bool

/-- Modelled from the spec: whether the pattern has a structural nonzero in
row `r` and column `c`; positions outside the pattern have none. -/
def Sparsity.get (S : Sparsity) (r c : Nat) : Bool :=
  decide (r < S.size1) && decide (c < S.size2) && S.nz r c

/-- Modelled from the spec: the constructor `Sparsity(nrow, ncol)`, a pattern without
structural nonzeros. -/
def Sparsity.zeros (nrow ncol : Nat) : Sparsity :=
  { size1 := nrow, size2 := ncol, nz := fun _ _ => false }

/-- Modelled from the spec: the identity pattern `Sparsity::diag(n)`. -/
def Sparsity.diag (n : Nat) : Sparsity :=
  { size1 := n, size2 := n, nz := fun r c => decide (r = c) }

/-- Modelled from the spec: the union `A + B` of two patterns of the same size. -/
def Sparsity.add (A B : Sparsity) : Sparsity :=
  { size1 := A.size1, size2 := A.size2, nz := fun r c => A.get r c || B.get r c }

/-- Modelled from the spec: horizontal concatenation of two patterns with the same
number of rows. -/
def Sparsity.horzcat2 (A B : Sparsity) : Sparsity :=
  { size1 := A.size1, size2 := A.size2 + B.size2,
    nz := fun r c => if c < A.size2 then A.get r c else B.get r (c - A.size2) }

/-- Modelled from the spec: vertical concatenation of two patterns with the same
number of columns. -/
def Sparsity.vertcat2 (A B : Sparsity) : Sparsity :=
  { size1 := A.size1 + B.size1, size2 := A.size2,
    nz := fun r c => if r < A.size1 then A.get r c else B.get (r - A.size1) c }

/-- Modelled from the spec: block-diagonal concatenation of two patterns. -/
def Sparsity.diagcat2 (A B : Sparsity) : Sparsity :=
  { size1 := A.size1 + B.size1, size2 := A.size2 + B.size2,
    nz := fun r c =>
      if r < A.size1 then A.get r c
      else if c < A.size2 then false else B.get (r - A.size1) (c - A.size2) }

/-- Modelled from the spec: `vertcat` of a vector of patterns. -/
def vertcat : List Sparsity → Sparsity
  | [] => Sparsity.zeros 0 0
  | [A] => A
  | A :: B :: rest => Sparsity.vertcat2 A (vertcat (B :: rest))

/-- Modelled from the spec: `diagcat` of a vector of patterns. -/
def diagcat : List Sparsity → Sparsity
  | [] => Sparsity.zeros 0 0
  | [A] => A
  | A :: B :: rest => Sparsity.diagcat2 A (diagcat (B :: rest))

/-- Modelled from the spec: `blockcat(A, B, C, D)`, the block matrix with the rows
`[A, B]` and `[C, D]`. -/
def blockcat (A B C D : Sparsity) : Sparsity :=
  Sparsity.vertcat2 (Sparsity.horzcat2 A B) (Sparsity.horzcat2 C D)

/-- Modelled from the spec: `is_singular()`, true when the pattern does not have
full structural rank, that is, when the columns cannot be matched to
distinct rows through structural nonzeros. -/
def Sparsity.is_singular (S : Sparsity) : Bool :=
  decide (¬ ∃ f : Fin S.size2 → Fin S.size1,
    Function.Injective f ∧ ∀ c : Fin S.size2, S.get (f c).val c.val = true)

/-- The patterns `jac_sparsity(DAE_ODE, DYN_X)`, `jac_sparsity(DAE_ODE, DYN_Z)`,
`jac_sparsity(DAE_ALG, DYN_X)` and `jac_sparsity(DAE_ALG, DYN_Z)` of a
function with the signature of "daeF". -/
structure JacSparsity where
  /-- pattern of `ode` with respect to `x` -/
  ode_x : Sparsity
  /-- pattern of `ode` with respect to `z` -/
  ode_z : Sparsity
  /-- pattern of `alg` with respect to `x` -/
  alg_x : Sparsity
  /-- pattern of `alg` with respect to `z` -/
  alg_z : Sparsity

/-- Embeds `Sparsity Integrator::sp_jac_aug(const Sparsity& J, const Sparsity& J1) const`. -/
def sp_jac_aug (I : Integrator) (J J1 : Sparsity) : Sparsity :=
  -- Row 1, column 2 in the augmented Jacobian
  let J12 := Sparsity.zeros J.size1 (I.nfwd.toNat * J.size2)
  -- Row 2, column 1 in the augmented Jacobian
  let J21 := vertcat (List.replicate I.nfwd.toNat J1)
  -- Row 2, column 2 in the augmented Jacobian
  let J22 := diagcat (List.replicate I.nfwd.toNat J)
  -- Form block matrix
  blockcat J J12 J21 J22

/-- Embeds `Sparsity Integrator::sp_jac_dae()`; `F` holds the Jacobian patterns of the
function "daeF" and `fwd_F` those of its forward derivative
`forward_name("daeF", 1)`. -/
def sp_jac_dae (I : Integrator) (F fwd_F : JacSparsity) : Sparsity :=
  -- Sparsity pattern for nonaugmented system
  let J_xx := Sparsity.add F.ode_x (Sparsity.diag I.nx1.toNat)
  let J_xz := F.ode_z
  let J_zx := F.alg_x
  let J_zz := F.alg_z
  -- Augment with sensitivity equations
  if I.nfwd > 0 then
    -- Assemble the block matrix
    blockcat (sp_jac_aug I J_xx fwd_F.ode_x) (sp_jac_aug I J_xz fwd_F.ode_z)
      (sp_jac_aug I J_zx fwd_F.alg_x) (sp_jac_aug I J_zz fwd_F.alg_z)
  else
    blockcat J_xx J_xz J_zx J_zz

/-- The pattern has no structural nonzero (`nnz() == 0`). -/
def Sparsity.is_empty_pattern (S : Sparsity) : Prop :=
  ∀ r c, S.get r c = false

/-- The Jacobian patterns of a function with the signature of "daeF" have
the sizes that belong to `nx1` states and `nz1` algebraic variables. -/
def JacSparsity.sized (F : JacSparsity) (nx1 nz1 : Nat) : Prop :=
  (F.ode_x.size1 = nx1 ∧ F.ode_x.size2 = nx1) ∧ (F.ode_z.size1 = nx1 ∧ F.ode_z.size2 = nz1) ∧
  (F.alg_x.size1 = nz1 ∧ F.alg_x.size2 = nx1) ∧ (F.alg_z.size1 = nz1 ∧ F.alg_z.size2 = nz1)
/-- The failures that can arise during a call of `eval`: a failing
`calc_function` or step, the event errors, and the loop bound of the
embedding. -/
def Err.atCallTime (e : Err) : Prop :=
  e = Err.solver ∨ e = Err.oracle ∨ e = Err.eventNonConvergence ∨ e = Err.tooManyEvents ∨
    e = Err.eventConsistency ∨ e = Err.outOfFuel

instance (e : Err) : Decidable e.atCallTime := by
  unfold Err.atCallTime
  infer_instance

/-- The pattern is square of size `n` and contains every diagonal entry. -/
def Sparsity.has_diag (S : Sparsity) (n : Nat) : Prop :=
  S.size1 = n ∧ S.size2 = n ∧ ∀ r, r < n → S.get r r = true

/-! ## Column ordering of `get_forward` -/

/-- The statement `v.push_back(src.at(idx))`; `at` fails for an index
outside of `src`. -/
def push_back_at {α : Type} (src : List α) (idx : Nat) (v : List α) : Option (List α) :=
  (src.get? idx).map fun x => v ++ [x]

/-- The loop "Reorder columns" of `get_forward`, started with the cleared
vector `v`. -/
def reorder_columns {α : Type} (nt nfwd : Nat) (ret_in_split : List α)
    (aug_in_split : List (List α)) : Option (List α) :=
  (List.range nt).foldlM
    (fun v k => do
      let v ← push_back_at ret_in_split k v
      (List.range nfwd).foldlM (fun v d => push_back_at (aug_in_split.getD d []) k v) v)
    []

/-- The body of the loop "Call the augmented integrator" of `get_forward`
for one input, up to the flattening of the elements: the vector `v` of the
blocks that are concatenated to the input of the augmented integrator.
`nfwd` is the number of requested directions, `size1_in` and `grid_in` are
`size1_in(i)` and `grid_in(i)`, `ret_in_i` is the nondifferentiated input
`ret_in[i]`, `aug_in_i` holds the seeds `aug_in[i]`, and `horzsplit_n` is the
function of that name of the core library. -/
def get_forward_columns {α : Type} [Inhabited α] (I : Integrator) (nfwd : Nat) (size1_in : Int)
    (grid_in : Bool) (horzsplit_n : α → Nat → List α) (ret_in_i : α) (aug_in_i : List α) :
    Option (List α) :=
  if size1_in > 0 ∧ grid_in = true ∧ I.nt > 1 then
    -- Split nondifferentiated input by grid point
    let ret_in_split := horzsplit_n ret_in_i I.tout.length
    -- Split augmented input by grid point
    let aug_in_split := (List.range nfwd).map fun d =>
      horzsplit_n (aug_in_i.getD d default) I.tout.length
    -- Reorder columns
    reorder_columns I.tout.length nfwd ret_in_split aug_in_split
  else
    -- No reordering necessary
    some (ret_in_i :: aug_in_i)

/-- The local `n_grid` of `get_forward`: `grid_out(i) ? nt() : 1`. -/
def get_forward_n_grid (I : Integrator) (grid_out : Bool) : Nat :=
  if grid_out then I.tout.length else 1

/-- The vector `offset` of `get_forward`, "Split return by grid points and
sensitivities". -/
def get_forward_offset (n_grid nfwd : Nat) (size2_out : Int) : List Int :=
  (List.range n_grid).foldl
    (fun offset _ =>
      (List.range (nfwd + 1)).foldl
        (fun offset _ => offset ++ [offset.getLastD 0 + size2_out / (n_grid : Int)]) offset)
    [0]

/-- The loop "Collect sensitivity blocks in the right order" of
`get_forward`: the vector `ret_out_split`. -/
def get_forward_collect {α : Type} (n_grid nfwd : Nat) (integrator_out_split : List α) :
    Option (List α) :=
  (List.range nfwd).foldlM
    (fun v d =>
      (List.range n_grid).foldlM
        (fun v k => push_back_at integrator_out_split ((nfwd + 1) * k + d + 1) v) v)
    []

/-! ## Argument tables of the backward helper functions -/

/-- Backward DAE input `t` (`enum BDynIn`, in the order of `Integrator::bdyn_in(casadi_int)`). -/
def BDYN_T : Int := 0
/-- Backward DAE input `out_ode`. -/
def BDYN_OUT_ODE : Int := 5
/-- Backward DAE input `out_alg`. -/
def BDYN_OUT_ALG : Int := 6
/-- Backward DAE input `out_quad`. -/
def BDYN_OUT_QUAD : Int := 7
/-- Backward DAE input `out_zero`. -/
def BDYN_OUT_ZERO : Int := 8
/-- Backward DAE input `adj_zero`. -/
def BDYN_ADJ_ZERO : Int := 12

/-- Modelled from the spec: `enum BDAEOut` of the class header, the outputs
`adj_x`, `adj_z` of the function "daeB" in the order of declaration. -/
def BDAE_ADJ_X : Int := 0
/-- Modelled from the spec: output `adj_z` of "daeB". -/
def BDAE_ADJ_Z : Int := 1
/-- Modelled from the spec: number of outputs of "daeB". -/
def BDAE_NUM_OUT : Int := 2

/-- Modelled from the spec: `enum BQuadOut` of the class header, the outputs
`adj_p`, `adj_u` of the function "quadB" in the order of declaration. -/
def BQUAD_ADJ_P : Int := 0
/-- Modelled from the spec: output `adj_u` of "quadB". -/
def BQUAD_ADJ_U : Int := 1
/-- Modelled from the spec: number of outputs of "quadB". -/
def BQUAD_NUM_OUT : Int := 2

/-- Modelled from the spec: `enum BStepIn` of the class header, the inputs of
the backward step function in the order in which `stepB` assigns them. -/
def BSTEP_T : Int := 0
/-- Modelled from the spec: backward step input `h`. -/
def BSTEP_H : Int := 1
/-- Modelled from the spec: backward step input `x0`. -/
def BSTEP_X0 : Int := 2
/-- Modelled from the spec: backward step input `v0`. -/
def BSTEP_V0 : Int := 3
/-- Modelled from the spec: backward step input `p`. -/
def BSTEP_P : Int := 4
/-- Modelled from the spec: backward step input `u`. -/
def BSTEP_U : Int := 5
/-- Modelled from the spec: backward step input `out_xf`. -/
def BSTEP_OUT_XF : Int := 6
/-- Modelled from the spec: backward step input `out_vf`. -/
def BSTEP_OUT_VF : Int := 7
/-- Modelled from the spec: backward step input `out_qf`. -/
def BSTEP_OUT_QF : Int := 8
/-- Modelled from the spec: backward step input `adj_xf`. -/
def BSTEP_ADJ_XF : Int := 9
/-- Modelled from the spec: backward step input `adj_vf`. -/
def BSTEP_ADJ_VF : Int := 10
/-- Modelled from the spec: backward step input `adj_qf`. -/
def BSTEP_ADJ_QF : Int := 11
/-- Modelled from the spec: number of inputs of the backward step function. -/
def BSTEP_NUM_IN : Int := 12

/-- Modelled from the spec: `enum BStepOut` of the class header, the outputs
of the backward step function in the order in which `stepB` assigns them. -/
def BSTEP_ADJ_T : Int := 0
/-- Modelled from the spec: backward step output `adj_h`. -/
def BSTEP_ADJ_H : Int := 1
/-- Modelled from the spec: backward step output `adj_x0`. -/
def BSTEP_ADJ_X0 : Int := 2
/-- Modelled from the spec: backward step output `adj_v0`. -/
def BSTEP_ADJ_V0 : Int := 3
/-- Modelled from the spec: backward step output `adj_p`. -/
def BSTEP_ADJ_P : Int := 4
/-- Modelled from the spec: backward step output `adj_u`. -/
def BSTEP_ADJ_U : Int := 5
/-- Modelled from the spec: number of outputs of the backward step function. -/
def BSTEP_NUM_OUT : Int := 6

/-- The null pointer. Pointers are addresses counted in entries of the
buffers, so that `p + n` is the address `n` entries after `p`. -/
def nullptr : Int := 0

/-- The assignment `m->arg[idx] = v` to the table of argument pointers. -/
def set_arg (arg : Int → Int) (idx : Int) (v : Int) : Int → Int :=
  fun j => if j = idx then v else arg j

/-- The assignments "Evaluate nondifferentiated" of `bdae_sp_forward` to the
table `m->arg`. -/
def bdae_sp_forward_arg (x z p u adj_ode adj_quad : Int) (arg : Int → Int) :
    Int → Int :=
  let arg := set_arg arg BDYN_T nullptr
  let arg := set_arg arg BDYN_X x
  let arg := set_arg arg BDYN_Z z
  let arg := set_arg arg BDYN_P p
  let arg := set_arg arg BDYN_U u
  let arg := set_arg arg BDYN_OUT_ODE nullptr
  let arg := set_arg arg BDYN_OUT_ALG nullptr
  let arg := set_arg arg BDYN_OUT_QUAD nullptr
  let arg := set_arg arg BDYN_OUT_ZERO nullptr
  let arg := set_arg arg BDYN_ADJ_ODE adj_ode
  let arg := set_arg arg BDYN_ADJ_ALG nullptr
  let arg := set_arg arg BDYN_ADJ_QUAD adj_quad
  let arg := set_arg arg BDYN_ADJ_ZERO nullptr
  arg

/-- The assignments to the table `m->arg` in the pass `i` of the loop
"Evaluate sensitivities" of `bdae_sp_forward`, before the call of the
derivative of "daeB". -/
def bdae_sp_forward_fwd_arg (I : Integrator) (i : Int)
    (x z p u adj_ode adj_quad adj_x adj_z : Int) (arg : Int → Int) :
    Int → Int :=
  let arg := set_arg arg (BDYN_NUM_IN + BDAE_ADJ_X) adj_x
  let arg := set_arg arg (BDYN_NUM_IN + BDAE_ADJ_Z) adj_z
  let arg := set_arg arg (BDYN_NUM_IN + BDAE_NUM_OUT + BDYN_T) nullptr
  let arg := set_arg arg (BDYN_NUM_IN + BDAE_NUM_OUT + BDYN_X) (x + (i + 1) * I.nx1)
  let arg := set_arg arg (BDYN_NUM_IN + BDAE_NUM_OUT + BDYN_Z) (z + (i + 1) * I.nz1)
  let arg := set_arg arg (BDYN_NUM_IN + BDAE_NUM_OUT + BDYN_P) (p + (i + 1) * I.np1)
  let arg := set_arg arg (BDYN_NUM_IN + BDAE_NUM_OUT + BDYN_U) (u + (i + 1) * I.nu1)
  let arg := set_arg arg (BDYN_NUM_IN + BDAE_NUM_OUT + BDYN_OUT_ODE) nullptr
  let arg := set_arg arg (BDYN_NUM_IN + BDAE_NUM_OUT + BDYN_OUT_ALG) nullptr
  let arg := set_arg arg (BDYN_NUM_IN + BDAE_NUM_OUT + BDYN_OUT_QUAD) nullptr
  let arg := set_arg arg (BDYN_NUM_IN + BDAE_NUM_OUT + BDYN_OUT_ZERO) nullptr
  let arg := set_arg arg (BDYN_NUM_IN + BDAE_NUM_OUT + BDYN_ADJ_ODE)
    (adj_ode + (i + 1) * I.nrx1 * I.nadj)
  let arg := set_arg arg (BDYN_NUM_IN + BDAE_NUM_OUT + BDYN_ADJ_ALG) nullptr
  let arg := set_arg arg (BDYN_NUM_IN + BDAE_NUM_OUT + BDYN_ADJ_QUAD)
    (adj_quad + (i + 1) * I.nrz1 * I.nadj)
  let arg := set_arg arg (BDYN_NUM_IN + BDAE_NUM_OUT + BDYN_ADJ_ZERO) nullptr
  arg

/-- The assignments "Evaluate nondifferentiated" of `bquad_sp_forward` to the
table `m->arg`. -/
def bquad_sp_forward_arg (x z p u adj_ode adj_alg adj_quad : Int) (arg : Int → Int) :
    Int → Int :=
  let arg := set_arg arg BDYN_T nullptr
  let arg := set_arg arg BDYN_X x
  let arg := set_arg arg BDYN_Z z
  let arg := set_arg arg BDYN_P p
  let arg := set_arg arg BDYN_U u
  let arg := set_arg arg BDYN_OUT_ODE nullptr
  let arg := set_arg arg BDYN_OUT_ALG nullptr
  let arg := set_arg arg BDYN_OUT_QUAD nullptr
  let arg := set_arg arg BDYN_OUT_ZERO nullptr
  let arg := set_arg arg BDYN_ADJ_ODE adj_ode
  let arg := set_arg arg BDYN_ADJ_ALG adj_alg
  let arg := set_arg arg BDYN_ADJ_QUAD adj_quad
  let arg := set_arg arg BDYN_ADJ_ZERO nullptr
  arg

/-- The assignments to the table `m->arg` in the pass `i` of the loop
"Evaluate sensitivities" of `bquad_sp_forward`, before the call of the
derivative of "quadB". -/
def bquad_sp_forward_fwd_arg (I : Integrator) (i : Int)
    (x z p u adj_ode adj_alg adj_quad adj_p adj_u : Int) (arg : Int → Int) :
    Int → Int :=
  let arg := set_arg arg (BDYN_NUM_IN + BQUAD_ADJ_P) adj_p
  let arg := set_arg arg (BDYN_NUM_IN + BQUAD_ADJ_U) adj_u
  let arg := set_arg arg (BDYN_NUM_IN + BQUAD_NUM_OUT + BDYN_T) nullptr
  let arg := set_arg arg (BDYN_NUM_IN + BQUAD_NUM_OUT + BDYN_X) (x + (i + 1) * I.nx1)
  let arg := set_arg arg (BDYN_NUM_IN + BQUAD_NUM_OUT + BDYN_Z) (z + (i + 1) * I.nz1)
  let arg := set_arg arg (BDYN_NUM_IN + BQUAD_NUM_OUT + BDYN_P) (p + (i + 1) * I.np1)
  let arg := set_arg arg (BDYN_NUM_IN + BQUAD_NUM_OUT + BDYN_U) (u + (i + 1) * I.nu1)
  let arg := set_arg arg (BDYN_NUM_IN + BQUAD_NUM_OUT + BDYN_OUT_ODE) nullptr
  let arg := set_arg arg (BDYN_NUM_IN + BQUAD_NUM_OUT + BDYN_OUT_ALG) nullptr
  let arg := set_arg arg (BDYN_NUM_IN + BQUAD_NUM_OUT + BDYN_OUT_QUAD) nullptr
  let arg := set_arg arg (BDYN_NUM_IN + BQUAD_NUM_OUT + BDYN_OUT_ZERO) nullptr
  let arg := set_arg arg (BDYN_NUM_IN + BQUAD_NUM_OUT + BDYN_ADJ_ODE)
    (adj_ode + (i + 1) * I.nrx1 * I.nadj)
  let arg := set_arg arg (BDYN_NUM_IN + BQUAD_NUM_OUT + BDYN_ADJ_ALG)
    (adj_alg + (i + 1) * I.nrz1 * I.nadj)
  let arg := set_arg arg (BDYN_NUM_IN + BQUAD_NUM_OUT + BDYN_ADJ_QUAD)
    (adj_quad + (i + 1) * I.nrp1 * I.nadj)
  let arg := set_arg arg (BDYN_NUM_IN + BQUAD_NUM_OUT + BDYN_ADJ_ZERO) nullptr
  arg

/-- The assignments "Nondifferentiated inputs" of `bdae_sp_reverse` to the
table `m->arg`. -/
def bdae_sp_reverse_arg (x z p u adj_ode adj_quad : Int) (arg : Int → Int) :
    Int → Int :=
  let arg := set_arg arg BDYN_T nullptr
  let arg := set_arg arg BDYN_X x
  let arg := set_arg arg BDYN_Z z
  let arg := set_arg arg BDYN_P p
  let arg := set_arg arg BDYN_U u
  let arg := set_arg arg BDYN_OUT_ODE nullptr
  let arg := set_arg arg BDYN_OUT_ALG nullptr
  let arg := set_arg arg BDYN_OUT_QUAD nullptr
  let arg := set_arg arg BDYN_OUT_ZERO nullptr
  let arg := set_arg arg BDYN_ADJ_ODE adj_ode
  let arg := set_arg arg BDYN_ADJ_ALG nullptr
  let arg := set_arg arg BDYN_ADJ_QUAD adj_quad
  let arg := set_arg arg BDYN_ADJ_ZERO nullptr
  arg

/-- The assignments to the table `m->arg` in the pass `i` of the loop
"Propagate through sensitivities" of `bdae_sp_reverse`, before the call of
the derivative of "daeB". -/
def bdae_sp_reverse_fwd_arg (I : Integrator) (i : Int)
    (x z p u adj_ode adj_quad adj_x adj_z : Int) (arg : Int → Int) :
    Int → Int :=
  let arg := set_arg arg (BDYN_NUM_IN + BDAE_ADJ_X) adj_x
  let arg := set_arg arg (BDYN_NUM_IN + BDAE_ADJ_Z) adj_z
  let arg := set_arg arg (BDYN_NUM_IN + BDAE_NUM_OUT + BDYN_T) nullptr
  let arg := set_arg arg (BDYN_NUM_IN + BDAE_NUM_OUT + BDYN_X) (x + (i + 1) * I.nx1)
  let arg := set_arg arg (BDYN_NUM_IN + BDAE_NUM_OUT + BDYN_Z) (z + (i + 1) * I.nz1)
  let arg := set_arg arg (BDYN_NUM_IN + BDAE_NUM_OUT + BDYN_P) (p + (i + 1) * I.np1)
  let arg := set_arg arg (BDYN_NUM_IN + BDAE_NUM_OUT + BDYN_U) (u + (i + 1) * I.nu1)
  let arg := set_arg arg (BDYN_NUM_IN + BDAE_NUM_OUT + BDYN_OUT_ODE) nullptr
  let arg := set_arg arg (BDYN_NUM_IN + BDAE_NUM_OUT + BDYN_OUT_ALG) nullptr
  let arg := set_arg arg (BDYN_NUM_IN + BDAE_NUM_OUT + BDYN_OUT_QUAD) nullptr
  let arg := set_arg arg (BDYN_NUM_IN + BDAE_NUM_OUT + BDYN_OUT_ZERO) nullptr
  let arg := set_arg arg (BDYN_NUM_IN + BDAE_NUM_OUT + BDYN_ADJ_ODE)
    (adj_ode + (i + 1) * I.nrx1 * I.nadj)
  let arg := set_arg arg (BDYN_NUM_IN + BDAE_NUM_OUT + BDYN_ADJ_ALG) nullptr
  let arg := set_arg arg (BDYN_NUM_IN + BDAE_NUM_OUT + BDYN_ADJ_QUAD)
    (adj_quad + (i + 1) * I.nrz1 * I.nadj)
  let arg := set_arg arg (BDYN_NUM_IN + BDAE_NUM_OUT + BDYN_ADJ_ZERO) nullptr
  arg

/-- The assignments "Nondifferentiated inputs" of `bquad_sp_reverse` to the
table `m->arg`. -/
def bquad_sp_reverse_arg (x z p u adj_ode adj_alg adj_quad : Int) (arg : Int → Int) :
    Int → Int :=
  let arg := set_arg arg BDYN_T nullptr
  let arg := set_arg arg BDYN_X x
  let arg := set_arg arg BDYN_Z z
  let arg := set_arg arg BDYN_P p
  let arg := set_arg arg BDYN_U u
  let arg := set_arg arg BDYN_OUT_ODE adj_ode
  let arg := set_arg arg BDYN_OUT_ALG adj_alg
  let arg := set_arg arg BDYN_OUT_QUAD adj_quad
  let arg := set_arg arg BDYN_OUT_ZERO nullptr
  let arg := set_arg arg BDYN_ADJ_ODE adj_ode
  let arg := set_arg arg BDYN_ADJ_ALG adj_alg
  let arg := set_arg arg BDYN_ADJ_QUAD adj_quad
  let arg := set_arg arg BDYN_ADJ_ZERO nullptr
  arg

/-- The assignments to the table `m->arg` in the pass `i` of the loop
"Propagate through sensitivities" of `bquad_sp_reverse`, before the call of
the derivative of "quadB". -/
def bquad_sp_reverse_fwd_arg (I : Integrator) (i : Int)
    (x z p u adj_ode adj_alg adj_quad adj_p adj_u : Int) (arg : Int → Int) :
    Int → Int :=
  let arg := set_arg arg (BDYN_NUM_IN + BQUAD_ADJ_P) adj_p
  let arg := set_arg arg (BDYN_NUM_IN + BQUAD_ADJ_U) adj_u
  let arg := set_arg arg (BDYN_NUM_IN + BQUAD_NUM_OUT + BDYN_T) nullptr
  let arg := set_arg arg (BDYN_NUM_IN + BQUAD_NUM_OUT + BDYN_X) (x + (i + 1) * I.nx1)
  let arg := set_arg arg (BDYN_NUM_IN + BQUAD_NUM_OUT + BDYN_Z) (z + (i + 1) * I.nz1)
  let arg := set_arg arg (BDYN_NUM_IN + BQUAD_NUM_OUT + BDYN_P) (p + (i + 1) * I.np1)
  let arg := set_arg arg (BDYN_NUM_IN + BQUAD_NUM_OUT + BDYN_U) (u + (i + 1) * I.nu1)
  let arg := set_arg arg (BDYN_NUM_IN + BQUAD_NUM_OUT + BDYN_OUT_ODE) nullptr
  let arg := set_arg arg (BDYN_NUM_IN + BQUAD_NUM_OUT + BDYN_OUT_ALG) nullptr
  let arg := set_arg arg (BDYN_NUM_IN + BQUAD_NUM_OUT + BDYN_OUT_QUAD) nullptr
  let arg := set_arg arg (BDYN_NUM_IN + BQUAD_NUM_OUT + BDYN_OUT_ZERO) nullptr
  let arg := set_arg arg (BDYN_NUM_IN + BQUAD_NUM_OUT + BDYN_ADJ_ODE)
    (adj_ode + (i + 1) * I.nrx1 * I.nadj)
  let arg := set_arg arg (BDYN_NUM_IN + BQUAD_NUM_OUT + BDYN_ADJ_ALG)
    (adj_alg + (i + 1) * I.nrz1 * I.nadj)
  let arg := set_arg arg (BDYN_NUM_IN + BQUAD_NUM_OUT + BDYN_ADJ_QUAD)
    (adj_quad + (i + 1) * I.nrp1 * I.nadj)
  let arg := set_arg arg (BDYN_NUM_IN + BQUAD_NUM_OUT + BDYN_ADJ_ZERO) nullptr
  arg

/-- The assignments "Evaluate nondifferentiated" of `FixedStepIntegrator::stepB` to
the table `m->arg` (after `std::fill(m->arg, m->arg + BSTEP_NUM_IN, nullptr)`);
`t` and `h` are the addresses of the local copies of the time and the step
length, `mp`, `mu`, `madj_q` are the members `m->p`, `m->u`, `m->adj_q`. -/
def stepB_arg (t h x0 xf vf adj_xf rv0 mp mu madj_q : Int) (arg : Int → Int) :
    Int → Int :=
  let arg : Int → Int := fun j => if 0 ≤ j ∧ j < BSTEP_NUM_IN then nullptr else arg j
  let arg := set_arg arg BSTEP_T t
  let arg := set_arg arg BSTEP_H h
  let arg := set_arg arg BSTEP_X0 x0
  let arg := set_arg arg BSTEP_V0 nullptr
  let arg := set_arg arg BSTEP_P mp
  let arg := set_arg arg BSTEP_U mu
  let arg := set_arg arg BSTEP_OUT_XF xf
  let arg := set_arg arg BSTEP_OUT_VF vf
  let arg := set_arg arg BSTEP_OUT_QF nullptr
  let arg := set_arg arg BSTEP_ADJ_XF adj_xf
  let arg := set_arg arg BSTEP_ADJ_VF rv0
  let arg := set_arg arg BSTEP_ADJ_QF madj_q
  arg

/-- The assignments to the table `m->arg` in the block "Evaluate
sensitivities" of `FixedStepIntegrator::stepB`; `nv1` and `nrv1` are the members `nv1_`
and `nrv1_` of `FixedStepIntegrator`. -/
def stepB_fwd_arg (I : Integrator) (nv1 nrv1 : Int)
    (x0 xf vf adj_xf rv0 adj_x0 adj_p adj_u mp mu madj_q : Int) (arg : Int → Int) :
    Int → Int :=
  let arg := set_arg arg (BSTEP_NUM_IN + BSTEP_ADJ_T) nullptr
  let arg := set_arg arg (BSTEP_NUM_IN + BSTEP_ADJ_H) nullptr
  let arg := set_arg arg (BSTEP_NUM_IN + BSTEP_ADJ_X0) adj_x0
  let arg := set_arg arg (BSTEP_NUM_IN + BSTEP_ADJ_V0) nullptr
  let arg := set_arg arg (BSTEP_NUM_IN + BSTEP_ADJ_P) adj_p
  let arg := set_arg arg (BSTEP_NUM_IN + BSTEP_ADJ_U) adj_u
  let arg := set_arg arg (BSTEP_NUM_IN + BSTEP_NUM_OUT + BSTEP_T) nullptr
  let arg := set_arg arg (BSTEP_NUM_IN + BSTEP_NUM_OUT + BSTEP_H) nullptr
  let arg := set_arg arg (BSTEP_NUM_IN + BSTEP_NUM_OUT + BSTEP_X0) (x0 + I.nx1)
  let arg := set_arg arg (BSTEP_NUM_IN + BSTEP_NUM_OUT + BSTEP_V0) nullptr
  let arg := set_arg arg (BSTEP_NUM_IN + BSTEP_NUM_OUT + BSTEP_P) (mp + I.np1)
  let arg := set_arg arg (BSTEP_NUM_IN + BSTEP_NUM_OUT + BSTEP_U) (mu + I.nu1)
  let arg := set_arg arg (BSTEP_NUM_IN + BSTEP_NUM_OUT + BSTEP_OUT_XF) (xf + I.nx1)
  let arg := set_arg arg (BSTEP_NUM_IN + BSTEP_NUM_OUT + BSTEP_OUT_VF) (vf + nv1)
  let arg := set_arg arg (BSTEP_NUM_IN + BSTEP_NUM_OUT + BSTEP_OUT_QF) nullptr
  let arg := set_arg arg (BSTEP_NUM_IN + BSTEP_NUM_OUT + BSTEP_ADJ_XF) (adj_xf + I.nrx1 * I.nadj)
  let arg := set_arg arg (BSTEP_NUM_IN + BSTEP_NUM_OUT + BSTEP_ADJ_VF) (rv0 + nrv1)
  let arg := set_arg arg (BSTEP_NUM_IN + BSTEP_NUM_OUT + BSTEP_ADJ_QF) (madj_q + I.nrp1 * I.nadj)
  arg

/-! ## Structural propagation: `sp_forward` -/

/-- Modelled from the spec: `enum DAEOut` of the class header, the outputs
`ode`, `alg` of the function "daeF" in the order of declaration. -/
def DAE_ODE : Int := 0
/-- Modelled from the spec: output `alg` of "daeF". -/
def DAE_ALG : Int := 1
/-- Modelled from the spec: output `quad` of "quadF" (`enum QuadOut`). -/
def QUAD_QUAD : Int := 0

/-- What `sp_forward` calls outside of `Integrator`. A dependency word
(`bvec_t`) is a natural number, its bits are combined with `|||`. -/
structure SpCollaborators where
  /-- Embeds `calc_sp_forward(name, m->arg, m->res, m->iw, m->w)`: from the memory at the
  argument pointers (`none` for a null pointer) and the scratch space at
  `m->w`, the blocks stored through the result pointers and the scratch space
  that the call leaves; `none` for a nonzero return flag -/
  calc_sp_forward : String → List (Option (List Nat)) → List Nat →
    Option (List (List Nat) × List Nat)
  /-- Embeds `sp_jac_dae_.spsolve(x, b, false)`: from the `nx + nz` words at `b`, the
  words stored at `x` and the words that the solve leaves at `b` -/
  spsolve_dae : List Nat → List Nat × List Nat
  /-- Embeds `sp_jac_rdae_.spsolve(x, b, false)`: from the `nrx + nrz` words at `b`, the
  words stored at `x` and the words that the solve leaves at `b` -/
  spsolve_rdae : List Nat → List Nat × List Nat

/-- Offset of the work vector `adj_x` in the vector `w` of `sp_forward`
(`x` is at the offset 0). -/
def sp_adj_x (I : Integrator) : Nat := I.nx.toNat
/-- Offset of the work vector `adj_z` in `w`. -/
def sp_adj_z (I : Integrator) : Nat := sp_adj_x I + I.nrx.toNat
/-- Offset of the work vector `adj_p` in `w`. -/
def sp_adj_p (I : Integrator) : Nat := sp_adj_z I + I.nrz.toNat
/-- Offset of the work vector `tmp1` in `w`. -/
def sp_tmp1 (I : Integrator) : Nat := sp_adj_p I + I.nrq.toNat
/-- Offset of the work vector `tmp2` in `w`. -/
def sp_tmp2 (I : Integrator) : Nat := sp_tmp1 I + (I.nx.toNat + I.nz.toNat)
/-- Offset in `w` of the scratch space, the value of the pointer `w` after
the work vectors are taken. -/
def sp_w (I : Integrator) : Nat := sp_tmp2 I + I.nrx.toNat

/-- A call of `calc_sp_forward` with the scratch space at the offset `sp_w`
of the vector `w`: the blocks to store and the vector with the scratch
space that the call leaves. -/
def sp_call (S : SpCollaborators) (I : Integrator) (name : String)
    (arg : List (Option (List Nat))) (w : List Nat) : Option (List (List Nat) × List Nat) :=
  (S.calc_sp_forward name arg (w.drop (sp_w I))).map fun r => (r.1, writeBlock w (sp_w I) r.2)

/-- The loop `for (i = 0; i < n; ++i) dst[i] |= src[i]`. -/
def bvec_or (n : Nat) (src : List Nat) (src_off : Nat) (dst : List Nat) (dst_off : Nat) :
    List Nat :=
  writeBlock dst dst_off
    ((List.range n).map fun i => dst.getD (dst_off + i) 0 ||| src.getD (src_off + i) 0)

/-- Embeds `std::copy_n(src, n, dst)` within one vector, for ranges such that the
destination does not start inside the source. -/
def copy_n (w : List Nat) (src_off n dst_off : Nat) : List Nat :=
  writeBlock w dst_off (readBlock w src_off n)

/-- Embeds `std::fill_n(dst, n, 0)`. -/
def fill_n (w : List Nat) (dst_off n : Nat) : List Nat :=
  writeBlock w dst_off (List.replicate n 0)

/-- Embeds `int Integrator::fdae_sp_forward(m, x, p, u, ode, alg)` for pointers `x`, `ode`,
`alg` into the vector `w`, given by their offsets. -/
def fdae_sp_forward (S : SpCollaborators) (I : Integrator) (w : List Nat) (x : Nat)
    (p u : Option (List Nat)) (ode alg : Nat) : Option (List Nat) := do
  -- Evaluate nondifferentiated
  let r ← sp_call S I "daeF" [none, some (w.drop x), none, p, u] w
  let w := writeBlock r.2 ode (r.1.getD DAE_ODE.toNat [])
  let w := writeBlock w alg (r.1.getD DAE_ALG.toNat [])
  -- Evaluate sensitivities
  (List.range I.nfwd.toNat).foldlM
    (fun w i => do
      let r ← sp_call S I (forward_name "daeF" 1)
        [none, some (w.drop x), none, p, u, some (w.drop ode), some (w.drop alg),
          none, some (w.drop (x + (i + 1) * I.nx1.toNat)), none,
          p.map fun v => v.drop ((i + 1) * I.np1.toNat),
          u.map fun v => v.drop ((i + 1) * I.nu1.toNat)] w
      let w := writeBlock r.2 (ode + (i + 1) * I.nx1.toNat) (r.1.getD DAE_ODE.toNat [])
      pure (writeBlock w (alg + (i + 1) * I.nz1.toNat) (r.1.getD DAE_ALG.toNat [])))
    w

/-- Embeds `int Integrator::fquad_sp_forward(m, x, z, p, u, quad)` for pointers `x`, `z` into
the vector `w` and the pointer `quad` at the offset `quad` of the output
`qf`. -/
def fquad_sp_forward (S : SpCollaborators) (I : Integrator) (w : List Nat) (x z : Nat)
    (p u : Option (List Nat)) (qf : List Nat) (quad : Nat) : Option (List Nat × List Nat) := do
  -- Evaluate nondifferentiated
  let r ← sp_call S I "quadF" [none, some (w.drop x), some (w.drop z), p, u] w
  let qf := writeBlock qf quad (r.1.getD QUAD_QUAD.toNat [])
  -- Evaluate sensitivities
  (List.range I.nfwd.toNat).foldlM
    (fun s i => do
      let r ← sp_call S I (forward_name "quadF" 1)
        [none, some (s.1.drop x), some (s.1.drop z), p, u, some (s.2.drop quad),
          none, some (s.1.drop (x + (i + 1) * I.nx1.toNat)),
          some (s.1.drop (z + (i + 1) * I.nz1.toNat)),
          p.map fun v => v.drop ((i + 1) * I.np1.toNat),
          u.map fun v => v.drop ((i + 1) * I.nu1.toNat)] s.1
      pure (r.2, writeBlock s.2 (quad + (i + 1) * I.nq1.toNat) (r.1.getD QUAD_QUAD.toNat [])))
    (r.2, qf)

/-- Embeds `int Integrator::bdae_sp_forward(m, x, z, p, u, adj_ode, adj_quad, adj_x, adj_z)` for
pointers `x`, `z`, `adj_ode`, `adj_x`, `adj_z` into the vector `w`; `adj_quad`
is the memory at that pointer. -/
def bdae_sp_forward (S : SpCollaborators) (I : Integrator) (w : List Nat) (x z : Nat)
    (p u : Option (List Nat)) (adj_ode : Nat) (adj_quad : Option (List Nat))
    (adj_x adj_z : Nat) : Option (List Nat) := do
  -- Evaluate nondifferentiated
  let r ← sp_call S I "daeB"
    [none, some (w.drop x), some (w.drop z), p, u, none, none, none, none,
      some (w.drop adj_ode), none, adj_quad, none] w
  let w := writeBlock r.2 adj_x (r.1.getD BDAE_ADJ_X.toNat [])
  let w := writeBlock w adj_z (r.1.getD BDAE_ADJ_Z.toNat [])
  -- Evaluate sensitivities
  (List.range I.nfwd.toNat).foldlM
    (fun w i => do
      let r ← sp_call S I (forward_name "daeB" 1)
        [none, some (w.drop x), some (w.drop z), p, u, none, none, none, none,
          some (w.drop adj_ode), none, adj_quad, none,
          some (w.drop adj_x), some (w.drop adj_z),
          none, some (w.drop (x + (i + 1) * I.nx1.toNat)),
          some (w.drop (z + (i + 1) * I.nz1.toNat)),
          p.map fun v => v.drop ((i + 1) * I.np1.toNat),
          u.map fun v => v.drop ((i + 1) * I.nu1.toNat),
          none, none, none, none,
          some (w.drop (adj_ode + (i + 1) * I.nrx1.toNat * I.nadj.toNat)), none,
          adj_quad.map fun v => v.drop ((i + 1) * I.nrz1.toNat * I.nadj.toNat), none] w
      let w := writeBlock r.2 (adj_x + (i + 1) * I.nrx1.toNat * I.nadj.toNat)
        (r.1.getD BDAE_ADJ_X.toNat [])
      pure (writeBlock w (adj_z + (i + 1) * I.nrz1.toNat * I.nadj.toNat)
        (r.1.getD BDAE_ADJ_Z.toNat [])))
    w

/-- Embeds `int Integrator::bquad_sp_forward(m, x, z, p, u, adj_ode, adj_alg, adj_quad, adj_p,
adj_u)` for pointers `x`, `z`, `adj_ode`, `adj_alg`, `adj_p` into the vector
`w`; `adj_quad` is the memory at that pointer and `adj_u` the output buffer
with the offset of the pointer in it (`none` for a null pointer). -/
def bquad_sp_forward (S : SpCollaborators) (I : Integrator) (w : List Nat) (x z : Nat)
    (p u : Option (List Nat)) (adj_ode adj_alg : Nat) (adj_quad : Option (List Nat))
    (adj_p : Nat) (adj_u : Option (List Nat)) (adj_u_off : Nat) :
    Option (List Nat × Option (List Nat)) := do
  -- Evaluate nondifferentiated
  let r ← sp_call S I "quadB"
    [none, some (w.drop x), some (w.drop z), p, u, none, none, none, none,
      some (w.drop adj_ode), some (w.drop adj_alg), adj_quad, none] w
  let w := writeBlock r.2 adj_p (r.1.getD BQUAD_ADJ_P.toNat [])
  let adj_u := adj_u.map fun b => writeBlock b adj_u_off (r.1.getD BQUAD_ADJ_U.toNat [])
  -- Evaluate sensitivities
  (List.range I.nfwd.toNat).foldlM
    (fun s i => do
      let r ← sp_call S I (forward_name "quadB" 1)
        [none, some (s.1.drop x), some (s.1.drop z), p, u, none, none, none, none,
          some (s.1.drop adj_ode), some (s.1.drop adj_alg), adj_quad, none,
          some (s.1.drop adj_p), s.2.map fun b => b.drop adj_u_off,
          none, some (s.1.drop (x + (i + 1) * I.nx1.toNat)),
          some (s.1.drop (z + (i + 1) * I.nz1.toNat)),
          p.map fun v => v.drop ((i + 1) * I.np1.toNat),
          u.map fun v => v.drop ((i + 1) * I.nu1.toNat),
          none, none, none, none,
          some (s.1.drop (adj_ode + (i + 1) * I.nrx1.toNat * I.nadj.toNat)),
          some (s.1.drop (adj_alg + (i + 1) * I.nrz1.toNat * I.nadj.toNat)),
          adj_quad.map fun v => v.drop ((i + 1) * I.nrp1.toNat * I.nadj.toNat), none] s.1
      let w := writeBlock r.2 (adj_p + (i + 1) * I.nrq1.toNat * I.nadj.toNat)
        (r.1.getD BQUAD_ADJ_P.toNat [])
      pure (w, s.2.map fun b =>
        writeBlock b (adj_u_off + (i + 1) * I.nuq1.toNat * I.nadj.toNat)
          (r.1.getD BQUAD_ADJ_U.toNat [])))
    (w, adj_u)

/-- The inputs of `sp_forward` that it reads: the dependency words at the
argument pointers (`none` for a null pointer). -/
structure SpArgs where
  /-- input `x0` -/
  x0 : Option (List Nat)
  /-- input `p` -/
  p : Option (List Nat)
  /-- input `u`, all grid points -/
  u : Option (List Nat)
  /-- input `adj_xf`, all grid points -/
  adj_xf : Option (List Nat)
  /-- input `adj_qf`, all grid points -/
  adj_qf : Option (List Nat)

/-- The vector `w` and the outputs of `sp_forward` (`none` for a null result
pointer), with the right-hand sides handed to the structural solves so far. -/
structure SpState where
  /-- work vector `w`, from the pointer passed to `sp_forward` onwards -/
  w : List Nat
  /-- output `xf`, all grid points -/
  xf : Option (List Nat)
  /-- output `zf`, all grid points -/
  zf : Option (List Nat)
  /-- output `qf`, all grid points -/
  qf : Option (List Nat)
  /-- output `adj_x0` -/
  adj_x0 : Option (List Nat)
  /-- output `adj_p0` -/
  adj_p0 : Option (List Nat)
  /-- output `adj_u`, all grid points -/
  adj_u : Option (List Nat)
  /-- the words at `b` in the calls of `spsolve` so far -/
  rhs : List (List Nat)

/-- The head of the body of the loop "Propagate forward" of `sp_forward` for
the grid index `k`: "Propagate through DAE function". -/
def sp_forward_dae (S : SpCollaborators) (I : Integrator) (a : SpArgs) (s : SpState) (k : Nat) :
    Option SpState := do
  let u := a.u.map fun v => v.drop (I.nu.toNat * k)
  -- Propagate through DAE function
  let w ← fdae_sp_forward S I s.w 0 a.p u (sp_tmp1 I) (sp_tmp1 I + I.nx.toNat)
  let w := bvec_or I.nx.toNat w 0 w (sp_tmp1 I)
  pure { s with w := w }

/-- The tail of the body of the loop "Propagate forward" of `sp_forward` for
the grid index `k`, from "Solve in order to resolve interdependencies" on. -/
def sp_forward_solve (S : SpCollaborators) (I : Integrator) (a : SpArgs) (s : SpState)
    (k : Nat) : Option SpState := do
  let u := a.u.map fun v => v.drop (I.nu.toNat * k)
  -- "Solve" in order to resolve interdependencies (cf. Rootfinder)
  let w := copy_n s.w (sp_tmp1 I) (I.nx.toNat + I.nx.toNat) (sp_w I)
  let w := fill_n w (sp_tmp1 I) (I.nx.toNat + I.nz.toNat)
  let b := readBlock w (sp_w I) (I.nx.toNat + I.nz.toNat)
  let r := S.spsolve_dae b
  let w := writeBlock (writeBlock w (sp_w I) r.2) (sp_tmp1 I) r.1
  -- Get xf and zf
  let xf := s.xf.map fun v => writeBlock v (I.nx.toNat * k) (readBlock w (sp_tmp1 I) I.nx.toNat)
  let zf := s.zf.map fun v =>
    writeBlock v (I.nz.toNat * k) (readBlock w (sp_tmp1 I + I.nx.toNat) I.nz.toNat)
  let s := { s with w := w, xf := xf, zf := zf, rhs := s.rhs ++ [b] }
  -- Propagate to quadratures
  let s ← (match (if I.nq > 0 then s.qf else none) with
    | some qf => do
      let r ← fquad_sp_forward S I s.w (sp_tmp1 I) (sp_tmp1 I + I.nx.toNat) a.p u qf
        (I.nq.toNat * k)
      pure { s with w := r.1, qf := some r.2 }
    | none => pure s)
  -- Shift time
  pure { s with w := copy_n s.w (sp_tmp1 I) I.nx.toNat 0 }

/-- The body of the loop "Propagate forward" of `sp_forward` for the grid
index `k`. -/
def sp_forward_step (S : SpCollaborators) (I : Integrator) (a : SpArgs) (s : SpState) (k : Nat) :
    Option SpState := do
  let s ← sp_forward_dae S I a s k
  sp_forward_solve S I a s k

/-- The head of the body of the loop "Integrate backward" of `sp_forward` for
the grid index `k`, up to the structural solve. -/
def sp_backward_dae (S : SpCollaborators) (I : Integrator) (a : SpArgs) (s : SpState) (k : Nat) :
    Option SpState := do
  let u := a.u.map fun v => v.drop (I.nu.toNat * k)
  let adj_qf := a.adj_qf.map fun v => v.drop (I.nrp.toNat * k)
  -- Add impulse from adj_xf
  let w := match a.adj_xf with
    | some v => bvec_or I.nrx.toNat v (I.nrx.toNat * k) s.w (sp_tmp2 I)
    | none => s.w
  -- Propagate through DAE function
  let w ← bdae_sp_forward S I w (sp_tmp1 I) (sp_tmp1 I + I.nx.toNat) a.p u (sp_tmp2 I) adj_qf
    (sp_adj_x I) (sp_adj_z I)
  let w := bvec_or I.nrx.toNat w (sp_tmp2 I) w (sp_adj_x I)
  -- "Solve" in order to resolve interdependencies (cf. Rootfinder)
  let w := copy_n w (sp_adj_x I) (I.nrx.toNat + I.nrz.toNat) (sp_w I)
  let w := fill_n w (sp_adj_x I) (I.nrx.toNat + I.nrz.toNat)
  let b := readBlock w (sp_w I) (I.nrx.toNat + I.nrz.toNat)
  let r := S.spsolve_rdae b
  let w := writeBlock (writeBlock w (sp_w I) r.2) (sp_adj_x I) r.1
  pure { s with w := w, rhs := s.rhs ++ [b] }

/-- The tail of the body of the loop "Integrate backward" of `sp_forward` for
the grid index `k`: "Propagate to quadratures" and "Update tmp2". -/
def sp_backward_carry (S : SpCollaborators) (I : Integrator) (a : SpArgs) (s : SpState)
    (k : Nat) : Option SpState := do
  let u := a.u.map fun v => v.drop (I.nu.toNat * k)
  let adj_qf := a.adj_qf.map fun v => v.drop (I.nrp.toNat * k)
  -- Propagate to quadratures
  let s ← (if (I.nrq > 0 ∧ s.adj_p0.isSome = true) ∨ (I.nuq > 0 ∧ s.adj_u.isSome = true) then do
      let r ← bquad_sp_forward S I s.w (sp_tmp1 I) (sp_tmp1 I + I.nx.toNat) a.p u (sp_adj_x I)
        (sp_adj_z I) adj_qf (sp_adj_p I) s.adj_u (I.nuq.toNat * k)
      -- Sum contributions to adj_p0
      pure { s with
        w := r.1
        adj_u := r.2
        adj_p0 := s.adj_p0.map fun v => bvec_or I.nrq.toNat r.1 (sp_adj_p I) v 0 }
    else pure s)
  -- Update tmp2
  pure { s with w := copy_n s.w (sp_adj_x I) I.nx.toNat (sp_tmp2 I) }

/-- The body of the loop "Integrate backward" of `sp_forward` for the grid
index `k`. -/
def sp_backward_step (S : SpCollaborators) (I : Integrator) (a : SpArgs) (s : SpState)
    (k : Nat) : Option SpState := do
  let s ← sp_backward_dae S I a s k
  sp_backward_carry S I a s k

/-- Embeds `int Integrator::sp_forward(arg, res, iw, w, mem)`: from the inputs, the vector
`w` and the output buffers, the vector and the outputs at the return;
`none` for the return value 1. -/
def sp_forward (S : SpCollaborators) (I : Integrator) (a : SpArgs) (s : SpState) :
    Option SpState := do
  -- Copy initial guess to x
  let s := { s with w := writeBlock s.w 0 (readBlock (a.x0.getD []) 0 I.nx.toNat) }
  -- Propagate forward
  let s ← (List.range I.tout.length).foldlM (sp_forward_step S I a) s
  if I.nrx > 0 then
    -- Clear tmp2, adj_p0
    let s := { s with
      w := fill_n s.w (sp_tmp2 I) I.nrx.toNat
      adj_p0 := s.adj_p0.map fun v => fill_n v 0 I.nrq.toNat }
    -- Integrate backward
    let s ← (List.range I.tout.length).reverse.foldlM (sp_backward_step S I a) s
    -- Get adj_x0 at initial time
    pure { s with
      adj_x0 := s.adj_x0.map fun v => writeBlock v 0 (readBlock s.w (sp_adj_x I) I.nrx.toNat) }
  else
    pure s

/-! ## Fixed-step integrators: steps and tape -/

/-- Modelled from the spec: `enum StepOut` of the class header, the outputs
`xf`, `vf`, `qf` of the step function in the order in which `stepF` assigns
them. -/
def STEP_XF : Int := 0
/-- Modelled from the spec: step output `vf`. -/
def STEP_VF : Int := 1
/-- Modelled from the spec: step output `qf`. -/
def STEP_QF : Int := 2

/-- Name of the reverse-mode derivative of a function, `reverse_name(fcn, nadj)`. -/
def reverse_name (fcn : String) (nadj : Int) : String :=
  "adj" ++ toString nadj ++ "_" ++ fcn

/-- The type of `calc_function(m, name)`, as in `Collaborators`. -/
abbrev CalcFunction := String → List (Option (List ℚ)) → Option (List (List ℚ))

/-- The members `nv1_`, `nrv1_`, `nv_`, `nrv_` of `FixedStepIntegrator`. -/
structure FixedStepDims where
  /-- number of discretisation variables, without sensitivities -/
  nv1 : Int
  /-- number of backward discretisation variables, without sensitivities -/
  nrv1 : Int
  /-- number of discretisation variables, with sensitivities -/
  nv : Int
  /-- number of backward discretisation variables, with sensitivities -/
  nrv : Int
  deriving DecidableEq

/-- The block "Get discrete time dimensions" of `FixedStepIntegrator::init`;
`nnz_out_vf` is `F.nnz_out(STEP_VF)` for the step function `F`. -/
def FixedStepIntegrator.step_dims (self : FixedStepIntegrator) (nnz_out_vf : Int) :
    FixedStepDims :=
  let nv1 := nnz_out_vf
  let nrv1 := nv1 * self.base.nadj
  { nv1 := nv1, nrv1 := nrv1, nv := nv1 * (1 + self.base.nfwd),
    nrv := nrv1 * (1 + self.base.nfwd) }

/-- A record kept by the embedding, not a variable of the code: the calls of
`stepF` and `stepB` and the stores into the tapes, in the order in which they
are made. -/
inductive TapeEvent where
  /-- a call of `stepF` with the time `t`, the step length `h`, the `nx`
  entries at `x0`, the `nv` entries at `v0`, and the `nx` entries of `m->x` and
  `nv` entries of `m->v` at the return -/
  | stepF (t h : ℚ) (x0 v0 xf vf : List ℚ)
  /-- a store of `m->x` into the block `block` of `x_tape` -/
  | writeX (block : Int)
  /-- a store of `m->v` into the block `block` of `v_tape` -/
  | writeV (block : Int)
  /-- a call of `stepB` for the tape index `tapeind` with the time `t`, the
  step length `h` and the `nx`, `nx` and `nv` entries at the pointers `x0`,
  `xf` and `vf` -/
  | stepB (tapeind : Int) (t h : ℚ) (x0 xf vf : List ℚ)
  deriving DecidableEq, Repr

/-- The members that `FixedStepMemory` adds to `IntegratorMemory`, and the
record `log` of the tape events (kept by the embedding). -/
structure FixedStepMemory where
  /-- discretisation variables `v`, `nv` entries -/
  v : List ℚ
  /-- work vector `v_prev`, `nv` entries -/
  v_prev : List ℚ
  /-- work vector `q_prev`, `nq` entries -/
  q_prev : List ℚ
  /-- backward discretisation variables `rv`, `nrv` entries -/
  rv : List ℚ
  /-- work vector `adj_u`, `nuq` entries -/
  adj_u : List ℚ
  /-- work vector `adj_p_prev`, `nrq` entries -/
  adj_p_prev : List ℚ
  /-- work vector `adj_u_prev`, `nuq` entries -/
  adj_u_prev : List ℚ
  /-- tape of the states, `disc_.back() + 1` blocks of `nx` entries -/
  x_tape : List ℚ
  /-- tape of the discretisation variables, `disc_.back()` blocks of `nv` entries -/
  v_tape : List ℚ
  /-- tape events so far -/
  log : List TapeEvent
  deriving DecidableEq

/-- The tapes have the sizes allocated by `FixedStepIntegrator::init` for
`nrx_ > 0`: `(disc_.back() + 1) * nx_` entries for `x_tape` and
`disc_.back() * nv_` entries for `v_tape`. -/
def tape_allocated (F : FixedStepIntegrator) (D : FixedStepDims)
    (m : IntegratorMemory FixedStepMemory) : Prop :=
  (m.solver.x_tape.length : Int) = (F.disc.getLastD 0 + 1) * F.base.nx ∧
  (m.solver.v_tape.length : Int) = F.disc.getLastD 0 * D.nv

/-- Embeds `void FixedStepIntegrator::stepF(m, t, h, x0, v0, xf, vf, qf)` for the result
pointers `xf = m->x`, `vf = m->v`, `qf = m->q` of its call in
`advance_noevent`; `x0` and `v0` are the memory at these pointers. The
return flags of `calc_function` are not looked at: a failing call stores
nothing. -/
def stepF (calc_function : CalcFunction)
    (F : FixedStepIntegrator) (D : FixedStepDims) (m : IntegratorMemory FixedStepMemory)
    (t h : ℚ) (x0 v0 : List ℚ) : IntegratorMemory FixedStepMemory :=
  -- Evaluate nondifferentiated
  let m := match calc_function "step"
      [some [t], some [h], some x0, some v0, some m.p, some m.u] with
    | some r =>
      { m with
        x := writeBlock m.x 0 (r.getD STEP_XF.toNat [])
        q := writeBlock m.q 0 (r.getD STEP_QF.toNat [])
        solver := { m.solver with v := writeBlock m.solver.v 0 (r.getD STEP_VF.toNat []) } }
    | none => m
  -- Evaluate sensitivities
  if F.base.nfwd > 0 then
    match calc_function (forward_name "step" F.base.nfwd)
      [some [t], some [h], some x0, some v0, some m.p, some m.u,
        some m.x, some m.solver.v, some m.q,
        none, none, some (x0.drop F.base.nx1.toNat), some (v0.drop D.nv1.toNat),
        some (m.p.drop F.base.np1.toNat), some (m.u.drop F.base.nu1.toNat)] with
    | some r =>
      { m with
        x := writeBlock m.x F.base.nx1.toNat (r.getD STEP_XF.toNat [])
        q := writeBlock m.q F.base.nq1.toNat (r.getD STEP_QF.toNat [])
        solver := { m.solver with
          v := writeBlock m.solver.v D.nv1.toNat (r.getD STEP_VF.toNat []) } }
    | none => m
  else m

/-- Embeds `void FixedStepIntegrator::stepB(m, t, h, x0, xf, vf, adj_xf, rv0, adj_x0, adj_p,
adj_u)` for the pointers `adj_xf = m->tmp1`, `rv0 = m->rv`, `adj_x0 = m->adj_x`,
`adj_p = m->adj_p`, `adj_u = m->adj_u` of its call in `retreat`; `x0`, `xf`
and `vf` are the memory at these pointers. The return flags of
`calc_function` are not looked at: a failing call stores nothing. -/
def stepB (calc_function : CalcFunction)
    (F : FixedStepIntegrator) (D : FixedStepDims) (m : IntegratorMemory FixedStepMemory)
    (t h : ℚ) (x0 xf vf : List ℚ) : IntegratorMemory FixedStepMemory :=
  -- Evaluate nondifferentiated
  let m := match calc_function (reverse_name "step" F.base.nadj)
      [some [t], some [h], some x0, none, some m.p, some m.u, some xf, some vf, none,
        some m.tmp1, some m.solver.rv, some m.adj_q] with
    | some r =>
      { m with
        adj_x := writeBlock m.adj_x 0 (r.getD BSTEP_ADJ_X0.toNat [])
        adj_p := writeBlock m.adj_p 0 (r.getD BSTEP_ADJ_P.toNat [])
        solver := { m.solver with
          adj_u := writeBlock m.solver.adj_u 0 (r.getD BSTEP_ADJ_U.toNat []) } }
    | none => m
  -- Evaluate sensitivities
  if F.base.nfwd > 0 then
    match calc_function (forward_name (reverse_name "step" F.base.nadj) F.base.nfwd)
      [some [t], some [h], some x0, none, some m.p, some m.u, some xf, some vf, none,
        some m.tmp1, some m.solver.rv, some m.adj_q,
        none, none, some m.adj_x, none, some m.adj_p, some m.solver.adj_u,
        none, none, some (x0.drop F.base.nx1.toNat), none,
        some (m.p.drop F.base.np1.toNat), some (m.u.drop F.base.nu1.toNat),
        some (xf.drop F.base.nx1.toNat), some (vf.drop D.nv1.toNat), none,
        some (m.tmp1.drop (F.base.nrx1 * F.base.nadj).toNat),
        some (m.solver.rv.drop D.nrv1.toNat),
        some (m.adj_q.drop (F.base.nrp1 * F.base.nadj).toNat)] with
    | some r =>
      { m with
        adj_x := writeBlock m.adj_x (F.base.nrx1 * F.base.nadj).toNat
          (r.getD BSTEP_ADJ_X0.toNat [])
        adj_p := writeBlock m.adj_p (F.base.nrq1 * F.base.nadj).toNat
          (r.getD BSTEP_ADJ_P.toNat [])
        solver := { m.solver with
          adj_u := writeBlock m.solver.adj_u (F.base.nuq1 * F.base.nadj).toNat
            (r.getD BSTEP_ADJ_U.toNat []) } }
    | none => m
  else m

/-- The body of the loop "Take steps" of `FixedStepIntegrator::advance_noevent`
for the step `j`, with the step length `h`. -/
def advance_substep (calc_function : CalcFunction)
    (F : FixedStepIntegrator) (D : FixedStepDims) (h : ℚ)
    (m : IntegratorMemory FixedStepMemory) (j : Nat) : IntegratorMemory FixedStepMemory :=
  -- Current time
  let t := m.t + (j : ℚ) * h
  -- Update the previous step
  let m := { m with tmp1 := casadi_copy (some m.x) F.base.nx.toNat m.tmp1 0 }
  let m := { m with solver := { m.solver with
    v_prev := casadi_copy (some m.solver.v) D.nv.toNat m.solver.v_prev 0 } }
  let m := { m with solver := { m.solver with
    q_prev := casadi_copy (some m.q) F.base.nq.toNat m.solver.q_prev 0 } }
  -- Take step
  let x0 := readBlock m.tmp1 0 F.base.nx.toNat
  let v0 := readBlock m.solver.v_prev 0 D.nv.toNat
  let m := stepF calc_function F D m t h m.tmp1 m.solver.v_prev
  let m := { m with solver := { m.solver with
    log := m.solver.log ++ [TapeEvent.stepF t h x0 v0 (readBlock m.x 0 F.base.nx.toNat)
      (readBlock m.solver.v 0 D.nv.toNat)] } }
  let m := { m with q := casadi_axpy F.base.nq.toNat 1 m.solver.q_prev m.q 0 }
  -- Save state, if needed
  if F.base.nrx > 0 then
    let tapeind : Int := F.disc.getD m.k.toNat 0 + (j : Int)
    let m := { m with solver := { m.solver with
      x_tape := casadi_copy (some m.x) F.base.nx.toNat m.solver.x_tape
        (F.base.nx * (tapeind + 1)).toNat
      log := m.solver.log ++ [TapeEvent.writeX (tapeind + 1)] } }
    { m with solver := { m.solver with
      v_tape := casadi_copy (some m.solver.v) D.nv.toNat m.solver.v_tape (D.nv * tapeind).toNat
      log := m.solver.log ++ [TapeEvent.writeV tapeind] } }
  else m

/-- Embeds `int FixedStepIntegrator::advance_noevent(IntegratorMemory* mem) const`, which
returns 0. -/
def FixedStepIntegrator.advance_noevent
    (calc_function : CalcFunction)
    (F : FixedStepIntegrator) (D : FixedStepDims) (m : IntegratorMemory FixedStepMemory) :
    IntegratorMemory FixedStepMemory :=
  -- Number of finite elements and time steps
  let nj := F.nj m.k.toNat
  let h := (m.t_next - m.t) / (nj : ℚ)
  -- Take steps
  let m := (List.range nj.toNat).foldl (advance_substep calc_function F D h) m
  -- Save algebraic variables
  { m with z := casadi_copy (some (m.solver.v.drop (D.nv - F.base.nz).toNat)) F.base.nz.toNat m.z 0 }

/-- The body of the loop "Take steps" of `FixedStepIntegrator::retreat` for the
step `j`, with the step length `h`. -/
def retreat_substep (calc_function : CalcFunction)
    (F : FixedStepIntegrator) (D : FixedStepDims) (h : ℚ)
    (m : IntegratorMemory FixedStepMemory) (j : Nat) : IntegratorMemory FixedStepMemory :=
  -- Current time
  let t := m.t_next + (j : ℚ) * h
  -- Update the previous step
  let m := { m with tmp1 := casadi_copy (some m.adj_x) F.base.nrx.toNat m.tmp1 0 }
  let m := { m with solver := { m.solver with
    adj_p_prev := casadi_copy (some m.adj_p) F.base.nrq.toNat m.solver.adj_p_prev 0 } }
  let m := { m with solver := { m.solver with
    adj_u_prev := casadi_copy (some m.solver.adj_u) F.base.nuq.toNat m.solver.adj_u_prev 0 } }
  -- Take step
  let tapeind : Int := F.disc.getD m.k.toNat 0 + (j : Int)
  let x0 := m.solver.x_tape.drop (F.base.nx * tapeind).toNat
  let xf := m.solver.x_tape.drop (F.base.nx * (tapeind + 1)).toNat
  let vf := m.solver.v_tape.drop (D.nv * tapeind).toNat
  let m := { m with solver := { m.solver with
    log := m.solver.log ++ [TapeEvent.stepB tapeind t h (readBlock x0 0 F.base.nx.toNat)
      (readBlock xf 0 F.base.nx.toNat) (readBlock vf 0 D.nv.toNat)] } }
  let m := stepB calc_function F D m t h x0 xf vf
  let m := { m with solver := { m.solver with rv := casadi_clear D.nrv.toNat m.solver.rv 0 } }
  let m := { m with adj_p := casadi_axpy F.base.nrq.toNat 1 m.solver.adj_p_prev m.adj_p 0 }
  { m with solver := { m.solver with
    adj_u := casadi_axpy F.base.nuq.toNat 1 m.solver.adj_u_prev m.solver.adj_u 0 } }

/-- Embeds `void FixedStepIntegrator::retreat(mem, u, adj_x, adj_p, adj_u)`: the memory
at the return and what is stored through the output pointers. -/
def FixedStepIntegrator.retreat
    (calc_function : CalcFunction)
    (F : FixedStepIntegrator) (D : FixedStepDims) (m : IntegratorMemory FixedStepMemory)
    (u : Option (List ℚ)) : IntegratorMemory FixedStepMemory × RetreatOut :=
  -- Set controls
  let m := { m with u := casadi_copy u F.base.nu.toNat m.u 0 }
  -- Number of finite elements and time steps
  let nj := F.nj m.k.toNat
  let h := (m.t - m.t_next) / (nj : ℚ)
  -- Take steps
  let m := (List.range nj.toNat).reverse.foldl (retreat_substep calc_function F D h) m
  -- Return to user
  (m, { adj_x := readBlock m.adj_x 0 F.base.nrx.toNat
        adj_p := readBlock m.adj_p 0 F.base.nrq.toNat
        adj_u := readBlock m.solver.adj_u 0 F.base.nuq.toNat })

/-- Embeds `void FixedStepIntegrator::reset(IntegratorMemory* mem, bool first_call) const`;
`base_reset` is `Integrator::reset` and `nan` stands for the value
`quiet_NaN()`, which the rationals lack. -/
def FixedStepIntegrator.reset
    (base_reset : IntegratorMemory FixedStepMemory → Bool → IntegratorMemory FixedStepMemory)
    (F : FixedStepIntegrator) (D : FixedStepDims) (nan : ℚ)
    (m : IntegratorMemory FixedStepMemory) (first_call : Bool) :
    IntegratorMemory FixedStepMemory :=
  -- Reset the base classes
  let m := base_reset m first_call
  -- Only reset once
  if first_call then
    -- Get consistent initial conditions
    let m := { m with solver := { m.solver with
      v := writeBlock m.solver.v 0 (List.replicate D.nv.toNat nan) } }
    -- Add the first element in the tape
    if F.base.nrx > 0 then
      { m with solver := { m.solver with
        x_tape := casadi_copy (some m.x) F.base.nx.toNat m.solver.x_tape 0
        log := m.solver.log ++ [TapeEvent.writeX 0] } }
    else m
  else m

/-- Embeds `void FixedStepIntegrator::resetB(IntegratorMemory* mem) const`. -/
def FixedStepIntegrator.resetB (F : FixedStepIntegrator) (D : FixedStepDims)
    (m : IntegratorMemory FixedStepMemory) : IntegratorMemory FixedStepMemory :=
  -- Clear adjoint seeds
  let m := { m with adj_q := casadi_clear F.base.nrp.toNat m.adj_q 0 }
  let m := { m with adj_x := casadi_clear F.base.nrx.toNat m.adj_x 0 }
  -- Reset summation states
  let m := { m with adj_p := casadi_clear F.base.nrq.toNat m.adj_p 0 }
  let m := { m with solver := { m.solver with
    adj_u := casadi_clear F.base.nuq.toNat m.solver.adj_u 0 } }
  -- Update backwards dependent variables
  { m with solver := { m.solver with rv := casadi_clear D.nrv.toNat m.solver.rv 0 } }

/-- Embeds `void FixedStepIntegrator::impulseB(mem, adj_x, adj_z, adj_q)`; a null input
pointer is taken as a vector of zeros. -/
def FixedStepIntegrator.impulseB (F : FixedStepIntegrator) (D : FixedStepDims)
    (m : IntegratorMemory FixedStepMemory) (adj_x adj_z adj_q : Option (List ℚ)) :
    IntegratorMemory FixedStepMemory :=
  -- Add impulse to backward parameters
  let m := { m with adj_q := casadi_axpy F.base.nrp.toNat 1 (adj_q.getD []) m.adj_q 0 }
  -- Add impulse to state
  let m := { m with adj_x := casadi_axpy F.base.nrx.toNat 1 (adj_x.getD []) m.adj_x 0 }
  -- Add impulse to backwards dependent variables
  { m with solver := { m.solver with
    rv := casadi_axpy F.base.nrz.toNat 1 (adj_z.getD []) m.solver.rv
      (D.nrv - F.base.nrz).toNat } }

/-- The virtual functions of the forward sweep as `FixedStepIntegrator`
implements them. -/
def FixedStepIntegrator.collaborators
    (calc_function : CalcFunction)
    (base_reset : IntegratorMemory FixedStepMemory → Bool → IntegratorMemory FixedStepMemory)
    (F : FixedStepIntegrator) (D : FixedStepDims) (nan : ℚ) : Collaborators FixedStepMemory where
  calc_function := calc_function
  reset := F.reset base_reset D nan
  advance_noevent := fun m => some (F.advance_noevent calc_function D m)

/-- The virtual functions of the backward sweep as `FixedStepIntegrator`
implements them. -/
def FixedStepIntegrator.backward
    (calc_function : CalcFunction)
    (F : FixedStepIntegrator) (D : FixedStepDims) : BackwardCollaborators FixedStepMemory where
  resetB := F.resetB D
  impulseB := F.impulseB D
  retreat := fun m u _ => F.retreat calc_function D m u

/-- Modelled from the spec: what `Integrator::reset`, which
`FixedStepIntegrator::reset` calls first, leaves as it is: the bookkeeping of
the driver, the state `x`, the members of `FixedStepMemory` and the size of
the work vector `tmp1`. -/
structure BaseResetFrame
    (base_reset : IntegratorMemory FixedStepMemory → Bool → IntegratorMemory FixedStepMemory) :
    Prop where
  /-- bookkeeping of the driver -/
  bookkeeping : ∀ m b, SameBookkeeping m (base_reset m b)
  /-- the state -/
  state : ∀ m b, (base_reset m b).x = m.x
  /-- the members of the derived memory class -/
  solver : ∀ m b, (base_reset m b).solver = m.solver
  /-- the size of the work vector `tmp1` -/
  scratch : ∀ m b, (base_reset m b).tmp1.length = m.tmp1.length

/-- What the record of tape events keeps of a call of `stepF`: time, step
length, the states and discretisation variables before and after the step. -/
structure StepRecord where
  /-- time of the step -/
  t : ℚ
  /-- step length -/
  h : ℚ
  /-- state before the step -/
  x0 : List ℚ
  /-- discretisation variables before the step -/
  v0 : List ℚ
  /-- state after the step -/
  xf : List ℚ
  /-- discretisation variables after the step -/
  vf : List ℚ

/-- The tape events of the forward step with the global index `i`: the call
of `stepF` and the stores into the block `i + 1` of `x_tape` and the block
`i` of `v_tape`. -/
def forward_events (i : Nat) (r : StepRecord) : List TapeEvent :=
  [TapeEvent.stepF r.t r.h r.x0 r.v0 r.xf r.vf, TapeEvent.writeX ((i : Int) + 1),
    TapeEvent.writeV (i : Int)]

/-- The tape event of the backward step for the tape index `i`: the call of
`stepB` with the time and step length of the forward step `i`, its state
before the step as `x0` and its state and discretisation variables after
the step as `xf` and `vf`. -/
def backward_event (i : Nat) (r : StepRecord) : TapeEvent :=
  TapeEvent.stepB (i : Int) r.t r.h r.x0 r.xf r.vf

/-- The tape events of the forward steps `lo, lo + 1, ..., lo + n - 1`, in
increasing order. -/
def forward_events_from (steps : Nat → StepRecord) (lo n : Nat) : List TapeEvent :=
  (List.range n).flatMap fun j => forward_events (lo + j) (steps (lo + j))

/-- The tape events of the backward steps for the tape indices
`lo + n - 1, ..., lo + 1, lo`, in decreasing order. -/
def backward_events_from (steps : Nat → StepRecord) (lo n : Nat) : List TapeEvent :=
  (List.range n).reverse.map fun j => backward_event (lo + j) (steps (lo + j))

/-- The block of `x_tape` that a tape event stores, if any. -/
def TapeEvent.xBlock : TapeEvent → Option Int
  | TapeEvent.writeX b => some b
  | _ => none

/-- The block of `v_tape` that a tape event stores, if any. -/
def TapeEvent.vBlock : TapeEvent → Option Int
  | TapeEvent.writeV b => some b
  | _ => none

/-- The tape index of a call of `stepB`, if the tape event is one. -/
def TapeEvent.tapeind : TapeEvent → Option Int
  | TapeEvent.stepB i _ _ _ _ _ => some i
  | _ => none

/-- The time at which the grid interval `k` starts: `t0` for the first
interval, the preceding output time otherwise. -/
def grid_start (I : Integrator) (k : Nat) : ℚ :=
  if k = 0 then I.t0 else I.tout.getD (k - 1) 0

/-- The step length `h` in the grid interval `k`, as `advance_noevent` and
`retreat` compute it in an event-free sweep. -/
def grid_step (F : FixedStepIntegrator) (k : Nat) : ℚ :=
  (F.base.tout.getD k 0 - grid_start F.base k) / ((F.nj k : Int) : ℚ)

/-- The memory that the loop "Keep integrating" of `eval` hands to
`advance_noevent` in the grid interval `k` when there are no zero-crossing
functions: after the head of the loop body, the reset of the solver if it is
due, and the start of the first event iteration. -/
def noevent_entry {σ : Type} (C : Collaborators σ) (I : Integrator) (s : ForwardState σ)
    (k : Nat) : IntegratorMemory σ :=
  let s0 := interval_begin I s k
  let m := if s0.m.reset_solver then { C.reset s0.m s0.first_call with reset_solver := false }
    else s0.m
  { m with event_iter := 0 + 1, event_index := -1 }

/-- The value of the local `first_call` of `eval` after the grid interval
`k`. -/
def noevent_first_call {σ : Type} (I : Integrator) (s : ForwardState σ) (k : Nat) : Bool :=
  if (interval_begin I s k).m.reset_solver then false else (interval_begin I s k).first_call

/-- The memory after the first `j` passes of the loop "Take steps" of
`advance_noevent` with the step length `h`. -/
def substep_memory (calc_function : CalcFunction) (F : FixedStepIntegrator) (D : FixedStepDims)
    (h : ℚ) (m : IntegratorMemory FixedStepMemory) (j : Nat) : IntegratorMemory FixedStepMemory :=
  (List.range j).foldl (advance_substep calc_function F D h) m

/-- The step made by the pass `j` of the loop "Take steps" of
`advance_noevent` with the step length `h`: its time, and the states and
discretisation variables before and after it. -/
def substep_record (calc_function : CalcFunction) (F : FixedStepIntegrator) (D : FixedStepDims)
    (h : ℚ) (m : IntegratorMemory FixedStepMemory) (j : Nat) : StepRecord where
  t := m.t + (j : ℚ) * h
  h := h
  x0 := readBlock (substep_memory calc_function F D h m j).x 0 F.base.nx.toNat
  v0 := readBlock (substep_memory calc_function F D h m j).solver.v 0 D.nv.toNat
  xf := readBlock (substep_memory calc_function F D h m (j + 1)).x 0 F.base.nx.toNat
  vf := readBlock (substep_memory calc_function F D h m (j + 1)).solver.v 0 D.nv.toNat

/-- The state of the tapes and of the record of tape events after the first
`n` grid intervals of an event-free forward sweep, for the steps `steps`:
the steps `0, ..., disc_[n] - 1` have been made in this order, the block `i`
of `x_tape` holds the state before the step `i`, the block `i + 1` of
`x_tape` and the block `i` of `v_tape` hold the state and the discretisation
variables after it, the last block stored holds the current state, and the
step `j` of the grid interval `k` has been made at the time
`grid_start k + j * grid_step k` with the step length `grid_step k`. -/
def TapeInv (F : FixedStepIntegrator) (D : FixedStepDims) (steps : Nat → StepRecord) (n : Nat)
    (m : IntegratorMemory FixedStepMemory) : Prop :=
  m.solver.log = TapeEvent.writeX 0 :: forward_events_from steps 0 (F.disc.getD n 0).toNat ∧
  (∀ i, i < (F.disc.getD n 0).toNat →
    readBlock m.solver.x_tape (F.base.nx.toNat * i) F.base.nx.toNat = (steps i).x0 ∧
    readBlock m.solver.x_tape (F.base.nx.toNat * (i + 1)) F.base.nx.toNat = (steps i).xf ∧
    readBlock m.solver.v_tape (D.nv.toNat * i) D.nv.toNat = (steps i).vf) ∧
  readBlock m.solver.x_tape (F.base.nx.toNat * (F.disc.getD n 0).toNat) F.base.nx.toNat =
    readBlock m.x 0 F.base.nx.toNat ∧
  (∀ k j : Nat, k < n → (j : Int) < F.nj k →
    (steps ((F.disc.getD k 0).toNat + j)).t =
      grid_start F.base k + (j : ℚ) * grid_step F k ∧
    (steps ((F.disc.getD k 0).toNat + j)).h = grid_step F k)

/-- The vector `disc_` has one entry per grid point and one for the initial
time, starts at 0 and does not decrease. -/
def disc_shape (F : FixedStepIntegrator) : Prop :=
  F.disc.length = F.base.tout.length + 1 ∧ F.disc.getD 0 0 = 0 ∧
  ∀ k, k < F.base.tout.length → F.disc.getD k 0 ≤ F.disc.getD (k + 1) 0

/-- The sizes of the vectors of the memory that the steps rely on: the tapes
as allocated by `init`, at least `nx` entries in `tmp1` and at least `nv`
entries in `v_prev`. -/
def work_allocated (F : FixedStepIntegrator) (D : FixedStepDims)
    (m : IntegratorMemory FixedStepMemory) : Prop :=
  tape_allocated F D m ∧ F.base.nx.toNat ≤ m.tmp1.length ∧
  D.nv.toNat ≤ m.solver.v_prev.length

/-- Invariant of the loop "Integrate forward" of `eval` for a fixed-step
integrator with adjoint support and without zero-crossing functions, after
`n` grid intervals: no reset of the solver is due, the time is the start of
the grid interval `n`, the work vectors have their sizes, and either no
interval has been integrated, the first reset is still to come, no tape
event has been recorded and the state is the initial state `x0`, or the
block 0 of `x_tape` holds `x0` and the tapes and the record of tape events
are in the state `TapeInv` for some steps. -/
def ForwardTapeInv (F : FixedStepIntegrator) (D : FixedStepDims) (x0 : List ℚ) (n : Nat)
    (s : ForwardState FixedStepMemory) : Prop :=
  s.m.reset_solver = false ∧ s.m.t = grid_start F.base n ∧ work_allocated F D s.m ∧
  ((n = 0 ∧ s.first_call = true ∧ s.k_stop = -1 ∧ s.m.solver.log = [] ∧
      readBlock s.m.x 0 F.base.nx.toNat = x0) ∨
    (0 < n ∧ s.first_call = false ∧
      readBlock s.m.solver.x_tape (F.base.nx.toNat * 0) F.base.nx.toNat = x0 ∧
      ∃ steps : Nat → StepRecord, TapeInv F D steps n s.m))

/-- The tape event that the pass `j` of the loop "Take steps" of
`FixedStepIntegrator::retreat` records for the memory `m` at the entry of
`retreat` and the step length `h`: the call of `stepB` for the tape index
`disc_[m->k] + j` at the time `m->t_next + j * h`, with the blocks of the
tapes at this index. -/
def retreat_event (F : FixedStepIntegrator) (D : FixedStepDims)
    (m : IntegratorMemory FixedStepMemory) (h : ℚ) (j : Nat) : TapeEvent :=
  TapeEvent.stepB (F.disc.getD m.k.toNat 0 + (j : Int)) (m.t_next + (j : ℚ) * h) h
    (readBlock m.solver.x_tape (F.base.nx * (F.disc.getD m.k.toNat 0 + (j : Int))).toNat
      F.base.nx.toNat)
    (readBlock m.solver.x_tape (F.base.nx * (F.disc.getD m.k.toNat 0 + (j : Int) + 1)).toNat
      F.base.nx.toNat)
    (readBlock m.solver.v_tape (D.nv * (F.disc.getD m.k.toNat 0 + (j : Int))).toNat D.nv.toNat)

/-- The state in which `eval` enters the loop "Integrate backward" with the
memory `m` left by the forward sweep, for a fixed-step integrator: the
solver has been reset for the backward sweep and `k_stop` is `nt`. -/
def backward_entry (F : FixedStepIntegrator) (D : FixedStepDims)
    (m : IntegratorMemory FixedStepMemory) (adj_x adj_p adj_u : List ℚ) :
    BackwardState FixedStepMemory :=
  { m := F.resetB D m, k_stop := F.base.nt, any_impulse := false, adj_x := adj_x,
    adj_p := adj_p, adj_u := adj_u, calls := [] }

/-! ## Count of the triggered events -/

/-- The number of calls of `trigger_event` that return 0 in the loop
`while (m->event_index >= 0)` of `eval`, run for at most `fuel` passes from
the memory `m` (a count kept by the embedding; a failing call ends the loop
and is not counted). -/
def trigger_loop_count {σ : Type} (C : Collaborators σ) (I : Integrator) :
    Nat → IntegratorMemory σ → Nat
  | 0, _ => 0
  | fuel + 1, m =>
    if m.event_index ≥ 0 then
      match trigger_event C I m with
      | .error _ => 0
      | .ok m1 => 1 + trigger_loop_count C I fuel { m1 with reset_solver := true }
    else 0

/-- The number of calls of `trigger_event` that return 0 in the block
"Trigger all event, if any" of `eval`. -/
def trigger_all_count {σ : Type} (C : Collaborators σ) (I : Integrator) (fuel : Nat)
    (m : IntegratorMemory σ) : Nat :=
  if m.event_index ≥ 0 then
    trigger_loop_count C I fuel { m with
      event_triggered := writeBlock m.event_triggered 0 (List.replicate I.ne.toNat 0) }
  else 0

/-- The number of calls of `trigger_event` that return 0 in one pass of the
loop "Keep integrating until we reach the next output time" of `eval`; when
`advance` fails no call is made. -/
def integrate_pass_count {σ : Type} (C : Collaborators σ) (I : Integrator) (fuel : Nat)
    (s : Bool × IntegratorMemory σ) : Nat :=
  let s := if s.2.reset_solver then
      (false, { C.reset s.2 s.1 with reset_solver := false })
    else s
  match advance C I fuel s.2 with
  | .error _ => 0
  | .ok m => trigger_all_count C I fuel m

/-- The number of calls of `trigger_event` that return 0 in the loop
`do ... while (m->t != m->t_next)` of `eval`, run for at most `n` passes; a
failing pass ends the loop. -/
def integrate_loop_count {σ : Type} (C : Collaborators σ) (I : Integrator) (fuel : Nat) :
    Nat → Bool × IntegratorMemory σ → Nat
  | 0, _ => 0
  | n + 1, s =>
    integrate_pass_count C I fuel s +
      match integrate_pass C I fuel s with
      | .error _ => 0
      | .ok s1 => if s1.2.t ≠ s1.2.t_next then integrate_loop_count C I fuel n s1 else 0

/-- The number of calls of `trigger_event` that return 0 in the body of the
loop "Integrate forward" of `eval` for the grid index `k`. -/
def eval_interval_count {σ : Type} (C : Collaborators σ) (I : Integrator) (fuel : Nat)
    (s : ForwardState σ) (k : Nat) : Nat :=
  integrate_loop_count C I fuel fuel ((interval_begin I s k).first_call, (interval_begin I s k).m)

/-- The number of calls of `trigger_event` that return 0 in the first `n`
passes of the loop "Integrate forward" of `eval`, started from the state
`s`; a failing pass ends the sweep. -/
def forward_intervals_count {σ : Type} (C : Collaborators σ) (I : Integrator) (fuel : Nat)
    (s : ForwardState σ) : Nat → Nat
  | 0 => 0
  | n + 1 =>
    forward_intervals_count C I fuel s n +
      match forward_intervals C I fuel s n with
      | .error _ => 0
      | .ok s1 => eval_interval_count C I fuel s1 n

/-! ## Sample configurations -/

/-- A dense column vector of `n` entries. -/
def denseVector (n : Int) : SparsityInfo where
  is_empty := decide (n = 0)
  is_scalar := decide (n = 1)
  is_vector := true
  is_dense := true
  numel := n

/-- Sample DAE oracle: 2 states, 1 algebraic variable, 3 parameters, 1 control,
2 quadratures, 1 zero-crossing function. -/
def sampleOracle : FunctionInfo where
  n_in := 5
  n_out := 4
  sparsity_in := fun i => denseVector (if i = 0 then 1 else if i = 1 then 2 else if i = 2 then 1
    else if i = 3 then 3 else 1)
  sparsity_out := fun i => denseVector (if i = 0 then 2 else if i = 1 then 1 else if i = 2 then 2
    else 1)

/-- Reverse-mode derivative of `sampleOracle` with `nadj` directions. -/
def sampleReverse (nadj : Int) : FunctionInfo where
  n_in := 13
  n_out := 5
  sparsity_in := fun i => denseVector (if i = 1 then 2 else if i = 2 then 1 else if i = 3 then 3
    else if i = 4 then 1 else if i = 9 then 2 * nadj else if i = 10 then 1 * nadj
    else if i = 11 then 2 * nadj else 1)
  sparsity_out := fun i => denseVector (if i = 3 then 3 * nadj else if i = 4 then 1 * nadj else 1)

/-- Sample collaborators of `init`. -/
def sampleEnv : InitEnv where
  oracle := sampleOracle
  reverse := sampleReverse
  sp_jac_dae_singular := false
  sp_jac_rdae_singular := false

/-- Sample options: two forward and three adjoint directions. -/
def sampleOpts : Dict := [("nadj", { to_int := 3 }), ("nfwd", { to_int := 2 })]

/-- The object configured by `init` from `sampleOpts`. -/
def sampleIntegrator : Integrator :=
  { Integrator.new 0 [1, 2] with
    nfwd := 2, nadj := 3, nx1 := 2, nz1 := 1, nq1 := 2, np1 := 3, nu1 := 1, ne := 1,
    nrx1 := 2, nrz1 := 1, nrp1 := 2, nrq1 := 3, nuq1 := 1,
    nx := 6, nz := 3, nq := 6, np := 9, nu := 3,
    nrx := 18, nrz := 9, nrp := 18, nrq := 27, nuq := 9, ntmp := 27 }

/-- Sample numerical functions for the DAE `x' = 0` with the zero-crossing
function `1/4 - t^2`: "dae" returns `(ode, alg, quad, zero)`, its
forward-mode derivative in the time direction returns the derivative
`-2 t` of the zero-crossing function. -/
def sampleCalc (name : String) (arg : List (Option (List ℚ))) : Option (List (List ℚ)) :=
  let t : ℚ := ((arg.getD 0 none).getD []).getD 0 0
  if name = "dae" then some [[0], [], [], [1 / 4 - t * t]]
  else if name = "fwd1_dae" then some [[0], [], [], [- 2 * t]]
  else none

/-- Sample step strategy for `x' = 0`: the state stays as it is. -/
def sampleCollaborators : Collaborators Unit where
  calc_function := sampleCalc
  reset := fun m _ => m
  advance_noevent := fun m => some m

/-- Sample configuration: one state, one zero-crossing function, no
sensitivities, no transition function, output times 1 and 2. -/
def eventIntegrator : Integrator :=
  { Integrator.new 0 [1, 2] with nx1 := 1, ne := 1, nx := 1, np := 0, ntmp := 1 }

/-- The sample configuration with a finite acceptable tolerance `1/100`. -/
def strictIntegrator : Integrator :=
  { eventIntegrator with event_acceptable_tol := ((1 / 100 : ℚ) : WithTop ℚ) }

/-- Sample memory for `eventIntegrator`: state `x = 1`, scratch `tmp2 = 7`. -/
def sampleMemory : IntegratorMemory Unit where
  q := []
  x := [1]
  z := []
  p := []
  u := []
  e := [0]
  edot := [0]
  old_e := [0]
  xdot := [0]
  zdot := []
  event_triggered := [0]
  adj_x := []
  adj_z := []
  adj_p := []
  adj_q := []
  tmp1 := [0]
  tmp2 := [7]
  k := 0
  t := 0
  t_next := 1
  t_next_out := 1
  t_stop := 2
  t_start := 0
  t_step := 2
  event_iter := 0
  event_index := -1
  num_events := 0
  reset_solver := false
  solver := ()

/-- The memory `sampleMemory` after the statements of `advance` that precede
the event iterations: `e` and `old_e` hold the zero-crossing value `1/4` at
time 0. -/
def sampleEntry : IntegratorMemory Unit :=
  { sampleMemory with e := [1 / 4], old_e := [1 / 4] }

/-- The memory after the first event iteration from `sampleEntry`: the time
is 1, the zero-crossing value is `-3/4` with derivative `-2`, and the
zero-crossing estimate `5/8` is the new `t_next`. -/
def samplePass1 : IntegratorMemory Unit :=
  { sampleEntry with
    e := [-3 / 4], edot := [-2], t := 1, t_next := 5 / 8, t_stop := 1,
    event_iter := 1, event_index := 0 }

/-- The memory after `trigger_event` for the event 0, started from
`sampleMemory` with that event selected: the state `x` holds the content `7`
of the scratch vector `tmp2`. -/
def sampleTriggered : IntegratorMemory Unit :=
  { sampleMemory with
    x := [7], e := [1 / 4], event_triggered := [1], num_events := 1, event_index := -1 }

/-- Sample inputs of `eval`: initial state `x0 = 1`, no controls, no seeds. -/
def sampleArgs : EvalArgs where
  x0 := some [1]
  z0 := none
  p := none
  u := none
  adj_xf := none
  adj_zf := none
  adj_qf := none

/-- Sample DAE oracle with one state and five zero-crossing functions. -/
def manyEventsOracle : FunctionInfo where
  n_in := 5
  n_out := 4
  sparsity_in := fun i => denseVector (if i = 0 then 1 else if i = 1 then 1 else 0)
  sparsity_out := fun i => denseVector (if i = 0 then 1 else if i = 3 then 5 else 0)

/-- Sample collaborators of `init` for `manyEventsOracle`. -/
def manyEventsEnv : InitEnv where
  oracle := manyEventsOracle
  reverse := sampleReverse
  sp_jac_dae_singular := false
  sp_jac_rdae_singular := false

/-- The object configured by `init` for `manyEventsOracle` with two forward
directions: `ntmp = max(3 + 0, 0 + 0, 5) = 5`. -/
def manyEventsIntegrator : Integrator :=
  { Integrator.new 0 [1] with
    nfwd := 2, nx1 := 1, ne := 5, nx := 3, np := 0, ntmp := 5 }

/-- Sample memory in the second grid interval, after the step to the output
time 2: the zero-crossing function has not been triggered in this interval
and its value `-15/4` is negative, but its value `old_e` at the start of the
interval was already negative. -/
def sampleSkipped : IntegratorMemory Unit :=
  { sampleMemory with
    e := [-15 / 4], edot := [-4], old_e := [-3 / 4], k := 1, t := 2, t_next := 2,
    t_next_out := 2, t_start := 1, event_iter := 1 }

/-- Sample memory in the first event iteration of the first grid interval,
after the step to the output time 1 and before the detection of events. -/
def sampleDetectIn : IntegratorMemory Unit :=
  { sampleEntry with e := [-3 / 4], edot := [-2], t := 1, event_iter := 1 }

/-- Sample memory at the start of the second grid interval `[1, 2]`. -/
def sampleSecond : IntegratorMemory Unit :=
  { sampleMemory with k := 1, t := 1, t_next := 2, t_next_out := 2, t_start := 1 }

/-- Sample configuration with one control and the output times 1, 2, 3. -/
def controlIntegrator : Integrator :=
  { Integrator.new 0 [1, 2, 3] with nx1 := 1, nu1 := 1, nx := 1, nu := 1, ntmp := 1 }

/-- Sample options that use the legacy keys `t0` and `tf`. -/
def legacyOpts : Dict :=
  [("t0", { to_double := ((2 : ℚ) : WithTop ℚ) }), ("tf", { to_double := ((5 : ℚ) : WithTop ℚ) })]

/-- The object configured by `init` from the constructor values `t0 = 0`,
`tout = [1]` with the options `legacyOpts` on the sample oracle. -/
def legacyIntegrator : Integrator :=
  { Integrator.new 2 [5] with
    nx1 := 2, nz1 := 1, nq1 := 2, np1 := 3, nu1 := 1, ne := 1,
    nx := 2, nz := 1, nq := 2, np := 3, nu := 1, ntmp := 3 }

/-- Sample fixed-step object: the sample oracle on the grid `t0 = 0`,
`tout = [1, 1, 3]` with 4 target elements, hence `h_target = 3/4` and
`disc_ = [0, 2, 2, 5]`. -/
def sampleFixedStep : FixedStepIntegrator :=
  { base := { Integrator.new 0 [1, 1, 3] with
      nx1 := 2, nz1 := 1, nq1 := 2, np1 := 3, nu1 := 1, ne := 1,
      nx := 2, nz := 1, nq := 2, np := 3, nu := 1, ntmp := 3 },
    nk_target := 4,
    disc := [0, 2, 2, 5] }

/-- Sample options: four finite elements. -/
def fixedStepOpts : Dict := [("number_of_finite_elements", { to_int := 4 })]

/-- Sample step strategy for the backward sweep: the virtual functions leave
the memory as it is and `retreat` stores ones through its output
pointers. -/
def sampleBackward : BackwardCollaborators Unit where
  resetB := fun m => m
  impulseB := fun m _ _ _ => m
  retreat := fun m _ _ => (m, { adj_x := [1], adj_p := [], adj_u := [1] })

/-- Sample configuration with one state, one control, one adjoint direction
and the output times 1, 2, 3. -/
def adjointIntegrator : Integrator :=
  { Integrator.new 0 [1, 2, 3] with
    nadj := 1, nx1 := 1, nu1 := 1, nrx1 := 1, nuq1 := 1, nx := 1, np := 0, nu := 1,
    nrx := 1, nuq := 1, ntmp := 1 }

/-- Sample inputs of `eval` with the adjoint seed `adj_xf = (0, 1, 0)`: the
only nonzero seed sits at the grid index 1. -/
def seedArgs : EvalArgs where
  x0 := some [1]
  z0 := none
  p := none
  u := some [5, 5, 6]
  adj_xf := some [0, 1, 0]
  adj_zf := none
  adj_qf := none

/-- Sample inputs of `eval` for `controlIntegrator`: the control values 5, 5,
6 at the three output times. -/
def controlArgs : EvalArgs where
  x0 := some [1]
  z0 := none
  p := none
  u := some [5, 5, 6]
  adj_xf := none
  adj_zf := none
  adj_qf := none

/-- Sample memory for `controlIntegrator`, with a control vector of one
entry. -/
def controlMemory : IntegratorMemory Unit :=
  { sampleMemory with u := [0], e := [], edot := [], old_e := [], event_triggered := [] }

/-- Sample collaborators of `init` whose forward pattern is reported as
structurally singular. -/
def singularEnv : InitEnv :=
  { sampleEnv with sp_jac_dae_singular := true }

/-- Sample Jacobian patterns for two states and one algebraic variable: `ode`
depends on `x` only and `alg` depends on `x` only, so that `z` appears
nowhere. -/
def sampleJac : JacSparsity where
  ode_x := { size1 := 2, size2 := 2, nz := fun _ _ => true }
  ode_z := Sparsity.zeros 2 1
  alg_x := { size1 := 1, size2 := 2, nz := fun _ _ => true }
  alg_z := Sparsity.zeros 1 1

/-- Jacobian patterns of a pure ODE with one state whose right-hand side
does not depend on the state: all four patterns are empty. -/
def odeJac : JacSparsity where
  ode_x := Sparsity.zeros 1 1
  ode_z := Sparsity.zeros 1 0
  alg_x := Sparsity.zeros 0 1
  alg_z := Sparsity.zeros 0 0

/-- Collaborators of `init` for the pure ODE `manyEventsOracle` whose
structural rank check is made on the pattern built by `sp_jac_dae`. -/
def odeEnv : InitEnv :=
  { manyEventsEnv with
    sp_jac_dae_singular := (sp_jac_dae manyEventsIntegrator odeJac odeJac).is_singular }

/-- Sample configuration for `sp_forward`: one state and two algebraic
variables, one parameter, no sensitivities, one output time. -/
def spDaeIntegrator : Integrator :=
  { Integrator.new 0 [1] with nx1 := 1, nz1 := 2, np1 := 1, nx := 1, nz := 2, np := 1, ntmp := 3 }

/-- Sample dependency propagation: in "daeF" the derivative of the state
depends on the state, the first algebraic residual on the state and the
second on the parameter; in "daeB" each adjoint derivative depends on its
seed and on the control. The scratch space is left as it is and the
structural solves return the right-hand side. -/
def spCollaborators : SpCollaborators where
  calc_sp_forward := fun name arg scratch =>
    let x := ((arg.getD 1 none).getD []).getD 0 0
    let p := ((arg.getD 3 none).getD []).getD 0 0
    let u := ((arg.getD 4 none).getD []).getD 0 0
    let adj_ode := (arg.getD 9 none).getD []
    if name = "daeF" then some ([[x], [x, p]], scratch)
    else if name = "daeB" then some ([[adj_ode.getD 0 0 ||| u, adj_ode.getD 1 0 ||| u], []], scratch)
    else none
  spsolve_dae := fun b => (b, b)
  spsolve_rdae := fun b => (b, b)

/-- Sample inputs of `sp_forward` for `spDaeIntegrator`: the state carries
the dependency bit 1 and the parameter the bit 2. -/
def spDaeArgs : SpArgs where
  x0 := some [1]
  p := some [2]
  u := none
  adj_xf := none
  adj_qf := none

/-- Sample vector `w` (one word for `x`, three for `tmp1`, four words of
scratch space, all zero) and output buffers for `spDaeIntegrator`. -/
def spDaeState : SpState where
  w := [0, 0, 0, 0, 0, 0, 0, 0]
  xf := some [0]
  zf := some [0, 0]
  qf := none
  adj_x0 := none
  adj_p0 := none
  adj_u := none
  rhs := []

/-- Sample configuration for `sp_forward` with two adjoint directions: one
state, one control, no sensitivities, two output times. -/
def spAdjIntegrator : Integrator :=
  { Integrator.new 0 [1, 2] with
    nadj := 2, nx1 := 1, nu1 := 1, nrx1 := 1, nuq1 := 1, nx := 1, nu := 1, nrx := 2, nuq := 2,
    np := 0, ntmp := 2 }

/-- Sample inputs of `sp_forward` for `spAdjIntegrator`: the control at the
second grid point carries the dependency bit 32, the two adjoint seeds at
the second grid point carry the bits 4 and 8. -/
def spAdjArgs : SpArgs where
  x0 := some [1]
  p := none
  u := some [0, 32]
  adj_xf := some [0, 0, 4, 8]
  adj_qf := none

/-- Sample vector `w` (one word for `x`, two for `adj_x`, one for `tmp1`, two
for `tmp2`, four words of scratch space, all zero) and output buffers for
`spAdjIntegrator`. -/
def spAdjState : SpState where
  w := [0, 0, 0, 0, 0, 0, 0, 0, 0, 0]
  xf := none
  zf := none
  qf := none
  adj_x0 := some [0, 0]
  adj_p0 := none
  adj_u := none
  rhs := []

/-- Sample fixed-step configuration: one state, one adjoint direction, the
output times 1 and 3 and three finite elements, so that `disc_ = [0, 1, 3]`. -/
def tapeIntegrator : FixedStepIntegrator where
  base :=
    { Integrator.new 0 [1, 3] with
      nadj := 1, nx1 := 1, nrx1 := 1, nx := 1, nrx := 1, np := 0, ntmp := 1 }
  nk_target := 3
  disc := [0, 1, 3]

/-- The discrete time dimensions of `tapeIntegrator` for a step function
with one discretisation variable. -/
def tapeDims : FixedStepDims := tapeIntegrator.step_dims 1

/-- Sample numerical functions for `tapeIntegrator`: the step function adds
the step length to the state and returns the time as discretisation
variable; its reverse-mode derivative hands the adjoint seed on. -/
def tapeCalc : CalcFunction := fun name arg =>
  let t : ℚ := ((arg.getD 0 none).getD []).getD 0 0
  let h : ℚ := ((arg.getD 1 none).getD []).getD 0 0
  let x0 : ℚ := ((arg.getD 2 none).getD []).getD 0 0
  if name = "step" then some [[x0 + h], [t], []]
  else if name = "adj1_step" then
    some [[], [], [((arg.getD 9 none).getD []).getD 0 0], [], [], []]
  else none

/-- Sample memory for `tapeIntegrator`: four entries of `x_tape`, three of
`v_tape`, no tape events. -/
def tapeMemory : IntegratorMemory FixedStepMemory where
  q := []
  x := [0]
  z := []
  p := []
  u := []
  e := []
  edot := []
  old_e := []
  xdot := [0]
  zdot := []
  event_triggered := []
  adj_x := [0]
  adj_z := []
  adj_p := []
  adj_q := []
  tmp1 := [0]
  tmp2 := [0]
  k := 0
  t := 0
  t_next := 0
  t_next_out := 0
  t_stop := 0
  t_start := 0
  t_step := 0
  event_iter := 0
  event_index := -1
  num_events := 0
  reset_solver := false
  solver :=
    { v := [0], v_prev := [0], q_prev := [], rv := [0], adj_u := [], adj_p_prev := [],
      adj_u_prev := [], x_tape := [0, 0, 0, 0], v_tape := [0, 0, 0], log := [] }

/-- Sample inputs of `eval` for `tapeIntegrator`: the initial state 5 and an
adjoint seed at the last grid point. -/
def tapeArgs : EvalArgs where
  x0 := some [5]
  z0 := none
  p := none
  u := none
  adj_xf := some [0, 1]
  adj_zf := none
  adj_qf := none

/-! # Theorems -/

/-! ## Configuration -/

theorem apply_legacy_nfwd (J : Integrator) (L : LegacyOptions) :
    (apply_legacy J L).nfwd = J.nfwd := by
  unfold apply_legacy; split <;> rfl

theorem apply_legacy_nadj (J : Integrator) (L : LegacyOptions) :
    (apply_legacy J L).nadj = J.nadj := by
  unfold apply_legacy; split <;> rfl

theorem check_oracle_ok (I : Integrator) (oracle : FunctionInfo)
    (h : check_oracle I oracle = .ok ()) : 0 ≤ I.nfwd ∧ 0 ≤ I.nadj := by
  unfold check_oracle at h
  simp only [bind, Except.bind, pure, Except.pure, throw, throwThe, MonadExceptOf.throw] at h
  split_ifs at h with h1 h2
  exact ⟨h1, h2⟩

theorem check_dims1_ok (I : Integrator) (oracle : FunctionInfo)
    (h : check_dims1 I oracle = .ok ()) : 0 < I.nx1 := by
  unfold check_dims1 at h
  simp only [bind, Except.bind, pure, Except.pure, throw, throwThe, MonadExceptOf.throw] at h
  split_ifs at h with h1
  exact h1

theorem backward_problem_ok (I J : Integrator) (env : InitEnv)
    (h : I.backward_problem env = .ok J) :
    (0 < I.nadj ∧ J = I.set_backward_dims1) ∨ (¬ 0 < I.nadj ∧ J = I.clear_backward_dims1) := by
  unfold Integrator.backward_problem at h
  split_ifs at h with h1
  · simp only [bind, Except.bind, pure, Except.pure] at h
    split at h
    · exact absurd h (by simp)
    · left; exact ⟨h1, by cases h; rfl⟩
  · right; exact ⟨h1, by cases h; rfl⟩

/-- Shape of a successful `init`: the configured object is obtained from
the option-reading stage by the dimension assignments, and the checks
passed. -/
theorem init_ok_shape (self : Integrator) (opts : Dict) (env : InitEnv) (I : Integrator)
    (h : self.init opts env = .ok I) :
    ∃ J B : Integrator,
      J = (apply_legacy (read_options self opts).1 (read_options self opts).2).set_dims1
            env.oracle ∧
      0 ≤ J.nfwd ∧ 0 ≤ J.nadj ∧ 0 < J.nx1 ∧
      ((0 < J.nadj ∧ B = J.set_backward_dims1) ∨ (¬ 0 < J.nadj ∧ B = J.clear_backward_dims1)) ∧
      I = B.set_dims.set_ntmp := by
  unfold Integrator.init at h
  simp only [bind, Except.bind, pure, Except.pure] at h
  split at h
  · exact absurd h (by simp)
  · rename_i u1 hc1
    split at h
    · exact absurd h (by simp)
    · rename_i u2 hc2
      split at h
      · exact absurd h (by simp)
      · rename_i B hB
        split at h
        · exact absurd h (by simp)
        · have h12 := check_oracle_ok _ _ hc1
          have h3 := check_dims1_ok _ _ hc2
          refine ⟨_, B, rfl, h12.1, h12.2, h3, backward_problem_ok _ _ _ hB, ?_⟩
          cases h; rfl

/-- Claim C1. After a successful `Integrator::init` the sensitivity counts are
the option values and are non-negative, the base dimensions are those of
the oracle, and: `nx = nx1*(1+nfwd)`, likewise `nz`, `nq`, `np`, `nu`; if
`nadj = 0` every backward count (base and augmented) is 0; if `nadj > 0`
then `nrx1 = nx1`, `nrz1 = nz1`, `nrp1 = nq1`, `nrq1 = np1`, `nuq1 = nu1`
and every augmented backward count is its base count times
`nadj*(1+nfwd)`. -/
theorem init_dimensions (self : Integrator) (opts : Dict) (env : InitEnv) (I : Integrator)
    (h : self.init opts env = .ok I) :
    (I.nfwd = (read_options self opts).1.nfwd ∧ I.nadj = (read_options self opts).1.nadj ∧
      0 ≤ I.nfwd ∧ 0 ≤ I.nadj) ∧
    (I.nx1 = env.oracle.numel_in DYN_X ∧ I.nz1 = env.oracle.numel_in DYN_Z ∧
      I.nq1 = env.oracle.numel_out DYN_QUAD ∧ I.np1 = env.oracle.numel_in DYN_P ∧
      I.nu1 = env.oracle.numel_in DYN_U) ∧
    (I.nx = I.nx1 * (1 + I.nfwd) ∧ I.nz = I.nz1 * (1 + I.nfwd) ∧
      I.nq = I.nq1 * (1 + I.nfwd) ∧ I.np = I.np1 * (1 + I.nfwd) ∧
      I.nu = I.nu1 * (1 + I.nfwd)) ∧
    (I.nadj = 0 →
      (I.nrx1 = 0 ∧ I.nrz1 = 0 ∧ I.nrp1 = 0 ∧ I.nrq1 = 0 ∧ I.nuq1 = 0) ∧
      (I.nrx = 0 ∧ I.nrz = 0 ∧ I.nrp = 0 ∧ I.nrq = 0 ∧ I.nuq = 0)) ∧
    (0 < I.nadj →
      (I.nrx1 = I.nx1 ∧ I.nrz1 = I.nz1 ∧ I.nrp1 = I.nq1 ∧ I.nrq1 = I.np1 ∧ I.nuq1 = I.nu1) ∧
      (I.nrx = I.nrx1 * I.nadj * (1 + I.nfwd) ∧ I.nrz = I.nrz1 * I.nadj * (1 + I.nfwd) ∧
        I.nrp = I.nrp1 * I.nadj * (1 + I.nfwd) ∧ I.nrq = I.nrq1 * I.nadj * (1 + I.nfwd) ∧
        I.nuq = I.nuq1 * I.nadj * (1 + I.nfwd))) := by
  obtain ⟨J, B, hJ, hf, ha, -, hB, hI⟩ := init_ok_shape self opts env I h
  have hJf : J.nfwd = (read_options self opts).1.nfwd := by
    rw [hJ]; exact apply_legacy_nfwd _ _
  have hJa : J.nadj = (read_options self opts).1.nadj := by
    rw [hJ]; exact apply_legacy_nadj _ _
  have hJx : J.nx1 = env.oracle.numel_in DYN_X ∧ J.nz1 = env.oracle.numel_in DYN_Z ∧
      J.nq1 = env.oracle.numel_out DYN_QUAD ∧ J.np1 = env.oracle.numel_in DYN_P ∧
      J.nu1 = env.oracle.numel_in DYN_U := by
    rw [hJ]; exact ⟨rfl, rfl, rfl, rfl, rfl⟩
  rcases hB with ⟨hpos, hB⟩ | ⟨hneg, hB⟩
  · subst hB; subst hI
    refine ⟨⟨hJf, hJa, hf, ha⟩, hJx, ⟨rfl, rfl, rfl, rfl, rfl⟩, ?_, ?_⟩
    · intro h0
      have h0' : J.nadj = 0 := h0
      omega
    · intro _
      exact ⟨⟨rfl, rfl, rfl, rfl, rfl⟩, ⟨rfl, rfl, rfl, rfl, rfl⟩⟩
  · subst hB; subst hI
    refine ⟨⟨hJf, hJa, hf, ha⟩, hJx, ⟨rfl, rfl, rfl, rfl, rfl⟩, ?_, ?_⟩
    · intro _
      refine ⟨⟨rfl, rfl, rfl, rfl, rfl⟩, ?_⟩
      refine ⟨?_, ?_, ?_, ?_, ?_⟩ <;>
        (show (0 : Int) * J.nadj * (1 + J.nfwd) = 0) <;> simp
    · intro hp
      exact absurd (show 0 < J.nadj from hp) hneg

/-- Witness of claim C1: `init` succeeds on the sample configuration (2 forward,
3 adjoint directions) and yields the stated counts. -/
theorem init_dimensions_witness :
    (sampleIntegrator.nx = 6 ∧ sampleIntegrator.nrx1 = 2 ∧ sampleIntegrator.nrp1 = 2 ∧
      sampleIntegrator.nrq1 = 3) ∧
    (sampleIntegrator.nrx = sampleIntegrator.nrx1 * sampleIntegrator.nadj *
        (1 + sampleIntegrator.nfwd) ∧
      sampleIntegrator.nrz = sampleIntegrator.nrz1 * sampleIntegrator.nadj *
        (1 + sampleIntegrator.nfwd) ∧
      sampleIntegrator.nrp = sampleIntegrator.nrp1 * sampleIntegrator.nadj *
        (1 + sampleIntegrator.nfwd) ∧
      sampleIntegrator.nrq = sampleIntegrator.nrq1 * sampleIntegrator.nadj *
        (1 + sampleIntegrator.nfwd) ∧
      sampleIntegrator.nuq = sampleIntegrator.nuq1 * sampleIntegrator.nadj *
        (1 + sampleIntegrator.nfwd)) :=
  ⟨by decide,
   ((init_dimensions (Integrator.new 0 [1, 2]) sampleOpts sampleEnv sampleIntegrator
      (by decide!)).2.2.2.2 (by decide)).2⟩

/-! ## Public input/output schemes -/

/-- Claim C2, as stated, fails: the output scheme does not consist of six names;
`integrator_n_out()` is 7 and the vector returned by `integrator_out()`
contains `adj_z0`. -/
theorem integrator_out_not_six :
    ¬ (integrator_n_out = 6 ∧
        integrator_out_vec = ["xf", "zf", "qf", "adj_x0", "adj_p", "adj_u"]) := by
  decide

/-- Claim C2, amended: `integrator_n_out()` is 7, `integrator_out()` returns the
seven names `xf, zf, qf, adj_x0, adj_z0, adj_p, adj_u` in this order, and
`integrator_out(ind)` is one of them or the empty string for every `ind`. -/
theorem integrator_out_seven :
    integrator_n_out = 7 ∧
    integrator_out_vec = ["xf", "zf", "qf", "adj_x0", "adj_z0", "adj_p", "adj_u"] ∧
    ∀ ind : Int, integrator_out ind ∈ integrator_out_vec ∨ integrator_out ind = "" := by
  refine ⟨by decide, by decide, ?_⟩
  intro ind
  unfold integrator_out
  split <;> first
    | (left; decide)
    | (right; rfl)

/-- The keys for which the option-reading chain of `init` has a branch are
exactly the keys of `init_keys`. -/
theorem read_option_isSome_iff (s : Integrator × LegacyOptions) (key : String)
    (v : GenericType) : (read_option s key v).isSome = true ↔ key ∈ init_keys := by
  constructor
  · intro h
    by_contra hk
    simp only [init_keys, List.mem_cons, List.mem_singleton, List.not_mem_nil, or_false,
      not_or] at hk
    obtain ⟨h1, h2, h3, h4, h5, h6, h7, h8, h9, h10, h11, h12, h13⟩ := hk
    unfold read_option at h
    rw [if_neg h1, if_neg h2, if_neg h3, if_neg h4, if_neg h5, if_neg h6, if_neg h7,
      if_neg h8, if_neg h9, if_neg h10, if_neg h11, if_neg h12, if_neg h13] at h
    exact absurd h (by simp)
  · intro h
    simp only [init_keys, List.mem_cons, List.mem_singleton, List.not_mem_nil, or_false] at h
    rcases h with h | h | h | h | h | h | h | h | h | h | h | h | h <;> subst h <;> rfl

/-- Claim C3 fails on the code: `init` has a branch that reads the key
`event_acceptable_tol`, but the table `Integrator::options_` has no entry for
it, so it is declared only if the base table happens to declare it; each of
the other twelve keys read by `init` is an entry of `Integrator::options_`,
and every entry of that table is read by `init`. -/
theorem event_acceptable_tol_not_declared :
    (∀ (s : Integrator × LegacyOptions) (v : GenericType),
      (read_option s "event_acceptable_tol" v).isSome = true) ∧
    "event_acceptable_tol" ∉ options_ ∧
    (∀ base : List String, "event_acceptable_tol" ∉ base →
      "event_acceptable_tol" ∉ declared_options base) ∧
    (∀ (base : List String), ∀ key ∈ init_keys, key ≠ "event_acceptable_tol" →
      key ∈ declared_options base) ∧
    (∀ key ∈ options_, key ∈ init_keys) := by
  have h12 : ∀ key ∈ init_keys, key ≠ "event_acceptable_tol" → key ∈ options_ := by decide
  refine ⟨fun s v => (read_option_isSome_iff s _ v).2 (by decide), by decide, ?_, ?_,
    by decide⟩
  · intro base hb hmem
    rcases List.mem_append.1 hmem with h | h
    · exact absurd h (by decide)
    · exact hb h
  · intro base key hk hne
    exact List.mem_append.2 (Or.inl (h12 key hk hne))

/-- Claim C4. The grid-resolved inputs are exactly `u, adj_xf, adj_zf, adj_qf` and
the grid-resolved outputs exactly `xf, zf, qf, adj_u` (false for every other
index); for every input `i`, `grid_in(i) = grid_out(adjmap_out(i))`; and
`adjmap_out` is a bijection from the seven inputs onto the seven outputs. -/
theorem grid_adjmap (i : Int) :
    (grid_in i = true ↔
      (i = INTEGRATOR_U ∨ i = INTEGRATOR_ADJ_XF ∨ i = INTEGRATOR_ADJ_ZF ∨
        i = INTEGRATOR_ADJ_QF)) ∧
    (grid_out i = true ↔
      (i = INTEGRATOR_XF ∨ i = INTEGRATOR_ZF ∨ i = INTEGRATOR_QF ∨ i = INTEGRATOR_ADJ_U)) ∧
    ((i < 0 ∨ INTEGRATOR_NUM_IN ≤ i) → grid_in i = false ∧ grid_out i = false) ∧
    ((0 ≤ i ∧ i < INTEGRATOR_NUM_IN) →
      grid_in i = grid_out (adjmap_out i) ∧
      (0 ≤ adjmap_out i ∧ adjmap_out i < INTEGRATOR_NUM_OUT) ∧
      (∀ j : Int, (0 ≤ j ∧ j < INTEGRATOR_NUM_IN) → adjmap_out j = adjmap_out i → j = i) ∧
      (∃ j : Int, (0 ≤ j ∧ j < INTEGRATOR_NUM_IN) ∧ adjmap_out j = i)) := by
  refine ⟨?_, ?_, ?_, ?_⟩
  · unfold grid_in INTEGRATOR_U INTEGRATOR_ADJ_XF INTEGRATOR_ADJ_ZF INTEGRATOR_ADJ_QF
    split <;> simp_all
  · unfold grid_out INTEGRATOR_XF INTEGRATOR_ZF INTEGRATOR_QF INTEGRATOR_ADJ_U
    split <;> simp_all
  · unfold INTEGRATOR_NUM_IN
    intro h
    constructor
    · unfold grid_in
      split <;> first | omega | rfl
    · unfold grid_out
      split <;> first | omega | rfl
  · unfold INTEGRATOR_NUM_IN INTEGRATOR_NUM_OUT
    rintro ⟨h0, h7⟩
    have hsurj : ∃ j : Int, (0 ≤ j ∧ j < 7) ∧ adjmap_out j = i := by
      interval_cases i
      · exact ⟨4, by decide, rfl⟩
      · exact ⟨5, by decide, rfl⟩
      · exact ⟨6, by decide, rfl⟩
      · exact ⟨0, by decide, rfl⟩
      · exact ⟨1, by decide, rfl⟩
      · exact ⟨2, by decide, rfl⟩
      · exact ⟨3, by decide, rfl⟩
    refine ⟨?_, ?_, ?_, hsurj⟩
    · interval_cases i <;> rfl
    · interval_cases i <;> decide
    · rintro j ⟨hj0, hj7⟩ hji
      interval_cases i <;> interval_cases j <;> first | rfl | exact absurd hji (by decide)

/-- Witness of claim C4 at the control input `u`: it is grid-resolved, and so is
its adjoint output `adj_u`. -/
theorem grid_adjmap_witness :
    grid_in INTEGRATOR_U = grid_out (adjmap_out INTEGRATOR_U) ∧
    adjmap_out INTEGRATOR_U = INTEGRATOR_ADJ_U :=
  ⟨((grid_adjmap INTEGRATOR_U).2.2.2 (by decide)).1, by decide⟩

/-! ## Event subsystem -/

theorem orFail_ok {α : Type} (e : Err) (r : Option α) (a : α) (h : orFail e r = .ok a) :
    r = some a := by
  unfold orFail at h
  split at h
  · cases h; rfl
  · exact absurd h (by simp)

theorem orFail_error {α : Type} (e e1 : Err) (r : Option α) (h : orFail e r = .error e1) :
    e1 = e := by
  unfold orFail at h
  split at h
  · exact absurd h (by simp)
  · cases h; rfl

/-- The members that `calc_edot` leaves unchanged: it writes `xdot`, `tmp1`,
`e` and `edot` only. -/
theorem calc_edot_frame {σ : Type} (C : Collaborators σ) (I : Integrator)
    (m m1 : IntegratorMemory σ) (h : calc_edot C I m = .ok m1) :
    (m1.k = m.k ∧ m1.t = m.t ∧ m1.t_next = m.t_next ∧ m1.t_next_out = m.t_next_out ∧
      m1.t_stop = m.t_stop ∧ m1.t_start = m.t_start ∧ m1.t_step = m.t_step ∧
      m1.event_iter = m.event_iter ∧ m1.event_index = m.event_index ∧
      m1.num_events = m.num_events ∧ m1.old_e = m.old_e ∧
      m1.event_triggered = m.event_triggered) ∧
    (m1.x = m.x ∧ m1.z = m.z ∧ m1.q = m.q ∧ m1.p = m.p ∧ m1.u = m.u ∧ m1.tmp2 = m.tmp2 ∧
      m1.reset_solver = m.reset_solver ∧ m1.solver = m.solver) := by
  unfold calc_edot at h
  simp only [bind, Except.bind, pure, Except.pure] at h
  split at h
  · exact absurd h (by simp)
  · split at h
    · exact absurd h (by simp)
    · cases h
      exact ⟨⟨rfl, rfl, rfl, rfl, rfl, rfl, rfl, rfl, rfl, rfl, rfl, rfl⟩,
        ⟨rfl, rfl, rfl, rfl, rfl, rfl, rfl, rfl⟩⟩

theorem calc_edot_error {σ : Type} (C : Collaborators σ) (I : Integrator)
    (m : IntegratorMemory σ) (e : Err) (h : calc_edot C I m = .error e) : e = Err.oracle := by
  unfold calc_edot at h
  simp only [bind, Except.bind, pure, Except.pure] at h
  split at h
  · rename_i e1 h1
    cases h
    exact orFail_error _ _ _ h1
  · split at h
    · rename_i e1 h1
      cases h
      exact orFail_error _ _ _ h1
    · exact absurd h (by simp)

theorem foldl_inv {α β : Type} (P : α → Prop) (f : α → β → α) (l : List β) (a : α)
    (h0 : P a) (hstep : ∀ a b, P a → P (f a b)) : P (l.foldl f a) := by
  induction l generalizing a with
  | nil => exact h0
  | cons b l ih => exact ih (f a b) (hstep a b h0)

/-- One pass of the loop "Detect events" changes `event_index`, `t_next` and
`t_stop` only, never increases `t_next`, and changes it only together with
setting `event_index` to the (non-negative) index examined. -/
theorem detect_step_frame {σ : Type} (m : IntegratorMemory σ) (i : Nat) :
    ((detect_step m i).k = m.k ∧ (detect_step m i).t = m.t ∧
      (detect_step m i).t_next_out = m.t_next_out ∧ (detect_step m i).t_start = m.t_start ∧
      (detect_step m i).t_step = m.t_step ∧ (detect_step m i).event_iter = m.event_iter ∧
      (detect_step m i).num_events = m.num_events ∧ (detect_step m i).old_e = m.old_e ∧
      (detect_step m i).event_triggered = m.event_triggered) ∧
    ((detect_step m i).x = m.x ∧ (detect_step m i).z = m.z ∧ (detect_step m i).q = m.q ∧
      (detect_step m i).e = m.e ∧ (detect_step m i).edot = m.edot ∧
      (detect_step m i).tmp2 = m.tmp2 ∧ (detect_step m i).reset_solver = m.reset_solver) ∧
    ((detect_step m i).t_next ≤ m.t_next) ∧
    (((detect_step m i).event_index = m.event_index ∧ (detect_step m i).t_next = m.t_next ∧
        (detect_step m i).t_stop = m.t_stop) ∨
      (0 ≤ (detect_step m i).event_index ∧ (detect_step m i).t_next < m.t_next)) := by
  by_cases h1 : detect_examined m i
  · by_cases h2 : detect_crossing m i
    · by_cases h3 : zero_estimate m i < m.t_next
      · have hs : detect_step m i =
            { m with event_index := (i : Int), t_next := zero_estimate m i,
                     t_stop := max m.t (zero_estimate m i) } := by
          simp only [detect_step, h1, h2, h3, not_true_eq_false, ↓reduceIte]
        rw [hs]
        exact ⟨⟨rfl, rfl, rfl, rfl, rfl, rfl, rfl, rfl, rfl⟩,
          ⟨rfl, rfl, rfl, rfl, rfl, rfl, rfl⟩, le_of_lt h3,
          Or.inr ⟨Int.ofNat_nonneg i, h3⟩⟩
      · have hs : detect_step m i = m := by
          simp only [detect_step, h1, h2, h3, not_true_eq_false, ↓reduceIte]
        rw [hs]
        exact ⟨⟨rfl, rfl, rfl, rfl, rfl, rfl, rfl, rfl, rfl⟩,
          ⟨rfl, rfl, rfl, rfl, rfl, rfl, rfl⟩, le_refl _, Or.inl ⟨rfl, rfl, rfl⟩⟩
    · have hs : detect_step m i = m := by
        simp only [detect_step, h1, h2, not_true_eq_false, ↓reduceIte]
      rw [hs]
      exact ⟨⟨rfl, rfl, rfl, rfl, rfl, rfl, rfl, rfl, rfl⟩,
        ⟨rfl, rfl, rfl, rfl, rfl, rfl, rfl⟩, le_refl _, Or.inl ⟨rfl, rfl, rfl⟩⟩
  · have hs : detect_step m i = m := by
      simp only [detect_step, h1, not_false_eq_true, ↓reduceIte]
    rw [hs]
    exact ⟨⟨rfl, rfl, rfl, rfl, rfl, rfl, rfl, rfl, rfl⟩,
      ⟨rfl, rfl, rfl, rfl, rfl, rfl, rfl⟩, le_refl _, Or.inl ⟨rfl, rfl, rfl⟩⟩

/-- The loop "Detect events" changes `event_index`, `t_next` and `t_stop`
only; `t_next` does not increase, and it stays as it was unless an event
index has been selected. -/
theorem detect_events_frame {σ : Type} (I : Integrator) (m : IntegratorMemory σ) :
    ((detect_events I m).k = m.k ∧ (detect_events I m).t = m.t ∧
      (detect_events I m).t_next_out = m.t_next_out ∧
      (detect_events I m).t_start = m.t_start ∧
      (detect_events I m).t_step = m.t_step ∧ (detect_events I m).event_iter = m.event_iter ∧
      (detect_events I m).num_events = m.num_events ∧ (detect_events I m).old_e = m.old_e ∧
      (detect_events I m).event_triggered = m.event_triggered) ∧
    ((detect_events I m).x = m.x ∧ (detect_events I m).z = m.z ∧ (detect_events I m).q = m.q ∧
      (detect_events I m).e = m.e ∧ (detect_events I m).edot = m.edot ∧
      (detect_events I m).tmp2 = m.tmp2 ∧
      (detect_events I m).reset_solver = m.reset_solver) ∧
    ((detect_events I m).t_next ≤ m.t_next) ∧
    (((detect_events I m).event_index = m.event_index ∧
        (detect_events I m).t_next = m.t_next ∧ (detect_events I m).t_stop = m.t_stop) ∨
      (0 ≤ (detect_events I m).event_index ∧ (detect_events I m).t_next < m.t_next)) := by
  unfold detect_events
  refine foldl_inv
    (fun m1 : IntegratorMemory σ =>
      (m1.k = m.k ∧ m1.t = m.t ∧ m1.t_next_out = m.t_next_out ∧ m1.t_start = m.t_start ∧
        m1.t_step = m.t_step ∧ m1.event_iter = m.event_iter ∧
        m1.num_events = m.num_events ∧ m1.old_e = m.old_e ∧
        m1.event_triggered = m.event_triggered) ∧
      (m1.x = m.x ∧ m1.z = m.z ∧ m1.q = m.q ∧ m1.e = m.e ∧ m1.edot = m.edot ∧
        m1.tmp2 = m.tmp2 ∧ m1.reset_solver = m.reset_solver) ∧
      (m1.t_next ≤ m.t_next) ∧
      ((m1.event_index = m.event_index ∧ m1.t_next = m.t_next ∧ m1.t_stop = m.t_stop) ∨
        (0 ≤ m1.event_index ∧ m1.t_next < m.t_next)))
    detect_step _ m
    ⟨⟨rfl, rfl, rfl, rfl, rfl, rfl, rfl, rfl, rfl⟩, ⟨rfl, rfl, rfl, rfl, rfl, rfl, rfl⟩,
      le_refl _, Or.inl ⟨rfl, rfl, rfl⟩⟩ ?_
  intro a i ⟨⟨a1, a2, a3, a4, a5, a6, a7, a8, a9⟩, ⟨b1, b2, b3, b4, b5, b6, b7⟩, hle, hor⟩
  obtain ⟨⟨c1, c2, c3, c4, c5, c6, c7, c8, c9⟩, ⟨d1, d2, d3, d4, d5, d6, d7⟩, hle1, hor1⟩ :=
    detect_step_frame a i
  refine ⟨⟨c1.trans a1, c2.trans a2, c3.trans a3, c4.trans a4, c5.trans a5, c6.trans a6,
    c7.trans a7, c8.trans a8, c9.trans a9⟩,
    ⟨d1.trans b1, d2.trans b2, d3.trans b3, d4.trans b4, d5.trans b5, d6.trans b6,
      d7.trans b7⟩, le_trans hle1 hle, ?_⟩
  rcases hor1 with ⟨e1, e2, e3⟩ | ⟨e1, e2⟩
  · rcases hor with ⟨f1, f2, f3⟩ | ⟨f1, f2⟩
    · exact Or.inl ⟨e1.trans f1, e2.trans f2, e3.trans f3⟩
    · exact Or.inr ⟨e1 ▸ f1, e2 ▸ f2⟩
  · exact Or.inr ⟨e1, lt_of_lt_of_le e2 hle⟩

/-- The members that `predict_events` leaves unchanged; `t_next` does not
increase. -/
theorem predict_events_frame {σ : Type} (C : Collaborators σ) (I : Integrator)
    (m m1 : IntegratorMemory σ) (h : predict_events C I m = .ok m1) :
    (m1.k = m.k ∧ m1.t = m.t ∧ m1.t_next_out = m.t_next_out ∧ m1.t_start = m.t_start ∧
      m1.t_step = m.t_step ∧ m1.event_iter = m.event_iter ∧
      m1.event_index = m.event_index ∧ m1.num_events = m.num_events ∧
      m1.event_triggered = m.event_triggered) ∧
    (m1.x = m.x ∧ m1.z = m.z ∧ m1.q = m.q ∧ m1.tmp2 = m.tmp2 ∧
      m1.reset_solver = m.reset_solver) ∧
    m1.t_next ≤ m.t_next := by
  unfold predict_events at h
  simp only [bind, Except.bind, pure, Except.pure] at h
  split at h
  · exact absurd h (by simp)
  · rename_i m2 h2
    obtain ⟨⟨a1, a2, a3, a4, a5, a6, a7, a8, a9, a10, -, a12⟩, ⟨b1, b2, b3, -, -, b6, b7, -⟩⟩ :=
      calc_edot_frame C I m m2 h2
    split at h
    · cases h
      exact ⟨⟨a1, a2, a4, a6, a7, a8, a9, a10, a12⟩, ⟨b1, b2, b3, b6, b7⟩,
        le_trans (min_le_left _ _) (le_of_eq a3)⟩
    · cases h
      exact ⟨⟨a1, a2, a4, a6, a7, a8, a9, a10, a12⟩, ⟨b1, b2, b3, b6, b7⟩, le_of_eq a3⟩

theorem predict_events_error {σ : Type} (C : Collaborators σ) (I : Integrator)
    (m : IntegratorMemory σ) (e : Err) (h : predict_events C I m = .error e) :
    e = Err.oracle := by
  unfold predict_events at h
  simp only [bind, Except.bind, pure, Except.pure] at h
  split at h
  · rename_i e1 h1
    cases h
    exact calc_edot_error C I m _ h1
  · split at h <;> exact absurd h (by simp)

/-- What one pass of "Event iterations" up to the detection of events does to
the bookkeeping members: the time becomes the `t_next` of the start of the
pass, the iteration counter grows by one, and afterwards either no event is
selected and `t_next` is the next output time, or an event is selected and
`t_next` lies before the next output time. -/
theorem advance_step_spec {σ : Type} (C : Collaborators σ) (hC : C.Frame) (I : Integrator)
    (m m1 : IntegratorMemory σ) (b : Bool) (h : advance_step C I m = .ok (b, m1)) :
    (m1.k = m.k ∧ m1.t = m.t_next ∧ m1.t_next_out = m.t_next_out ∧ m1.t_start = m.t_start ∧
      m1.t_step = m.t_step ∧ m1.event_iter = m.event_iter + 1 ∧
      m1.num_events = m.num_events ∧ m1.old_e = m.old_e ∧
      m1.event_triggered = m.event_triggered) ∧
    ((m1.event_index = -1 ∧ m1.t_next = m1.t_next_out) ∨
      (b = true ∧ 0 ≤ m1.event_index ∧ m1.t_next < m1.t_next_out)) ∧
    (b = false → (I.ne = 0 ∨ m.t_next_out = m.t_start)) := by
  unfold advance_step at h
  simp only [bind, Except.bind, pure, Except.pure] at h
  split at h
  · exact absurd h (by simp)
  · rename_i m2 h2
    have h2' := orFail_ok _ _ _ h2
    obtain ⟨a1, -, a3, a4, -, a6, a7, a8, a9, a10, a11, a12⟩ :=
      hC.advance_noevent_frame _ _ h2'
    split at h
    · rename_i hne
      cases h
      refine ⟨⟨a1, a3, a4, a6, a7, a8, a10, a11, a12⟩, Or.inl ⟨a9, rfl⟩, fun _ => ?_⟩
      rcases hne with hne | hne
      · exact Or.inl hne
      · exact Or.inr (by rw [← a4, ← a6]; exact hne)
    · split at h
      · exact absurd h (by simp)
      · rename_i m3 h3
        obtain ⟨⟨c1, c2, c3, c4, -, c6, c7, c8, c9, c10, c11, c12⟩, -⟩ :=
          calc_edot_frame C I _ m3 h3
        obtain ⟨⟨d1, d2, d3, d4, d5, d6, d7, d8, d9⟩, -, -, hor⟩ :=
          detect_events_frame I { m3 with t_stop := m3.t_step }
        cases h
        refine ⟨⟨d1.trans (c1.trans a1), d2.trans (c2.trans a3), d3.trans (c4.trans a4),
          d4.trans (c6.trans a6), d5.trans (c7.trans a7), d6.trans (c8.trans a8),
          d7.trans (c10.trans a10), d8.trans (c11.trans a11), d9.trans (c12.trans a12)⟩, ?_,
          fun hb => absurd hb (by simp)⟩
        rcases hor with ⟨e1, e2, -⟩ | ⟨e1, e2⟩
        · left
          refine ⟨e1.trans (c9.trans a9), ?_⟩
          rw [e2, d3]
          exact c3.trans (c4.symm)
        · right
          refine ⟨rfl, e1, ?_⟩
          rw [d3]
          have : m3.t_next = m3.t_next_out := c3.trans c4.symm
          exact lt_of_lt_of_le e2 (le_of_eq this)

theorem advance_step_error {σ : Type} (C : Collaborators σ) (I : Integrator)
    (m : IntegratorMemory σ) (e : Err) (h : advance_step C I m = .error e) :
    e = Err.solver ∨ e = Err.oracle := by
  unfold advance_step at h
  simp only [bind, Except.bind, pure, Except.pure] at h
  split at h
  · rename_i e1 h1
    cases h
    exact Or.inl (orFail_error _ _ _ h1)
  · split at h
    · exact absurd h (by simp)
    · split at h
      · rename_i e1 h1
        cases h
        exact Or.inr (calc_edot_error _ _ _ _ h1)
      · exact absurd h (by simp)

/-- Case analysis of one pass of the loop "Event iterations". -/
theorem advance_iter_cases {σ : Type} (C : Collaborators σ) (I : Integrator)
    (m : IntegratorMemory σ) :
    (∃ e, advance_step C I m = .error e ∧ advance_iter C I m = .error e) ∨
    (∃ m1, advance_step C I m = .ok (false, m1) ∧ advance_iter C I m = .ok (false, m1)) ∨
    (∃ m1, advance_step C I m = .ok (true, m1) ∧
      ((converge_test I m1 = Converge.done ∧ advance_iter C I m = .ok (false, m1)) ∨
       (converge_test I m1 = Converge.again ∧ advance_iter C I m = .ok (true, m1)) ∨
       (converge_test I m1 = Converge.fail ∧
          advance_iter C I m = .error Err.eventNonConvergence))) := by
  unfold advance_iter
  cases hs : advance_step C I m with
  | error e => exact Or.inl ⟨e, rfl, rfl⟩
  | ok r =>
    obtain ⟨b, m1⟩ := r
    cases b with
    | false => exact Or.inr (Or.inl ⟨m1, rfl, rfl⟩)
    | true =>
      refine Or.inr (Or.inr ⟨m1, rfl, ?_⟩)
      cases hc : converge_test I m1 with
      | done => exact Or.inl ⟨rfl, by simp only [hc]⟩
      | again => exact Or.inr (Or.inl ⟨rfl, by simp only [hc]⟩)
      | fail => exact Or.inr (Or.inr ⟨rfl, by simp only [hc]⟩)

/-- The five paths through the convergence test at the end of an event
iteration. -/
theorem converge_test_cases {σ : Type} (I : Integrator) (m : IntegratorMemory σ) :
    (m.event_index < 0 ∧ converge_test I m = Converge.done) ∨
    (0 ≤ m.event_index ∧ ((|m.t_next - m.t| : ℚ) : WithTop ℚ) < I.event_tol ∧
      converge_test I m = Converge.done) ∨
    (0 ≤ m.event_index ∧ ¬ ((|m.t_next - m.t| : ℚ) : WithTop ℚ) < I.event_tol ∧
      m.event_iter = I.max_event_iter ∧
      ((|m.t_next - m.t| : ℚ) : WithTop ℚ) ≥ I.event_acceptable_tol ∧
      converge_test I m = Converge.fail) ∨
    (0 ≤ m.event_index ∧ ¬ ((|m.t_next - m.t| : ℚ) : WithTop ℚ) < I.event_tol ∧
      m.event_iter = I.max_event_iter ∧
      ¬ ((|m.t_next - m.t| : ℚ) : WithTop ℚ) ≥ I.event_acceptable_tol ∧
      converge_test I m = Converge.done) ∨
    (0 ≤ m.event_index ∧ ¬ ((|m.t_next - m.t| : ℚ) : WithTop ℚ) < I.event_tol ∧
      m.event_iter ≠ I.max_event_iter ∧ converge_test I m = Converge.again) := by
  by_cases h1 : m.event_index < 0
  · exact Or.inl ⟨h1, by simp only [converge_test, h1, ↓reduceIte]⟩
  · have h1' : 0 ≤ m.event_index := by omega
    by_cases h2 : ((|m.t_next - m.t| : ℚ) : WithTop ℚ) < I.event_tol
    · exact Or.inr (Or.inl ⟨h1', h2, by simp only [converge_test, h1, h2, ↓reduceIte]⟩)
    · by_cases h3 : m.event_iter = I.max_event_iter
      · by_cases h4 : ((|m.t_next - m.t| : ℚ) : WithTop ℚ) ≥ I.event_acceptable_tol
        · exact Or.inr (Or.inr (Or.inl ⟨h1', h2, h3, h4,
            by simp only [converge_test, h1, h2, h3, h4, ↓reduceIte]⟩))
        · exact Or.inr (Or.inr (Or.inr (Or.inl ⟨h1', h2, h3, h4,
            by simp only [converge_test, h1, h2, h3, h4, ↓reduceIte]⟩)))
      · exact Or.inr (Or.inr (Or.inr (Or.inr ⟨h1', h2, h3,
          by simp only [converge_test, h1, h2, h3, ↓reduceIte]⟩)))

/-- The outcome `again` of the convergence test: an event is selected, the
residual is not below `event_tol` and the iteration limit is not reached. -/
theorem converge_test_again {σ : Type} (I : Integrator) (m : IntegratorMemory σ) :
    converge_test I m = Converge.again ↔
      (0 ≤ m.event_index ∧ ¬ ((|m.t_next - m.t| : ℚ) : WithTop ℚ) < I.event_tol ∧
        m.event_iter ≠ I.max_event_iter) := by
  rcases converge_test_cases I m with ⟨a, h⟩ | ⟨a, b, h⟩ | ⟨a, b, c, d, h⟩ | ⟨a, b, c, d, h⟩ |
    ⟨a, b, c, h⟩
  · rw [h]; constructor
    · intro h'; exact absurd h' (by simp)
    · intro h'; omega
  · rw [h]; constructor
    · intro h'; exact absurd h' (by simp)
    · intro h'; exact absurd b h'.2.1
  · rw [h]; constructor
    · intro h'; exact absurd h' (by simp)
    · intro h'; exact absurd c h'.2.2
  · rw [h]; constructor
    · intro h'; exact absurd h' (by simp)
    · intro h'; exact absurd c h'.2.2
  · rw [h]; exact ⟨fun _ => ⟨a, b, c⟩, fun _ => rfl⟩

/-- The outcome `fail` of the convergence test. -/
theorem converge_test_fail {σ : Type} (I : Integrator) (m : IntegratorMemory σ) :
    converge_test I m = Converge.fail ↔
      (0 ≤ m.event_index ∧ ¬ ((|m.t_next - m.t| : ℚ) : WithTop ℚ) < I.event_tol ∧
        m.event_iter = I.max_event_iter ∧
        ((|m.t_next - m.t| : ℚ) : WithTop ℚ) ≥ I.event_acceptable_tol) := by
  rcases converge_test_cases I m with ⟨a, h⟩ | ⟨a, b, h⟩ | ⟨a, b, c, d, h⟩ | ⟨a, b, c, d, h⟩ |
    ⟨a, b, c, h⟩
  · rw [h]; constructor
    · intro h'; exact absurd h' (by simp)
    · intro h'; omega
  · rw [h]; constructor
    · intro h'; exact absurd h' (by simp)
    · intro h'; exact absurd b h'.2.1
  · rw [h]; exact ⟨fun _ => ⟨a, b, c, d⟩, fun _ => rfl⟩
  · rw [h]; constructor
    · intro h'; exact absurd h' (by simp)
    · intro h'; exact absurd h'.2.2.2 d
  · rw [h]; constructor
    · intro h'; exact absurd h' (by simp)
    · intro h'; exact absurd h'.2.2.1 c

/-- The zero-crossing estimate, the examination condition and the
crossing condition of the loop "Detect events" only depend on members that
the loop does not change. -/
theorem detect_conditions_congr {σ : Type} (a m : IntegratorMemory σ) (i : Nat)
    (ht : a.t = m.t) (hs : a.t_start = m.t_start) (ho : a.t_next_out = m.t_next_out)
    (he : a.e = m.e) (hd : a.edot = m.edot) (hold : a.old_e = m.old_e)
    (htr : a.event_triggered = m.event_triggered) :
    zero_estimate a i = zero_estimate m i ∧ (detect_examined a i ↔ detect_examined m i) ∧
    (detect_crossing a i ↔ detect_crossing m i) := by
  unfold zero_estimate detect_examined detect_crossing
  rw [ht, hs, ho, he, hd, hold, htr]
  exact ⟨rfl, Iff.rfl, Iff.rfl⟩

/-- Outcome of the loop "Detect events": either nothing was selected, or the
selected index `i` is below `ne`, was examined, satisfies the crossing
condition, and `t_next` is its zero-crossing estimate, `t_stop` being
`max(t, t_next)`. -/
theorem detect_events_selected {σ : Type} (I : Integrator) (m : IntegratorMemory σ) :
    ((detect_events I m).event_index = m.event_index ∧
      (detect_events I m).t_next = m.t_next ∧ (detect_events I m).t_stop = m.t_stop) ∨
    (∃ i : Nat, (detect_events I m).event_index = (i : Int) ∧ i < I.ne.toNat ∧
      detect_examined m i ∧ detect_crossing m i ∧
      (detect_events I m).t_next = zero_estimate m i ∧
      (detect_events I m).t_next < m.t_next ∧
      (detect_events I m).t_stop = max m.t (zero_estimate m i)) := by
  unfold detect_events
  have key : ∀ (l : List Nat), (∀ i ∈ l, i < I.ne.toNat) → ∀ a : IntegratorMemory σ,
      ((a.t = m.t ∧ a.t_start = m.t_start ∧ a.t_next_out = m.t_next_out ∧ a.e = m.e ∧
          a.edot = m.edot ∧ a.old_e = m.old_e ∧ a.event_triggered = m.event_triggered) ∧
        a.t_next ≤ m.t_next ∧
        ((a.event_index = m.event_index ∧ a.t_next = m.t_next ∧ a.t_stop = m.t_stop) ∨
          (∃ i : Nat, a.event_index = (i : Int) ∧ i < I.ne.toNat ∧
            detect_examined m i ∧ detect_crossing m i ∧ a.t_next = zero_estimate m i ∧
            a.t_next < m.t_next ∧ a.t_stop = max m.t (zero_estimate m i)))) →
      (((l.foldl detect_step a).event_index = m.event_index ∧
          (l.foldl detect_step a).t_next = m.t_next ∧
          (l.foldl detect_step a).t_stop = m.t_stop) ∨
        (∃ i : Nat, (l.foldl detect_step a).event_index = (i : Int) ∧ i < I.ne.toNat ∧
          detect_examined m i ∧ detect_crossing m i ∧
          (l.foldl detect_step a).t_next = zero_estimate m i ∧
          (l.foldl detect_step a).t_next < m.t_next ∧
          (l.foldl detect_step a).t_stop = max m.t (zero_estimate m i))) := by
    intro l
    induction l with
    | nil => intro _ a ha; exact ha.2.2
    | cons j l ih =>
      intro hl a ⟨⟨a1, a2, a3, a4, a5, a6, a7⟩, hle, hor⟩
      have hj : j < I.ne.toNat := hl j (List.mem_cons_self _ _)
      have hl' : ∀ i ∈ l, i < I.ne.toNat := fun i hi => hl i (List.mem_cons_of_mem _ hi)
      obtain ⟨hz, hex, hcr⟩ := detect_conditions_congr a m j a1 a2 a3 a4 a5 a6 a7
      rw [List.foldl_cons]
      apply ih hl'
      by_cases h1 : detect_examined a j
      · by_cases h2 : detect_crossing a j
        · by_cases h3 : zero_estimate a j < a.t_next
          · have hs : detect_step a j =
                { a with event_index := (j : Int), t_next := zero_estimate a j,
                         t_stop := max a.t (zero_estimate a j) } := by
              simp only [detect_step, h1, h2, h3, not_true_eq_false, ↓reduceIte]
            rw [hs]
            refine ⟨⟨a1, a2, a3, a4, a5, a6, a7⟩, le_trans (le_of_lt h3) hle, Or.inr ?_⟩
            exact ⟨j, rfl, hj, hex.1 h1, hcr.1 h2, hz, lt_of_lt_of_le h3 hle, by
              show max a.t (zero_estimate a j) = max m.t (zero_estimate m j)
              rw [a1, hz]⟩
          · have hs : detect_step a j = a := by
              simp only [detect_step, h1, h2, h3, not_true_eq_false, ↓reduceIte]
            rw [hs]
            exact ⟨⟨a1, a2, a3, a4, a5, a6, a7⟩, hle, hor⟩
        · have hs : detect_step a j = a := by
            simp only [detect_step, h1, h2, not_true_eq_false, ↓reduceIte]
          rw [hs]
          exact ⟨⟨a1, a2, a3, a4, a5, a6, a7⟩, hle, hor⟩
      · have hs : detect_step a j = a := by
          simp only [detect_step, h1, not_false_eq_true, ↓reduceIte]
        rw [hs]
        exact ⟨⟨a1, a2, a3, a4, a5, a6, a7⟩, hle, hor⟩
  exact key _ (fun i hi => List.mem_range.1 hi) m
    ⟨⟨rfl, rfl, rfl, rfl, rfl, rfl, rfl⟩, le_refl _, Or.inl ⟨rfl, rfl, rfl⟩⟩

/-- A successful pass of "Event iterations" is a successful head of the pass
followed by the outcome `done` or `again` of the convergence test. -/
theorem advance_iter_ok {σ : Type} (C : Collaborators σ) (I : Integrator)
    (m m1 : IntegratorMemory σ) (b : Bool) (h : advance_iter C I m = .ok (b, m1)) :
    (advance_step C I m = .ok (false, m1) ∧ b = false) ∨
    (advance_step C I m = .ok (true, m1) ∧ b = false ∧ converge_test I m1 = Converge.done) ∨
    (advance_step C I m = .ok (true, m1) ∧ b = true ∧ converge_test I m1 = Converge.again) := by
  rcases advance_iter_cases C I m with ⟨e, -, h2⟩ | ⟨m2, h1, h2⟩ | ⟨m2, h1, h2⟩
  · rw [h2] at h; exact absurd h (by simp)
  · rw [h2] at h; cases h; exact Or.inl ⟨h1, rfl⟩
  · rcases h2 with ⟨hc, h2⟩ | ⟨hc, h2⟩ | ⟨hc, h2⟩
    · rw [h2] at h; cases h; exact Or.inr (Or.inl ⟨h1, rfl, hc⟩)
    · rw [h2] at h; cases h; exact Or.inr (Or.inr ⟨h1, rfl, hc⟩)
    · rw [h2] at h; exact absurd h (by simp)

/-- A failing pass of "Event iterations" fails in the step strategy, in the
oracle, or in the convergence test. -/
theorem advance_iter_error {σ : Type} (C : Collaborators σ) (I : Integrator)
    (m : IntegratorMemory σ) (e : Err) (h : advance_iter C I m = .error e) :
    e = Err.solver ∨ e = Err.oracle ∨
    (e = Err.eventNonConvergence ∧
      ∃ m1, advance_step C I m = .ok (true, m1) ∧ converge_test I m1 = Converge.fail) := by
  rcases advance_iter_cases C I m with ⟨e1, h1, h2⟩ | ⟨m2, h1, h2⟩ | ⟨m2, h1, h2⟩
  · rw [h2] at h; cases h
    rcases advance_step_error C I m e h1 with h3 | h3
    · exact Or.inl h3
    · exact Or.inr (Or.inl h3)
  · rw [h2] at h; exact absurd h (by simp)
  · rcases h2 with ⟨hc, h2⟩ | ⟨hc, h2⟩ | ⟨hc, h2⟩
    · rw [h2] at h; exact absurd h (by simp)
    · rw [h2] at h; exact absurd h (by simp)
    · rw [h2] at h; cases h; exact Or.inr (Or.inr ⟨rfl, m2, h1, hc⟩)

/-- Bookkeeping of one successful pass of "Event iterations". -/
theorem advance_iter_spec {σ : Type} (C : Collaborators σ) (hC : C.Frame) (I : Integrator)
    (m m1 : IntegratorMemory σ) (b : Bool) (h : advance_iter C I m = .ok (b, m1)) :
    (m1.k = m.k ∧ m1.t = m.t_next ∧ m1.t_next_out = m.t_next_out ∧ m1.t_start = m.t_start ∧
      m1.t_step = m.t_step ∧ m1.event_iter = m.event_iter + 1 ∧
      m1.num_events = m.num_events ∧ m1.old_e = m.old_e ∧
      m1.event_triggered = m.event_triggered) ∧
    ((m1.event_index = -1 ∧ m1.t_next = m1.t_next_out) ∨
      (0 ≤ m1.event_index ∧ m1.t_next < m1.t_next_out)) ∧
    (b = true → 0 ≤ m1.event_index ∧ m1.event_iter ≠ I.max_event_iter) := by
  rcases advance_iter_ok C I m m1 b h with ⟨h1, hb⟩ | ⟨h1, hb, hc⟩ | ⟨h1, hb, hc⟩
  · obtain ⟨hf, hor, -⟩ := advance_step_spec C hC I m m1 false h1
    refine ⟨hf, ?_, fun hb' => absurd (hb.symm.trans hb') (by simp)⟩
    rcases hor with hor | hor
    · exact Or.inl hor
    · exact Or.inr hor.2
  · obtain ⟨hf, hor, -⟩ := advance_step_spec C hC I m m1 true h1
    refine ⟨hf, ?_, fun hb' => absurd (hb.symm.trans hb') (by simp)⟩
    rcases hor with hor | hor
    · exact Or.inl hor
    · exact Or.inr hor.2
  · obtain ⟨hf, hor, -⟩ := advance_step_spec C hC I m m1 true h1
    have ha := (converge_test_again I m1).1 hc
    refine ⟨hf, ?_, fun _ => ⟨ha.1, ha.2.2⟩⟩
    rcases hor with hor | hor
    · exact Or.inl hor
    · exact Or.inr hor.2

/-- Raising the bound on the number of passes does not change a result of
the loop "Event iterations" that did not hit the bound. -/
theorem advance_loop_mono {σ : Type} (C : Collaborators σ) (I : Integrator) :
    ∀ (fuel : Nat) (m : IntegratorMemory σ),
      advance_loop C I fuel m ≠ .error Err.outOfFuel →
      ∀ k, advance_loop C I (fuel + k) m = advance_loop C I fuel m := by
  intro fuel
  induction fuel with
  | zero => intro m h; exact absurd rfl h
  | succ n ih =>
    intro m h k
    have e : n + 1 + k = (n + k) + 1 := by omega
    rw [e]
    unfold advance_loop at h ⊢
    cases hi : advance_iter C I m with
    | error e1 => rfl
    | ok r =>
      obtain ⟨b, m1⟩ := r
      cases b with
      | false => rfl
      | true =>
        simp only [hi] at h ⊢
        exact ih m1 h k

/-- The loop "Event iterations" started with the pass counter below
`max_event_iter` ends within `max_event_iter - event_iter` passes. -/
theorem advance_loop_bound {σ : Type} (C : Collaborators σ) (hC : C.Frame) (I : Integrator) :
    ∀ (fuel : Nat) (m : IntegratorMemory σ), m.event_iter < I.max_event_iter →
      (I.max_event_iter - m.event_iter).toNat ≤ fuel →
      advance_loop C I fuel m ≠ .error Err.outOfFuel := by
  intro fuel
  induction fuel with
  | zero => intro m h1 h2; omega
  | succ n ih =>
    intro m h1 h2
    unfold advance_loop
    cases hi : advance_iter C I m with
    | error e1 =>
      simp only []
      rcases advance_iter_error C I m e1 hi with h | h | h
      · rw [h]; intro hh; cases hh
      · rw [h]; intro hh; cases hh
      · rw [h.1]; intro hh; cases hh
    | ok r =>
      obtain ⟨b, m1⟩ := r
      cases b with
      | false => simp
      | true =>
        simp only []
        obtain ⟨⟨-, -, -, -, -, h6, -⟩, -, hb⟩ := advance_iter_spec C hC I m m1 true hi
        have hne := (hb rfl).2
        exact ih m1 (by omega) (by omega)

/-- Bookkeeping of a successful run of the loop "Event iterations". -/
theorem advance_loop_spec {σ : Type} (C : Collaborators σ) (hC : C.Frame) (I : Integrator) :
    ∀ (fuel : Nat) (m m1 : IntegratorMemory σ), advance_loop C I fuel m = .ok m1 →
      (m1.k = m.k ∧ m1.t_next_out = m.t_next_out ∧ m1.t_start = m.t_start ∧
        m1.t_step = m.t_step ∧ m1.num_events = m.num_events ∧ m1.old_e = m.old_e ∧
        m1.event_triggered = m.event_triggered) ∧
      ((m1.event_index = -1 ∧ m1.t_next = m1.t_next_out) ∨
        (0 ≤ m1.event_index ∧ m1.t_next < m1.t_next_out)) ∧
      m.event_iter < m1.event_iter ∧
      (m.event_iter < I.max_event_iter → m1.event_iter ≤ I.max_event_iter) := by
  intro fuel
  induction fuel with
  | zero => intro m m1 h; exact absurd h (by simp [advance_loop])
  | succ n ih =>
    intro m m1 h
    unfold advance_loop at h
    cases hi : advance_iter C I m with
    | error e1 => rw [hi] at h; exact absurd h (by simp)
    | ok r =>
      obtain ⟨b, m2⟩ := r
      obtain ⟨⟨a1, -, a3, a4, a5, a6, a7, a8, a9⟩, hor, hb⟩ := advance_iter_spec C hC I m m2 b hi
      cases b with
      | false =>
        simp only [hi] at h
        cases h
        exact ⟨⟨a1, a3, a4, a5, a7, a8, a9⟩, hor, by omega, fun _ => by omega⟩
      | true =>
        simp only [hi] at h
        obtain ⟨⟨c1, c3, c4, c5, c7, c8, c9⟩, hor1, hlt, hmax⟩ := ih m2 m1 h
        have hne := (hb rfl).2
        exact ⟨⟨c1.trans a1, c3.trans a3, c4.trans a4, c5.trans a5, c7.trans a7, c8.trans a8,
          c9.trans a9⟩, hor1, by omega, fun hm => hmax (by omega)⟩

/-- The loop "Event iterations" fails with the non-convergence error exactly
when some pass, reached through passes that all ended with "More iterations
needed", fails with it. -/
theorem advance_loop_nonconvergence {σ : Type} (C : Collaborators σ) (I : Integrator) :
    ∀ (fuel : Nat) (m : IntegratorMemory σ),
      advance_loop C I fuel m = .error Err.eventNonConvergence ↔
      ∃ n mn, n < fuel ∧ advance_passes C I n m = some mn ∧
        advance_iter C I mn = .error Err.eventNonConvergence := by
  intro fuel
  induction fuel with
  | zero =>
    intro m
    constructor
    · intro h; exact absurd h (by simp [advance_loop])
    · rintro ⟨n, mn, hn, -⟩; omega
  | succ k ih =>
    intro m
    unfold advance_loop
    cases hi : advance_iter C I m with
    | error e1 =>
      simp only []
      constructor
      · intro h
        cases h
        exact ⟨0, m, by omega, rfl, hi⟩
      · rintro ⟨n, mn, hn, hp, he⟩
        cases n with
        | zero =>
          simp only [advance_passes] at hp
          cases hp
          rw [hi] at he
          cases he
          rfl
        | succ n =>
          simp only [advance_passes, hi] at hp
          exact absurd hp (by simp)
    | ok r =>
      obtain ⟨b, m1⟩ := r
      cases b with
      | false =>
        simp only []
        constructor
        · intro h; exact absurd h (by simp)
        · rintro ⟨n, mn, hn, hp, he⟩
          cases n with
          | zero =>
            simp only [advance_passes] at hp
            cases hp
            rw [hi] at he
            exact absurd he (by simp)
          | succ n =>
            simp only [advance_passes, hi] at hp
            exact absurd hp (by simp)
      | true =>
        simp only []
        rw [ih m1]
        constructor
        · rintro ⟨n, mn, hn, hp, he⟩
          exact ⟨n + 1, mn, by omega, by simp only [advance_passes, hi]; exact hp, he⟩
        · rintro ⟨n, mn, hn, hp, he⟩
          cases n with
          | zero =>
            simp only [advance_passes] at hp
            cases hp
            rw [hi] at he
            exact absurd he (by simp)
          | succ n =>
            simp only [advance_passes, hi] at hp
            exact ⟨n, mn, by omega, hp, he⟩

/-- The head of a pass of "Event iterations" goes on to the detection of
events exactly when `ne ≠ 0` and the interval is not degenerate, and the
memory it returns is then the result of the loop "Detect events" on a memory
with no event selected and `t_next` equal to the next output time. -/
theorem advance_step_detect {σ : Type} (C : Collaborators σ) (hC : C.Frame) (I : Integrator)
    (m m1 : IntegratorMemory σ) (b : Bool) (h : advance_step C I m = .ok (b, m1)) :
    (b = true ↔ ¬ (I.ne = 0 ∨ m.t_next_out = m.t_start)) ∧
    (b = true → ∃ m3 : IntegratorMemory σ, m1 = detect_events I m3 ∧ m3.event_index = -1 ∧
      m3.t_next = m3.t_next_out) := by
  unfold advance_step at h
  simp only [bind, Except.bind, pure, Except.pure] at h
  split at h
  · exact absurd h (by simp)
  · rename_i m2 h2
    have h2' := orFail_ok _ _ _ h2
    obtain ⟨a1, -, a3, a4, -, a6, a7, a8, a9, a10, a11, a12⟩ :=
      hC.advance_noevent_frame _ _ h2'
    split at h
    · rename_i hne
      cases h
      refine ⟨⟨fun hb => absurd hb (by simp), fun hb => absurd ?_ hb⟩,
        fun hb => absurd hb (by simp)⟩
      rcases hne with hne | hne
      · exact Or.inl hne
      · exact Or.inr (by rw [← a4, ← a6]; exact hne)
    · rename_i hne
      split at h
      · exact absurd h (by simp)
      · rename_i m3 h3
        obtain ⟨⟨c1, c2, c3, c4, -, c6, c7, c8, c9, c10, c11, c12⟩, -⟩ :=
          calc_edot_frame C I _ m3 h3
        cases h
        refine ⟨⟨fun _ => ?_, fun _ => rfl⟩, fun _ => ⟨_, rfl, ?_, ?_⟩⟩
        · intro hh
          apply hne
          rcases hh with hh | hh
          · exact Or.inl hh
          · exact Or.inr (by
              show m2.t_next_out = m2.t_start
              rw [a4, a6]; exact hh)
        · exact c9.trans a9
        · exact c3.trans c4.symm

theorem advance_entry_spec {σ : Type} (C : Collaborators σ) (I : Integrator)
    (m m0 : IntegratorMemory σ) (h : advance_entry C I m = .ok m0) :
    (m0.k = m.k ∧ m0.t = m.t ∧ m0.t_next_out = m.t_next_out ∧ m0.t_start = m.t_start ∧
      m0.t_step = m.t_step ∧ m0.num_events = m.num_events ∧
      m0.event_triggered = m.event_triggered) ∧
    m0.event_iter = 0 ∧ m0.t_next ≤ m.t_next := by
  unfold advance_entry at h
  by_cases hp : I.ne > 0 ∧ m.t_next_out ≠ m.t_start
  · rw [if_pos hp] at h
    simp only [bind, Except.bind, pure, Except.pure] at h
    cases h2 : predict_events C I m with
    | error e => rw [h2] at h; exact absurd h (by simp)
    | ok m2 =>
      rw [h2] at h
      cases h
      obtain ⟨⟨a1, a2, a3, a4, a5, -, -, a8, a9⟩, -, hle⟩ := predict_events_frame C I m m2 h2
      exact ⟨⟨a1, a2, a3, a4, a5, a8, a9⟩, rfl, hle⟩
  · rw [if_neg hp] at h
    simp only [bind, Except.bind, pure, Except.pure] at h
    cases h
    exact ⟨⟨rfl, rfl, rfl, rfl, rfl, rfl, rfl⟩, rfl, le_refl _⟩

theorem advance_entry_error {σ : Type} (C : Collaborators σ) (I : Integrator)
    (m : IntegratorMemory σ) (e : Err) (h : advance_entry C I m = .error e) :
    e = Err.oracle := by
  unfold advance_entry at h
  by_cases hp : I.ne > 0 ∧ m.t_next_out ≠ m.t_start
  · rw [if_pos hp] at h
    simp only [bind, Except.bind, pure, Except.pure] at h
    cases h2 : predict_events C I m with
    | error e1 =>
      rw [h2] at h
      cases h
      exact predict_events_error C I m _ h2
    | ok m2 => rw [h2] at h; exact absurd h (by simp)
  · rw [if_neg hp] at h
    simp only [bind, Except.bind, pure, Except.pure] at h
    exact absurd h (by simp)

/-- The sample step strategy keeps the bookkeeping members. -/
theorem sampleCollaborators_frame : sampleCollaborators.Frame where
  advance_noevent_frame := by
    intro m m1 h
    have : m1 = m := by
      simp only [sampleCollaborators, Option.some.injEq] at h
      exact h.symm
    subst this
    exact ⟨rfl, rfl, rfl, rfl, rfl, rfl, rfl, rfl, rfl, rfl, rfl, rfl⟩
  reset_frame := by
    intro m b
    exact ⟨rfl, rfl, rfl, rfl, rfl, rfl, rfl, rfl, rfl, rfl, rfl, rfl⟩

/-- Passes of "Event iterations" that end with "More iterations needed" leave
the pass counter below `max_event_iter`. -/
theorem advance_passes_count {σ : Type} (C : Collaborators σ) (hC : C.Frame) (I : Integrator) :
    ∀ (n : Nat) (m mn : IntegratorMemory σ), m.event_iter < I.max_event_iter →
      advance_passes C I n m = some mn →
      mn.event_iter = m.event_iter + n ∧ m.event_iter + n < I.max_event_iter := by
  intro n
  induction n with
  | zero =>
    intro m mn hlt h
    simp only [advance_passes, Option.some.injEq] at h
    subst h
    exact ⟨by simp, by simpa using hlt⟩
  | succ n ih =>
    intro m mn hlt h
    unfold advance_passes at h
    cases hi : advance_iter C I m with
    | error e => rw [hi] at h; exact absurd h (by simp)
    | ok r =>
      obtain ⟨b, m1⟩ := r
      cases b with
      | false => rw [hi] at h; exact absurd h (by simp)
      | true =>
        rw [hi] at h
        simp only at h
        obtain ⟨⟨-, -, -, -, -, h6, -⟩, -, hb⟩ := advance_iter_spec C hC I m m1 true hi
        have hne := (hb rfl).2
        obtain ⟨e1, e2⟩ := ih m1 mn (by omega) h
        constructor
        · rw [e1, h6]; push_cast; ring
        · rw [h6] at e2; push_cast; linarith

/-- Claim C7. `advance` fails with the event non-convergence error exactly when, in
some event iteration, an event candidate exists, the residual
`|t_next - t|` is not below `event_tol`, the iteration count equals
`max_event_iter`, and the residual is `≥ event_acceptable_tol`; with a
candidate, every other iteration accepts (residual below `event_tol`, or
iteration limit reached with residual below `event_acceptable_tol`) or
iterates again. With `event_acceptable_tol = +∞` it never fails this way. -/
theorem event_nonconvergence_iff {σ : Type} (C : Collaborators σ) (I : Integrator)
    (m : IntegratorMemory σ) (fuel : Nat) :
    (∀ m1 : IntegratorMemory σ, converge_test I m1 = Converge.fail ↔
      (0 ≤ m1.event_index ∧ ¬ ((|m1.t_next - m1.t| : ℚ) : WithTop ℚ) < I.event_tol ∧
        m1.event_iter = I.max_event_iter ∧
        ((|m1.t_next - m1.t| : ℚ) : WithTop ℚ) ≥ I.event_acceptable_tol)) ∧
    (∀ m1 : IntegratorMemory σ, 0 ≤ m1.event_index → converge_test I m1 ≠ Converge.fail →
      (converge_test I m1 = Converge.done ∧
        (((|m1.t_next - m1.t| : ℚ) : WithTop ℚ) < I.event_tol ∨
          (m1.event_iter = I.max_event_iter ∧
            ((|m1.t_next - m1.t| : ℚ) : WithTop ℚ) < I.event_acceptable_tol))) ∨
      (converge_test I m1 = Converge.again ∧ m1.event_iter ≠ I.max_event_iter)) ∧
    (advance_iter C I m = .error Err.eventNonConvergence ↔
      ∃ m1, advance_step C I m = .ok (true, m1) ∧ converge_test I m1 = Converge.fail) ∧
    (advance C I fuel m = .error Err.eventNonConvergence ↔
      ∃ m0 n mn, advance_entry C I m = .ok m0 ∧ n < fuel ∧
        advance_passes C I n m0 = some mn ∧
        advance_iter C I mn = .error Err.eventNonConvergence) ∧
    (I.event_acceptable_tol = ⊤ → advance C I fuel m ≠ .error Err.eventNonConvergence) := by
  have hiter : ∀ mm : IntegratorMemory σ,
      advance_iter C I mm = .error Err.eventNonConvergence ↔
      ∃ m1, advance_step C I mm = .ok (true, m1) ∧ converge_test I m1 = Converge.fail := by
    intro mm
    constructor
    · intro h
      rcases advance_iter_error C I mm _ h with h1 | h1 | h1
      · exact absurd h1 (by decide)
      · exact absurd h1 (by decide)
      · exact h1.2
    · rintro ⟨m1, h1, h2⟩
      rcases advance_iter_cases C I mm with ⟨e, h3, -⟩ | ⟨m2, h3, -⟩ | ⟨m2, h3, h4⟩
      · rw [h1] at h3; exact absurd h3 (by simp)
      · rw [h1] at h3; exact absurd h3 (by simp)
      · rw [h1] at h3
        have hm : m1 = m2 := by
          simp only [Except.ok.injEq, Prod.mk.injEq, true_and] at h3
          exact h3
        subst hm
        rcases h4 with ⟨hc, -⟩ | ⟨hc, -⟩ | ⟨-, h5⟩
        · rw [h2] at hc; exact absurd hc (by decide)
        · rw [h2] at hc; exact absurd hc (by decide)
        · exact h5
  have hadv : advance C I fuel m = .error Err.eventNonConvergence ↔
      ∃ m0 n mn, advance_entry C I m = .ok m0 ∧ n < fuel ∧
        advance_passes C I n m0 = some mn ∧
        advance_iter C I mn = .error Err.eventNonConvergence := by
    unfold advance
    cases he : advance_entry C I m with
    | error e =>
      simp only []
      constructor
      · intro h
        cases h
        exact absurd (advance_entry_error C I m _ he) (by decide)
      · rintro ⟨m0, n, mn, h0, -⟩
        exact absurd h0 (by simp)
    | ok m0 =>
      simp only []
      rw [advance_loop_nonconvergence C I fuel m0]
      constructor
      · rintro ⟨n, mn, h1, h2, h3⟩
        exact ⟨m0, n, mn, rfl, h1, h2, h3⟩
      · rintro ⟨m0', n, mn, h0, h1, h2, h3⟩
        cases h0
        exact ⟨n, mn, h1, h2, h3⟩
  refine ⟨fun m1 => converge_test_fail I m1, ?_, hiter m, hadv, ?_⟩
  · intro m1 hidx hnf
    rcases converge_test_cases I m1 with ⟨a, h⟩ | ⟨a, b, h⟩ | ⟨a, b, c, d, h⟩ |
      ⟨a, b, c, d, h⟩ | ⟨a, b, c, h⟩
    · omega
    · exact Or.inl ⟨h, Or.inl b⟩
    · exact absurd h hnf
    · exact Or.inl ⟨h, Or.inr ⟨c, lt_of_not_ge d⟩⟩
    · exact Or.inr ⟨h, c⟩
  · intro htop h
    obtain ⟨m0, n, mn, -, -, -, h3⟩ := hadv.1 h
    obtain ⟨m1, -, h5⟩ := (hiter mn).1 h3
    have h6 := ((converge_test_fail I m1).1 h5).2.2.2
    rw [htop] at h6
    exact absurd h6 (not_le.2 (WithTop.coe_lt_top _))

/-- Witness of claim C7: with the finite acceptable tolerance `1/100` the sample
problem fails with the non-convergence error in its third event iteration;
with the default `+∞` it does not. -/
theorem event_nonconvergence_witness :
    (∃ m0 n mn, advance_entry sampleCollaborators strictIntegrator sampleMemory = .ok m0 ∧
      n < 3 ∧ advance_passes sampleCollaborators strictIntegrator n m0 = some mn ∧
      advance_iter sampleCollaborators strictIntegrator mn =
        .error Err.eventNonConvergence) ∧
    advance sampleCollaborators eventIntegrator 3 sampleMemory ≠
      .error Err.eventNonConvergence :=
  ⟨(event_nonconvergence_iff sampleCollaborators strictIntegrator sampleMemory 3).2.2.2.1.1
      (by decide!),
   (event_nonconvergence_iff sampleCollaborators eventIntegrator sampleMemory 3).2.2.2.2
      (by decide!)⟩

/-- Claim C8. For `max_event_iter ≥ 1` and a step strategy that keeps the
bookkeeping members, a call of `advance` makes at most `max_event_iter`
event iterations (each of which calls `advance_noevent` once): run with a
bound of `max_event_iter` passes the loop never hits the bound, a larger
bound gives the same result, fewer than `max_event_iter` passes end with
"More iterations needed", and on return the pass counter `event_iter` lies
between 1 and `max_event_iter`. -/
theorem advance_iterations_bounded {σ : Type} (C : Collaborators σ) (hC : C.Frame)
    (I : Integrator) (hmax : 1 ≤ I.max_event_iter) (m : IntegratorMemory σ) (fuel : Nat)
    (hfuel : I.max_event_iter.toNat ≤ fuel) :
    advance C I fuel m ≠ .error Err.outOfFuel ∧
    advance C I fuel m = advance C I I.max_event_iter.toNat m ∧
    (∀ m0 n mn, advance_entry C I m = .ok m0 → advance_passes C I n m0 = some mn →
      (n : Int) < I.max_event_iter) ∧
    (∀ m1, advance C I fuel m = .ok m1 →
      1 ≤ m1.event_iter ∧ m1.event_iter ≤ I.max_event_iter) := by
  have hpass : ∀ m0 n mn, advance_entry C I m = .ok m0 →
      advance_passes C I n m0 = some mn → (n : Int) < I.max_event_iter := by
    intro m0 n mn h0 hp
    obtain ⟨-, hz, -⟩ := advance_entry_spec C I m m0 h0
    have := (advance_passes_count C hC I n m0 mn (by omega) hp).2
    omega
  unfold advance
  cases he : advance_entry C I m with
  | error e =>
    simp only []
    refine ⟨?_, trivial, ?_, ?_⟩
    · rw [advance_entry_error C I m e he]; intro hh; cases hh
    · intro m0 n mn h0; exact absurd h0 (by simp)
    · intro m1 h; exact absurd h (by simp)
  | ok m0 =>
    simp only []
    obtain ⟨-, hz, -⟩ := advance_entry_spec C I m m0 he
    have hb : advance_loop C I I.max_event_iter.toNat m0 ≠ .error Err.outOfFuel :=
      advance_loop_bound C hC I _ m0 (by omega) (by rw [hz]; simp)
    have hk : fuel = I.max_event_iter.toNat + (fuel - I.max_event_iter.toNat) := by omega
    have hm := advance_loop_mono C I _ m0 hb (fuel - I.max_event_iter.toNat)
    rw [← hk] at hm
    refine ⟨by rw [hm]; exact hb, hm, ?_, ?_⟩
    · intro m0' n mn h0 hp
      exact hpass m0' n mn (by rw [he]; exact h0) hp
    · intro m1 h
      obtain ⟨-, -, hlt, hle⟩ := advance_loop_spec C hC I fuel m0 m1 h
      exact ⟨by omega, hle (by omega)⟩

/-- Witness of claim C8: on the sample problem with the default
`max_event_iter = 3`, a bound of three passes is not hit. -/
theorem advance_iterations_bounded_witness :
    advance sampleCollaborators eventIntegrator 3 sampleMemory ≠ .error Err.outOfFuel ∧
    advance sampleCollaborators eventIntegrator 10 sampleMemory =
      advance sampleCollaborators eventIntegrator 3 sampleMemory :=
  ⟨(advance_iterations_bounded sampleCollaborators sampleCollaborators_frame eventIntegrator
      (by decide) sampleMemory 3 (by decide)).1,
   (advance_iterations_bounded sampleCollaborators sampleCollaborators_frame eventIntegrator
      (by decide) sampleMemory 10 (by decide)).2.1⟩

/-! ## Triggering of events -/

theorem sameBookkeeping_refl {σ : Type} (m : IntegratorMemory σ) : SameBookkeeping m m :=
  ⟨rfl, rfl, rfl, rfl, rfl, rfl, rfl, rfl, rfl, rfl, rfl, rfl⟩

theorem sameBookkeeping_trans {σ : Type} (m m1 m2 : IntegratorMemory σ)
    (h1 : SameBookkeeping m m1) (h2 : SameBookkeeping m1 m2) : SameBookkeeping m m2 := by
  obtain ⟨a1, a2, a3, a4, a5, a6, a7, a8, a9, a10, a11, a12⟩ := h1
  obtain ⟨b1, b2, b3, b4, b5, b6, b7, b8, b9, b10, b11, b12⟩ := h2
  exact ⟨b1.trans a1, b2.trans a2, b3.trans a3, b4.trans a4, b5.trans a5, b6.trans a6,
    b7.trans a7, b8.trans a8, b9.trans a9, b10.trans a10, b11.trans a11, b12.trans a12⟩

theorem calc_edot_book {σ : Type} (C : Collaborators σ) (I : Integrator)
    (m m1 : IntegratorMemory σ) (h : calc_edot C I m = .ok m1) : SameBookkeeping m m1 :=
  (calc_edot_frame C I m m1 h).1

/-- The sensitivity block of `trigger_event` writes the scratch vectors and
`x` only. -/
theorem event_time_sensitivity_book {σ : Type} (C : Collaborators σ) (I : Integrator)
    (ind : Nat) (m m1 : IntegratorMemory σ) (h : event_time_sensitivity C I ind m = .ok m1) :
    SameBookkeeping m m1 ∧ m1.z = m.z := by
  unfold event_time_sensitivity at h
  simp only [bind, Except.bind, pure, Except.pure] at h
  split at h
  · exact absurd h (by simp)
  · cases h
    exact ⟨⟨rfl, rfl, rfl, rfl, rfl, rfl, rfl, rfl, rfl, rfl, rfl, rfl⟩, rfl⟩

theorem event_time_sensitivity_error {σ : Type} (C : Collaborators σ) (I : Integrator)
    (ind : Nat) (m : IntegratorMemory σ) (e : Err)
    (h : event_time_sensitivity C I ind m = .error e) : e = Err.oracle := by
  unfold event_time_sensitivity at h
  simp only [bind, Except.bind, pure, Except.pure] at h
  split at h
  · rename_i e1 h1
    cases h
    exact orFail_error _ _ _ h1
  · exact absurd h (by simp)

/-- The transition block of `trigger_event` writes `tmp2` only. -/
theorem call_transition_book {σ : Type} (C : Collaborators σ) (I : Integrator)
    (ind : Nat) (m m1 : IntegratorMemory σ) (h : call_transition C I ind m = .ok m1) :
    SameBookkeeping m m1 ∧ m1.x = m.x ∧ m1.z = m.z := by
  unfold call_transition at h
  simp only [bind, Except.bind, pure, Except.pure] at h
  split at h
  · exact absurd h (by simp)
  · split at h
    · split at h
      · cases h
        exact ⟨⟨rfl, rfl, rfl, rfl, rfl, rfl, rfl, rfl, rfl, rfl, rfl, rfl⟩, rfl, rfl⟩
      · cases h
        exact ⟨⟨rfl, rfl, rfl, rfl, rfl, rfl, rfl, rfl, rfl, rfl, rfl, rfl⟩, rfl, rfl⟩
    · cases h
      exact ⟨⟨rfl, rfl, rfl, rfl, rfl, rfl, rfl, rfl, rfl, rfl, rfl, rfl⟩, rfl, rfl⟩

theorem call_transition_error {σ : Type} (C : Collaborators σ) (I : Integrator)
    (ind : Nat) (m : IntegratorMemory σ) (e : Err)
    (h : call_transition C I ind m = .error e) : e = Err.oracle := by
  unfold call_transition at h
  simp only [bind, Except.bind, pure, Except.pure] at h
  split at h
  · rename_i e1 h1
    cases h
    exact orFail_error _ _ _ h1
  · split at h
    · split at h <;> exact absurd h (by simp)
    · exact absurd h (by simp)

theorem sensitivity_stage_book {σ : Type} (C : Collaborators σ) (I : Integrator)
    (ind : Nat) (m m1 : IntegratorMemory σ) (h : sensitivity_stage C I ind m = .ok m1) :
    SameBookkeeping m m1 ∧ m1.z = m.z ∧ (¬ I.nfwd > 0 → m1 = m) := by
  unfold sensitivity_stage at h
  split at h
  · rename_i hn
    obtain ⟨h1, h2⟩ := event_time_sensitivity_book C I ind m m1 h
    exact ⟨h1, h2, fun hh => absurd hn hh⟩
  · cases h
    exact ⟨sameBookkeeping_refl _, rfl, fun _ => rfl⟩

theorem sensitivity_stage_error {σ : Type} (C : Collaborators σ) (I : Integrator)
    (ind : Nat) (m : IntegratorMemory σ) (e : Err)
    (h : sensitivity_stage C I ind m = .error e) : e = Err.oracle := by
  unfold sensitivity_stage at h
  split at h
  · exact event_time_sensitivity_error C I ind m e h
  · exact absurd h (by simp [pure, Except.pure])

theorem transition_stage_book {σ : Type} (C : Collaborators σ) (I : Integrator)
    (ind : Nat) (m m1 : IntegratorMemory σ) (h : transition_stage C I ind m = .ok m1) :
    SameBookkeeping m m1 ∧ m1.x = m.x ∧ m1.z = m.z ∧ (has_transition I = false → m1 = m) := by
  unfold transition_stage at h
  split at h
  · rename_i hn
    obtain ⟨h1, h2, h3⟩ := call_transition_book C I ind m m1 h
    exact ⟨h1, h2, h3, fun hh => absurd hn (by rw [hh]; simp)⟩
  · cases h
    exact ⟨sameBookkeeping_refl _, rfl, rfl, fun _ => rfl⟩

theorem transition_stage_error {σ : Type} (C : Collaborators σ) (I : Integrator)
    (ind : Nat) (m : IntegratorMemory σ) (e : Err)
    (h : transition_stage C I ind m = .error e) : e = Err.oracle := by
  unfold transition_stage at h
  split at h
  · exact call_transition_error C I ind m e h
  · exact absurd h (by simp [pure, Except.pure])

/-- Outcomes of `trigger_event`. It fails with "too many events" exactly when
the incremented counter exceeds `max_events`; its other failures are the
consistency check and the oracle; on success the counter has grown by one
and does not exceed `max_events`, no event is selected any more, and the
other bookkeeping members except `event_triggered` are as before. -/
theorem trigger_event_spec {σ : Type} (C : Collaborators σ) (I : Integrator)
    (m : IntegratorMemory σ) :
    (trigger_event C I m = .error Err.tooManyEvents ↔ m.num_events + 1 > I.max_events) ∧
    (∀ e, trigger_event C I m = .error e →
      e = Err.tooManyEvents ∨ e = Err.eventConsistency ∨ e = Err.oracle) ∧
    (∀ m1, trigger_event C I m = .ok m1 →
      (m1.num_events = m.num_events + 1 ∧ m1.num_events ≤ I.max_events ∧
        m1.event_index = -1 ∧ 0 ≤ m.event_index) ∧
      (m1.k = m.k ∧ m1.t = m.t ∧ m1.t_next = m.t_next ∧ m1.t_next_out = m.t_next_out ∧
        m1.t_stop = m.t_stop ∧ m1.t_start = m.t_start ∧ m1.t_step = m.t_step ∧
        m1.event_iter = m.event_iter ∧ m1.old_e = m.old_e)) := by
  unfold trigger_event
  dsimp only
  by_cases h1 : m.num_events + 1 > I.max_events
  · rw [if_pos h1]
    exact ⟨⟨fun _ => h1, fun _ => rfl⟩, fun e he => (by cases he; exact Or.inl rfl),
      fun m1 hm => absurd hm (by simp)⟩
  · rw [if_neg h1]
    by_cases h2 : m.event_index < 0 ∨ m.event_triggered.getD m.event_index.toNat 0 ≠ 0
    · rw [if_pos h2]
      exact ⟨⟨fun h => (by cases h), fun h => absurd h h1⟩,
        fun e he => (by cases he; exact Or.inr (Or.inl rfl)),
        fun m1 hm => absurd hm (by simp)⟩
    · rw [if_neg h2]
      have hidx : 0 ≤ m.event_index := by
        by_contra hh
        exact h2 (Or.inl (by omega))
      cases hs : sensitivity_stage C I m.event_index.toNat
          { m with num_events := m.num_events + 1,
                   event_triggered := writeBlock m.event_triggered m.event_index.toNat [1] } with
      | error e1 =>
        dsimp only
        have he1 := sensitivity_stage_error C I _ _ e1 hs
        subst he1
        exact ⟨⟨fun h => (by cases h), fun h => absurd h h1⟩,
          fun e he => (by cases he; exact Or.inr (Or.inr rfl)),
          fun m1 hm => absurd hm (by simp)⟩
      | ok m2 =>
        dsimp only
        obtain ⟨⟨a1, a2, a3, a4, a5, a6, a7, a8, a9, a10, a11, -⟩, -⟩ :=
          sensitivity_stage_book C I _ _ m2 hs
        cases ht : transition_stage C I m.event_index.toNat m2 with
        | error e1 =>
          dsimp only
          have he1 := transition_stage_error C I _ _ e1 ht
          subst he1
          exact ⟨⟨fun h => (by cases h), fun h => absurd h h1⟩,
            fun e he => (by cases he; exact Or.inr (Or.inr rfl)),
            fun m1 hm => absurd hm (by simp)⟩
        | ok m3 =>
          dsimp only
          obtain ⟨⟨b1, b2, b3, b4, b5, b6, b7, b8, b9, b10, b11, -⟩, -⟩ :=
            transition_stage_book C I _ _ m3 ht
          cases hc : calc_edot C I (update_xz I m3) with
          | error e1 =>
            dsimp only
            have he1 := calc_edot_error C I _ e1 hc
            subst he1
            exact ⟨⟨fun h => (by cases h), fun h => absurd h h1⟩,
              fun e he => (by cases he; exact Or.inr (Or.inr rfl)),
              fun m1 hm => absurd hm (by simp)⟩
          | ok m4 =>
            dsimp only
            obtain ⟨c1, c2, c3, c4, c5, c6, c7, c8, c9, c10, c11, -⟩ :=
              calc_edot_book C I _ m4 hc
            refine ⟨⟨fun h => (by cases h), fun h => absurd h h1⟩,
              fun e he => (by cases he), ?_⟩
            intro m1 hm
            cases hm
            have hnum : m4.num_events = m.num_events + 1 :=
              c10.trans (b10.trans a10)
            refine ⟨⟨hnum, ?_, rfl, hidx⟩,
              ⟨c1.trans (b1.trans a1), c2.trans (b2.trans a2), c3.trans (b3.trans a3),
               c4.trans (b4.trans a4), c5.trans (b5.trans a5), c6.trans (b6.trans a6),
               c7.trans (b7.trans a7), c8.trans (b8.trans a8), c11.trans (b11.trans a11)⟩⟩
            show m4.num_events ≤ I.max_events
            rw [hnum]
            exact not_lt.1 h1

/-- Claim C10 fails on the code. Evaluation of `trigger_event` on the sample
problem, which has no transition function: the call succeeds and replaces the state `x = 1` by the
content `7` of the scratch vector `tmp2`. -/
theorem trigger_event_overwrites_state :
    has_transition eventIntegrator = false ∧
    trigger_event sampleCollaborators eventIntegrator { sampleMemory with event_index := 0 } =
      .ok sampleTriggered ∧
    sampleMemory.x = [1] ∧ sampleTriggered.x = [7] := by
  decide!

/-! ## Forward sweep -/

/-- Bookkeeping of a successful call of `advance`. -/
theorem advance_spec {σ : Type} (C : Collaborators σ) (hC : C.Frame) (I : Integrator)
    (fuel : Nat) (m m1 : IntegratorMemory σ) (h : advance C I fuel m = .ok m1) :
    (m1.k = m.k ∧ m1.t_next_out = m.t_next_out ∧ m1.t_start = m.t_start ∧
      m1.t_step = m.t_step ∧ m1.num_events = m.num_events ∧
      m1.event_triggered = m.event_triggered) ∧
    ((m1.event_index = -1 ∧ m1.t_next = m1.t_next_out) ∨
      (0 ≤ m1.event_index ∧ m1.t_next < m1.t_next_out)) := by
  unfold advance at h
  cases he : advance_entry C I m with
  | error e => rw [he] at h; exact absurd h (by simp)
  | ok m0 =>
    rw [he] at h
    dsimp only at h
    obtain ⟨⟨a1, -, a3, a4, a5, a6, a7⟩, -, -⟩ := advance_entry_spec C I m m0 he
    obtain ⟨⟨b1, b3, b4, b5, b6, -, b7⟩, hor, -, -⟩ := advance_loop_spec C hC I fuel m0 m1 h
    exact ⟨⟨b1.trans a1, b3.trans a3, b4.trans a4, b5.trans a5, b6.trans a6, b7.trans a7⟩, hor⟩

/-- The loop `while (m->event_index >= 0)` of `eval` keeps the output index,
the time and the next output time; the event counter does not decrease, and
if it has changed it does not exceed `max_events`. -/
theorem trigger_loop_spec {σ : Type} (C : Collaborators σ) (I : Integrator) :
    ∀ (fuel : Nat) (m m1 : IntegratorMemory σ), trigger_loop C I fuel m = .ok m1 →
      (m1.k = m.k ∧ m1.t = m.t ∧ m1.t_next_out = m.t_next_out ∧ m1.t_step = m.t_step) ∧
      m.num_events ≤ m1.num_events ∧
      (m1.num_events = m.num_events ∨ m1.num_events ≤ I.max_events) := by
  intro fuel
  induction fuel with
  | zero =>
    intro m m1 h
    unfold trigger_loop at h
    split at h
    · exact absurd h (by simp)
    · cases h
      exact ⟨⟨rfl, rfl, rfl, rfl⟩, le_refl _, Or.inl rfl⟩
  | succ n ih =>
    intro m m1 h
    unfold trigger_loop at h
    split at h
    · cases ht : trigger_event C I m with
      | error e => rw [ht] at h; exact absurd h (by simp)
      | ok m2 =>
        rw [ht] at h
        dsimp only at h
        obtain ⟨⟨a1, a2, -, -⟩, ⟨b1, b2, -, b4, -, -, b7, -, -⟩⟩ :=
          (trigger_event_spec C I m).2.2 m2 ht
        obtain ⟨⟨c1, c2, c3, c4⟩, hle, hor⟩ := ih _ m1 h
        refine ⟨⟨c1.trans b1, c2.trans b2, c3.trans b4, c4.trans b7⟩, ?_, Or.inr ?_⟩
        · have : m2.num_events ≤ m1.num_events := hle
          omega
        · rcases hor with hor | hor
          · have : m1.num_events = m2.num_events := hor
            omega
          · exact hor
    · cases h
      exact ⟨⟨rfl, rfl, rfl, rfl⟩, le_refl _, Or.inl rfl⟩

/-- The block "Trigger all event, if any" of `eval`: without a selected event
the memory is unchanged; with one, `t_next` is set to the next output time. -/
theorem trigger_all_spec {σ : Type} (C : Collaborators σ) (I : Integrator) (fuel : Nat)
    (m m1 : IntegratorMemory σ) (h : trigger_all C I fuel m = .ok m1) :
    (m1.k = m.k ∧ m1.t = m.t ∧ m1.t_next_out = m.t_next_out) ∧
    (m.event_index < 0 → m1 = m) ∧
    (0 ≤ m.event_index → m1.t_next = m1.t_next_out) ∧
    m.num_events ≤ m1.num_events ∧
    (m1.num_events = m.num_events ∨ m1.num_events ≤ I.max_events) := by
  unfold trigger_all at h
  split at h
  · rename_i hidx
    simp only [bind, Except.bind, pure, Except.pure] at h
    split at h
    · exact absurd h (by simp)
    · rename_i m2 h2
      cases h
      obtain ⟨⟨c1, c2, c3, -⟩, hle, hor⟩ := trigger_loop_spec C I fuel _ m2 h2
      exact ⟨⟨c1, c2, c3⟩, fun hh => absurd hidx (by omega), fun _ => rfl, hle, hor⟩
  · rename_i hidx
    cases h
    exact ⟨⟨rfl, rfl, rfl⟩, fun _ => rfl, fun hh => absurd hh hidx, le_refl _, Or.inl rfl⟩

/-- One pass of the loop "Keep integrating until we reach the next output
time": afterwards `t_next` is the next output time, which the pass has not
changed. -/
theorem integrate_pass_spec {σ : Type} (C : Collaborators σ) (hC : C.Frame) (I : Integrator)
    (fuel : Nat) (s s1 : Bool × IntegratorMemory σ) (h : integrate_pass C I fuel s = .ok s1) :
    (s1.2.k = s.2.k ∧ s1.2.t_next_out = s.2.t_next_out) ∧
    s1.2.t_next = s1.2.t_next_out ∧
    s.2.num_events ≤ s1.2.num_events ∧
    (s1.2.num_events = s.2.num_events ∨ s1.2.num_events ≤ I.max_events) := by
  unfold integrate_pass at h
  simp only [bind, Except.bind, pure, Except.pure] at h
  split at h
  · exact absurd h (by simp)
  · rename_i m2 h2
    split at h
    · exact absurd h (by simp)
    · rename_i m3 h3
      cases h
      obtain ⟨⟨a1, a2, -, -, a5, -⟩, hor⟩ := advance_spec C hC I fuel _ m2 h2
      obtain ⟨⟨b1, -, b3⟩, hneg, hpos, hle, hor2⟩ := trigger_all_spec C I fuel m2 m3 h3
      have hres : ∀ (s0 : Bool × IntegratorMemory σ),
          s0 = (if s.2.reset_solver = true then
              (false, { C.reset s.2 s.1 with reset_solver := false }) else s) →
          s0.2.k = s.2.k ∧ s0.2.t_next_out = s.2.t_next_out ∧
            s0.2.num_events = s.2.num_events := by
        intro s0 hs0
        split at hs0
        · subst hs0
          obtain ⟨r1, -, -, r4, -, -, -, -, -, r10, -, -⟩ := hC.reset_frame s.2 s.1
          exact ⟨r1, r4, r10⟩
        · subst hs0
          exact ⟨rfl, rfl, rfl⟩
      obtain ⟨r1, r4, r10⟩ := hres _ rfl
      refine ⟨⟨b1.trans (a1.trans r1), b3.trans (a2.trans r4)⟩, ?_, ?_, ?_⟩
      · show m3.t_next = m3.t_next_out
        rcases hor with ⟨e1, e2⟩ | ⟨e1, -⟩
        · have hm : m3 = m2 := hneg (by rw [e1]; decide)
          rw [hm]; exact e2
        · exact hpos e1
      · show s.2.num_events ≤ m3.num_events
        rw [← r10, ← a5]; exact hle
      · show m3.num_events = s.2.num_events ∨ m3.num_events ≤ I.max_events
        rcases hor2 with hor2 | hor2
        · exact Or.inl (hor2.trans (a5.trans r10))
        · exact Or.inr hor2

/-- The loop "Keep integrating until we reach the next output time" ends
with the time equal to the next output time. -/
theorem integrate_loop_spec {σ : Type} (C : Collaborators σ) (hC : C.Frame) (I : Integrator)
    (fuel : Nat) :
    ∀ (n : Nat) (s s1 : Bool × IntegratorMemory σ), integrate_loop C I fuel n s = .ok s1 →
      (s1.2.k = s.2.k ∧ s1.2.t_next_out = s.2.t_next_out) ∧
      s1.2.t = s1.2.t_next_out ∧
      s.2.num_events ≤ s1.2.num_events ∧
      (s1.2.num_events = s.2.num_events ∨ s1.2.num_events ≤ I.max_events) := by
  intro n
  induction n with
  | zero => intro s s1 h; exact absurd h (by simp [integrate_loop])
  | succ n ih =>
    intro s s1 h
    unfold integrate_loop at h
    cases hp : integrate_pass C I fuel s with
    | error e => rw [hp] at h; exact absurd h (by simp)
    | ok s2 =>
      rw [hp] at h
      dsimp only at h
      obtain ⟨⟨a1, a2⟩, hnext, hle, hor⟩ := integrate_pass_spec C hC I fuel s s2 hp
      split at h
      · obtain ⟨⟨b1, b2⟩, ht, hle2, hor2⟩ := ih s2 s1 h
        refine ⟨⟨b1.trans a1, b2.trans a2⟩, ht, le_trans hle hle2, ?_⟩
        rcases hor2 with hor2 | hor2
        · rcases hor with hor | hor
          · exact Or.inl (hor2.trans hor)
          · exact Or.inr (by rw [hor2]; exact hor)
        · exact Or.inr hor2
      · rename_i hne
        cases h
        exact ⟨⟨a1, a2⟩, (not_not.1 hne).trans hnext, hle, hor⟩

/-- The head of the body of the loop "Integrate forward" sets the output
index and the next output time and keeps the time and the event counter. -/
theorem interval_begin_spec {σ : Type} (I : Integrator) (s : ForwardState σ) (k : Nat) :
    (interval_begin I s k).m.k = (k : Int) ∧
    (interval_begin I s k).m.t_next_out = I.tout.getD k 0 ∧
    (interval_begin I s k).m.num_events = s.m.num_events ∧
    (interval_begin I s k).xf = s.xf ∧ (interval_begin I s k).zf = s.zf ∧
    (interval_begin I s k).qf = s.qf := by
  unfold interval_begin
  dsimp only
  split <;> exact ⟨rfl, rfl, rfl, rfl, rfl, rfl⟩

/-- One pass of the loop "Integrate forward": when the inner loop for the
grid index `k` ends, the time is `tout[k]`, and the blocks appended to `xf`,
`zf`, `qf` are the vectors `x`, `z`, `q` of the memory at that moment. -/
theorem eval_interval_spec {σ : Type} (C : Collaborators σ) (hC : C.Frame) (I : Integrator)
    (fuel : Nat) (s s1 : ForwardState σ) (k : Nat)
    (h : eval_interval C I fuel s k = .ok s1) :
    (s1.m.k = (k : Int) ∧ s1.m.t = I.tout.getD k 0) ∧
    (s1.xf = s.xf ++ [readBlock s1.m.x 0 I.nx.toNat] ∧
      s1.zf = s.zf ++ [readBlock s1.m.z 0 I.nz.toNat] ∧
      s1.qf = s.qf ++ [readBlock s1.m.q 0 I.nq.toNat]) ∧
    s.m.num_events ≤ s1.m.num_events ∧
    (s1.m.num_events = s.m.num_events ∨ s1.m.num_events ≤ I.max_events) := by
  unfold eval_interval at h
  simp only [bind, Except.bind, pure, Except.pure] at h
  split at h
  · exact absurd h (by simp)
  · rename_i r hr
    cases h
    obtain ⟨b1, b2, b3, b4, b5, b6⟩ := interval_begin_spec I s k
    obtain ⟨⟨a1, a2⟩, ht, hle, hor⟩ := integrate_loop_spec C hC I fuel fuel _ r hr
    refine ⟨⟨a1.trans b1, ht.trans (a2.trans b2)⟩, ?_, ?_, ?_⟩
    · unfold interval_end
      dsimp only
      rw [b4, b5, b6]
      exact ⟨rfl, rfl, rfl⟩
    · show s.m.num_events ≤ r.2.num_events
      rw [← b3]; exact hle
    · show r.2.num_events = s.m.num_events ∨ r.2.num_events ≤ I.max_events
      rcases hor with hor | hor
      · exact Or.inl (hor.trans b3)
      · exact Or.inr hor

/-- The first `n` passes of the loop "Integrate forward": `n` blocks have
been appended to each output, the outputs stored by the first `j ≤ n` passes
are initial segments of the final ones, the event counter has not decreased,
and if it has changed it does not exceed `max_events`. -/
theorem forward_intervals_spec {σ : Type} (C : Collaborators σ) (hC : C.Frame) (I : Integrator)
    (fuel : Nat) (s0 : ForwardState σ) :
    ∀ (n : Nat) (sf : ForwardState σ), forward_intervals C I fuel s0 n = .ok sf →
      (sf.xf.length = s0.xf.length + n ∧ sf.zf.length = s0.zf.length + n ∧
        sf.qf.length = s0.qf.length + n) ∧
      (s0.m.num_events ≤ sf.m.num_events ∧
        (sf.m.num_events = s0.m.num_events ∨ sf.m.num_events ≤ I.max_events)) ∧
      (∀ j, j ≤ n → ∃ sj, forward_intervals C I fuel s0 j = .ok sj ∧
        sj.xf <+: sf.xf ∧ sj.zf <+: sf.zf ∧ sj.qf <+: sf.qf) := by
  intro n
  induction n with
  | zero =>
    intro sf h
    simp only [forward_intervals, Except.ok.injEq] at h
    subst h
    refine ⟨⟨rfl, rfl, rfl⟩, ⟨le_refl _, Or.inl rfl⟩, ?_⟩
    intro j hj
    have hj0 : j = 0 := by omega
    subst hj0
    exact ⟨s0, rfl, List.prefix_refl _, List.prefix_refl _, List.prefix_refl _⟩
  | succ n ih =>
    intro sf h
    unfold forward_intervals at h
    cases hp : forward_intervals C I fuel s0 n with
    | error e => rw [hp] at h; exact absurd h (by simp)
    | ok s1 =>
      rw [hp] at h
      dsimp only at h
      obtain ⟨⟨l1, l2, l3⟩, ⟨hle, hor⟩, hpre⟩ := ih s1 hp
      obtain ⟨-, ⟨x1, x2, x3⟩, hle2, hor2⟩ := eval_interval_spec C hC I fuel s1 sf n h
      refine ⟨⟨?_, ?_, ?_⟩, ⟨le_trans hle hle2, ?_⟩, ?_⟩
      · rw [x1, List.length_append, l1]; simp; omega
      · rw [x2, List.length_append, l2]; simp; omega
      · rw [x3, List.length_append, l3]; simp; omega
      · rcases hor2 with hor2 | hor2
        · rcases hor with hor | hor
          · exact Or.inl (hor2.trans hor)
          · exact Or.inr (by rw [hor2]; exact hor)
        · exact Or.inr hor2
      · intro j hj
        by_cases hjn : j ≤ n
        · obtain ⟨sj, h1, p1, p2, p3⟩ := hpre j hjn
          refine ⟨sj, h1, ?_, ?_, ?_⟩
          · rw [x1]; exact List.IsPrefix.trans p1 (List.prefix_append _ _)
          · rw [x2]; exact List.IsPrefix.trans p2 (List.prefix_append _ _)
          · rw [x3]; exact List.IsPrefix.trans p3 (List.prefix_append _ _)
        · have hj1 : j = n + 1 := by omega
          subst hj1
          refine ⟨sf, ?_, List.prefix_refl _, List.prefix_refl _, List.prefix_refl _⟩
          unfold forward_intervals
          rw [hp]
          exact h

theorem getD_of_prefix_append {α : Type} (l f : List α) (b d : α) (h : l ++ [b] <+: f) :
    f.getD l.length d = b := by
  obtain ⟨t, ht⟩ := h
  subst ht
  rw [List.getD_eq_getElem?_getD, List.append_assoc, List.getElem?_append_right (le_refl _)]
  simp

/-- Claim C5. For a step strategy that keeps the bookkeeping members: whenever the
inner loop of `eval` for a grid index `k` ends without error, the time `t`
equals `tout[k]` exactly and the blocks stored as block `k` of `xf`, `zf`,
`qf` are the vectors `x`, `z`, `q` of the memory at that moment; for a whole
forward sweep that ends without error, this holds for every `k < nt` and the
final outputs. -/
theorem output_time_exact {σ : Type} (C : Collaborators σ) (hC : C.Frame) (I : Integrator)
    (fuel : Nat) (a : EvalArgs) (m : IntegratorMemory σ) :
    (∀ (s s1 : ForwardState σ) (k : Nat), eval_interval C I fuel s k = .ok s1 →
      s1.m.t = I.tout.getD k 0 ∧
      s1.xf = s.xf ++ [readBlock s1.m.x 0 I.nx.toNat] ∧
      s1.zf = s.zf ++ [readBlock s1.m.z 0 I.nz.toNat] ∧
      s1.qf = s.qf ++ [readBlock s1.m.q 0 I.nq.toNat]) ∧
    (∀ sf : ForwardState σ, eval_forward C I fuel a m = .ok sf →
      (sf.xf.length = I.tout.length ∧ sf.zf.length = I.tout.length ∧
        sf.qf.length = I.tout.length) ∧
      ∀ k, k < I.tout.length →
        ∃ sk : ForwardState σ,
          forward_intervals C I fuel (eval_begin I a m) (k + 1) = .ok sk ∧
          I.tout[k]? = some sk.m.t ∧
          sf.xf.getD k [] = readBlock sk.m.x 0 I.nx.toNat ∧
          sf.zf.getD k [] = readBlock sk.m.z 0 I.nz.toNat ∧
          sf.qf.getD k [] = readBlock sk.m.q 0 I.nq.toNat) := by
  constructor
  · intro s s1 k h
    obtain ⟨⟨-, ht⟩, ⟨x1, x2, x3⟩, -⟩ := eval_interval_spec C hC I fuel s s1 k h
    exact ⟨ht, x1, x2, x3⟩
  · intro sf h
    unfold eval_forward at h
    obtain ⟨⟨l1, l2, l3⟩, -, hpre⟩ := forward_intervals_spec C hC I fuel _ _ sf h
    have e0 : (eval_begin I a m).xf = [] ∧ (eval_begin I a m).zf = [] ∧
        (eval_begin I a m).qf = [] := ⟨rfl, rfl, rfl⟩
    refine ⟨⟨by rw [l1, e0.1]; simp, by rw [l2, e0.2.1]; simp, by rw [l3, e0.2.2]; simp⟩, ?_⟩
    intro k hk
    obtain ⟨sk, hsk, p1, p2, p3⟩ := hpre (k + 1) (by omega)
    have hsk' := hsk
    unfold forward_intervals at hsk'
    cases hp : forward_intervals C I fuel (eval_begin I a m) k with
    | error e => rw [hp] at hsk'; exact absurd hsk' (by simp)
    | ok s1 =>
      rw [hp] at hsk'
      dsimp only at hsk'
      obtain ⟨⟨-, ht⟩, ⟨x1, x2, x3⟩, -⟩ := eval_interval_spec C hC I fuel s1 sk k hsk'
      obtain ⟨⟨m1, m2, m3⟩, -, -⟩ := forward_intervals_spec C hC I fuel _ k s1 hp
      rw [e0.1] at m1
      rw [e0.2.1] at m2
      rw [e0.2.2] at m3
      simp only [List.length_nil, Nat.zero_add] at m1 m2 m3
      refine ⟨sk, hsk, ?_, ?_, ?_, ?_⟩
      · rw [ht, List.getD_eq_getElem?_getD, List.getElem?_eq_getElem hk]
        rfl
      · rw [x1] at p1
        have := getD_of_prefix_append s1.xf sf.xf _ [] p1
        rw [m1] at this
        exact this
      · rw [x2] at p2
        have := getD_of_prefix_append s1.zf sf.zf _ [] p2
        rw [m2] at this
        exact this
      · rw [x3] at p3
        have := getD_of_prefix_append s1.qf sf.qf _ [] p3
        rw [m3] at this
        exact this

/-- Witness of claim C5 on the sample problem (output times 1 and 2, one event in
the first interval): the forward sweep ends without error, and at the end of
the first interval the time is exactly `tout[0] = 1`. -/
theorem output_time_exact_witness :
    ∃ sf sk : ForwardState Unit,
      eval_forward sampleCollaborators eventIntegrator 5 sampleArgs sampleMemory = .ok sf ∧
      forward_intervals sampleCollaborators eventIntegrator 5
        (eval_begin eventIntegrator sampleArgs sampleMemory) 1 = .ok sk ∧
      sk.m.t = 1 ∧ sf.xf.getD 0 [] = readBlock sk.m.x 0 1 := by
  cases h : eval_forward sampleCollaborators eventIntegrator 5 sampleArgs sampleMemory with
  | error e =>
    have hok : (eval_forward sampleCollaborators eventIntegrator 5 sampleArgs
        sampleMemory).isOk = true := by decide!
    rw [h] at hok
    exact absurd hok (by simp [Except.isOk, Except.toBool])
  | ok sf =>
    obtain ⟨sk, h1, h2, h3, -⟩ :=
      ((output_time_exact sampleCollaborators sampleCollaborators_frame eventIntegrator 5
        sampleArgs sampleMemory).2 sf h).2 0 (by decide)
    refine ⟨sf, sk, rfl, h1, ?_, h3⟩
    have h2' : (some (1 : ℚ)) = some sk.m.t := h2
    exact (Option.some.inj h2').symm

/-- The loop `while (m->event_index >= 0)` of `eval` and the event counter:
the counter never exceeds the larger of its value at the entry and
`max_events`, and when the loop ends without error the counter has grown by
the number of successful calls of `trigger_event`. -/
theorem trigger_loop_count_spec {σ : Type} (C : Collaborators σ) (I : Integrator) :
    ∀ (fuel : Nat) (m : IntegratorMemory σ),
      m.num_events + (trigger_loop_count C I fuel m : Int) ≤ max m.num_events I.max_events ∧
      ∀ m1, trigger_loop C I fuel m = .ok m1 →
        m1.num_events = m.num_events + (trigger_loop_count C I fuel m : Int) := by
  intro fuel
  induction fuel with
  | zero =>
    intro m
    refine ⟨?_, fun m1 h => ?_⟩
    · show m.num_events + ((0 : Nat) : Int) ≤ _
      simp
    · unfold trigger_loop at h
      split at h
      · exact absurd h (by simp)
      · cases h
        show m.num_events = m.num_events + ((0 : Nat) : Int)
        simp
  | succ n ih =>
    intro m
    unfold trigger_loop trigger_loop_count
    by_cases hidx : m.event_index ≥ 0
    · rw [if_pos hidx, if_pos hidx]
      cases ht : trigger_event C I m with
      | error e =>
        dsimp only
        exact ⟨by simp, fun m1 h => absurd h (by simp)⟩
      | ok m2 =>
        dsimp only
        obtain ⟨⟨a1, a2, -, -⟩, -⟩ := (trigger_event_spec C I m).2.2 m2 ht
        obtain ⟨hb, hs⟩ := ih { m2 with reset_solver := true }
        have hb1 : m2.num_events +
            (trigger_loop_count C I n { m2 with reset_solver := true } : Int) ≤
            max m2.num_events I.max_events := hb
        rw [max_eq_right a2] at hb1
        refine ⟨?_, fun m1 h => ?_⟩
        · push_cast
          have := le_max_right m.num_events I.max_events
          omega
        · have h1 : m1.num_events = m2.num_events +
              (trigger_loop_count C I n { m2 with reset_solver := true } : Int) := hs m1 h
          rw [h1, a1]
          push_cast
          ring
    · rw [if_neg hidx, if_neg hidx]
      refine ⟨by simp, fun m1 h => ?_⟩
      cases h
      simp

/-- The block "Trigger all event, if any" of `eval` and the event counter. -/
theorem trigger_all_count_spec {σ : Type} (C : Collaborators σ) (I : Integrator) (fuel : Nat)
    (m : IntegratorMemory σ) :
    m.num_events + (trigger_all_count C I fuel m : Int) ≤ max m.num_events I.max_events ∧
    ∀ m1, trigger_all C I fuel m = .ok m1 →
      m1.num_events = m.num_events + (trigger_all_count C I fuel m : Int) := by
  unfold trigger_all trigger_all_count
  by_cases hidx : m.event_index ≥ 0
  · rw [if_pos hidx, if_pos hidx]
    obtain ⟨hb, hs⟩ := trigger_loop_count_spec C I fuel { m with
      event_triggered := writeBlock m.event_triggered 0 (List.replicate I.ne.toNat 0) }
    refine ⟨hb, fun m1 h => ?_⟩
    simp only [bind, Except.bind, pure, Except.pure] at h
    split at h
    · exact absurd h (by simp)
    · rename_i m2 h2
      cases h
      exact hs m2 h2
  · rw [if_neg hidx, if_neg hidx]
    refine ⟨by simp, fun m1 h => ?_⟩
    cases h
    simp

/-- One pass of the loop "Keep integrating" of `eval` and the event counter:
the reset of the solver and `advance` leave the counter as it is. -/
theorem integrate_pass_count_spec {σ : Type} (C : Collaborators σ) (hC : C.Frame)
    (I : Integrator) (fuel : Nat) (s : Bool × IntegratorMemory σ) :
    s.2.num_events + (integrate_pass_count C I fuel s : Int) ≤
      max s.2.num_events I.max_events ∧
    ∀ s1, integrate_pass C I fuel s = .ok s1 →
      s1.2.num_events = s.2.num_events + (integrate_pass_count C I fuel s : Int) := by
  have hreset : (if s.2.reset_solver then
      (false, { C.reset s.2 s.1 with reset_solver := false }) else s).2.num_events =
      s.2.num_events := by
    split
    · exact (hC.reset_frame s.2 s.1).2.2.2.2.2.2.2.2.2.1
    · rfl
  unfold integrate_pass integrate_pass_count
  simp only [bind, Except.bind, pure, Except.pure]
  cases ha : advance C I fuel (if s.2.reset_solver then
      (false, { C.reset s.2 s.1 with reset_solver := false }) else s).2 with
  | error e =>
    dsimp only
    exact ⟨by simp, fun s1 h => absurd h (by simp)⟩
  | ok m2 =>
    dsimp only
    have hadv : m2.num_events = s.2.num_events :=
      ((advance_spec C hC I fuel _ m2 ha).1.2.2.2.2.1).trans hreset
    obtain ⟨hb, hs⟩ := trigger_all_count_spec C I fuel m2
    rw [hadv] at hb hs
    refine ⟨hb, fun s1 h => ?_⟩
    split at h
    · exact absurd h (by simp)
    · rename_i m3 h3
      cases h
      exact hs m3 h3

/-- The loop `do ... while (m->t != m->t_next)` of `eval` and the event
counter. -/
theorem integrate_loop_count_spec {σ : Type} (C : Collaborators σ) (hC : C.Frame)
    (I : Integrator) (fuel : Nat) :
    ∀ (n : Nat) (s : Bool × IntegratorMemory σ),
      s.2.num_events + (integrate_loop_count C I fuel n s : Int) ≤
        max s.2.num_events I.max_events ∧
      ∀ s1, integrate_loop C I fuel n s = .ok s1 →
        s1.2.num_events = s.2.num_events + (integrate_loop_count C I fuel n s : Int) := by
  intro n
  induction n with
  | zero =>
    intro s
    exact ⟨by simp [integrate_loop_count], fun s1 h => absurd h (by simp [integrate_loop])⟩
  | succ n ih =>
    intro s
    obtain ⟨pb, ps⟩ := integrate_pass_count_spec C hC I fuel s
    unfold integrate_loop integrate_loop_count
    cases hp : integrate_pass C I fuel s with
    | error e =>
      dsimp only
      exact ⟨by simpa using pb, fun s1 h => absurd h (by simp)⟩
    | ok s2 =>
      dsimp only
      have h2 := ps s2 hp
      by_cases ht : s2.2.t ≠ s2.2.t_next
      · rw [if_pos ht, if_pos ht]
        obtain ⟨lb, ls⟩ := ih s2
        refine ⟨?_, fun s1 h => ?_⟩
        · push_cast
          have := le_max_right s.2.num_events I.max_events
          have := le_max_left s.2.num_events I.max_events
          rcases le_total s2.2.num_events I.max_events with hle | hle
          · rw [max_eq_right hle] at lb
            omega
          · rw [max_eq_left hle] at lb
            omega
        · rw [ls s1 h, h2]
          push_cast
          ring
      · rw [if_neg ht, if_neg ht]
        refine ⟨by simpa using pb, fun s1 h => ?_⟩
        cases h
        rw [h2]
        simp

/-- The loop "Integrate forward" of `eval` and the event counter: after any
number of grid intervals the counter never exceeds the larger of its value
at the entry and `max_events`, and when the passes end without error the
counter has grown by the number of successful calls of `trigger_event`. -/
theorem forward_intervals_count_spec {σ : Type} (C : Collaborators σ) (hC : C.Frame)
    (I : Integrator) (fuel : Nat) (s0 : ForwardState σ) :
    ∀ n : Nat,
      s0.m.num_events + (forward_intervals_count C I fuel s0 n : Int) ≤
        max s0.m.num_events I.max_events ∧
      ∀ s, forward_intervals C I fuel s0 n = .ok s →
        s.m.num_events = s0.m.num_events + (forward_intervals_count C I fuel s0 n : Int) := by
  intro n
  induction n with
  | zero =>
    refine ⟨by simp [forward_intervals_count], fun s h => ?_⟩
    cases h
    simp [forward_intervals_count]
  | succ n ih =>
    obtain ⟨fb, fs⟩ := ih
    unfold forward_intervals forward_intervals_count
    cases hf : forward_intervals C I fuel s0 n with
    | error e =>
      dsimp only
      exact ⟨by simpa using fb, fun s h => absurd h (by simp)⟩
    | ok s1 =>
      dsimp only
      have h1 := fs s1 hf
      obtain ⟨lb, ls⟩ := integrate_loop_count_spec C hC I fuel fuel
        ((interval_begin I s1 n).first_call, (interval_begin I s1 n).m)
      have hbeg : (interval_begin I s1 n).m.num_events = s1.m.num_events :=
        (interval_begin_spec I s1 n).2.2.1
      have lb1 : s1.m.num_events + (eval_interval_count C I fuel s1 n : Int) ≤
          max s1.m.num_events I.max_events := by
        rw [← hbeg]
        exact lb
      refine ⟨?_, fun s h => ?_⟩
      · push_cast
        have := le_max_right s0.m.num_events I.max_events
        rcases le_total s1.m.num_events I.max_events with hle | hle
        · rw [max_eq_right hle] at lb1
          omega
        · rw [max_eq_left hle] at lb1
          omega
      · unfold eval_interval at h
        simp only [bind, Except.bind, pure, Except.pure] at h
        split at h
        · exact absurd h (by simp)
        · rename_i r hr
          cases h
          have h2 := ls r hr
          show r.2.num_events = _
          rw [h2, hbeg, h1]
          unfold eval_interval_count
          push_cast
          ring

/-- Claim C9. Within one call of `eval` the event counter `num_events` is set to 0
at the start; `trigger_event` increments it and fails with "too many events"
exactly when the incremented counter exceeds `max_events`; a successful
`trigger_event` leaves the counter one higher and at most `max_events`; and
after any number of grid intervals of the forward sweep the counter, which
is never reset in between, is 0 or at most `max_events`; `advance` and the
head of each grid interval leave the counter as it is. The counter counts
the successful triggers: after any number of grid intervals that end
without error it equals the number of calls of `trigger_event` that have
returned 0 since the start of the call, over all grid intervals; and this
number never exceeds `max_events` (it is 0 for a negative `max_events`),
whether the sweep ends with or without an error. -/
theorem num_events_bounded {σ : Type} (C : Collaborators σ) (hC : C.Frame) (I : Integrator)
    (fuel : Nat) (a : EvalArgs) (m0 : IntegratorMemory σ) :
    (eval_begin I a m0).m.num_events = 0 ∧
    (∀ m : IntegratorMemory σ,
      trigger_event C I m = .error Err.tooManyEvents ↔ m.num_events + 1 > I.max_events) ∧
    (∀ m m1 : IntegratorMemory σ, trigger_event C I m = .ok m1 →
      m1.num_events = m.num_events + 1 ∧ m1.num_events ≤ I.max_events) ∧
    (∀ (n : Nat) (s : ForwardState σ),
      forward_intervals C I fuel (eval_begin I a m0) n = .ok s →
      0 ≤ s.m.num_events ∧ (s.m.num_events = 0 ∨ s.m.num_events ≤ I.max_events)) ∧
    (∀ m m1 : IntegratorMemory σ, advance C I fuel m = .ok m1 →
      m1.num_events = m.num_events) ∧
    (∀ (s : ForwardState σ) (k : Nat), (interval_begin I s k).m.num_events = s.m.num_events) ∧
    (∀ (n : Nat) (s : ForwardState σ),
      forward_intervals C I fuel (eval_begin I a m0) n = .ok s →
      s.m.num_events = (forward_intervals_count C I fuel (eval_begin I a m0) n : Int)) ∧
    (∀ n : Nat,
      (forward_intervals_count C I fuel (eval_begin I a m0) n : Int) ≤ max 0 I.max_events) ∧
    (∀ (n : Nat) (s : ForwardState σ),
      forward_intervals C I fuel (eval_begin I a m0) n = .ok s →
      forward_intervals_count C I fuel (eval_begin I a m0) (n + 1) =
        forward_intervals_count C I fuel (eval_begin I a m0) n +
          eval_interval_count C I fuel s n) := by
  have h0 : (eval_begin I a m0).m.num_events = 0 := rfl
  refine ⟨rfl, fun m => (trigger_event_spec C I m).1, ?_, ?_, ?_, ?_, ?_, ?_, ?_⟩
  · intro m m1 h
    obtain ⟨⟨h1, h2, -, -⟩, -⟩ := (trigger_event_spec C I m).2.2 m1 h
    exact ⟨h1, h2⟩
  · intro n s h
    obtain ⟨-, ⟨hle, hor⟩, -⟩ := forward_intervals_spec C hC I fuel _ n s h
    rw [h0] at hle hor
    exact ⟨hle, hor⟩
  · intro m m1 h
    exact (advance_spec C hC I fuel m m1 h).1.2.2.2.2.1
  · intro s k
    exact (interval_begin_spec I s k).2.2.1
  · intro n s h
    have := (forward_intervals_count_spec C hC I fuel (eval_begin I a m0) n).2 s h
    rw [h0, Int.zero_add] at this
    exact this
  · intro n
    have := (forward_intervals_count_spec C hC I fuel (eval_begin I a m0) n).1
    rw [h0, Int.zero_add] at this
    exact this
  · intro n s h
    show forward_intervals_count C I fuel (eval_begin I a m0) n + _ = _
    rw [h]

/-- Witness of claim C9: with `max_events = 0` the first `trigger_event` of the
sample problem fails with "too many events", and no trigger has succeeded
when the forward sweep of the sample problem stops with this error; with
the default `max_events = 20` the sample forward sweep ends with the counter
1, the number of successful triggers over its two grid intervals. -/
theorem num_events_bounded_witness :
    trigger_event sampleCollaborators { eventIntegrator with max_events := 0 }
      { sampleMemory with event_index := 0 } = .error Err.tooManyEvents ∧
    (eval_forward sampleCollaborators { eventIntegrator with max_events := 0 } 5 sampleArgs
      sampleMemory).map (fun s => s.m.num_events) = .error Err.tooManyEvents ∧
    forward_intervals_count sampleCollaborators { eventIntegrator with max_events := 0 } 5
      (eval_begin { eventIntegrator with max_events := 0 } sampleArgs sampleMemory) 2 = 0 ∧
    ∃ sf : ForwardState Unit,
      eval_forward sampleCollaborators eventIntegrator 5 sampleArgs sampleMemory = .ok sf ∧
      (sf.m.num_events = 0 ∨ sf.m.num_events ≤ 20) ∧
      sf.m.num_events = 1 ∧
      forward_intervals_count sampleCollaborators eventIntegrator 5
        (eval_begin eventIntegrator sampleArgs sampleMemory) 2 = 1 := by
  refine ⟨?_, by decide!, by decide!, ?_⟩
  · exact ((num_events_bounded sampleCollaborators sampleCollaborators_frame
      { eventIntegrator with max_events := 0 } 5 sampleArgs sampleMemory).2.1
      { sampleMemory with event_index := 0 }).2 (by decide)
  · cases h : eval_forward sampleCollaborators eventIntegrator 5 sampleArgs sampleMemory with
    | error e =>
      have hok : (eval_forward sampleCollaborators eventIntegrator 5 sampleArgs
          sampleMemory).isOk = true := by decide!
      rw [h] at hok
      exact absurd hok (by simp [Except.isOk, Except.toBool])
    | ok sf =>
      have hc : forward_intervals_count sampleCollaborators eventIntegrator 5
          (eval_begin eventIntegrator sampleArgs sampleMemory) 2 = 1 := by decide!
      have hn := (num_events_bounded sampleCollaborators sampleCollaborators_frame
        eventIntegrator 5 sampleArgs sampleMemory).2.2.2.2.2.2.1 2 sf h
      rw [hc] at hn
      exact ⟨sf, rfl, ((num_events_bounded sampleCollaborators sampleCollaborators_frame
        eventIntegrator 5 sampleArgs sampleMemory).2.2.2.1 2 sf h).2, hn, hc⟩

/-! ## Scratch length -/

/-- Claim C16 fails on the code. For one state, five zero-crossing functions
and two forward directions `init` succeeds with `ntmp = 5`, which is less
than the `ne * nfwd = 10` entries that `trigger_event` has the oracle write
into `tmp1`; the last index `ind + ne * i` that it reads, for `ind = 4` and
`i = 1`, is 9 and lies outside `tmp1`. -/
theorem ntmp_too_small :
    (Integrator.new 0 [1]).init [("nfwd", { to_int := 2 })] manyEventsEnv =
      .ok manyEventsIntegrator ∧
    (manyEventsIntegrator.ne > 0 ∧ manyEventsIntegrator.nfwd > 0) ∧
    manyEventsIntegrator.ntmp = 5 ∧
    manyEventsIntegrator.ne * manyEventsIntegrator.nfwd = 10 ∧
    ¬ (manyEventsIntegrator.ne * manyEventsIntegrator.nfwd ≤ manyEventsIntegrator.ntmp) ∧
    ¬ ((4 : Int) + manyEventsIntegrator.ne * 1 < manyEventsIntegrator.ntmp) := by
  decide!

/-! ## Work vectors -/

theorem writeBlock_length {α : Type} [Inhabited α] (buf : List α) (off : Nat) (vals : List α) :
    (writeBlock buf off vals).length = buf.length := by
  simp [writeBlock]

theorem getD_writeBlock {α : Type} [Inhabited α] (buf : List α) (off : Nat) (vals : List α)
    (i : Nat) (hi : i < buf.length) :
    (writeBlock buf off vals).getD i default =
      if off ≤ i ∧ i < off + vals.length then vals.getD (i - off) default
      else buf.getD i default := by
  unfold writeBlock
  rw [List.getD_eq_getElem?_getD, List.getElem?_map, List.getElem?_range hi]
  rfl

theorem getD_writeBlock_of_ge {α : Type} [Inhabited α] (buf : List α) (off : Nat)
    (vals : List α) (i : Nat) (hi : buf.length ≤ i) :
    (writeBlock buf off vals).getD i default = default := by
  rw [List.getD_eq_getElem?_getD, List.getElem?_eq_none (by rw [writeBlock_length]; exact hi)]
  rfl

theorem readBlock_length {α : Type} [Inhabited α] (buf : List α) (off n : Nat) :
    (readBlock buf off n).length = n := by
  simp [readBlock]

theorem getD_readBlock {α : Type} [Inhabited α] (buf : List α) (off n i : Nat) (hi : i < n) :
    (readBlock buf off n).getD i default = buf.getD (off + i) default := by
  unfold readBlock
  rw [List.getD_eq_getElem?_getD, List.getElem?_map, List.getElem?_range hi]
  rfl

/-! ## Prediction of events -/

/-- The pass of the prediction loop for an index depends on the memory only
through `t`, `e`, `edot` and `event_triggered`. -/
theorem predict_step_congr {σ : Type} (a m : IntegratorMemory σ) (ht : a.t = m.t)
    (he : a.e = m.e) (hd : a.edot = m.edot) (htr : a.event_triggered = m.event_triggered) :
    predict_step a = predict_step m := by
  funext s i
  unfold predict_step
  rw [ht, he, hd, htr]

theorem detectSame_step {σ : Type} (a m : IntegratorMemory σ) (i : Nat)
    (h : DetectSame a m) : DetectSame (detect_step a i) m := by
  obtain ⟨⟨-, c2, c3, c4, -, -, -, c8, c9⟩, ⟨-, -, -, d4, d5, -, -⟩, -, -⟩ :=
    detect_step_frame a i
  obtain ⟨a1, a2, a3, a4, a5, a6, a7⟩ := h
  exact ⟨c2.trans a1, c4.trans a2, c3.trans a3, d4.trans a4, d5.trans a5, c8.trans a6,
    c9.trans a7⟩

/-- After the loop "Detect events" over a list of indices, `t_next` is at
most its value before, and at most the zero-crossing estimate of every index
of the list that is examined and satisfies the crossing condition. -/
theorem detect_fold_le {σ : Type} (m : IntegratorMemory σ) :
    ∀ (l : List Nat) (a : IntegratorMemory σ), DetectSame a m →
      (l.foldl detect_step a).t_next ≤ a.t_next ∧
      ∀ i ∈ l, detect_examined m i → detect_crossing m i →
        (l.foldl detect_step a).t_next ≤ zero_estimate m i := by
  intro l
  induction l with
  | nil =>
    intro a _
    exact ⟨le_refl _, fun i hi => absurd hi (List.not_mem_nil i)⟩
  | cons j l ih =>
    intro a ha
    rw [List.foldl_cons]
    obtain ⟨h1, h2⟩ := ih (detect_step a j) (detectSame_step a m j ha)
    have hstep : (detect_step a j).t_next ≤ a.t_next := (detect_step_frame a j).2.2.1
    refine ⟨le_trans h1 hstep, ?_⟩
    intro i hi hex hcr
    rcases List.mem_cons.1 hi with rfl | hi
    · refine le_trans h1 ?_
      obtain ⟨a1, a2, a3, a4, a5, a6, a7⟩ := ha
      obtain ⟨hz, hex', hcr'⟩ := detect_conditions_congr a m i a1 a2 a3 a4 a5 a6 a7
      have e1 : detect_examined a i := hex'.2 hex
      have e2 : detect_crossing a i := hcr'.2 hcr
      by_cases h3 : zero_estimate a i < a.t_next
      · have hs : detect_step a i =
            { a with event_index := (i : Int), t_next := zero_estimate a i,
                     t_stop := max a.t (zero_estimate a i) } := by
          simp only [detect_step, e1, e2, h3, not_true_eq_false, ↓reduceIte]
        rw [hs]
        exact le_of_eq hz
      · have hs : detect_step a i = a := by
          simp only [detect_step, e1, e2, h3, not_true_eq_false, ↓reduceIte]
        rw [hs, ← hz]
        exact not_lt.1 h3
    · exact h2 i hi hex hcr

/-- Claim C20 fails as stated: from the sample memory at the start of the
second grid interval, `advance` steps to the output time 2, where the
zero-crossing function 0 is untriggered and has the negative value `-15/4`
(and a negative projection), yet no event is selected and `t_next` stays at
the output time: the function is skipped because its value `old_e[0] = -3/4`
at the start of the step was not positive. -/
theorem detect_skips_nonpositive_old_e :
    advance sampleCollaborators eventIntegrator 1 sampleSecond = .ok sampleSkipped ∧
    (eventIntegrator.ne > 0 ∧ sampleSkipped.t_next_out ≠ sampleSkipped.t_start) ∧
    sampleSkipped.event_triggered.getD 0 0 = 0 ∧ sampleSkipped.e.getD 0 0 < 0 ∧
    sampleSkipped.e.getD 0 0 +
      (sampleSkipped.t_next_out - sampleSkipped.t) * sampleSkipped.edot.getD 0 0 < 0 ∧
    sampleSkipped.old_e.getD 0 0 ≤ 0 ∧
    detect_events eventIntegrator sampleSkipped = sampleSkipped ∧
    sampleSkipped.event_index = -1 ∧ sampleSkipped.t_next = sampleSkipped.t_next_out ∧
    zero_estimate sampleSkipped 0 < sampleSkipped.t_next := by
  decide!

/-- Claim C20, amended. In a pass of the event iterations of `advance` that
reaches the detection of events (`ne ≠ 0`, nondegenerate interval), every
zero-crossing function `i < ne` that has not been triggered, whose value
`old_e[i]` at the start of the step was positive, and whose value `e[i]`
after the step is negative, or whose derivative `edot[i]` is negative with a
negative linear projection `e[i] + (t_next_out - t) * edot[i]`, competes for
the earliest event: `t_next` ends at most at its zero-crossing estimate, and
an event is selected when that estimate lies before the next output time.
Conversely a selected event is such a function and `t_next` is its
estimate. -/
theorem detect_candidates {σ : Type} (C : Collaborators σ) (hC : C.Frame) (I : Integrator)
    (m m1 : IntegratorMemory σ) (h : advance_step C I m = .ok (true, m1)) :
    ¬ (I.ne = 0 ∨ m.t_next_out = m.t_start) ∧
    (∀ i, i < I.ne.toNat → m1.event_triggered.getD i 0 = 0 → m1.old_e.getD i 0 > 0 →
      (m1.e.getD i 0 < 0 ∨
        (m1.edot.getD i 0 < 0 ∧
          m1.e.getD i 0 + (m1.t_next_out - m1.t) * m1.edot.getD i 0 < 0)) →
      m1.t_next ≤ zero_estimate m1 i ∧
      (zero_estimate m1 i < m1.t_next_out → 0 ≤ m1.event_index)) ∧
    (0 ≤ m1.event_index → ∃ j : Nat, m1.event_index = (j : Int) ∧ j < I.ne.toNat ∧
      detect_examined m1 j ∧ detect_crossing m1 j ∧ m1.t_next = zero_estimate m1 j) := by
  obtain ⟨hb, hdet⟩ := advance_step_detect C hC I m m1 true h
  obtain ⟨m3, rfl, hidx, hnext⟩ := hdet rfl
  obtain ⟨⟨-, c2, c3, c4, -, -, -, c8, c9⟩, ⟨-, -, -, d4, d5, -, -⟩, -, -⟩ :=
    detect_events_frame I m3
  have hcong := fun i => detect_conditions_congr (detect_events I m3) m3 i c2 c4 c3 d4 d5 c8 c9
  refine ⟨hb.1 rfl, ?_, ?_⟩
  · intro i hi htr hold hcr
    have hex : detect_examined (detect_events I m3) i := by
      unfold detect_examined
      rintro (h1 | h1)
      · exact h1 htr
      · exact absurd hold (not_lt.2 h1)
    have hcr' : detect_crossing (detect_events I m3) i := hcr
    rw [(hcong i).1]
    have hle := (detect_fold_le m3 (List.range I.ne.toNat) m3
      ⟨rfl, rfl, rfl, rfl, rfl, rfl, rfl⟩).2 i (List.mem_range.2 hi)
      ((hcong i).2.1.1 hex) ((hcong i).2.2.1 hcr')
    refine ⟨hle, ?_⟩
    intro hlt
    rw [c3, ← hnext] at hlt
    rcases detect_events_selected I m3 with ⟨-, e2, -⟩ | ⟨j, e1, -⟩
    · have : (detect_events I m3).t_next < m3.t_next := lt_of_le_of_lt hle hlt
      rw [e2] at this
      exact absurd this (lt_irrefl _)
    · rw [e1]; exact Int.ofNat_nonneg j
  · intro hsel
    rcases detect_events_selected I m3 with ⟨e1, -, -⟩ | ⟨j, e1, e2, e3, e4, e5, -⟩
    · rw [e1, hidx] at hsel
      exact absurd hsel (by decide)
    · exact ⟨j, e1, e2, (hcong j).2.1.2 e3, (hcong j).2.2.2 e4, by rw [e5, (hcong j).1]⟩

/-- Witness of claim C20 on the sample problem: the first event iteration
from `sampleEntry` selects the zero-crossing function 0 with the estimate
`5/8`. -/
theorem detect_candidates_witness :
    samplePass1.t_next ≤ zero_estimate samplePass1 0 ∧ samplePass1.event_index = 0 := by
  have h := detect_candidates sampleCollaborators sampleCollaborators_frame eventIntegrator
    sampleEntry samplePass1 (by decide!)
  exact ⟨(h.2.1 0 (by decide) (by decide) (by decide!) (Or.inl (by decide!))).1, by decide⟩

/-! ## Changes of the control input -/

theorem getD_drop_rat (us : List ℚ) (n i : Nat) :
    (us.drop n).getD i 0 = us.getD (n + i) 0 := by
  rw [List.getD_eq_getElem?_getD, List.getD_eq_getElem?_getD, List.getElem?_drop]

theorem readBlock_drop (us : List ℚ) (n off len : Nat) :
    readBlock (us.drop n) off len = readBlock us (n + off) len := by
  unfold readBlock
  apply List.map_congr_left
  intro i _
  show (us.drop n).getD (off + i) 0 = us.getD (n + off + i) 0
  rw [getD_drop_rat, Nat.add_assoc]

theorem control_block_drop (I : Integrator) (us : List ℚ) (j : Nat) :
    control_block I (us.drop I.nu.toNat) j = control_block I us (j + 1) := by
  unfold control_block
  rw [readBlock_drop, Nat.succ_mul, Nat.add_comm]

/-- The test "any change in input from k to k + 1" of `next_stop` succeeds
exactly when the block at the pointer differs from the block after it. -/
theorem change_test_iff (I : Integrator) (us : List ℚ) :
    (List.range I.nu.toNat).any
        (fun i => decide (us.getD i 0 ≠ (us.drop I.nu.toNat).getD i 0)) = true ↔
      control_block I us 0 ≠ control_block I us 1 := by
  unfold control_block readBlock
  rw [List.any_eq_true]
  constructor
  · rintro ⟨i, hi, hne⟩ heq
    have hne' := of_decide_eq_true hne
    have := List.map_inj_left.1 heq i hi
    apply hne'
    rw [getD_drop_rat]
    simpa using this
  · intro hne
    by_contra hall
    apply hne
    apply List.map_congr_left
    intro i hi
    by_contra hdiff
    apply hall
    refine ⟨i, hi, decide_eq_true ?_⟩
    rw [getD_drop_rat]
    intro heq
    apply hdiff
    simpa using heq

/-- The loop of `next_stop` stops after `d ≤ n` shifts, at the first block
that differs from its successor, or after all `n` passes. -/
theorem next_stop_loop_spec (I : Integrator) :
    ∀ (n : Nat) (k : Int) (us : List ℚ), ∃ d : Nat,
      next_stop_loop I n k us = k + d ∧ d ≤ n ∧
      (∀ j, j < d → control_block I us j = control_block I us (j + 1)) ∧
      (d < n → control_block I us d ≠ control_block I us (d + 1)) := by
  intro n
  induction n with
  | zero =>
    intro k us
    exact ⟨0, by simp [next_stop_loop], le_refl _, fun j hj => absurd hj (Nat.not_lt_zero j),
      fun h => absurd h (lt_irrefl _)⟩
  | succ n ih =>
    intro k us
    unfold next_stop_loop
    dsimp only
    by_cases hc : (List.range I.nu.toNat).any
        (fun i => decide (us.getD i 0 ≠ (us.drop I.nu.toNat).getD i 0)) = true
    · rw [if_pos hc]
      exact ⟨0, by simp, Nat.zero_le _, fun j hj => absurd hj (Nat.not_lt_zero j),
        fun _ => (change_test_iff I us).1 hc⟩
    · rw [if_neg hc]
      obtain ⟨d, h1, h2, h3, h4⟩ := ih (k + 1) (us.drop I.nu.toNat)
      have h0 : control_block I us 0 = control_block I us 1 := by
        by_contra hne
        exact hc ((change_test_iff I us).2 hne)
      refine ⟨d + 1, by rw [h1]; push_cast; ring, Nat.succ_le_succ h2, ?_, ?_⟩
      · intro j hj
        cases j with
        | zero => exact h0
        | succ j =>
          have := h3 j (Nat.lt_of_succ_lt_succ hj)
          rw [control_block_drop, control_block_drop] at this
          exact this
      · intro hd
        have := h4 (Nat.lt_of_succ_lt_succ hd)
        rw [control_block_drop, control_block_drop] at this
        exact this

theorem next_stop_some (I : Integrator) (k : Int) (us : List ℚ) :
    next_stop I k (some us) =
      if I.nu = 0 then I.nt - 1 else next_stop_loop I (I.nt - 1 - k).toNat k us := rfl

/-- The scan of `next_stop` from the grid index `k < nt`, for `nu > 0`:
it stops at `k + d ≤ nt - 1`, all blocks up to `d` (counted from the
pointer) are equal, and block `d` differs from the next one unless `k + d`
is the last index. -/
theorem next_stop_scan (I : Integrator) (k : Int) (us : List ℚ) (hk : k < I.nt)
    (hnu : 0 < I.nu) :
    ∃ d : Nat, next_stop I k (some us) = k + d ∧ k + d ≤ I.nt - 1 ∧
      (k + d + 1 < I.nt → control_block I us d ≠ control_block I us (d + 1)) ∧
      (∀ j, j ≤ d → control_block I us j = control_block I us 0) := by
  obtain ⟨d, h1, h2, h3, h4⟩ := next_stop_loop_spec I (I.nt - 1 - k).toNat k us
  refine ⟨d, ?_, by omega, fun h => h4 (by omega), ?_⟩
  · rw [next_stop_some, if_neg (by omega)]
    exact h1
  · intro j
    induction j with
    | zero => intro _; rfl
    | succ j ih =>
      intro hj
      rw [← h3 j (by omega)]
      exact ih (by omega)

/-- Claim C17. For a grid index `k < nt`: with a null pointer or `nu = 0`,
`next_stop(k, u)` returns `nt - 1`; with `nu > 0` and `u` pointing to the
control block `k`, it returns `k + d` where `k + d` is the least index at or
after `k` with `k + d + 1 < nt` whose block differs from the next one (blocks
`j` and `j + 1` counted from `u` agree for every `j < d`, and blocks `d` and
`d + 1` differ when `k + d + 1 < nt`), so it is `nt - 1` when there is no
such index. In every case `k ≤ next_stop(k, u) ≤ nt - 1`, and the control
blocks `k .. next_stop(k, u)` all equal block `k`. -/
theorem next_stop_spec (I : Integrator) (k : Int) (us : List ℚ) (hk : k < I.nt) :
    next_stop I k none = I.nt - 1 ∧
    (I.nu = 0 → next_stop I k (some us) = I.nt - 1) ∧
    (∀ u, k ≤ next_stop I k u ∧ next_stop I k u ≤ I.nt - 1) ∧
    (0 < I.nu → ∃ d : Nat, next_stop I k (some us) = k + d ∧
      (∀ j, j < d → control_block I us j = control_block I us (j + 1)) ∧
      (k + d + 1 < I.nt → control_block I us d ≠ control_block I us (d + 1)) ∧
      (∀ j, j ≤ d → control_block I us j = control_block I us 0)) := by
  have hloop : ∀ us : List ℚ, ∃ d : Nat,
      next_stop_loop I (I.nt - 1 - k).toNat k us = k + d ∧ k + d ≤ I.nt - 1 ∧
      (∀ j, j < d → control_block I us j = control_block I us (j + 1)) ∧
      (k + d + 1 < I.nt → control_block I us d ≠ control_block I us (d + 1)) := by
    intro us
    obtain ⟨d, h1, h2, h3, h4⟩ := next_stop_loop_spec I (I.nt - 1 - k).toNat k us
    refine ⟨d, h1, by omega, h3, fun h => h4 (by omega)⟩
  refine ⟨rfl, ?_, ?_, ?_⟩
  · intro hnu
    rw [next_stop_some, if_pos hnu]
  · intro u
    cases u with
    | none => exact ⟨by show k ≤ I.nt - 1; omega, le_refl _⟩
    | some vs =>
      rw [next_stop_some]
      by_cases hnu : I.nu = 0
      · rw [if_pos hnu]; exact ⟨by omega, le_refl _⟩
      · rw [if_neg hnu]
        obtain ⟨d, h1, h2, -, -⟩ := hloop vs
        rw [h1]
        exact ⟨by omega, h2⟩
  · intro hnu
    obtain ⟨d, h1, -, h3, h4⟩ := hloop us
    refine ⟨d, ?_, h3, h4, ?_⟩
    · rw [next_stop_some, if_neg (by omega)]
      exact h1
    · intro j
      induction j with
      | zero => intro _; rfl
      | succ j ih =>
        intro hj
        rw [← h3 j (by omega)]
        exact ih (by omega)

/-- Witness of claim C17: with one control, output times 1, 2, 3 and the
control values 5, 5, 6, the scan from the grid index 0 stops at index 1. -/
theorem next_stop_spec_witness :
    next_stop controlIntegrator 0 (some [5, 5, 6]) = 1 ∧
    (∀ u, (0 : Int) ≤ next_stop controlIntegrator 0 u ∧
      next_stop controlIntegrator 0 u ≤ controlIntegrator.nt - 1) :=
  ⟨by decide!,
    (next_stop_spec controlIntegrator 0 [5, 5, 6] (by decide)).2.2.1⟩

/-! ## Legacy options -/

theorem read_options_append (self : Integrator) (l : Dict) (op : String × GenericType) :
    read_options self (l ++ [op]) =
      (read_option (read_options self l) op.1 op.2).getD (read_options self l) := by
  unfold read_options
  rw [List.foldl_append]
  rfl

theorem option_value_append (l : Dict) (op : String × GenericType) (key : String) :
    option_value (l ++ [op]) key = if key = op.1 then some op.2 else option_value l key := by
  unfold option_value
  rw [List.reverse_append]
  show List.lookup key (op :: l.reverse) = _
  obtain ⟨a, b⟩ := op
  rw [List.lookup_cons]
  by_cases h : key = a
  · subst h; simp
  · rw [if_neg h]
    have : (key == a) = false := by simpa using h
    rw [this]

theorem legacy_supplied_append (l : Dict) (op : String × GenericType) :
    legacy_supplied (l ++ [op]) = (legacy_supplied l || decide (op.1 ∈ legacy_keys)) := by
  unfold legacy_supplied
  rw [List.any_append]
  simp

/-- Effect of one pass of the option-reading loop on the legacy temporaries
and on the members `t0_`, `tout_`. -/
theorem read_option_legacy (s : Integrator × LegacyOptions) (key : String) (v : GenericType) :
    ((read_option s key v).getD s).1.t0 = s.1.t0 ∧
    ((read_option s key v).getD s).1.tout = s.1.tout ∧
    ((read_option s key v).getD s).2.t0 =
      (if key = "t0" then finite v.to_double else s.2.t0) ∧
    ((read_option s key v).getD s).2.tf =
      (if key = "tf" then finite v.to_double else s.2.tf) ∧
    ((read_option s key v).getD s).2.grid =
      (if key = "grid" then v.to_double_vector else s.2.grid) ∧
    ((read_option s key v).getD s).2.output_t0 =
      (if key = "output_t0" then v.to_bool else s.2.output_t0) ∧
    ((read_option s key v).getD s).2.uses_legacy_options =
      (s.2.uses_legacy_options || decide (key ∈ legacy_keys)) := by
  by_cases h : key ∈ init_keys
  · simp only [init_keys, List.mem_cons, List.mem_singleton, List.not_mem_nil, or_false] at h
    rcases h with h | h | h | h | h | h | h | h | h | h | h | h | h <;> subst h <;>
      refine ⟨rfl, rfl, ?_, ?_, ?_, ?_, ?_⟩ <;>
      simp [read_option, legacy_keys]
  · have hn : read_option s key v = none := by
      cases hr : read_option s key v with
      | none => rfl
      | some r =>
        exact absurd ((read_option_isSome_iff s key v).1 (by rw [hr]; rfl)) h
    rw [hn]
    simp only [init_keys, List.mem_cons, List.mem_singleton, List.not_mem_nil, or_false,
      not_or] at h
    obtain ⟨h1, -, -, -, h5, -, -, -, -, -, -, h12, h13⟩ := h
    refine ⟨rfl, rfl, ?_, ?_, ?_, ?_, ?_⟩
    · rw [if_neg h12]; rfl
    · rw [if_neg h13]; rfl
    · rw [if_neg h5]; rfl
    · rw [if_neg h1]; rfl
    · simp [legacy_keys, h1, h5, h12, h13]

/-- The legacy temporaries after the option-reading loop. -/
theorem read_options_legacy (self : Integrator) (opts : Dict) :
    (read_options self opts).1.t0 = self.t0 ∧
    (read_options self opts).1.tout = self.tout ∧
    (read_options self opts).2.t0 =
      ((option_value opts "t0").map fun v => finite v.to_double).getD 0 ∧
    (read_options self opts).2.tf =
      ((option_value opts "tf").map fun v => finite v.to_double).getD 1 ∧
    (read_options self opts).2.grid =
      ((option_value opts "grid").map fun v => v.to_double_vector).getD [] ∧
    (read_options self opts).2.output_t0 = legacy_output_t0 opts ∧
    (read_options self opts).2.uses_legacy_options = legacy_supplied opts := by
  induction opts using List.reverseRecOn with
  | nil => exact ⟨rfl, rfl, rfl, rfl, rfl, rfl, rfl⟩
  | append_singleton l op ih =>
    obtain ⟨i1, i2, i3, i4, i5, i6, i7⟩ := ih
    obtain ⟨s1, s2, s3, s4, s5, s6, s7⟩ :=
      read_option_legacy (read_options self l) op.1 op.2
    rw [read_options_append]
    unfold legacy_output_t0 at i6 ⊢
    rw [legacy_supplied_append, option_value_append, option_value_append, option_value_append,
      option_value_append]
    refine ⟨s1.trans i1, s2.trans i2, ?_, ?_, ?_, ?_, ?_⟩
    · rw [s3, i3]
      by_cases h : op.1 = "t0"
      · rw [if_pos h, if_pos h.symm]; rfl
      · rw [if_neg h, if_neg (fun h' => h h'.symm)]
    · rw [s4, i4]
      by_cases h : op.1 = "tf"
      · rw [if_pos h, if_pos h.symm]; rfl
      · rw [if_neg h, if_neg (fun h' => h h'.symm)]
    · rw [s5, i5]
      by_cases h : op.1 = "grid"
      · rw [if_pos h, if_pos h.symm]; rfl
      · rw [if_neg h, if_neg (fun h' => h h'.symm)]
    · rw [s6, i6]
      by_cases h : op.1 = "output_t0"
      · rw [if_pos h, if_pos h.symm]; rfl
      · rw [if_neg h, if_neg (fun h' => h h'.symm)]
    · rw [s7, i7]

theorem set_dims1_time (J : Integrator) (o : FunctionInfo) :
    (J.set_dims1 o).t0 = J.t0 ∧ (J.set_dims1 o).tout = J.tout := ⟨rfl, rfl⟩

/-- Claim C15. After a successful `init`: if any of the legacy options `t0`,
`tf`, `grid`, `output_t0` is supplied, then with `grid` the grid option, or
`[t0, tf]` (defaults `t0 = 0`, `tf = 1`) when that is empty, `t0_` is the
first element of `grid` and `tout_` is `grid` without its first element,
unless `output_t0` is true, in which case `tout_` is `grid`; if none of the
four is supplied, `t0_` and `tout_` are the values given to the
constructor. -/
theorem init_legacy_grid (self : Integrator) (opts : Dict) (env : InitEnv) (I : Integrator)
    (h : self.init opts env = .ok I) :
    (legacy_supplied opts = true →
      (legacy_grid opts).head? = some I.t0 ∧
      I.tout = if legacy_output_t0 opts then legacy_grid opts else (legacy_grid opts).tail) ∧
    (legacy_supplied opts = false → I.t0 = self.t0 ∧ I.tout = self.tout) := by
  obtain ⟨J, B, hJ, -, -, -, hB, hI⟩ := init_ok_shape self opts env I h
  obtain ⟨r1, r2, r3, r4, r5, r6, r7⟩ := read_options_legacy self opts
  have hIJ : I.t0 = J.t0 ∧ I.tout = J.tout := by
    rcases hB with ⟨-, hB⟩ | ⟨-, hB⟩ <;> subst hI <;> subst hB <;> exact ⟨rfl, rfl⟩
  have hJ2 : J.t0 = (apply_legacy (read_options self opts).1 (read_options self opts).2).t0 ∧
      J.tout = (apply_legacy (read_options self opts).1 (read_options self opts).2).tout := by
    rw [hJ]; exact set_dims1_time _ _
  have ht := And.intro (hIJ.1.trans hJ2.1) (hIJ.2.trans hJ2.2)
  rw [ht.1, ht.2]
  unfold apply_legacy
  rw [r7]
  constructor
  · intro hs
    rw [if_pos hs]
    have hg : (if (read_options self opts).2.grid.isEmpty then
        [(read_options self opts).2.t0, (read_options self opts).2.tf]
        else (read_options self opts).2.grid) = legacy_grid opts := by
      unfold legacy_grid
      rw [r3, r4, r5]
    dsimp only
    rw [hg, r6]
    refine ⟨?_, ?_⟩
    · have hne : legacy_grid opts ≠ [] := by
        unfold legacy_grid
        dsimp only
        split
        · simp
        · rename_i hemp
          intro h0
          apply hemp
          rw [h0]; rfl
      cases hL : legacy_grid opts with
      | nil => exact absurd hL hne
      | cons a l => rfl
    · cases legacy_output_t0 opts <;> rfl
  · intro hs
    rw [hs]
    exact ⟨r1, r2⟩

/-- Witness of claim C15: with the legacy options `t0 = 2` and `tf = 5` the
configured object has `t0_ = 2` and `tout_ = [5]`. -/
theorem init_legacy_grid_witness :
    legacy_grid legacyOpts = [2, 5] ∧ legacyIntegrator.t0 = 2 ∧ legacyIntegrator.tout = [5] ∧
    (legacy_grid legacyOpts).head? = some legacyIntegrator.t0 :=
  ⟨by decide!, by decide!, by decide!,
    ((init_legacy_grid (Integrator.new 0 [1]) legacyOpts sampleEnv legacyIntegrator
      (by decide!)).1 (by decide)).1⟩

/-! ## Fixed-step integrators: discretisation -/

/-- The values that the loop of `FixedStepIntegrator::init` appends to
`disc_`, given the last value `c` stored so far. -/
theorem disc_loop_append (h : ℚ) : ∀ (ts : List ℚ) (t : ℚ) (d : List Int) (c : Int),
    ∃ l : List Int, disc_loop h ts t (d ++ [c]) = d ++ c :: l ∧ l.length = ts.length ∧
      (∀ k, k < ts.length → (c :: l).getD (k + 1) 0 - (c :: l).getD k 0 =
        Int.ceil ((ts.getD k 0 - (t :: ts).getD k 0) / h)) ∧
      ((c : ℚ) + ((t :: ts).getLastD 0 - t) / h ≤ (((c :: l).getLastD 0 : Int) : ℚ)) ∧
      ((((c :: l).getLastD 0 : Int) : ℚ) ≤ (c : ℚ) + ((t :: ts).getLastD 0 - t) / h +
        (ts.length : ℚ)) ∧
      (ts ≠ [] → (((c :: l).getLastD 0 : Int) : ℚ) < (c : ℚ) + ((t :: ts).getLastD 0 - t) / h +
        (ts.length : ℚ)) := by
  intro ts
  induction ts with
  | nil =>
    intro t d c
    refine ⟨[], rfl, rfl, fun k hk => absurd hk (Nat.not_lt_zero k), ?_, ?_,
      fun hne => absurd rfl hne⟩
    · simp
    · simp
  | cons a r ih =>
    intro t d c
    have hstep : disc_loop h (a :: r) t (d ++ [c]) =
        disc_loop h r a ((d ++ [c]) ++ [c + Int.ceil ((a - t) / h)]) := by
      show disc_loop h r a ((d ++ [c]) ++ [(d ++ [c]).getLastD 0 + Int.ceil ((a - t) / h)]) = _
      rw [List.getLastD_concat]
    obtain ⟨l, h1, h2, h3, h4, h5, -⟩ := ih a (d ++ [c]) (c + Int.ceil ((a - t) / h))
    have hc1 : (a - t) / h ≤ ((Int.ceil ((a - t) / h) : Int) : ℚ) := Int.le_ceil _
    have hc2 : ((Int.ceil ((a - t) / h) : Int) : ℚ) < (a - t) / h + 1 := Int.ceil_lt_add_one _
    have hlast : (c :: (c + Int.ceil ((a - t) / h)) :: l).getLastD 0 =
        ((c + Int.ceil ((a - t) / h)) :: l).getLastD 0 := rfl
    have hlast2 : (t :: a :: r).getLastD 0 = (a :: r).getLastD 0 := rfl
    have hsplit : ((a :: r).getLastD 0 - t) / h =
        (a - t) / h + ((a :: r).getLastD 0 - a) / h := by ring
    have hlen : (((a :: r).length : Nat) : ℚ) = (r.length : ℚ) + 1 := by
      rw [List.length_cons]; push_cast; ring
    refine ⟨(c + Int.ceil ((a - t) / h)) :: l, ?_, ?_, ?_, ?_, ?_, ?_⟩
    · rw [hstep, h1, List.append_assoc]; rfl
    · rw [List.length_cons, List.length_cons, h2]
    · intro k hk
      cases k with
      | zero =>
        show c + Int.ceil ((a - t) / h) - c = Int.ceil ((a - t) / h)
        ring
      | succ k =>
        exact h3 k (Nat.lt_of_succ_lt_succ hk)
    · rw [hlast, hlast2, hsplit]
      push_cast at h4 ⊢
      linarith
    · rw [hlast, hlast2, hsplit, hlen]
      push_cast at h5 ⊢
      linarith
    · intro _
      rw [hlast, hlast2, hsplit, hlen]
      push_cast at h5 ⊢
      linarith

/-- Claim C14. When the base class `init` succeeds and the target number of
finite elements read from the options is positive, `FixedStepIntegrator::init`
succeeds and builds `disc_` of length `nt + 1` with `disc_[0] = 0` and
`disc_[k+1] - disc_[k] = ceil((tout[k] - tout[k-1]) / h_target)`, where
`tout[-1]` is `t0` and `h_target = (tout.back() - t0) / nk_target`. If
moreover `tout` (preceded by `t0`) is non-decreasing, not empty and
`tout.back() > t0`,
then `disc_` is non-decreasing, an interval of positive length gets at least
one sub-step (the divisor `nj` of `advance_noevent` and `retreat` is at
least 1), an interval of zero length gets none, and
`nk_target ≤ disc_.back() < nk_target + nt`. -/
theorem disc_spec (self : FixedStepIntegrator) (opts : Dict) (env : InitEnv) (I : Integrator)
    (hI : self.base.init opts env = .ok I) (hd : self.disc = [])
    (hnk : 0 < read_finite_elements self.nk_target opts) :
    ∃ F : FixedStepIntegrator, self.init opts env = .ok F ∧ F.base = I ∧
      F.nk_target = read_finite_elements self.nk_target opts ∧
      F.disc.length = I.tout.length + 1 ∧ F.disc.getD 0 0 = 0 ∧
      (∀ k, k < I.tout.length → F.disc.getD (k + 1) 0 - F.disc.getD k 0 =
        Int.ceil ((I.tout.getD k 0 - (I.t0 :: I.tout).getD k 0) /
          ((I.tout.getLastD 0 - I.t0) / (F.nk_target : ℚ)))) ∧
      ((∀ k, k < I.tout.length → (I.t0 :: I.tout).getD k 0 ≤ I.tout.getD k 0) →
        I.tout ≠ [] → I.t0 < I.tout.getLastD 0 →
        (∀ k, k < I.tout.length → F.disc.getD k 0 ≤ F.disc.getD (k + 1) 0) ∧
        (∀ k, k < I.tout.length → (I.t0 :: I.tout).getD k 0 < I.tout.getD k 0 →
          1 ≤ F.nj k) ∧
        (∀ k, k < I.tout.length → (I.t0 :: I.tout).getD k 0 = I.tout.getD k 0 →
          F.nj k = 0) ∧
        F.nk_target ≤ F.disc.getLastD 0 ∧
        F.disc.getLastD 0 < F.nk_target + I.tout.length) := by
  obtain ⟨l, h1, h2, h3, h4, h5, h6⟩ := disc_loop_append
    ((I.tout.getLastD 0 - I.t0) / ((read_finite_elements self.nk_target opts : Int) : ℚ))
    I.tout I.t0 [] 0
  have hinit : self.init opts env =
      .ok { base := I, nk_target := read_finite_elements self.nk_target opts, disc := 0 :: l } := by
    unfold FixedStepIntegrator.init
    simp only [bind, Except.bind, pure, Except.pure, hI]
    rw [if_neg (not_not.2 hnk), hd]
    simp only [List.nil_append] at h1 ⊢
    rw [h1]
  refine ⟨_, hinit, rfl, rfl, ?_, rfl, h3, ?_⟩
  · show (0 :: l).length = _
    rw [List.length_cons, h2]
  · intro hmono hne hlast
    have hnkq : (0 : ℚ) < ((read_finite_elements self.nk_target opts : Int) : ℚ) := by
      exact_mod_cast hnk
    have hpos : (0 : ℚ) < I.tout.getLastD 0 - I.t0 := by linarith
    have hh : (0 : ℚ) < (I.tout.getLastD 0 - I.t0) /
        ((read_finite_elements self.nk_target opts : Int) : ℚ) := div_pos hpos hnkq
    have hl2 : (I.t0 :: I.tout).getLastD 0 = I.tout.getLastD 0 := by
      cases hL : I.tout with
      | nil => exact absurd hL hne
      | cons a r => rfl
    have htot : ((I.t0 :: I.tout).getLastD 0 - I.t0) /
        ((I.tout.getLastD 0 - I.t0) / ((read_finite_elements self.nk_target opts : Int) : ℚ)) =
        ((read_finite_elements self.nk_target opts : Int) : ℚ) := by
      rw [hl2]
      have hq : ∀ x n : ℚ, x ≠ 0 → x / (x / n) = n := by
        intro x n hx
        field_simp
      exact hq _ _ (ne_of_gt hpos)
    rw [htot] at h4 h5 h6
    refine ⟨?_, ?_, ?_, ?_, ?_⟩
    · intro k hk
      have := h3 k hk
      have hc : 0 ≤ Int.ceil ((I.tout.getD k 0 - (I.t0 :: I.tout).getD k 0) /
          ((I.tout.getLastD 0 - I.t0) /
            ((read_finite_elements self.nk_target opts : Int) : ℚ))) :=
        Int.ceil_nonneg (div_nonneg (by linarith [hmono k hk]) (le_of_lt hh))
      show (0 :: l).getD k 0 ≤ (0 :: l).getD (k + 1) 0
      omega
    · intro k hk hlt
      show 1 ≤ (0 :: l).getD (k + 1) 0 - (0 :: l).getD k 0
      rw [h3 k hk]
      exact Int.one_le_ceil_iff.2 (div_pos (by linarith) hh)
    · intro k hk heq
      show (0 :: l).getD (k + 1) 0 - (0 :: l).getD k 0 = 0
      rw [h3 k hk, heq, sub_self, zero_div]
      exact Int.ceil_zero
    · show read_finite_elements self.nk_target opts ≤ (0 :: l).getLastD 0
      have : ((read_finite_elements self.nk_target opts : Int) : ℚ) ≤
          (((0 :: l).getLastD 0 : Int) : ℚ) := by
        push_cast at h4; linarith
      exact_mod_cast this
    · show (0 :: l).getLastD 0 < read_finite_elements self.nk_target opts + I.tout.length
      have := h6 hne
      have h7 : (((0 :: l).getLastD 0 : Int) : ℚ) <
          ((read_finite_elements self.nk_target opts + (I.tout.length : Int) : Int) : ℚ) := by
        push_cast at this ⊢; linarith
      exact_mod_cast h7

/-- Witness of claim C14: on the grid `t0 = 0`, `tout = [1, 1, 3]` with four
target elements, `disc_ = [0, 2, 2, 5]`: the zero-length interval gets no
sub-step and the total 5 lies in `[4, 4 + 3)`. -/
theorem disc_spec_witness :
    (FixedStepIntegrator.new 0 [1, 1, 3]).init fixedStepOpts sampleEnv = .ok sampleFixedStep ∧
    ∃ F : FixedStepIntegrator,
      (FixedStepIntegrator.new 0 [1, 1, 3]).init fixedStepOpts sampleEnv = .ok F ∧
      F.disc.getD 0 0 = 0 ∧ F.nk_target ≤ F.disc.getLastD 0 ∧
      F.disc.getLastD 0 < F.nk_target + 3 := by
  obtain ⟨F, h1, h2, -, -, h5, -, h7⟩ :=
    disc_spec (FixedStepIntegrator.new 0 [1, 1, 3]) fixedStepOpts sampleEnv
      sampleFixedStep.base (by decide!) rfl (by decide)
  obtain ⟨-, -, -, h8, h9⟩ := h7 (by decide!) (by decide) (by decide!)
  exact ⟨by decide!, F, h1, h5, h8, h9⟩

/-! ## Backward sweep of `eval` -/

theorem all_zero_eq_false_iff (v : Option (List ℚ)) (off n : Nat) :
    all_zero v off n = false ↔ entry_nonzero v off n := by
  cases v with
  | none => exact ⟨fun h => (by cases h), fun h => h.elim⟩
  | some vs =>
    unfold all_zero entry_nonzero
    dsimp only
    by_cases hn : n = 0
    · rw [if_pos hn]
      subst hn
      exact ⟨fun h => (by cases h), fun ⟨i, hi, _⟩ => absurd hi (Nat.not_lt_zero i)⟩
    · rw [if_neg hn]
      constructor
      · intro h
        by_contra hno
        have hall : ((List.range n).all fun i => decide (vs.getD (off + i) 0 = 0)) = true := by
          rw [List.all_eq_true]
          intro i hi
          apply decide_eq_true
          by_contra hne
          exact hno ⟨i, List.mem_range.1 hi, hne⟩
        rw [hall] at h
        cases h
      · rintro ⟨i, hi, hne⟩
        cases hall : ((List.range n).all fun i => decide (vs.getD (off + i) 0 = 0)) with
        | false => rfl
        | true =>
          rw [List.all_eq_true] at hall
          exact absurd (of_decide_eq_true (hall i (List.mem_range.2 hi))) hne

/-- The test of the loop "Integrate backward" for an impulse at the grid
index `k` succeeds exactly when some seed entry at `k` is nonzero. -/
theorem impulse_test_iff (I : Integrator) (a : EvalArgs) (k : Nat) :
    (!all_zero a.adj_xf (I.nrx.toNat * k) I.nrx.toNat ||
      !all_zero a.adj_zf (I.nrz.toNat * k) I.nrz.toNat ||
      !all_zero a.adj_qf (I.nrp.toNat * k) I.nrp.toNat) = true ↔ seed_nonzero I a k := by
  unfold seed_nonzero
  rw [← all_zero_eq_false_iff, ← all_zero_eq_false_iff, ← all_zero_eq_false_iff]
  simp only [Bool.or_eq_true, Bool.not_eq_true', or_assoc]

theorem backward_impulse_spec {σ : Type} (B : BackwardCollaborators σ) (I : Integrator)
    (a : EvalArgs) (s : BackwardState σ) (k : Nat) :
    ((backward_impulse B I a s k).any_impulse = true ↔
      (s.any_impulse = true ∨ seed_nonzero I a k)) ∧
    (backward_impulse B I a s k).calls =
      s.calls ++ (if seed_nonzero I a k then [BackwardCall.impulseB k] else []) ∧
    (backward_impulse B I a s k).adj_x = s.adj_x ∧
    (backward_impulse B I a s k).adj_p = s.adj_p ∧
    (backward_impulse B I a s k).adj_u = s.adj_u := by
  unfold backward_impulse
  dsimp only
  by_cases h : seed_nonzero I a k
  · rw [if_pos ((impulse_test_iff I a k).2 h), if_pos h]
    exact ⟨⟨fun _ => Or.inr h, fun _ => rfl⟩, rfl, rfl, rfl, rfl⟩
  · rw [if_neg (fun hc => h ((impulse_test_iff I a k).1 hc)), if_neg h]
    refine ⟨⟨fun h1 => Or.inl h1, fun h1 => ?_⟩, (List.append_nil _).symm, rfl, rfl, rfl⟩
    rcases h1 with h1 | h1
    · exact h1
    · exact absurd h1 h

theorem backward_retreat_spec {σ : Type} (B : BackwardCollaborators σ) (I : Integrator)
    (a : EvalArgs) (s : BackwardState σ) (k : Nat) :
    (backward_retreat B I a s k).any_impulse = s.any_impulse ∧
    (backward_retreat B I a s k).calls =
      s.calls ++ (if s.any_impulse = true then [BackwardCall.retreat k] else []) ∧
    (s.any_impulse = false →
      (backward_retreat B I a s k).adj_u =
        casadi_clear I.nuq.toNat s.adj_u (I.nuq.toNat * k) ∧
      (backward_retreat B I a s k).adj_x =
        (if k = 0 then casadi_clear I.nrx.toNat s.adj_x 0 else s.adj_x) ∧
      (backward_retreat B I a s k).adj_p =
        (if k = 0 then casadi_clear I.nrq.toNat s.adj_p 0 else s.adj_p)) := by
  unfold backward_retreat
  dsimp only
  by_cases h : s.any_impulse = true
  · rw [if_pos h, if_pos h]
    exact ⟨rfl, rfl, fun h0 => by rw [h0] at h; cases h⟩
  · rw [if_neg h, if_neg h]
    exact ⟨rfl, (List.append_nil _).symm, fun _ => ⟨rfl, rfl, rfl⟩⟩

/-- Effect of one pass of the loop "Integrate backward" on the local
`any_impulse` and on the calls made. -/
theorem backward_interval_spec {σ : Type} (B : BackwardCollaborators σ) (I : Integrator)
    (a : EvalArgs) (s : BackwardState σ) (k : Nat) :
    ((backward_interval B I a s k).any_impulse = true ↔
      (s.any_impulse = true ∨ seed_nonzero I a k)) ∧
    (∀ j, BackwardCall.retreat j ∈ (backward_interval B I a s k).calls ↔
      (BackwardCall.retreat j ∈ s.calls ∨
        (j = k ∧ (s.any_impulse = true ∨ seed_nonzero I a k)))) ∧
    (∀ j, BackwardCall.impulseB j ∈ (backward_interval B I a s k).calls ↔
      (BackwardCall.impulseB j ∈ s.calls ∨ (j = k ∧ seed_nonzero I a k))) := by
  obtain ⟨i1, i2, -, -, -⟩ := backward_impulse_spec B I a s k
  obtain ⟨r1, r2, -⟩ := backward_retreat_spec B I a (backward_impulse B I a s k) k
  unfold backward_interval
  rw [r1, r2, i2]
  refine ⟨i1, ?_, ?_⟩
  · intro j
    by_cases hs : seed_nonzero I a k <;>
      by_cases hany : (backward_impulse B I a s k).any_impulse = true
    · rw [if_pos hs, if_pos hany]
      simp only [List.mem_append, List.mem_singleton, BackwardCall.retreat.injEq, hs, or_true,
        and_true, reduceCtorEq, or_false]
    · exact absurd (i1.2 (Or.inr hs)) hany
    · rw [if_neg hs, if_pos hany]
      have hs1 : s.any_impulse = true := by
        rcases i1.1 hany with h | h
        · exact h
        · exact absurd h hs
      simp only [List.mem_append, List.mem_singleton, BackwardCall.retreat.injEq, hs, or_false,
        List.not_mem_nil, hs1, and_true]
    · rw [if_neg hs, if_neg hany]
      have : ¬ (s.any_impulse = true ∨ seed_nonzero I a k) := fun h => hany (i1.2 h)
      simp only [List.mem_append, List.not_mem_nil, or_false, this, and_false]
  · intro j
    by_cases hs : seed_nonzero I a k <;>
      by_cases hany : (backward_impulse B I a s k).any_impulse = true
    · rw [if_pos hs, if_pos hany]
      simp only [List.mem_append, List.mem_singleton, BackwardCall.impulseB.injEq, hs, and_true,
        reduceCtorEq, or_false]
    · exact absurd (i1.2 (Or.inr hs)) hany
    · rw [if_neg hs, if_pos hany]
      simp only [List.mem_append, List.mem_singleton, hs, and_false, or_false,
        List.not_mem_nil, reduceCtorEq]
    · rw [if_neg hs, if_neg hany]
      simp only [List.mem_append, List.not_mem_nil, or_false, hs, and_false]

/-- Invariant of the loop "Integrate backward": after the passes for the
grid indices `nt - n .. nt - 1`, the local `any_impulse` tells whether a seed
is nonzero at one of these indices, `retreat` has been called at exactly
those of the indices that have a nonzero seed at or after them, and
`impulseB` at exactly those with a nonzero seed. -/
theorem backward_intervals_calls {σ : Type} (B : BackwardCollaborators σ) (I : Integrator)
    (a : EvalArgs) (s : BackwardState σ) (h0 : s.any_impulse = false) (hc : s.calls = []) :
    ∀ n, n ≤ I.tout.length →
      ((backward_intervals B I a s n).any_impulse = true ↔
        ∃ k, I.tout.length - n ≤ k ∧ k < I.tout.length ∧ seed_nonzero I a k) ∧
      (∀ j, BackwardCall.retreat j ∈ (backward_intervals B I a s n).calls ↔
        (I.tout.length - n ≤ j ∧ j < I.tout.length ∧
          ∃ k, j ≤ k ∧ k < I.tout.length ∧ seed_nonzero I a k)) ∧
      (∀ j, BackwardCall.impulseB j ∈ (backward_intervals B I a s n).calls ↔
        (I.tout.length - n ≤ j ∧ j < I.tout.length ∧ seed_nonzero I a j)) := by
  intro n
  induction n with
  | zero =>
    intro _
    refine ⟨?_, ?_, ?_⟩
    · show s.any_impulse = true ↔ _
      rw [h0]
      exact ⟨fun h => (by cases h), fun ⟨k, h1, h2, _⟩ => (by omega)⟩
    · intro j
      show _ ∈ s.calls ↔ _
      rw [hc]
      exact ⟨fun h => absurd h (List.not_mem_nil _), fun ⟨h1, h2, _⟩ => (by omega)⟩
    · intro j
      show _ ∈ s.calls ↔ _
      rw [hc]
      exact ⟨fun h => absurd h (List.not_mem_nil _), fun ⟨h1, h2, _⟩ => (by omega)⟩
  | succ n ih =>
    intro hn
    obtain ⟨ia, ir, ii⟩ := ih (by omega)
    obtain ⟨sa, sr, si⟩ := backward_interval_spec B I a (backward_intervals B I a s n)
      (I.tout.length - 1 - n)
    have hk : I.tout.length - (n + 1) = I.tout.length - 1 - n := by omega
    have hany : ((backward_intervals B I a s n).any_impulse = true ∨
        seed_nonzero I a (I.tout.length - 1 - n)) ↔
        ∃ k, I.tout.length - 1 - n ≤ k ∧ k < I.tout.length ∧ seed_nonzero I a k := by
      rw [ia]
      constructor
      · rintro (⟨k, h1, h2, h3⟩ | h)
        · exact ⟨k, by omega, h2, h3⟩
        · exact ⟨_, le_refl _, by omega, h⟩
      · rintro ⟨k, h1, h2, h3⟩
        by_cases hk0 : k = I.tout.length - 1 - n
        · right; rw [← hk0]; exact h3
        · left; exact ⟨k, by omega, h2, h3⟩
    show ((backward_interval B I a (backward_intervals B I a s n)
        (I.tout.length - 1 - n)).any_impulse = true ↔ _) ∧
      (∀ j, _ ∈ (backward_interval B I a (backward_intervals B I a s n)
        (I.tout.length - 1 - n)).calls ↔ _) ∧
      (∀ j, _ ∈ (backward_interval B I a (backward_intervals B I a s n)
        (I.tout.length - 1 - n)).calls ↔ _)
    rw [hk]
    refine ⟨sa.trans hany, ?_, ?_⟩
    · intro j
      rw [sr j, ir j, hany]
      constructor
      · rintro (⟨h1, h2, h3⟩ | ⟨h1, k, h2, h3, h4⟩)
        · exact ⟨by omega, h2, h3⟩
        · subst h1
          exact ⟨le_refl _, by omega, k, h2, h3, h4⟩
      · rintro ⟨h1, h2, k, h3, h4, h5⟩
        by_cases hj : j = I.tout.length - 1 - n
        · right
          exact ⟨hj, k, by omega, h4, h5⟩
        · left
          exact ⟨by omega, h2, k, h3, h4, h5⟩
    · intro j
      rw [si j, ii j]
      constructor
      · rintro (⟨h1, h2, h3⟩ | ⟨h1, h2⟩)
        · exact ⟨by omega, h2, h3⟩
        · subst h1
          exact ⟨le_refl _, by omega, h2⟩
      · rintro ⟨h1, h2, h3⟩
        by_cases hj : j = I.tout.length - 1 - n
        · right
          exact ⟨hj, by rw [← hj]; exact h3⟩
        · left
          exact ⟨by omega, h2, h3⟩
theorem getD_replicate_zero (n i : Nat) : (List.replicate n (0 : ℚ)).getD i 0 = 0 := by
  rw [List.getD_eq_getElem?_getD, List.getElem?_replicate]
  split <;> rfl

theorem getD_writeBlock_rat (buf : List ℚ) (off : Nat) (vals : List ℚ) (j : Nat) :
    (writeBlock buf off vals).getD j 0 =
      if j < buf.length ∧ off ≤ j ∧ j < off + vals.length then vals.getD (j - off) 0
      else buf.getD j 0 := by
  by_cases hj : j < buf.length
  · have h := getD_writeBlock buf off vals j hj
    by_cases hc : off ≤ j ∧ j < off + vals.length
    · rw [if_pos hc] at h
      rw [if_pos ⟨hj, hc⟩]
      exact h
    · rw [if_neg hc] at h
      rw [if_neg (fun h' => hc h'.2)]
      exact h
  · rw [if_neg (fun h' => hj h'.1)]
    have h := getD_writeBlock_of_ge buf off vals j (not_lt.1 hj)
    have h2 : buf.getD j 0 = 0 := by
      rw [List.getD_eq_getElem?_getD, List.getElem?_eq_none (not_lt.1 hj)]
      rfl
    rw [h2]
    exact h

theorem getD_clear (n : Nat) (buf : List ℚ) (off j : Nat) :
    (casadi_clear n buf off).getD j 0 =
      if off ≤ j ∧ j < off + n then 0 else buf.getD j 0 := by
  unfold casadi_clear
  rw [getD_writeBlock_rat, List.length_replicate, getD_replicate_zero]
  by_cases hj : j < buf.length
  · by_cases hc : off ≤ j ∧ j < off + n
    · rw [if_pos ⟨hj, hc⟩, if_pos hc]
    · rw [if_neg (fun h' => hc h'.2), if_neg hc]
  · rw [if_neg (fun h' => hj h'.1)]
    have h2 : buf.getD j 0 = 0 := by
      rw [List.getD_eq_getElem?_getD, List.getElem?_eq_none (not_lt.1 hj)]
      rfl
    rw [h2]
    split <;> rfl

theorem getD_axpy (n : Nat) (alpha : ℚ) (x y : List ℚ) (off j : Nat) :
    (casadi_axpy n alpha x y off).getD j 0 =
      if j < y.length ∧ off ≤ j ∧ j < off + n then y.getD j 0 + alpha * x.getD (j - off) 0
      else y.getD j 0 := by
  unfold casadi_axpy
  rw [getD_writeBlock_rat, List.length_map, List.length_range]
  by_cases hc : j < y.length ∧ off ≤ j ∧ j < off + n
  · rw [if_pos hc, if_pos hc]
    have hlt : j - off < n := by omega
    rw [List.getD_eq_getElem?_getD, List.getElem?_map, List.getElem?_range hlt]
    show y.getD (off + (j - off)) 0 + alpha * x.getD (j - off) 0 = _
    rw [Nat.add_sub_cancel' hc.2.1]
  · rw [if_neg hc, if_neg hc]

theorem casadi_axpy_length (n : Nat) (alpha : ℚ) (x y : List ℚ) (off : Nat) :
    (casadi_axpy n alpha x y off).length = y.length := by
  unfold casadi_axpy
  exact writeBlock_length _ _ _

/-- An index `nuq * k + i` with `i < nuq` lies in the block `n` exactly when
`k = n`. -/
theorem block_index_iff (nuq k n i : Nat) (hi : i < nuq) :
    (nuq * n ≤ nuq * k + i ∧ nuq * k + i < nuq * n + nuq) ↔ k = n := by
  constructor
  · rintro ⟨h1, h2⟩
    by_contra hne
    rcases Nat.lt_or_gt_of_ne hne with h | h
    · have : nuq * (k + 1) ≤ nuq * n := Nat.mul_le_mul_left _ h
      rw [Nat.mul_succ] at this
      omega
    · have : nuq * (n + 1) ≤ nuq * k := Nat.mul_le_mul_left _ h
      rw [Nat.mul_succ] at this
      omega
  · rintro rfl
    exact ⟨Nat.le_add_right _ _, by omega⟩

/-- Invariant of the correction loop of `eval`: after `n` passes, the blocks
below `n` hold the difference of the original block and its successor, and
the other blocks are as they were. -/
theorem correct_passes (nuq : Nat) (c : List ℚ) : ∀ n : Nat,
    ((List.range n).foldl
        (fun buf k => casadi_axpy nuq (-1) (buf.drop (nuq * (k + 1))) buf (nuq * k)) c).length =
      c.length ∧
    ∀ k i, i < nuq →
      ((List.range n).foldl
        (fun buf k => casadi_axpy nuq (-1) (buf.drop (nuq * (k + 1))) buf (nuq * k)) c).getD
          (nuq * k + i) 0 =
        if k < n then c.getD (nuq * k + i) 0 - c.getD (nuq * (k + 1) + i) 0
        else c.getD (nuq * k + i) 0 := by
  intro n
  induction n with
  | zero =>
    refine ⟨rfl, fun k i _ => ?_⟩
    rw [if_neg (Nat.not_lt_zero k)]
    rfl
  | succ n ih =>
    obtain ⟨hlen, hval⟩ := ih
    rw [List.range_succ, List.foldl_append]
    simp only [List.foldl_cons, List.foldl_nil]
    refine ⟨by rw [casadi_axpy_length, hlen], fun k i hi => ?_⟩
    rw [getD_axpy]
    by_cases hk : k = n
    · subst hk
      rw [if_pos (Nat.lt_succ_self k)]
      by_cases hj : nuq * k + i < c.length
      · rw [if_pos ⟨by rw [hlen]; exact hj, Nat.le_add_right _ _, by omega⟩]
        rw [hval k i hi, if_neg (lt_irrefl k), getD_drop_rat, Nat.add_sub_cancel_left,
          hval (k + 1) i hi, if_neg (by omega)]
        ring
      · rw [if_neg (fun h' => hj (by rw [← hlen]; exact h'.1))]
        rw [hval k i hi, if_neg (lt_irrefl k)]
        have z1 : c.getD (nuq * k + i) 0 = 0 := by
          rw [List.getD_eq_getElem?_getD, List.getElem?_eq_none (not_lt.1 hj)]
          rfl
        have z2 : c.getD (nuq * (k + 1) + i) 0 = 0 := by
          rw [List.getD_eq_getElem?_getD, List.getElem?_eq_none (by
            rw [Nat.mul_succ]; omega)]
          rfl
        rw [z1, z2, sub_zero]
    · have hnot : ¬ (nuq * n ≤ nuq * k + i ∧ nuq * k + i < nuq * n + nuq) :=
        fun h' => hk ((block_index_iff nuq k n i hi).1 h')
      rw [if_neg (fun h' => hnot h'.2), hval k i hi]
      by_cases hlt : k < n
      · rw [if_pos hlt, if_pos (by omega)]
      · rw [if_neg hlt, if_neg (by omega)]

/-- Without any nonzero seed, the passes of the loop "Integrate backward"
make no call and clear the blocks of `adj_u` they visit; the pass for the
grid index 0 clears `adj_x` and `adj_p`. -/
theorem backward_intervals_zero {σ : Type} (B : BackwardCollaborators σ) (I : Integrator)
    (a : EvalArgs) (s : BackwardState σ) (h0 : s.any_impulse = false)
    (hz : ∀ k, k < I.tout.length → ¬ seed_nonzero I a k) :
    ∀ n, n ≤ I.tout.length →
      (backward_intervals B I a s n).any_impulse = false ∧
      (backward_intervals B I a s n).calls = s.calls ∧
      (∀ k i, I.tout.length - n ≤ k → k < I.tout.length → i < I.nuq.toNat →
        (backward_intervals B I a s n).adj_u.getD (I.nuq.toNat * k + i) 0 = 0) ∧
      (0 < n → n = I.tout.length →
        (∀ i, i < I.nrx.toNat → (backward_intervals B I a s n).adj_x.getD i 0 = 0) ∧
        (∀ i, i < I.nrq.toNat → (backward_intervals B I a s n).adj_p.getD i 0 = 0)) := by
  intro n
  induction n with
  | zero =>
    intro _
    exact ⟨h0, rfl, fun k i h1 h2 _ => by omega, fun h => absurd h (lt_irrefl _)⟩
  | succ n ih =>
    intro hn
    obtain ⟨ia, ic, iu, -⟩ := ih (by omega)
    have hns : ¬ seed_nonzero I a (I.tout.length - 1 - n) := hz _ (by omega)
    obtain ⟨p1, p2, p3, p4, p5⟩ :=
      backward_impulse_spec B I a (backward_intervals B I a s n) (I.tout.length - 1 - n)
    have hany : (backward_impulse B I a (backward_intervals B I a s n)
        (I.tout.length - 1 - n)).any_impulse = false := by
      cases hb : (backward_impulse B I a (backward_intervals B I a s n)
        (I.tout.length - 1 - n)).any_impulse with
      | false => rfl
      | true =>
        rcases p1.1 hb with h | h
        · rw [ia] at h; cases h
        · exact absurd h hns
    obtain ⟨r1, r2, r3⟩ := backward_retreat_spec B I a
      (backward_impulse B I a (backward_intervals B I a s n) (I.tout.length - 1 - n))
      (I.tout.length - 1 - n)
    obtain ⟨u1, u2, u3⟩ := r3 hany
    show (backward_retreat B I a (backward_impulse B I a (backward_intervals B I a s n)
        (I.tout.length - 1 - n)) (I.tout.length - 1 - n)).any_impulse = false ∧
      (backward_retreat B I a (backward_impulse B I a (backward_intervals B I a s n)
        (I.tout.length - 1 - n)) (I.tout.length - 1 - n)).calls = s.calls ∧
      (∀ k i, I.tout.length - (n + 1) ≤ k → k < I.tout.length → i < I.nuq.toNat →
        (backward_retreat B I a (backward_impulse B I a (backward_intervals B I a s n)
          (I.tout.length - 1 - n)) (I.tout.length - 1 - n)).adj_u.getD
            (I.nuq.toNat * k + i) 0 = 0) ∧
      (0 < n + 1 → n + 1 = I.tout.length →
        (∀ i, i < I.nrx.toNat →
          (backward_retreat B I a (backward_impulse B I a (backward_intervals B I a s n)
            (I.tout.length - 1 - n)) (I.tout.length - 1 - n)).adj_x.getD i 0 = 0) ∧
        (∀ i, i < I.nrq.toNat →
          (backward_retreat B I a (backward_impulse B I a (backward_intervals B I a s n)
            (I.tout.length - 1 - n)) (I.tout.length - 1 - n)).adj_p.getD i 0 = 0))
    rw [r1, r2, u1, u2, u3, hany, p2, p3, p4, p5, if_neg hns, if_neg (by simp), List.append_nil,
      List.append_nil, ic]
    refine ⟨rfl, rfl, ?_, ?_⟩
    · intro k i h1 h2 hi
      rw [getD_clear]
      by_cases hk : k = I.tout.length - 1 - n
      · rw [if_pos (by
          rw [hk]
          exact ⟨Nat.le_add_right _ _, by omega⟩)]
      · rw [if_neg (fun h' => hk ((block_index_iff _ k _ i hi).1 h'))]
        exact iu k i (by omega) h2 hi
    · intro _ hlast
      have hk0 : I.tout.length - 1 - n = 0 := by omega
      rw [if_pos hk0, if_pos hk0]
      refine ⟨fun i hi => ?_, fun i hi => ?_⟩
      · rw [getD_clear, if_pos ⟨Nat.zero_le _, by omega⟩]
      · rw [getD_clear, if_pos ⟨Nat.zero_le _, by omega⟩]

/-- Claim C12. In the backward sweep of `eval` (`nrx > 0`): `retreat` is
called at the grid index `k` if and only if `k < nt` and some adjoint seed
entry (`adj_xf`, `adj_zf` or `adj_qf`) at a grid index `k' ≥ k` is nonzero,
and `impulseB` is called at `k` if and only if a seed entry at `k` is
nonzero. When all seeds are zero, and in particular when the three seed
pointers are null, no call of `retreat` or `impulseB` is made, every entry
of every block of the output `adj_u` is zero and, for `nt ≥ 1`, so are the
outputs `adj_x0` and `adj_p`. -/
theorem retreat_iff_seed {σ : Type} (B : BackwardCollaborators σ) (I : Integrator)
    (a : EvalArgs) (m : IntegratorMemory σ) (k_stop : Int) (adj_x adj_p adj_u : List ℚ)
    (hnrx : I.nrx > 0) :
    (∀ k, BackwardCall.retreat k ∈ (eval_backward B I a m k_stop adj_x adj_p adj_u).calls ↔
      (k < I.tout.length ∧ ∃ k', k ≤ k' ∧ k' < I.tout.length ∧ seed_nonzero I a k')) ∧
    (∀ k, BackwardCall.impulseB k ∈ (eval_backward B I a m k_stop adj_x adj_p adj_u).calls ↔
      (k < I.tout.length ∧ seed_nonzero I a k)) ∧
    ((∀ k, k < I.tout.length → ¬ seed_nonzero I a k) →
      (eval_backward B I a m k_stop adj_x adj_p adj_u).calls = [] ∧
      (∀ k i, k < I.tout.length → i < I.nuq.toNat →
        (eval_backward B I a m k_stop adj_x adj_p adj_u).adj_u.getD
          (I.nuq.toNat * k + i) 0 = 0) ∧
      (0 < I.tout.length →
        (∀ i, i < I.nrx.toNat →
          (eval_backward B I a m k_stop adj_x adj_p adj_u).adj_x.getD i 0 = 0) ∧
        (∀ i, i < I.nrq.toNat →
          (eval_backward B I a m k_stop adj_x adj_p adj_u).adj_p.getD i 0 = 0))) ∧
    (a.adj_xf = none → a.adj_zf = none → a.adj_qf = none → ∀ k, ¬ seed_nonzero I a k) := by
  have hev : ∃ s0 : BackwardState σ, s0.any_impulse = false ∧ s0.calls = [] ∧
      (eval_backward B I a m k_stop adj_x adj_p adj_u).calls =
        (backward_intervals B I a s0 I.tout.length).calls ∧
      (eval_backward B I a m k_stop adj_x adj_p adj_u).adj_x =
        (backward_intervals B I a s0 I.tout.length).adj_x ∧
      (eval_backward B I a m k_stop adj_x adj_p adj_u).adj_p =
        (backward_intervals B I a s0 I.tout.length).adj_p ∧
      (eval_backward B I a m k_stop adj_x adj_p adj_u).adj_u =
        correct_adj_u I (backward_intervals B I a s0 I.tout.length).adj_u := by
    refine ⟨{ m := B.resetB m, k_stop := I.nt, any_impulse := false, adj_x := adj_x,
              adj_p := adj_p, adj_u := adj_u, calls := [] }, rfl, rfl, ?_, ?_, ?_, ?_⟩ <;>
    · unfold eval_backward
      dsimp only
      rw [if_pos hnrx]
  obtain ⟨s0, h0, hc, e1, e2, e3, e4⟩ := hev
  obtain ⟨-, cr, ci⟩ := backward_intervals_calls B I a s0 h0 hc I.tout.length (le_refl _)
  rw [e1, e2, e3, e4]
  refine ⟨?_, ?_, ?_, ?_⟩
  · intro k
    rw [cr k, Nat.sub_self]
    exact ⟨fun ⟨_, h2, h3⟩ => ⟨h2, h3⟩, fun ⟨h2, h3⟩ => ⟨Nat.zero_le _, h2, h3⟩⟩
  · intro k
    rw [ci k, Nat.sub_self]
    exact ⟨fun ⟨_, h2, h3⟩ => ⟨h2, h3⟩, fun ⟨h2, h3⟩ => ⟨Nat.zero_le _, h2, h3⟩⟩
  · intro hz
    obtain ⟨-, z2, z3, z4⟩ := backward_intervals_zero B I a s0 h0 hz I.tout.length (le_refl _)
    refine ⟨by rw [z2, hc], ?_, fun hnt => z4 hnt rfl⟩
    intro k i hk hi
    have hval := (correct_passes I.nuq.toNat
      (backward_intervals B I a s0 I.tout.length).adj_u (I.tout.length - 1)).2 k i hi
    unfold correct_adj_u
    rw [hval, z3 k i (by omega) hk hi]
    by_cases hlt : k < I.tout.length - 1
    · rw [if_pos hlt, z3 (k + 1) i (by omega) (by omega) hi, sub_zero]
    · rw [if_neg hlt]
  · intro h1 h2 h3 k
    unfold seed_nonzero
    rw [h1, h2, h3]
    rintro (h | h | h) <;> exact h

/-- Witness of claim C12: with three output times and the only nonzero seed
at the grid index 1, `impulseB` is called at 1 and `retreat` at 1 and 0,
not at 2. -/
theorem retreat_iff_seed_witness :
    (eval_backward sampleBackward adjointIntegrator seedArgs sampleMemory 2 [0] [] [0, 0, 0]).calls
      = [BackwardCall.impulseB 1, BackwardCall.retreat 1, BackwardCall.retreat 0] ∧
    (BackwardCall.retreat 2 ∈
      (eval_backward sampleBackward adjointIntegrator seedArgs sampleMemory 2 [0] []
        [0, 0, 0]).calls ↔
      (2 < adjointIntegrator.tout.length ∧ ∃ k', 2 ≤ k' ∧ k' < adjointIntegrator.tout.length ∧
        seed_nonzero adjointIntegrator seedArgs k')) :=
  ⟨by decide!,
    (retreat_iff_seed sampleBackward adjointIntegrator seedArgs sampleMemory 2 [0] [] [0, 0, 0]
      (by decide)).1 2⟩

/-! ## Control input in the forward sweep -/

theorem detect_events_controls {σ : Type} (I : Integrator) (m : IntegratorMemory σ) :
    (detect_events I m).u = m.u := by
  unfold detect_events
  refine foldl_inv (fun m1 : IntegratorMemory σ => m1.u = m.u) detect_step _ m rfl ?_
  intro a i ha
  have : (detect_step a i).u = a.u := by
    unfold detect_step
    split
    · rfl
    · split
      · dsimp only
        split <;> rfl
      · rfl
  exact this.trans ha

theorem predict_events_controls {σ : Type} (C : Collaborators σ) (I : Integrator)
    (m m1 : IntegratorMemory σ) (h : predict_events C I m = .ok m1) :
    m1.u = m.u ∧ m1.t_step = m.t_step := by
  unfold predict_events at h
  simp only [bind, Except.bind, pure, Except.pure] at h
  split at h
  · exact absurd h (by simp)
  · rename_i m2 h2
    obtain ⟨⟨-, -, -, -, -, -, a7, -⟩, ⟨-, -, -, -, b5, -⟩⟩ := calc_edot_frame C I m m2 h2
    split at h <;> cases h <;> exact ⟨b5, a7⟩

/-- The head of a pass of the event iterations keeps the controls; when it
leaves the loop the stop time is as it was, and when it goes on without
having selected an event the stop time is `t_step`. -/
theorem advance_step_controls {σ : Type} (C : Collaborators σ) (hC : C.Frame)
    (hK : C.KeepsControls) (I : Integrator) (m m1 : IntegratorMemory σ) (b : Bool)
    (h : advance_step C I m = .ok (b, m1)) :
    m1.u = m.u ∧ (b = false → m1.t_stop = m.t_stop) ∧
    (b = true → m1.event_index < 0 → m1.t_stop = m1.t_step) := by
  unfold advance_step at h
  simp only [bind, Except.bind, pure, Except.pure] at h
  split at h
  · exact absurd h (by simp)
  · rename_i m2 h2
    have h2' := orFail_ok _ _ _ h2
    have hu := hK.advance_noevent_u _ _ h2'
    obtain ⟨-, -, -, -, a5, -, -, -, a9, -, -, -⟩ := hC.advance_noevent_frame _ _ h2'
    split at h
    · cases h
      exact ⟨hu, fun _ => a5, fun hb => absurd hb (by simp)⟩
    · split at h
      · exact absurd h (by simp)
      · rename_i m3 h3
        obtain ⟨⟨-, -, -, -, -, -, -, -, c9, -, -, -⟩, ⟨-, -, -, -, c5, -⟩⟩ :=
          calc_edot_frame C I _ m3 h3
        obtain ⟨⟨-, -, -, -, d5, -, -, -, -⟩, -, -, hor⟩ :=
          detect_events_frame I { m3 with t_stop := m3.t_step }
        cases h
        refine ⟨(detect_events_controls I _).trans (c5.trans hu),
          fun hb => absurd hb (by simp), fun _ hidx => ?_⟩
        rcases hor with ⟨-, -, e3⟩ | ⟨e1, -⟩
        · rw [e3, d5]
        · exact absurd hidx (not_lt.2 e1)

/-- The loop of the event iterations keeps the controls and `t_step`; if it
ends without a selected event, the stop time is `t_step`, provided this was
so at the start in case the interval is degenerate or `ne = 0`. -/
theorem advance_loop_controls {σ : Type} (C : Collaborators σ) (hC : C.Frame)
    (hK : C.KeepsControls) (I : Integrator) :
    ∀ (fuel : Nat) (m m1 : IntegratorMemory σ), advance_loop C I fuel m = .ok m1 →
      m1.u = m.u ∧
      (m1.event_index < 0 →
        ((I.ne = 0 ∨ m.t_next_out = m.t_start) → m.t_stop = m.t_step) →
        m1.t_stop = m1.t_step) := by
  intro fuel
  induction fuel with
  | zero => intro m m1 h; exact absurd h (by simp [advance_loop])
  | succ fuel ih =>
    intro m m1 h
    unfold advance_loop at h
    cases hi : advance_iter C I m with
    | error e => rw [hi] at h; exact absurd h (by simp)
    | ok r =>
      obtain ⟨b, m2⟩ := r
      rw [hi] at h
      have hst : ∃ b0, advance_step C I m = .ok (b0, m2) ∧
          (b0 = false → b = false) ∧
          (b0 = true → b = false → converge_test I m2 = Converge.done) := by
        unfold advance_iter at hi
        cases hs : advance_step C I m with
        | error e => rw [hs] at hi; exact absurd hi (by simp)
        | ok r0 =>
          obtain ⟨b0, m0⟩ := r0
          rw [hs] at hi
          cases b0 with
          | false =>
            dsimp only at hi
            cases hi
            exact ⟨false, rfl, fun _ => rfl, fun hb => absurd hb (by simp)⟩
          | true =>
            dsimp only at hi
            cases hc : converge_test I m0 with
            | done =>
              rw [hc] at hi
              cases hi
              exact ⟨true, rfl, fun hb => absurd hb (by simp), fun _ _ => hc⟩
            | again =>
              rw [hc] at hi
              cases hi
              exact ⟨true, rfl, fun hb => absurd hb (by simp), fun _ hb => absurd hb (by simp)⟩
            | fail =>
              rw [hc] at hi
              exact absurd hi (by simp)
      obtain ⟨b0, hs, hb1, hb2⟩ := hst
      obtain ⟨u1, s1, s2⟩ := advance_step_controls C hC hK I m m2 b0 hs
      obtain ⟨⟨-, -, t3, t4, t5, -, -, -, -⟩, -, hdeg⟩ := advance_step_spec C hC I m m2 b0 hs
      obtain ⟨hiff, -⟩ := advance_step_detect C hC I m m2 b0 hs
      cases b with
      | false =>
        dsimp only at h
        cases h
        refine ⟨u1, fun hidx hP => ?_⟩
        cases b0 with
        | false =>
          rw [s1 rfl, t5]
          exact hP (hdeg rfl)
        | true => exact s2 rfl hidx
      | true =>
        dsimp only at h
        obtain ⟨u2, r2⟩ := ih m2 m1 h
        refine ⟨u2.trans u1, fun hidx _ => r2 hidx (fun hd => ?_)⟩
        have hb0 : b0 = true := by
          cases b0 with
          | false => exact absurd (hb1 rfl) (by simp)
          | true => rfl
        have hnd := hiff.1 hb0
        rw [t3, t4] at hd
        exact absurd hd hnd

theorem advance_controls {σ : Type} (C : Collaborators σ) (hC : C.Frame)
    (hK : C.KeepsControls) (I : Integrator) (fuel : Nat) (m m1 : IntegratorMemory σ)
    (h : advance C I fuel m = .ok m1) :
    m1.u = m.u ∧ (m1.event_index < 0 → m.t_stop = m.t_step → m1.t_stop = m1.t_step) := by
  unfold advance at h
  cases he : advance_entry C I m with
  | error e => rw [he] at h; exact absurd h (by simp)
  | ok m0 =>
    rw [he] at h
    dsimp only at h
    obtain ⟨u1, r1⟩ := advance_loop_controls C hC hK I fuel m0 m1 h
    unfold advance_entry at he
    simp only [bind, Except.bind, pure, Except.pure] at he
    by_cases hc : I.ne > 0 ∧ m.t_next_out ≠ m.t_start
    · rw [if_pos hc] at he
      split at he
      · exact absurd he (by simp)
      · rename_i m2 h2
        cases he
        obtain ⟨p1, -⟩ := predict_events_controls C I m m2 h2
        obtain ⟨⟨-, -, p4, p6, -, -, -, -, -⟩, -, -⟩ := predict_events_frame C I m m2 h2
        refine ⟨u1.trans p1, fun hidx _ => r1 hidx (fun hd => ?_)⟩
        have hd' : I.ne = 0 ∨ m2.t_next_out = m2.t_start := hd
        rw [p4, p6] at hd'
        rcases hd' with hd' | hd'
        · omega
        · exact absurd hd' hc.2
    · rw [if_neg hc] at he
      cases he
      exact ⟨u1, fun hidx hst => r1 hidx (fun _ => hst)⟩
theorem event_time_sensitivity_controls {σ : Type} (C : Collaborators σ) (I : Integrator)
    (ind : Nat) (m m1 : IntegratorMemory σ) (h : event_time_sensitivity C I ind m = .ok m1) :
    m1.u = m.u := by
  unfold event_time_sensitivity at h
  simp only [bind, Except.bind, pure, Except.pure] at h
  split at h
  · exact absurd h (by simp)
  · cases h
    rfl

theorem call_transition_controls {σ : Type} (C : Collaborators σ) (I : Integrator)
    (ind : Nat) (m m1 : IntegratorMemory σ) (h : call_transition C I ind m = .ok m1) :
    m1.u = m.u := by
  unfold call_transition at h
  simp only [bind, Except.bind, pure, Except.pure] at h
  split at h
  · exact absurd h (by simp)
  · split at h
    · split at h <;> cases h <;> rfl
    · cases h
      rfl

/-- The trigger of an event does not write the controls. -/
theorem trigger_event_controls {σ : Type} (C : Collaborators σ) (I : Integrator)
    (m m1 : IntegratorMemory σ) (h : trigger_event C I m = .ok m1) : m1.u = m.u := by
  unfold trigger_event at h
  dsimp only at h
  by_cases h1 : m.num_events + 1 > I.max_events
  · rw [if_pos h1] at h
    exact absurd h (by simp)
  · rw [if_neg h1] at h
    by_cases h2 : m.event_index < 0 ∨ m.event_triggered.getD m.event_index.toNat 0 ≠ 0
    · rw [if_pos h2] at h
      exact absurd h (by simp)
    · rw [if_neg h2] at h
      cases hs : sensitivity_stage C I m.event_index.toNat
          { m with num_events := m.num_events + 1,
                   event_triggered := writeBlock m.event_triggered m.event_index.toNat [1] } with
      | error e1 => rw [hs] at h; exact absurd h (by simp)
      | ok m2 =>
        rw [hs] at h
        dsimp only at h
        have u2 : m2.u = m.u := by
          unfold sensitivity_stage at hs
          split at hs
          · have hu := event_time_sensitivity_controls C I _ _ m2 hs
            exact hu
          · cases hs
            rfl
        cases ht : transition_stage C I m.event_index.toNat m2 with
        | error e1 => rw [ht] at h; exact absurd h (by simp)
        | ok m3 =>
          rw [ht] at h
          dsimp only at h
          have u3 : m3.u = m2.u := by
            unfold transition_stage at ht
            split at ht
            · exact call_transition_controls C I _ _ m3 ht
            · cases ht
              rfl
          cases hc : calc_edot C I (update_xz I m3) with
          | error e1 => rw [hc] at h; exact absurd h (by simp)
          | ok m4 =>
            rw [hc] at h
            dsimp only at h
            cases h
            have u4 : m4.u = (update_xz I m3).u := (calc_edot_frame C I _ m4 hc).2.2.2.2.2.1
            exact u4.trans (u3.trans u2)

theorem trigger_loop_controls {σ : Type} (C : Collaborators σ) (I : Integrator) :
    ∀ (fuel : Nat) (m m1 : IntegratorMemory σ), trigger_loop C I fuel m = .ok m1 →
      m1.u = m.u := by
  intro fuel
  induction fuel with
  | zero =>
    intro m m1 h
    unfold trigger_loop at h
    split at h
    · exact absurd h (by simp)
    · cases h
      rfl
  | succ fuel ih =>
    intro m m1 h
    unfold trigger_loop at h
    split at h
    · cases ht : trigger_event C I m with
      | error e => rw [ht] at h; exact absurd h (by simp)
      | ok m2 =>
        rw [ht] at h
        dsimp only at h
        exact (ih _ m1 h).trans (trigger_event_controls C I m m2 ht)
    · cases h
      rfl

/-- The block "Trigger all event, if any" keeps the controls and `t_step`;
when an event was selected it leaves the stop time at `t_step`. -/
theorem trigger_all_controls {σ : Type} (C : Collaborators σ) (I : Integrator) (fuel : Nat)
    (m m1 : IntegratorMemory σ) (h : trigger_all C I fuel m = .ok m1) :
    m1.u = m.u ∧ m1.t_step = m.t_step ∧ (0 ≤ m.event_index → m1.t_stop = m1.t_step) ∧
    (m.event_index < 0 → m1 = m) := by
  unfold trigger_all at h
  split at h
  · rename_i hidx
    simp only [bind, Except.bind, pure, Except.pure] at h
    split at h
    · exact absurd h (by simp)
    · rename_i m2 h2
      cases h
      obtain ⟨⟨-, -, -, c4⟩, -, -⟩ := trigger_loop_spec C I fuel _ m2 h2
      have hu := trigger_loop_controls C I fuel _ m2 h2
      exact ⟨hu, c4, fun _ => rfl, fun hh => absurd hidx (by omega)⟩
  · rename_i hidx
    cases h
    exact ⟨rfl, rfl, fun hh => absurd hh hidx, fun _ => rfl⟩

/-- One pass of the loop "Keep integrating" keeps the controls and `t_step`,
and leaves the stop time at `t_step` if it was there before. -/
theorem integrate_pass_controls {σ : Type} (C : Collaborators σ) (hC : C.Frame)
    (hK : C.KeepsControls) (I : Integrator) (fuel : Nat) (s s1 : Bool × IntegratorMemory σ)
    (h : integrate_pass C I fuel s = .ok s1) :
    s1.2.u = s.2.u ∧ s1.2.t_step = s.2.t_step ∧
    (s.2.t_stop = s.2.t_step → s1.2.t_stop = s1.2.t_step) := by
  unfold integrate_pass at h
  simp only [bind, Except.bind, pure, Except.pure] at h
  split at h
  · exact absurd h (by simp)
  · rename_i m2 h2
    split at h
    · exact absurd h (by simp)
    · rename_i m3 h3
      cases h
      obtain ⟨a1, a2⟩ := advance_controls C hC hK I fuel _ m2 h2
      obtain ⟨⟨-, -, -, a4, -, -⟩, -⟩ := advance_spec C hC I fuel _ m2 h2
      obtain ⟨b1, b2, b3, b4⟩ := trigger_all_controls C I fuel m2 m3 h3
      have hres : ∀ (s0 : Bool × IntegratorMemory σ),
          s0 = (if s.2.reset_solver = true then
              (false, { C.reset s.2 s.1 with reset_solver := false }) else s) →
          s0.2.u = s.2.u ∧ s0.2.t_step = s.2.t_step ∧ s0.2.t_stop = s.2.t_stop := by
        intro s0 hs0
        by_cases hr : s.2.reset_solver = true
        · rw [if_pos hr] at hs0
          subst hs0
          obtain ⟨-, -, -, -, r5, -, r7, -⟩ := hC.reset_frame s.2 s.1
          exact ⟨hK.reset_u s.2 s.1, r7, r5⟩
        · rw [if_neg hr] at hs0
          subst hs0
          exact ⟨rfl, rfl, rfl⟩
      obtain ⟨r1, r2, r3⟩ := hres _ rfl
      refine ⟨b1.trans (a1.trans r1), b2.trans (a4.trans r2), fun hst => ?_⟩
      show m3.t_stop = m3.t_step
      by_cases hidx : 0 ≤ m2.event_index
      · exact b3 hidx
      · have hneg : m2.event_index < 0 := by omega
        rw [b4 hneg]
        exact a2 hneg (by rw [r3, r2]; exact hst)

theorem integrate_loop_controls {σ : Type} (C : Collaborators σ) (hC : C.Frame)
    (hK : C.KeepsControls) (I : Integrator) (fuel : Nat) :
    ∀ (n : Nat) (s s1 : Bool × IntegratorMemory σ), integrate_loop C I fuel n s = .ok s1 →
      s1.2.u = s.2.u ∧ s1.2.t_step = s.2.t_step ∧
      (s.2.t_stop = s.2.t_step → s1.2.t_stop = s1.2.t_step) := by
  intro n
  induction n with
  | zero => intro s s1 h; exact absurd h (by simp [integrate_loop])
  | succ n ih =>
    intro s s1 h
    unfold integrate_loop at h
    cases hp : integrate_pass C I fuel s with
    | error e => rw [hp] at h; exact absurd h (by simp)
    | ok s2 =>
      rw [hp] at h
      dsimp only at h
      obtain ⟨a1, a2, a3⟩ := integrate_pass_controls C hC hK I fuel s s2 hp
      split at h
      · obtain ⟨b1, b2, b3⟩ := ih s2 s1 h
        exact ⟨b1.trans a1, b2.trans a2, fun hst => b3 (a3 hst)⟩
      · cases h
        exact ⟨a1, a2, a3⟩
theorem control_block_drop_mul (I : Integrator) (us : List ℚ) (n j : Nat) :
    control_block I (us.drop (I.nu.toNat * n)) j = control_block I us (n + j) := by
  unfold control_block
  rw [readBlock_drop, Nat.add_mul, Nat.mul_comm]

theorem readBlock_copy (src buf : List ℚ) (n : Nat) (hlen : buf.length = n) :
    readBlock (casadi_copy (some src) n buf 0) 0 n = readBlock src 0 n ∧
    (casadi_copy (some src) n buf 0).length = n := by
  unfold casadi_copy
  dsimp only
  refine ⟨?_, by rw [writeBlock_length, hlen]⟩
  unfold readBlock
  apply List.map_congr_left
  intro i hi
  have hi' : i < n := List.mem_range.1 hi
  have h1 := getD_writeBlock buf 0 ((List.range n).map fun i => src.getD (0 + i) default)
    (0 + i) (by omega)
  rw [h1, if_pos ⟨Nat.zero_le _, by rw [List.length_map, List.length_range]; omega⟩]
  have h2 := getD_readBlock src 0 n (0 + i - 0) (by omega)
  unfold readBlock at h2
  rw [h2]
  congr 1
  omega

/-- The head of the loop body for the grid index `k` either reloads the
controls (`k > k_stop`) or leaves the control bookkeeping as it is. -/
theorem interval_begin_controls {σ : Type} (I : Integrator) (s : ForwardState σ) (k : Nat) :
    (interval_begin I s k).u = s.u ∧
    (interval_begin I s k).first_call = s.first_call ∧
    ((k : Int) > s.k_stop →
      (interval_begin I s k).m.u = casadi_copy s.u I.nu.toNat s.m.u 0 ∧
      (interval_begin I s k).m.reset_solver = true ∧
      (interval_begin I s k).k_stop = next_stop I (k : Int) s.u ∧
      (interval_begin I s k).m.t_stop =
        I.tout.getD (interval_begin I s k).k_stop.toNat 0 ∧
      (interval_begin I s k).m.t_step =
        I.tout.getD (interval_begin I s k).k_stop.toNat 0) ∧
    (¬ (k : Int) > s.k_stop →
      (interval_begin I s k).m.u = s.m.u ∧
      (interval_begin I s k).m.reset_solver = s.m.reset_solver ∧
      (interval_begin I s k).k_stop = s.k_stop ∧
      (interval_begin I s k).m.t_stop = s.m.t_stop ∧
      (interval_begin I s k).m.t_step = s.m.t_step) := by
  unfold interval_begin
  dsimp only
  by_cases h : (k : Int) > s.k_stop
  · rw [if_pos h]
    exact ⟨rfl, rfl, fun _ => ⟨rfl, rfl, rfl, rfl, rfl⟩, fun hn => absurd h hn⟩
  · rw [if_neg h]
    exact ⟨rfl, rfl, fun hp => absurd hp h, fun _ => ⟨rfl, rfl, rfl, rfl, rfl⟩⟩

/-- What the head of the loop body for the grid index `k < nt` does to the
control bookkeeping, given the state of the bookkeeping after `k`
intervals. -/
theorem interval_begin_reload {σ : Type} (I : Integrator) (us : List ℚ) (k : Nat)
    (s : ForwardState σ) (hnu : 0 < I.nu) (hk : k < I.tout.length)
    (hinv : ControlsInv I us k s) :
    (((k : Int) > s.k_stop) ↔
      (k = 0 ∨ control_block I us k ≠ control_block I us (k - 1))) ∧
    (interval_begin I s k).m.u.length = I.nu.toNat ∧
    readBlock (interval_begin I s k).m.u 0 I.nu.toNat = control_block I us k ∧
    (interval_begin I s k).m.t_stop = (interval_begin I s k).m.t_step ∧
    (interval_begin I s k).m.t_step = I.tout.getD (interval_begin I s k).k_stop.toNat 0 ∧
    (k : Int) ≤ (interval_begin I s k).k_stop ∧ (interval_begin I s k).k_stop ≤ I.nt - 1 ∧
    (∀ j : Nat, k ≤ j → (j : Int) ≤ (interval_begin I s k).k_stop →
      control_block I us j = control_block I us k) ∧
    ((interval_begin I s k).k_stop + 1 < I.nt →
      control_block I us (interval_begin I s k).k_stop.toNat ≠
        control_block I us ((interval_begin I s k).k_stop.toNat + 1)) := by
  obtain ⟨i1, i2, i3, i4⟩ := hinv
  obtain ⟨-, -, bre, bno⟩ := interval_begin_controls I s k
  have hknt : (k : Int) < I.nt := by
    unfold Integrator.nt
    exact_mod_cast hk
  by_cases hre : (k : Int) > s.k_stop
  · -- the controls are reloaded
    obtain ⟨r1, -, r3, r4, r5⟩ := bre hre
    rw [i1] at r1 r3
    obtain ⟨d, d1, d2, d3, d4⟩ :=
      next_stop_scan I (k : Int) (us.drop (I.nu.toNat * k)) hknt hnu
    obtain ⟨c1, c2⟩ := readBlock_copy (us.drop (I.nu.toNat * k)) s.m.u I.nu.toNat i2
    have hks : (interval_begin I s k).k_stop = (k : Int) + d := r3.trans d1
    have hkn : (interval_begin I s k).k_stop.toNat = k + d := by rw [hks]; omega
    refine ⟨⟨fun _ => ?_, fun _ => hre⟩, by rw [r1]; exact c2, ?_, r4.trans r5.symm, r5,
      by rw [hks]; omega, by rw [hks]; exact d2, ?_, ?_⟩
    · by_cases hk0 : k = 0
      · exact Or.inl hk0
      · right
        obtain ⟨j1, j2, -, -, -, -, j7⟩ := i4 (by omega)
        have hst : s.k_stop = (k : Int) - 1 := by omega
        have hst' : s.k_stop.toNat = k - 1 := by rw [hst]; omega
        have := j7 (by rw [hst]; omega)
        rw [hst', Nat.sub_add_cancel (by omega)] at this
        exact fun h => this h.symm
    · rw [r1, c1]
      have := control_block_drop_mul I us k 0
      unfold control_block at this ⊢
      rw [Nat.zero_mul] at this
      rw [this, Nat.add_zero]
    · intro j hj1 hj2
      have hjd : j - k ≤ d := by rw [hks] at hj2; omega
      have := d4 (j - k) hjd
      rw [control_block_drop_mul, control_block_drop_mul, Nat.add_sub_cancel' hj1,
        Nat.add_zero] at this
      exact this
    · intro hlt
      rw [hkn]
      have := d3 (by rw [hks] at hlt; exact hlt)
      rw [control_block_drop_mul, control_block_drop_mul] at this
      exact this
  · -- the controls are kept
    obtain ⟨n1, -, n3, n4, n5⟩ := bno hre
    have hk0 : 0 < k := by
      by_contra h0
      have : k = 0 := by omega
      have := i3 this
      omega
    obtain ⟨j1, j2, j3, j4, j5, j6, j7⟩ := i4 hk0
    have heq : control_block I us k = control_block I us (k - 1) :=
      j6 k (by omega) (by omega)
    refine ⟨⟨fun h => absurd h hre, fun h => ?_⟩, by rw [n1]; exact i2, by rw [n1, j3, heq],
      by rw [n4, n5]; exact j4, by rw [n5, n3]; exact j5, by rw [n3]; omega,
      by rw [n3]; exact j2, ?_, by rw [n3]; exact j7⟩
    · rcases h with h | h
      · omega
      · exact absurd heq h
    · intro j hj1 hj2
      rw [n3] at hj2
      rw [heq]
      exact j6 j (by omega) hj2

/-- Invariant of the loop "Integrate forward" of `eval` for a non-null
control input and `nu > 0`. -/
theorem forward_controls_inv {σ : Type} (C : Collaborators σ) (hC : C.Frame)
    (hK : C.KeepsControls) (I : Integrator) (fuel : Nat) (a : EvalArgs)
    (m : IntegratorMemory σ) (us : List ℚ) (hu : a.u = some us) (hnu : 0 < I.nu)
    (hlen : m.u.length = I.nu.toNat) :
    ∀ (n : Nat), n ≤ I.tout.length → ∀ s : ForwardState σ,
      forward_intervals C I fuel (eval_begin I a m) n = .ok s → ControlsInv I us n s := by
  intro n
  induction n with
  | zero =>
    intro _ s h
    simp only [forward_intervals, Except.ok.injEq] at h
    subst h
    refine ⟨?_, hlen, fun _ => rfl, fun h => absurd h (lt_irrefl _)⟩
    show a.u = _
    rw [hu, Nat.mul_zero, List.drop_zero]
  | succ n ih =>
    intro hn sf h
    unfold forward_intervals at h
    cases hp : forward_intervals C I fuel (eval_begin I a m) n with
    | error e => rw [hp] at h; exact absurd h (by simp)
    | ok s =>
      rw [hp] at h
      dsimp only at h
      have hinv := ih (by omega) s hp
      obtain ⟨-, q2, q3, q4, q5, q6, q7, q8, q9⟩ :=
        interval_begin_reload I us n s hnu (by omega) hinv
      obtain ⟨b1, -, -, -⟩ := interval_begin_controls I s n
      unfold eval_interval at h
      simp only [bind, Except.bind, pure, Except.pure] at h
      split at h
      · exact absurd h (by simp)
      · rename_i r hr
        cases h
        obtain ⟨l1, l2, l3⟩ := integrate_loop_controls C hC hK I fuel fuel _ r hr
        have l1' : r.2.u = (interval_begin I s n).m.u := l1
        have l2' : r.2.t_step = (interval_begin I s n).m.t_step := l2
        have l3' : r.2.t_stop = r.2.t_step := l3 q4
        refine ⟨?_, ?_, fun h0 => absurd h0 (Nat.succ_ne_zero n), fun _ => ?_⟩
        · show (interval_begin I s n).u.map (fun us => us.drop I.nu.toNat) = _
          rw [b1, hinv.1]
          show some ((us.drop (I.nu.toNat * n)).drop I.nu.toNat) = _
          rw [List.drop_drop, Nat.mul_succ]
        · show r.2.u.length = _
          rw [l1']; exact q2
        · show ((n + 1 : Nat) : Int) - 1 ≤ (interval_begin I s n).k_stop ∧
            (interval_begin I s n).k_stop ≤ I.nt - 1 ∧
            readBlock r.2.u 0 I.nu.toNat = control_block I us (n + 1 - 1) ∧
            r.2.t_stop = r.2.t_step ∧
            r.2.t_step = I.tout.getD (interval_begin I s n).k_stop.toNat 0 ∧
            (∀ j : Nat, n + 1 - 1 ≤ j → (j : Int) ≤ (interval_begin I s n).k_stop →
              control_block I us j = control_block I us (n + 1 - 1)) ∧
            ((interval_begin I s n).k_stop + 1 < I.nt →
              control_block I us (interval_begin I s n).k_stop.toNat ≠
                control_block I us ((interval_begin I s n).k_stop.toNat + 1))
          rw [Nat.add_sub_cancel, l1', l3', l2']
          exact ⟨by push_cast; omega, q7, q3, rfl, q5, q8, q9⟩

/-- Claim C18. In the forward sweep of `eval` with `nu > 0` and a non-null
`u`, once the intervals before the grid index `k < nt` have been integrated:
the controls are reloaded at `k` (the test `k > k_stop` holds, so that
`set_u` copies block `k` into the memory, the solver is marked for reset and
`k_stop` and the stop time are recomputed by `next_stop`) exactly when
`k = 0` or the control block `k` differs from the block `k - 1`; otherwise
the control vector, `k_stop` and the stop time are kept. In both cases,
when the integration of the interval `k` starts, the control vector of the
memory holds block `k` of `u`, and `t_stop = t_step = tout[k_stop]` with
`k ≤ k_stop ≤ nt - 1`; when the interval has been integrated, the memory
still holds block `k` and `t_stop = tout[k_stop]`. -/
theorem control_reload {σ : Type} (C : Collaborators σ) (hC : C.Frame)
    (hK : C.KeepsControls) (I : Integrator) (fuel : Nat) (a : EvalArgs)
    (m : IntegratorMemory σ) (us : List ℚ) (hu : a.u = some us) (hnu : 0 < I.nu)
    (hlen : m.u.length = I.nu.toNat) (k : Nat) (hk : k < I.tout.length)
    (s : ForwardState σ) (hs : forward_intervals C I fuel (eval_begin I a m) k = .ok s) :
    (((k : Int) > s.k_stop) ↔
      (k = 0 ∨ control_block I us k ≠ control_block I us (k - 1))) ∧
    ((k : Int) > s.k_stop →
      (interval_begin I s k).m.u =
        casadi_copy (some (us.drop (I.nu.toNat * k))) I.nu.toNat s.m.u 0 ∧
      (interval_begin I s k).m.reset_solver = true ∧
      (interval_begin I s k).k_stop =
        next_stop I (k : Int) (some (us.drop (I.nu.toNat * k)))) ∧
    (¬ (k : Int) > s.k_stop →
      (interval_begin I s k).m.u = s.m.u ∧
      (interval_begin I s k).m.reset_solver = s.m.reset_solver ∧
      (interval_begin I s k).k_stop = s.k_stop ∧
      (interval_begin I s k).m.t_stop = s.m.t_stop) ∧
    (readBlock (interval_begin I s k).m.u 0 I.nu.toNat = control_block I us k ∧
      (interval_begin I s k).m.t_stop = I.tout.getD (interval_begin I s k).k_stop.toNat 0 ∧
      (interval_begin I s k).m.t_step = I.tout.getD (interval_begin I s k).k_stop.toNat 0 ∧
      (k : Int) ≤ (interval_begin I s k).k_stop ∧
      (interval_begin I s k).k_stop ≤ I.nt - 1) ∧
    (∀ s1 : ForwardState σ, eval_interval C I fuel s k = .ok s1 →
      readBlock s1.m.u 0 I.nu.toNat = control_block I us k ∧
      s1.m.t_stop = I.tout.getD s1.k_stop.toNat 0 ∧
      (k : Int) ≤ s1.k_stop ∧ s1.k_stop ≤ I.nt - 1) := by
  have hinv := forward_controls_inv C hC hK I fuel a m us hu hnu hlen k (by omega) s hs
  obtain ⟨q1, -, q3, q4, q5, q6, q7, -, -⟩ := interval_begin_reload I us k s hnu hk hinv
  obtain ⟨-, -, bre, bno⟩ := interval_begin_controls I s k
  refine ⟨q1, fun hre => ?_, fun hno => ?_, ⟨q3, q4.trans q5, q5, q6, q7⟩, fun s1 h1 => ?_⟩
  · obtain ⟨r1, r2, r3, -, -⟩ := bre hre
    rw [hinv.1] at r1 r3
    exact ⟨r1, r2, r3⟩
  · obtain ⟨n1, n2, n3, n4, -⟩ := bno hno
    exact ⟨n1, n2, n3, n4⟩
  · have hnext : forward_intervals C I fuel (eval_begin I a m) (k + 1) = .ok s1 := by
      unfold forward_intervals
      rw [hs]
      exact h1
    obtain ⟨-, -, -, i4⟩ :=
      forward_controls_inv C hC hK I fuel a m us hu hnu hlen (k + 1) (by omega) s1 hnext
    obtain ⟨j1, j2, j3, j4, j5, -, -⟩ := i4 (Nat.succ_pos k)
    rw [Nat.add_sub_cancel] at j3
    exact ⟨j3, j4.trans j5, by push_cast at j1; omega, j2⟩
theorem sampleCollaborators_keeps : sampleCollaborators.KeepsControls where
  advance_noevent_u := by
    intro m m1 h
    have : m1 = m := by
      simp only [sampleCollaborators, Option.some.injEq] at h
      exact h.symm
    subst this
    rfl
  reset_u := by
    intro m b
    rfl

/-- Witness of claim C18: with the control values 5, 5, 6 at the output
times 1, 2, 3, the first interval is integrated without error; at the grid
index 1 the controls are not reloaded (block 1 equals block 0), and the
memory holds the block 1, that is 5. -/
theorem control_reload_witness :
    ∃ s : ForwardState Unit,
      forward_intervals sampleCollaborators controlIntegrator 3
        (eval_begin controlIntegrator controlArgs controlMemory) 1 = .ok s ∧
      ¬ ((1 : Int) > s.k_stop) ∧
      readBlock (interval_begin controlIntegrator s 1).m.u 0 1 = [5] := by
  cases h : forward_intervals sampleCollaborators controlIntegrator 3
      (eval_begin controlIntegrator controlArgs controlMemory) 1 with
  | error e =>
    have hok : (forward_intervals sampleCollaborators controlIntegrator 3
        (eval_begin controlIntegrator controlArgs controlMemory) 1).isOk = true := by decide!
    rw [h] at hok
    exact absurd hok (by simp [Except.isOk, Except.toBool])
  | ok s =>
    obtain ⟨q1, -, -, ⟨q3, -⟩, -⟩ :=
      control_reload sampleCollaborators sampleCollaborators_frame sampleCollaborators_keeps
        controlIntegrator 3 controlArgs controlMemory [5, 5, 6] rfl (by decide) (by decide)
        1 (by decide) s h
    refine ⟨s, rfl, ?_, ?_⟩
    · intro hgt
      have hh := q1.1 hgt
      revert hh
      decide!
    · have hq : readBlock (interval_begin controlIntegrator s 1).m.u 0
          controlIntegrator.nu.toNat = control_block controlIntegrator [5, 5, 6] 1 := q3
      have hb : control_block controlIntegrator [5, 5, 6] 1 = [5] := by decide!
      rw [hb] at hq
      exact hq

/-! ## Structural Jacobian of the DAE -/

theorem get_zeros (nrow ncol r c : Nat) : (Sparsity.zeros nrow ncol).get r c = false := by
  simp [Sparsity.get, Sparsity.zeros]

theorem get_true_bounds (S : Sparsity) (r c : Nat) (h : S.get r c = true) :
    r < S.size1 ∧ c < S.size2 := by
  simp only [Sparsity.get, Bool.and_eq_true, decide_eq_true_eq] at h
  exact ⟨h.1.1, h.1.2⟩

theorem horzcat2_get_true (A B : Sparsity) (r c : Nat)
    (h : (Sparsity.horzcat2 A B).get r c = true) :
    (c < A.size2 ∧ A.get r c = true) ∨ (A.size2 ≤ c ∧ B.get r (c - A.size2) = true) := by
  simp only [Sparsity.get, Sparsity.horzcat2, Bool.and_eq_true, decide_eq_true_eq] at h
  obtain ⟨-, h3⟩ := h
  by_cases hc : c < A.size2
  · rw [if_pos hc] at h3
    exact Or.inl ⟨hc, by simpa [Sparsity.get] using h3⟩
  · rw [if_neg hc] at h3
    exact Or.inr ⟨not_lt.1 hc, by simpa [Sparsity.get] using h3⟩

theorem vertcat2_get_true (A B : Sparsity) (r c : Nat)
    (h : (Sparsity.vertcat2 A B).get r c = true) :
    (r < A.size1 ∧ A.get r c = true) ∨ (A.size1 ≤ r ∧ B.get (r - A.size1) c = true) := by
  simp only [Sparsity.get, Sparsity.vertcat2, Bool.and_eq_true, decide_eq_true_eq] at h
  obtain ⟨-, h3⟩ := h
  by_cases hc : r < A.size1
  · rw [if_pos hc] at h3
    exact Or.inl ⟨hc, by simpa [Sparsity.get] using h3⟩
  · rw [if_neg hc] at h3
    exact Or.inr ⟨not_lt.1 hc, by simpa [Sparsity.get] using h3⟩

theorem diagcat2_get_true (A B : Sparsity) (r c : Nat)
    (h : (Sparsity.diagcat2 A B).get r c = true) :
    (r < A.size1 ∧ A.get r c = true) ∨
    (A.size1 ≤ r ∧ A.size2 ≤ c ∧ B.get (r - A.size1) (c - A.size2) = true) := by
  simp only [Sparsity.get, Sparsity.diagcat2, Bool.and_eq_true, decide_eq_true_eq] at h
  obtain ⟨-, h3⟩ := h
  by_cases hr : r < A.size1
  · rw [if_pos hr] at h3
    exact Or.inl ⟨hr, by simpa [Sparsity.get] using h3⟩
  · rw [if_neg hr] at h3
    by_cases hc : c < A.size2
    · rw [if_pos hc] at h3
      cases h3
    · rw [if_neg hc] at h3
      exact Or.inr ⟨not_lt.1 hr, not_lt.1 hc, by simpa [Sparsity.get] using h3⟩

theorem blockcat_get_true (A B C D : Sparsity) (r c : Nat)
    (h : (blockcat A B C D).get r c = true) :
    (r < A.size1 ∧ c < A.size2 ∧ A.get r c = true) ∨
    (r < A.size1 ∧ A.size2 ≤ c ∧ B.get r (c - A.size2) = true) ∨
    (A.size1 ≤ r ∧ c < C.size2 ∧ C.get (r - A.size1) c = true) ∨
    (A.size1 ≤ r ∧ C.size2 ≤ c ∧ D.get (r - A.size1) (c - C.size2) = true) := by
  unfold blockcat at h
  rcases vertcat2_get_true _ _ r c h with ⟨h1, h2⟩ | ⟨h1, h2⟩
  · rcases horzcat2_get_true _ _ r c h2 with ⟨h3, h4⟩ | ⟨h3, h4⟩
    · exact Or.inl ⟨h1, h3, h4⟩
    · exact Or.inr (Or.inl ⟨h1, h3, h4⟩)
  · rcases horzcat2_get_true _ _ _ c h2 with ⟨h3, h4⟩ | ⟨h3, h4⟩
    · exact Or.inr (Or.inr (Or.inl ⟨h1, h3, h4⟩))
    · exact Or.inr (Or.inr (Or.inr ⟨h1, h3, h4⟩))

theorem blockcat_size (A B C D : Sparsity) :
    (blockcat A B C D).size1 = A.size1 + C.size1 ∧
    (blockcat A B C D).size2 = A.size2 + B.size2 := ⟨rfl, rfl⟩

theorem vertcat_replicate_size (J : Sparsity) : ∀ n : Nat,
    (vertcat (List.replicate n J)).size1 = n * J.size1 ∧
    (0 < n → (vertcat (List.replicate n J)).size2 = J.size2) := by
  intro n
  induction n with
  | zero => exact ⟨by simp [vertcat, Sparsity.zeros], fun h => absurd h (lt_irrefl _)⟩
  | succ n ih =>
    cases n with
    | zero => exact ⟨by simp [vertcat], fun _ => rfl⟩
    | succ n =>
      refine ⟨?_, fun _ => rfl⟩
      show J.size1 + (vertcat (List.replicate (n + 1) J)).size1 = _
      rw [ih.1]
      ring

theorem diagcat_replicate_empty (J : Sparsity) (hJ : J.is_empty_pattern) : ∀ n : Nat,
    (diagcat (List.replicate n J)).is_empty_pattern := by
  intro n
  induction n with
  | zero => intro r c; exact get_zeros 0 0 r c
  | succ n ih =>
    cases n with
    | zero => exact hJ
    | succ n =>
      intro r c
      cases hg : (diagcat (List.replicate (n + 1 + 1) J)).get r c with
      | false => rfl
      | true =>
        have hg' : (Sparsity.diagcat2 J (diagcat (List.replicate (n + 1) J))).get r c = true := hg
        rcases diagcat2_get_true _ _ r c hg' with ⟨-, h2⟩ | ⟨-, -, h2⟩
        · rw [hJ r c] at h2; cases h2
        · rw [ih _ _] at h2; cases h2

theorem sp_jac_aug_size (I : Integrator) (J J1 : Sparsity) :
    (sp_jac_aug I J J1).size1 = J.size1 + I.nfwd.toNat * J1.size1 ∧
    (sp_jac_aug I J J1).size2 = J.size2 + I.nfwd.toNat * J.size2 := by
  unfold sp_jac_aug
  dsimp only
  rw [(blockcat_size _ _ _ _).1, (blockcat_size _ _ _ _).2, (vertcat_replicate_size J1 _).1]
  exact ⟨rfl, rfl⟩

/-- The rows of the nondifferentiated block of an augmented pattern are
empty when the nondifferentiated pattern is empty. -/
theorem sp_jac_aug_row_empty (I : Integrator) (J J1 : Sparsity) (hJ : J.is_empty_pattern)
    (r c : Nat) (hr : r < J.size1) : (sp_jac_aug I J J1).get r c = false := by
  cases hg : (sp_jac_aug I J J1).get r c with
  | false => rfl
  | true =>
    unfold sp_jac_aug at hg
    dsimp only at hg
    rcases blockcat_get_true _ _ _ _ r c hg with ⟨-, -, h⟩ | ⟨-, -, h⟩ | ⟨h, -⟩ | ⟨h, -⟩
    · rw [hJ r c] at h; cases h
    · rw [get_zeros] at h; cases h
    · omega
    · omega

/-- The first column of the sensitivity block of an augmented pattern is
empty when the nondifferentiated pattern is empty. -/
theorem sp_jac_aug_col_empty (I : Integrator) (J J1 : Sparsity) (hJ : J.is_empty_pattern)
    (hfwd : 0 < I.nfwd.toNat) (hsize : J1.size2 = J.size2) (r : Nat) :
    (sp_jac_aug I J J1).get r J.size2 = false := by
  cases hg : (sp_jac_aug I J J1).get r J.size2 with
  | false => rfl
  | true =>
    unfold sp_jac_aug at hg
    dsimp only at hg
    rcases blockcat_get_true _ _ _ _ r _ hg with ⟨-, h, -⟩ | ⟨-, -, h⟩ | ⟨-, h, -⟩ | ⟨-, -, h⟩
    · omega
    · rw [get_zeros] at h; cases h
    · rw [(vertcat_replicate_size J1 _).2 hfwd, hsize] at h
      omega
    · rw [diagcat_replicate_empty J hJ _ _ _] at h; cases h

theorem singular_of_empty_col (S : Sparsity) (c0 : Nat) (hc : c0 < S.size2)
    (h : ∀ r, S.get r c0 = false) : S.is_singular = true := by
  unfold Sparsity.is_singular
  apply decide_eq_true
  rintro ⟨f, -, hf⟩
  have := hf ⟨c0, hc⟩
  rw [h] at this
  cases this

theorem singular_of_empty_row (S : Sparsity) (r0 : Nat) (hsq : S.size1 = S.size2)
    (hr : r0 < S.size1) (h : ∀ c, S.get r0 c = false) : S.is_singular = true := by
  unfold Sparsity.is_singular
  apply decide_eq_true
  rintro ⟨f, hinj, hf⟩
  obtain ⟨n, m, nz⟩ := S
  simp only at hsq hr f hinj hf h
  subst hsq
  obtain ⟨c, hc⟩ := (Finite.injective_iff_surjective.1 hinj) ⟨r0, hr⟩
  have := hf c
  rw [hc, h] at this
  cases this

/-- The pattern built by `sp_jac_dae` is square when the Jacobian patterns of
"daeF" and of its forward derivative have the sizes of the problem. -/
theorem sp_jac_dae_size (I : Integrator) (F fwd_F : JacSparsity)
    (hF : F.sized I.nx1.toNat I.nz1.toNat) (hF1 : fwd_F.sized I.nx1.toNat I.nz1.toNat) :
    (sp_jac_dae I F fwd_F).size1 =
      (I.nx1.toNat + I.nfwd.toNat * I.nx1.toNat) + (I.nz1.toNat + I.nfwd.toNat * I.nz1.toNat) ∧
    (sp_jac_dae I F fwd_F).size2 =
      (I.nx1.toNat + I.nfwd.toNat * I.nx1.toNat) + (I.nz1.toNat + I.nfwd.toNat * I.nz1.toNat) := by
  obtain ⟨⟨a1, a2⟩, ⟨b1, b2⟩, ⟨c1, c2⟩, ⟨d1, d2⟩⟩ := hF
  obtain ⟨⟨e1, e2⟩, ⟨f1, f2⟩, ⟨g1, g2⟩, ⟨k1, k2⟩⟩ := hF1
  unfold sp_jac_dae
  dsimp only
  by_cases hfwd : I.nfwd > 0
  · rw [if_pos hfwd, (blockcat_size _ _ _ _).1, (blockcat_size _ _ _ _).2,
      (sp_jac_aug_size _ _ _).1, (sp_jac_aug_size _ _ _).1, (sp_jac_aug_size _ _ _).2,
      (sp_jac_aug_size _ _ _).2, e1, g1, b2, c1]
    exact ⟨by show F.ode_x.size1 + _ + _ = _; rw [a1],
      by show F.ode_x.size2 + _ * F.ode_x.size2 + _ = _; rw [a2]⟩
  · rw [if_neg hfwd, (blockcat_size _ _ _ _).1, (blockcat_size _ _ _ _).2, c1, b2]
    have h0 : I.nfwd.toNat = 0 := by omega
    rw [h0]
    exact ⟨by show F.ode_x.size1 + _ = _; rw [a1]; omega,
      by show F.ode_x.size2 + _ = _; rw [a2]; omega⟩

/-- The pattern built by `sp_jac_dae` is structurally singular when `alg`
depends neither on `z` nor on `x`: the first row of the algebraic block is
empty. -/
theorem sp_jac_dae_singular_row (I : Integrator) (F fwd_F : JacSparsity)
    (hF : F.sized I.nx1.toNat I.nz1.toNat) (hF1 : fwd_F.sized I.nx1.toNat I.nz1.toNat)
    (hnz : 0 < I.nz1) (hzz : F.alg_z.is_empty_pattern) (hzx : F.alg_x.is_empty_pattern) :
    (sp_jac_dae I F fwd_F).is_singular = true := by
  obtain ⟨s1, s2⟩ := sp_jac_dae_size I F fwd_F hF hF1
  obtain ⟨⟨a1, a2⟩, ⟨b1, b2⟩, ⟨c1, c2⟩, ⟨d1, d2⟩⟩ := hF
  obtain ⟨⟨e1, e2⟩, ⟨f1, f2⟩, ⟨g1, g2⟩, ⟨k1, k2⟩⟩ := hF1
  have hnz' : 0 < I.nz1.toNat := by omega
  apply singular_of_empty_row _ (I.nx1.toNat + I.nfwd.toNat * I.nx1.toNat) (s1.trans s2.symm)
    (by rw [s1]; omega)
  intro c
  cases hg : (sp_jac_dae I F fwd_F).get (I.nx1.toNat + I.nfwd.toNat * I.nx1.toNat) c with
  | false => rfl
  | true =>
    unfold sp_jac_dae at hg
    dsimp only at hg
    by_cases hfwd : I.nfwd > 0
    · rw [if_pos hfwd] at hg
      have hsz : (sp_jac_aug I (F.ode_x.add (Sparsity.diag I.nx1.toNat)) fwd_F.ode_x).size1 =
          I.nx1.toNat + I.nfwd.toNat * I.nx1.toNat := by
        rw [(sp_jac_aug_size _ _ _).1, e1]
        show F.ode_x.size1 + _ = _
        rw [a1]
      rcases blockcat_get_true _ _ _ _ _ c hg with ⟨h, -⟩ | ⟨h, -⟩ | ⟨-, -, h⟩ | ⟨-, -, h⟩
      · rw [hsz] at h; omega
      · rw [hsz] at h; omega
      · rw [hsz, Nat.sub_self, sp_jac_aug_row_empty I _ _ hzx 0 _ (by rw [c1]; exact hnz')] at h
        cases h
      · rw [hsz, Nat.sub_self, sp_jac_aug_row_empty I _ _ hzz 0 _ (by rw [d1]; exact hnz')] at h
        cases h
    · rw [if_neg hfwd] at hg
      have h0 : I.nfwd.toNat = 0 := by omega
      have hsz : (F.ode_x.add (Sparsity.diag I.nx1.toNat)).size1 = I.nx1.toNat := a1
      rw [h0, Nat.zero_mul, Nat.add_zero] at hg
      rcases blockcat_get_true _ _ _ _ _ c hg with ⟨h, -⟩ | ⟨h, -⟩ | ⟨-, -, h⟩ | ⟨-, -, h⟩
      · rw [hsz] at h; omega
      · rw [hsz] at h; omega
      · rw [hzx] at h; cases h
      · rw [hzz] at h; cases h

/-- The pattern built by `sp_jac_dae` is structurally singular when neither
`alg` nor `ode` depends on `z`: a column of the algebraic variables is
empty. -/
theorem sp_jac_dae_singular_col (I : Integrator) (F fwd_F : JacSparsity)
    (hF : F.sized I.nx1.toNat I.nz1.toNat) (hF1 : fwd_F.sized I.nx1.toNat I.nz1.toNat)
    (hnz : 0 < I.nz1) (hzz : F.alg_z.is_empty_pattern) (hxz : F.ode_z.is_empty_pattern) :
    (sp_jac_dae I F fwd_F).is_singular = true := by
  obtain ⟨s1, s2⟩ := sp_jac_dae_size I F fwd_F hF hF1
  obtain ⟨⟨a1, a2⟩, ⟨b1, b2⟩, ⟨c1, c2⟩, ⟨d1, d2⟩⟩ := hF
  obtain ⟨⟨e1, e2⟩, ⟨f1, f2⟩, ⟨g1, g2⟩, ⟨k1, k2⟩⟩ := hF1
  have hnz' : 0 < I.nz1.toNat := by omega
  by_cases hfwd : I.nfwd > 0
  · have hf' : 0 < I.nfwd.toNat := by omega
    have hpos : 0 < I.nfwd.toNat * I.nz1.toNat := Nat.mul_pos hf' hnz'
    apply singular_of_empty_col _ (I.nx1.toNat + I.nfwd.toNat * I.nx1.toNat + I.nz1.toNat)
      (by rw [s2]; omega)
    intro r
    cases hg : (sp_jac_dae I F fwd_F).get r
        (I.nx1.toNat + I.nfwd.toNat * I.nx1.toNat + I.nz1.toNat) with
    | false => rfl
    | true =>
      unfold sp_jac_dae at hg
      dsimp only at hg
      rw [if_pos hfwd] at hg
      have hsz : (sp_jac_aug I (F.ode_x.add (Sparsity.diag I.nx1.toNat)) fwd_F.ode_x).size2 =
          I.nx1.toNat + I.nfwd.toNat * I.nx1.toNat := by
        rw [(sp_jac_aug_size _ _ _).2]
        show F.ode_x.size2 + _ * F.ode_x.size2 = _
        rw [a2]
      have hsz2 : (sp_jac_aug I F.alg_x fwd_F.alg_x).size2 =
          I.nx1.toNat + I.nfwd.toNat * I.nx1.toNat := by
        rw [(sp_jac_aug_size _ _ _).2, c2]
      rcases blockcat_get_true _ _ _ _ r _ hg with ⟨-, h, -⟩ | ⟨-, -, h⟩ | ⟨-, h, -⟩ | ⟨-, -, h⟩
      · rw [hsz] at h; omega
      · rw [hsz, Nat.add_sub_cancel_left] at h
        have := sp_jac_aug_col_empty I F.ode_z fwd_F.ode_z hxz hf' (f2.trans b2.symm) r
        rw [b2] at this
        rw [this] at h; cases h
      · rw [hsz2] at h; omega
      · rw [hsz2, Nat.add_sub_cancel_left] at h
        have := sp_jac_aug_col_empty I F.alg_z fwd_F.alg_z hzz hf' (k2.trans d2.symm)
          (r - (sp_jac_aug I (F.ode_x.add (Sparsity.diag I.nx1.toNat)) fwd_F.ode_x).size1)
        rw [d2] at this
        rw [this] at h; cases h
  · have h0 : I.nfwd.toNat = 0 := by omega
    apply singular_of_empty_col _ I.nx1.toNat (by rw [s2, h0]; omega)
    intro r
    cases hg : (sp_jac_dae I F fwd_F).get r I.nx1.toNat with
    | false => rfl
    | true =>
      unfold sp_jac_dae at hg
      dsimp only at hg
      rw [if_neg hfwd] at hg
      have hsz : (F.ode_x.add (Sparsity.diag I.nx1.toNat)).size2 = I.nx1.toNat := a2
      rcases blockcat_get_true _ _ _ _ r _ hg with ⟨-, h, -⟩ | ⟨-, -, h⟩ | ⟨-, h, -⟩ | ⟨-, -, h⟩
      · rw [hsz] at h; omega
      · rw [hxz] at h; cases h
      · rw [c2] at h; omega
      · rw [hzz] at h; cases h
/-! ## Failures of `eval` -/

theorem advance_loop_error {σ : Type} (C : Collaborators σ) (I : Integrator) :
    ∀ (fuel : Nat) (m : IntegratorMemory σ) (e : Err),
      advance_loop C I fuel m = .error e → e.atCallTime := by
  intro fuel
  induction fuel with
  | zero =>
    intro m e h
    simp only [advance_loop, Except.error.injEq] at h
    subst h
    exact Or.inr (Or.inr (Or.inr (Or.inr (Or.inr rfl))))
  | succ fuel ih =>
    intro m e h
    unfold advance_loop at h
    cases hi : advance_iter C I m with
    | error e1 =>
      rw [hi] at h
      cases h
      rcases advance_iter_error C I m e hi with h1 | h1 | ⟨h1, -⟩
      · exact Or.inl h1
      · exact Or.inr (Or.inl h1)
      · exact Or.inr (Or.inr (Or.inl h1))
    | ok r =>
      obtain ⟨b, m1⟩ := r
      rw [hi] at h
      cases b with
      | false => exact absurd h (by simp)
      | true => exact ih m1 e h

theorem advance_error {σ : Type} (C : Collaborators σ) (I : Integrator) (fuel : Nat)
    (m : IntegratorMemory σ) (e : Err) (h : advance C I fuel m = .error e) :
    e.atCallTime := by
  unfold advance at h
  cases he : advance_entry C I m with
  | error e1 =>
    rw [he] at h
    cases h
    exact Or.inr (Or.inl (advance_entry_error C I m e he))
  | ok m0 =>
    rw [he] at h
    exact advance_loop_error C I fuel m0 e h

theorem trigger_loop_error {σ : Type} (C : Collaborators σ) (I : Integrator) :
    ∀ (fuel : Nat) (m : IntegratorMemory σ) (e : Err),
      trigger_loop C I fuel m = .error e → e.atCallTime := by
  intro fuel
  induction fuel with
  | zero =>
    intro m e h
    unfold trigger_loop at h
    split at h
    · cases h
      exact Or.inr (Or.inr (Or.inr (Or.inr (Or.inr rfl))))
    · exact absurd h (by simp)
  | succ fuel ih =>
    intro m e h
    unfold trigger_loop at h
    split at h
    · cases ht : trigger_event C I m with
      | error e1 =>
        rw [ht] at h
        cases h
        rcases (trigger_event_spec C I m).2.1 e ht with h1 | h1 | h1
        · exact Or.inr (Or.inr (Or.inr (Or.inl h1)))
        · exact Or.inr (Or.inr (Or.inr (Or.inr (Or.inl h1))))
        · exact Or.inr (Or.inl h1)
      | ok m2 =>
        rw [ht] at h
        exact ih _ e h
    · exact absurd h (by simp)

theorem trigger_all_error {σ : Type} (C : Collaborators σ) (I : Integrator) (fuel : Nat)
    (m : IntegratorMemory σ) (e : Err) (h : trigger_all C I fuel m = .error e) :
    e.atCallTime := by
  unfold trigger_all at h
  split at h
  · simp only [bind, Except.bind, pure, Except.pure] at h
    split at h
    · rename_i e1 h1
      cases h
      exact trigger_loop_error C I fuel _ e h1
    · exact absurd h (by simp)
  · exact absurd h (by simp [pure, Except.pure])

theorem integrate_pass_error {σ : Type} (C : Collaborators σ) (I : Integrator) (fuel : Nat)
    (s : Bool × IntegratorMemory σ) (e : Err) (h : integrate_pass C I fuel s = .error e) :
    e.atCallTime := by
  unfold integrate_pass at h
  simp only [bind, Except.bind, pure, Except.pure] at h
  split at h
  · rename_i e1 h1
    cases h
    exact advance_error C I fuel _ e h1
  · split at h
    · rename_i e1 h1
      cases h
      exact trigger_all_error C I fuel _ e h1
    · exact absurd h (by simp)

theorem integrate_loop_error {σ : Type} (C : Collaborators σ) (I : Integrator) (fuel : Nat) :
    ∀ (n : Nat) (s : Bool × IntegratorMemory σ) (e : Err),
      integrate_loop C I fuel n s = .error e → e.atCallTime := by
  intro n
  induction n with
  | zero =>
    intro s e h
    simp only [integrate_loop, Except.error.injEq] at h
    subst h
    exact Or.inr (Or.inr (Or.inr (Or.inr (Or.inr rfl))))
  | succ n ih =>
    intro s e h
    unfold integrate_loop at h
    cases hp : integrate_pass C I fuel s with
    | error e1 =>
      rw [hp] at h
      cases h
      exact integrate_pass_error C I fuel s e hp
    | ok s2 =>
      rw [hp] at h
      dsimp only at h
      split at h
      · exact ih s2 e h
      · exact absurd h (by simp)

theorem forward_intervals_error {σ : Type} (C : Collaborators σ) (I : Integrator)
    (fuel : Nat) (s0 : ForwardState σ) :
    ∀ (n : Nat) (e : Err), forward_intervals C I fuel s0 n = .error e → e.atCallTime := by
  intro n
  induction n with
  | zero => intro e h; exact absurd h (by simp [forward_intervals])
  | succ n ih =>
    intro e h
    unfold forward_intervals at h
    cases hp : forward_intervals C I fuel s0 n with
    | error e1 =>
      rw [hp] at h
      cases h
      exact ih e hp
    | ok s1 =>
      rw [hp] at h
      dsimp only at h
      unfold eval_interval at h
      simp only [bind, Except.bind, pure, Except.pure] at h
      split at h
      · rename_i e1 h1
        cases h
        exact integrate_loop_error C I fuel fuel _ e h1
      · exact absurd h (by simp)

/-- Every failure of `eval` is one of the failures of the time-stepping
driver; in particular `eval` never fails with a rank-deficiency error. -/
theorem eval_error {σ : Type} (C : Collaborators σ) (B : BackwardCollaborators σ)
    (I : Integrator) (fuel : Nat) (a : EvalArgs) (m : IntegratorMemory σ)
    (adj_x adj_p adj_u : List ℚ) (e : Err)
    (h : eval C B I fuel a m adj_x adj_p adj_u = .error e) : e.atCallTime := by
  unfold eval at h
  cases hf : eval_forward C I fuel a m with
  | error e1 =>
    rw [hf] at h
    cases h
    exact forward_intervals_error C I fuel _ _ e hf
  | ok f =>
    rw [hf] at h
    exact absurd h (by simp)

/-! ## Structural rank check of `init` -/

theorem backward_problem_env (J : Integrator) (env : InitEnv) (b : Bool) :
    J.backward_problem { env with sp_jac_dae_singular := b } = J.backward_problem env := rfl

/-- When `init` succeeds for collaborators that report a non-singular
forward pattern, it fails with the forward rank-deficiency error for the
same collaborators reporting a singular one. -/
theorem init_singular_forward (self : Integrator) (opts : Dict) (env : InitEnv)
    (I : Integrator)
    (hI : self.init opts { env with sp_jac_dae_singular := false } = .ok I)
    (hs : env.sp_jac_dae_singular = true) :
    self.init opts env = .error Err.singularForward := by
  unfold Integrator.init at hI ⊢
  simp only [bind, Except.bind, pure, Except.pure, backward_problem_env] at hI ⊢
  split at hI
  · exact absurd hI (by simp)
  · split at hI
    · exact absurd hI (by simp)
    · split at hI
      · exact absurd hI (by simp)
      · unfold check_singular
        simp only [bind, Except.bind, pure, Except.pure, hs, if_true, throw, throwThe,
          MonadExceptOf.throw]

/-- Claim C11. Let `init` succeed, with the configured object `I`, when the
structural rank check passes. If the check is made on the pattern that
`sp_jac_dae` builds for `I` from the Jacobian patterns of "daeF" and of its
forward derivative, `nz1 > 0`, the pattern of `alg` with respect to `z` is
empty, and the pattern of `alg` with respect to `x` or the pattern of `ode`
with respect to `z` is empty, then the pattern built by `sp_jac_dae` is
structurally singular and `init` fails with the forward rank-deficiency
error. The check belongs to `init`: no call of `eval`, for any configured
object, fails with a rank-deficiency error. -/
theorem singular_structural_jacobian (self : Integrator) (opts : Dict) (env : InitEnv)
    (I : Integrator) (F fwd_F : JacSparsity)
    (hI : self.init opts { env with sp_jac_dae_singular := false } = .ok I)
    (henv : env.sp_jac_dae_singular = (sp_jac_dae I F fwd_F).is_singular)
    (hF : F.sized I.nx1.toNat I.nz1.toNat) (hF1 : fwd_F.sized I.nx1.toNat I.nz1.toNat)
    (hnz : 0 < I.nz1) (hzz : F.alg_z.is_empty_pattern)
    (hind : F.alg_x.is_empty_pattern ∨ F.ode_z.is_empty_pattern) :
    (sp_jac_dae I F fwd_F).is_singular = true ∧
    self.init opts env = .error Err.singularForward ∧
    (∀ (σ : Type) (C : Collaborators σ) (B : BackwardCollaborators σ) (J : Integrator)
      (fuel : Nat) (a : EvalArgs) (m : IntegratorMemory σ) (adj_x adj_p adj_u : List ℚ)
      (e : Err), eval C B J fuel a m adj_x adj_p adj_u = .error e →
        e ≠ Err.singularForward ∧ e ≠ Err.singularBackward) := by
  have hsing : (sp_jac_dae I F fwd_F).is_singular = true := by
    rcases hind with h | h
    · exact sp_jac_dae_singular_row I F fwd_F hF hF1 hnz hzz h
    · exact sp_jac_dae_singular_col I F fwd_F hF hF1 hnz hzz h
  refine ⟨hsing, init_singular_forward self opts env I hI (henv.trans hsing), ?_⟩
  intro σ C B J fuel a m adj_x adj_p adj_u e h
  have hc := eval_error C B J fuel a m adj_x adj_p adj_u e h
  constructor
  · rintro rfl
    revert hc
    decide
  · rintro rfl
    revert hc
    decide

/-- Witness of claim C11: for the sample oracle (two states, one algebraic
variable) with Jacobian patterns in which `z` appears nowhere, `init` fails
with the forward rank-deficiency error. -/
theorem singular_structural_jacobian_witness :
    (sp_jac_dae legacyIntegrator sampleJac sampleJac).is_singular = true ∧
    (Integrator.new 0 [1]).init legacyOpts singularEnv = .error Err.singularForward := by
  have hF : sampleJac.sized legacyIntegrator.nx1.toNat legacyIntegrator.nz1.toNat := by
    unfold JacSparsity.sized
    decide
  have hzz : sampleJac.alg_z.is_empty_pattern := fun r c => get_zeros 1 1 r c
  have hxz : sampleJac.ode_z.is_empty_pattern := fun r c => get_zeros 2 1 r c
  have hs : (sp_jac_dae legacyIntegrator sampleJac sampleJac).is_singular = true :=
    sp_jac_dae_singular_col legacyIntegrator sampleJac sampleJac hF hF (by decide) hzz hxz
  obtain ⟨h1, h2, -⟩ := singular_structural_jacobian (Integrator.new 0 [1]) legacyOpts
    singularEnv legacyIntegrator sampleJac sampleJac (by decide!) (hs.symm ▸ rfl) hF hF
    (by decide) hzz (Or.inr hxz)
  exact ⟨h1, h2⟩

/-! ## Selection of the earliest event -/

theorem blockcat_get (A B C D : Sparsity) (r c : Nat) :
    (blockcat A B C D).get r c =
      (decide (r < A.size1 + C.size1) && decide (c < A.size2 + B.size2) &&
        (if r < A.size1 then
          (decide (r < A.size1) && decide (c < A.size2 + B.size2) &&
            (if c < A.size2 then A.get r c else B.get r (c - A.size2)))
        else
          (decide (r - A.size1 < C.size1) && decide (c < C.size2 + D.size2) &&
            (if c < C.size2 then C.get (r - A.size1) c
              else D.get (r - A.size1) (c - C.size2))))) := rfl

theorem blockcat_has_diag (A B C D : Sparsity) (a d : Nat) (hA : A.has_diag a)
    (hD : D.has_diag d) (hB : B.size2 = d) (hC1 : C.size1 = d) (hC2 : C.size2 = a) :
    (blockcat A B C D).has_diag (a + d) := by
  obtain ⟨a1, a2, a3⟩ := hA
  obtain ⟨d1, d2, d3⟩ := hD
  refine ⟨by rw [(blockcat_size A B C D).1, a1, hC1],
    by rw [(blockcat_size A B C D).2, a2, hB], fun r hr => ?_⟩
  rw [blockcat_get, a1, a2, hB, hC1, hC2, d2]
  by_cases hra : r < a
  · simp only [hr, hra, decide_True, Bool.true_and, if_true, a3 r hra]
  · have hrd : r - a < d := by omega
    simp only [hr, hra, hrd, decide_True, Bool.true_and, if_false, d3 (r - a) hrd]

theorem diagcat2_has_diag (A B : Sparsity) (a b : Nat) (hA : A.has_diag a) (hB : B.has_diag b) :
    (Sparsity.diagcat2 A B).has_diag (a + b) := by
  obtain ⟨a1, a2, a3⟩ := hA
  obtain ⟨b1, b2, b3⟩ := hB
  refine ⟨by show A.size1 + B.size1 = _; rw [a1, b1],
    by show A.size2 + B.size2 = _; rw [a2, b2], fun r hr => ?_⟩
  show (decide (r < A.size1 + B.size1) && decide (r < A.size2 + B.size2) &&
    (if r < A.size1 then A.get r r
      else if r < A.size2 then false else B.get (r - A.size1) (r - A.size2))) = true
  rw [a1, a2, b1, b2]
  by_cases hra : r < a
  · simp only [hr, hra, decide_True, Bool.true_and, if_true, a3 r hra]
  · have hrb : r - a < b := by omega
    simp only [hr, hra, decide_True, Bool.true_and, if_false, b3 (r - a) hrb]

theorem diagcat_replicate_has_diag (J : Sparsity) (j : Nat) (hJ : J.has_diag j) : ∀ n : Nat,
    (diagcat (List.replicate n J)).has_diag (n * j) := by
  intro n
  induction n with
  | zero =>
    rw [Nat.zero_mul]
    exact ⟨rfl, rfl, fun r hr => absurd hr (Nat.not_lt_zero r)⟩
  | succ n ih =>
    cases n with
    | zero =>
      rw [Nat.zero_add, Nat.one_mul]
      exact hJ
    | succ n =>
      have h := diagcat2_has_diag J (diagcat (List.replicate (n + 1) J)) j ((n + 1) * j) hJ ih
      have he : (n + 1 + 1) * j = j + (n + 1) * j := by ring
      rw [he]
      exact h

/-- The augmented pattern contains every diagonal entry when the
nondifferentiated pattern does. -/
theorem sp_jac_aug_has_diag (I : Integrator) (J J1 : Sparsity) (j : Nat) (hfwd : 0 < I.nfwd.toNat)
    (hJ : J.has_diag j) (h1 : J1.size1 = j) (h2 : J1.size2 = j) :
    (sp_jac_aug I J J1).has_diag (j + I.nfwd.toNat * j) := by
  unfold sp_jac_aug
  dsimp only
  refine blockcat_has_diag _ _ _ _ j (I.nfwd.toNat * j) hJ
    (diagcat_replicate_has_diag J j hJ _) ?_ ?_ ?_
  · show I.nfwd.toNat * J.size2 = _
    rw [hJ.2.1]
  · rw [(vertcat_replicate_size J1 _).1, h1]
  · rw [(vertcat_replicate_size J1 _).2 hfwd, h2]

theorem add_diag_has_diag (A : Sparsity) (n : Nat) (h1 : A.size1 = n) (h2 : A.size2 = n) :
    (Sparsity.add A (Sparsity.diag n)).has_diag n := by
  refine ⟨h1, h2, fun r hr => ?_⟩
  simp only [Sparsity.get, Sparsity.add, Sparsity.diag, h1, h2, hr, decide_True, Bool.true_and,
    Bool.or_true]

/-- The pattern built by `sp_jac_dae` contains every diagonal entry when the
pattern of `alg` with respect to `z` does. -/
theorem sp_jac_dae_has_diag (I : Integrator) (F fwd_F : JacSparsity)
    (hF : F.sized I.nx1.toNat I.nz1.toNat) (hF1 : fwd_F.sized I.nx1.toNat I.nz1.toNat)
    (hzz : ∀ r, r < I.nz1.toNat → F.alg_z.get r r = true) :
    (sp_jac_dae I F fwd_F).has_diag
      ((I.nx1.toNat + I.nfwd.toNat * I.nx1.toNat) +
        (I.nz1.toNat + I.nfwd.toNat * I.nz1.toNat)) := by
  obtain ⟨⟨a1, a2⟩, ⟨b1, b2⟩, ⟨c1, c2⟩, ⟨d1, d2⟩⟩ := hF
  obtain ⟨⟨e1, e2⟩, ⟨f1, f2⟩, ⟨g1, g2⟩, ⟨k1, k2⟩⟩ := hF1
  have hxx := add_diag_has_diag F.ode_x I.nx1.toNat a1 a2
  have hz : F.alg_z.has_diag I.nz1.toNat := ⟨d1, d2, hzz⟩
  unfold sp_jac_dae
  dsimp only
  by_cases hfwd : I.nfwd > 0
  · rw [if_pos hfwd]
    have hpos : 0 < I.nfwd.toNat := by omega
    refine blockcat_has_diag _ _ _ _ _ _
      (sp_jac_aug_has_diag I _ fwd_F.ode_x I.nx1.toNat hpos hxx e1 e2)
      (sp_jac_aug_has_diag I _ fwd_F.alg_z I.nz1.toNat hpos hz k1 k2) ?_ ?_ ?_
    · rw [(sp_jac_aug_size _ _ _).2, b2]
    · rw [(sp_jac_aug_size _ _ _).1, c1, g1]
    · rw [(sp_jac_aug_size _ _ _).2, c2]
  · rw [if_neg hfwd]
    have h0 : I.nfwd.toNat = 0 := by omega
    rw [h0, Nat.zero_mul, Nat.zero_mul, Nat.add_zero, Nat.add_zero]
    exact blockcat_has_diag _ _ _ _ _ _ hxx hz b2 c1 c2

/-- A pattern that contains every diagonal entry has full structural rank. -/
theorem nonsingular_of_has_diag (S : Sparsity) (n : Nat) (h : S.has_diag n) :
    S.is_singular = false := by
  obtain ⟨h1, h2, h3⟩ := h
  unfold Sparsity.is_singular
  apply decide_eq_false
  intro hne
  apply hne
  refine ⟨fun c => ⟨c.val, by rw [h1, ← h2]; exact c.isLt⟩, ?_, fun c => ?_⟩
  · intro x y hxy
    exact Fin.ext (Fin.mk.inj hxy)
  · exact h3 c.val (by rw [← h2]; exact c.isLt)

theorem check_oracle_error (I : Integrator) (oracle : FunctionInfo) (e : Err)
    (h : check_oracle I oracle = .error e) : e ≠ Err.singularForward := by
  rintro rfl
  revert h
  unfold check_oracle
  simp only [bind, Except.bind, pure, Except.pure, throw, throwThe, MonadExceptOf.throw]
  split_ifs <;> simp

theorem check_dims1_error (I : Integrator) (oracle : FunctionInfo) (e : Err)
    (h : check_dims1 I oracle = .error e) : e ≠ Err.singularForward := by
  rintro rfl
  revert h
  unfold check_dims1
  simp only [bind, Except.bind, pure, Except.pure, throw, throwThe, MonadExceptOf.throw]
  split_ifs <;> simp

theorem ite_error {α : Type} {c : Prop} {d : Decidable c} {e1 e : Err} {rest : Except Err α}
    (h : @ite _ c d (Except.error e1) rest = .error e) : e = e1 ∨ rest = .error e := by
  by_cases hc : c
  · rw [if_pos hc] at h
    exact Or.inl (Except.error.inj h).symm
  · rw [if_neg hc] at h
    exact Or.inr h

theorem check_rdae_error (I : Integrator) (rdae : FunctionInfo) (e : Err)
    (h : check_rdae I rdae = .error e) : e = Err.shape ∨ e = Err.dimension := by
  unfold check_rdae at h
  simp only [bind, Except.bind, throw, throwThe, MonadExceptOf.throw, pure, Except.pure] at h
  rcases ite_error h with h1 | h
  · exact Or.inl h1
  rcases ite_error h with h1 | h
  · exact Or.inl h1
  rcases ite_error h with h1 | h
  · exact Or.inr h1
  rcases ite_error h with h1 | h
  · exact Or.inr h1
  rcases ite_error h with h1 | h
  · exact Or.inr h1
  rcases ite_error h with h1 | h
  · exact Or.inr h1
  rcases ite_error h with h1 | h
  · exact Or.inr h1
  rcases ite_error h with h1 | h
  · exact Or.inr h1
  rcases ite_error h with h1 | h
  · exact Or.inr h1
  rcases ite_error h with h1 | h
  · exact Or.inr h1
  rcases ite_error h with h1 | h
  · exact Or.inr h1
  cases h

theorem backward_problem_error (I : Integrator) (env : InitEnv) (e : Err)
    (h : I.backward_problem env = .error e) : e ≠ Err.singularForward := by
  unfold Integrator.backward_problem at h
  by_cases hc : I.nadj > 0
  · rw [if_pos hc] at h
    cases hr : check_rdae I (env.reverse I.nadj) with
    | error e1 =>
      simp only [bind, Except.bind, hr] at h
      cases h
      rcases check_rdae_error _ _ _ hr with rfl | rfl <;> exact fun h => by cases h
    | ok u =>
      simp only [bind, Except.bind, hr, pure, Except.pure] at h
      cases h
  · rw [if_neg hc] at h
    cases h

/-- The forward rank-deficiency error of `init` arises only when the forward
pattern is reported singular and all other checks of `init` pass. -/
theorem init_singular_forward_inv (self : Integrator) (opts : Dict) (env : InitEnv)
    (h : self.init opts env = .error Err.singularForward) :
    env.sp_jac_dae_singular = true ∧
    ∃ J, self.init opts
      { env with sp_jac_dae_singular := false, sp_jac_rdae_singular := false } = .ok J := by
  unfold Integrator.init at h ⊢
  have hb : ∀ J : Integrator, J.backward_problem
      { env with sp_jac_dae_singular := false, sp_jac_rdae_singular := false } =
      J.backward_problem env := fun _ => rfl
  simp only [bind, Except.bind, pure, Except.pure, hb] at h ⊢
  cases h1 : check_oracle (apply_legacy (read_options self opts).1 (read_options self opts).2)
      env.oracle with
  | error e =>
    rw [h1] at h
    exact absurd (Except.error.inj h) (check_oracle_error _ _ e h1)
  | ok u1 =>
    rw [h1] at h
    dsimp only at h ⊢
    cases h2 : check_dims1 ((apply_legacy (read_options self opts).1
        (read_options self opts).2).set_dims1 env.oracle) env.oracle with
    | error e =>
      rw [h2] at h
      exact absurd (Except.error.inj h) (check_dims1_error _ _ e h2)
    | ok u2 =>
      rw [h2] at h
      dsimp only at h ⊢
      cases h3 : ((apply_legacy (read_options self opts).1
          (read_options self opts).2).set_dims1 env.oracle).backward_problem env with
      | error e =>
        rw [h3] at h
        exact absurd (Except.error.inj h) (backward_problem_error _ _ e h3)
      | ok J =>
        rw [h3] at h
        dsimp only at h ⊢
        refine ⟨?_, J.set_dims.set_ntmp, ?_⟩
        · revert h
          unfold check_singular
          simp only [bind, Except.bind, pure, Except.pure, throw, throwThe, MonadExceptOf.throw]
          split_ifs <;> simp_all
        · unfold check_singular
          simp only [bind, Except.bind, pure, Except.pure, throw, throwThe, MonadExceptOf.throw]
          split_ifs <;> simp_all

/-- Claim C30. For an object `I` with `nz1 = 0` (a pure ODE) and any number
of forward directions, with Jacobian patterns of "daeF" and of its forward
derivative of the sizes of the problem, the pattern built by `sp_jac_dae` is
square and contains every diagonal entry, so that it is structurally
non-singular. Hence `init` never raises the forward rank-deficiency error
when its rank check is made on this pattern. -/
theorem pure_ode_nonsingular (I : Integrator) (F fwd_F : JacSparsity) (hnz : I.nz1 = 0)
    (hF : F.sized I.nx1.toNat I.nz1.toNat) (hF1 : fwd_F.sized I.nx1.toNat I.nz1.toNat) :
    (sp_jac_dae I F fwd_F).size1 = (sp_jac_dae I F fwd_F).size2 ∧
    (∀ r, r < (sp_jac_dae I F fwd_F).size1 → (sp_jac_dae I F fwd_F).get r r = true) ∧
    (sp_jac_dae I F fwd_F).is_singular = false ∧
    ∀ (self : Integrator) (opts : Dict) (env : InitEnv),
      env.sp_jac_dae_singular = (sp_jac_dae I F fwd_F).is_singular →
      self.init opts env ≠ .error Err.singularForward := by
  have hzz : ∀ r, r < I.nz1.toNat → F.alg_z.get r r = true := by
    intro r hr
    rw [hnz] at hr
    exact absurd hr (Nat.not_lt_zero r)
  have hd := sp_jac_dae_has_diag I F fwd_F hF hF1 hzz
  have hns := nonsingular_of_has_diag _ _ hd
  obtain ⟨h1, h2, h3⟩ := hd
  refine ⟨h1.trans h2.symm, fun r hr => h3 r (by rw [← h1]; exact hr), hns, ?_⟩
  intro self opts env henv herr
  have hflag := (init_singular_forward_inv self opts env herr).1
  rw [henv, hns] at hflag
  cases hflag

/-- Witness of claim C30: for the pure ODE `manyEventsOracle` with two
forward directions and a right-hand side that does not depend on the state,
the pattern built by `sp_jac_dae` for the configured object is non-singular
and `init` succeeds with the rank check made on it. -/
theorem pure_ode_nonsingular_witness :
    (sp_jac_dae manyEventsIntegrator odeJac odeJac).is_singular = false ∧
    (Integrator.new 0 [1]).init [("nfwd", { to_int := 2 })] odeEnv ≠
      .error Err.singularForward ∧
    (Integrator.new 0 [1]).init [("nfwd", { to_int := 2 })] odeEnv = .ok manyEventsIntegrator := by
  have hF : odeJac.sized manyEventsIntegrator.nx1.toNat manyEventsIntegrator.nz1.toNat := by
    unfold JacSparsity.sized
    decide
  obtain ⟨-, -, h3, h4⟩ := pure_ode_nonsingular manyEventsIntegrator odeJac odeJac
    (by decide) hF hF
  have henv : odeEnv = { manyEventsEnv with sp_jac_dae_singular := false } := by
    unfold odeEnv
    rw [h3]
  refine ⟨h3, h4 (Integrator.new 0 [1]) [("nfwd", { to_int := 2 })] odeEnv rfl, ?_⟩
  rw [henv]
  decide!

/-! ## Column ordering of `get_forward` -/

/-- A loop of `push_back(src.at(idx))` whose indices are all in range appends
the addressed elements in the order of the loop. -/
theorem foldlM_push_back {α : Type} [Inhabited α] (src : Nat → List α) (idx : Nat → Nat) :
    ∀ (n : Nat) (v0 : List α), (∀ d, d < n → idx d < (src d).length) →
      (List.range n).foldlM (fun v d => push_back_at (src d) (idx d) v) v0 =
        some (v0 ++ (List.range n).map fun d => (src d).getD (idx d) default) := by
  intro n
  induction n with
  | zero =>
    intro v0 _
    simp [List.foldlM]
  | succ n ih =>
    intro v0 h
    rw [List.range_succ, List.foldlM_append, ih v0 (fun d hd => h d (by omega))]
    have hn := h n (Nat.lt_succ_self n)
    simp only [Option.some_bind, Option.bind_eq_bind, List.foldlM_cons, List.foldlM_nil,
      push_back_at, List.get?_eq_getElem?, List.getElem?_eq_getElem hn, Option.map_some',
      Option.bind_some, List.map_append, List.map_cons, List.map_nil, List.append_assoc,
      List.getD_eq_getElem?_getD, Option.getD_some, pure]

/-- A loop whose pass `k` appends the block `blk k` appends the blocks in the
order of the loop. -/
theorem foldlM_blocks {α : Type} (body : List α → Nat → Option (List α)) (blk : Nat → List α) :
    ∀ (n : Nat) (v0 : List α), (∀ k v, k < n → body v k = some (v ++ blk k)) →
      (List.range n).foldlM body v0 = some (v0 ++ (List.range n).flatMap blk) := by
  intro n
  induction n with
  | zero =>
    intro v0 _
    simp [List.foldlM]
  | succ n ih =>
    intro v0 h
    rw [List.range_succ, List.foldlM_append, ih v0 (fun k v hk => h k v (by omega))]
    simp only [Option.some_bind, Option.bind_eq_bind, List.foldlM_cons, List.foldlM_nil,
      h n _ (Nat.lt_succ_self n), List.flatMap_append, List.flatMap_cons, List.flatMap_nil,
      List.append_nil, List.append_assoc, Option.bind_some, pure]

/-- Entries of a concatenation of `n` blocks of the same length `m`. -/
theorem getD_flatMap_blocks {α : Type} [Inhabited α] (blk : Nat → List α) (m : Nat)
    (hm : ∀ k, (blk k).length = m) :
    ∀ n : Nat, ((List.range n).flatMap blk).length = m * n ∧
      ∀ k j, k < n → j < m →
        ((List.range n).flatMap blk).getD (m * k + j) default = (blk k).getD j default := by
  intro n
  induction n with
  | zero => exact ⟨rfl, fun k j hk _ => absurd hk (Nat.not_lt_zero k)⟩
  | succ n ih =>
    obtain ⟨hlen, hval⟩ := ih
    rw [List.range_succ, List.flatMap_append]
    simp only [List.flatMap_cons, List.flatMap_nil, List.append_nil]
    refine ⟨by rw [List.length_append, hlen, hm, Nat.mul_succ], fun k j hk hj => ?_⟩
    by_cases hkn : k = n
    · subst hkn
      rw [List.getD_append_right _ _ _ _ (by rw [hlen]; omega), hlen, Nat.add_sub_cancel_left]
    · have hlt : k < n := by omega
      have h1 : m * (k + 1) ≤ m * n := Nat.mul_le_mul_left _ hlt
      rw [Nat.mul_succ] at h1
      rw [List.getD_append _ _ _ _ (by rw [hlen]; omega)]
      exact hval k j hlt hj

/-- The loop "Reorder columns" in closed form. -/
theorem reorder_columns_eq {α : Type} [Inhabited α] (nt nfwd : Nat) (ret_in_split : List α)
    (aug_in_split : List (List α)) (hret : ret_in_split.length = nt)
    (haug : ∀ d, d < nfwd → (aug_in_split.getD d []).length = nt) :
    reorder_columns nt nfwd ret_in_split aug_in_split =
      some ((List.range nt).flatMap fun k =>
        ret_in_split.getD k default ::
          (List.range nfwd).map fun d => (aug_in_split.getD d []).getD k default) := by
  unfold reorder_columns
  rw [foldlM_blocks _ (fun k => ret_in_split.getD k default ::
    (List.range nfwd).map fun d => (aug_in_split.getD d []).getD k default) nt []]
  · rfl
  · intro k v hk
    have hk1 : k < ret_in_split.length := by rw [hret]; exact hk
    simp only [push_back_at, List.get?_eq_getElem?, List.getElem?_eq_getElem hk1,
      Option.map_some', Option.bind_eq_bind, Option.some_bind]
    have h := foldlM_push_back (fun d => aug_in_split.getD d []) (fun _ => k) nfwd
      (v ++ [ret_in_split[k]]) (fun d hd => by rw [haug d hd]; exact hk)
    simp only [push_back_at, List.get?_eq_getElem?] at h
    rw [h, List.append_assoc]
    simp only [List.singleton_append, List.getD_eq_getElem?_getD, List.getElem?_eq_getElem hk1,
      Option.getD_some]

/-- The loop "Collect sensitivity blocks in the right order" in closed
form. -/
theorem get_forward_collect_eq {α : Type} [Inhabited α] (n_grid nfwd : Nat) (split : List α)
    (hsplit : split.length = n_grid * (nfwd + 1)) :
    get_forward_collect n_grid nfwd split =
      some ((List.range nfwd).flatMap fun d =>
        (List.range n_grid).map fun k => split.getD ((nfwd + 1) * k + d + 1) default) := by
  unfold get_forward_collect
  by_cases hn : nfwd = 0
  · subst hn
    rfl
  rw [foldlM_blocks _ (fun d =>
    (List.range n_grid).map fun k => split.getD ((nfwd + 1) * k + d + 1) default) nfwd []]
  · rfl
  · intro d v hd
    have h := foldlM_push_back (fun _ => split) (fun k => (nfwd + 1) * k + d + 1) n_grid v
      (fun k hk => by
        show (nfwd + 1) * k + d + 1 < split.length
        rw [hsplit]
        have h1 : (nfwd + 1) * (k + 1) ≤ (nfwd + 1) * n_grid := Nat.mul_le_mul_left _ hk
        rw [Nat.mul_succ] at h1
        rw [Nat.mul_comm n_grid]
        omega)
    exact h

/-- The vector `offset` has one entry more than there are blocks. -/
theorem get_forward_offset_length (nfwd : Nat) (size2_out : Int) (g : Nat) :
    ∀ n : Nat, ((List.range n).foldl
      (fun offset _ =>
        (List.range (nfwd + 1)).foldl
          (fun offset _ => offset ++ [offset.getLastD 0 + size2_out / (g : Int)]) offset)
      [0]).length = n * (nfwd + 1) + 1 := by
  have inner : ∀ (m : Nat) (off : List Int), ((List.range m).foldl
      (fun offset _ => offset ++ [offset.getLastD 0 + size2_out / (g : Int)]) off).length =
      off.length + m := by
    intro m
    induction m with
    | zero => intro off; rfl
    | succ m ih =>
      intro off
      rw [List.range_succ, List.foldl_append]
      simp only [List.foldl_cons, List.foldl_nil, List.length_append, List.length_singleton]
      rw [ih off]
      rfl
  intro n
  induction n with
  | zero => simp
  | succ n ih =>
    rw [List.range_succ n, List.foldl_append]
    simp only [List.foldl_cons, List.foldl_nil]
    rw [inner, ih]
    ring

theorem getD_map_range {β : Type} (f : Nat → β) (n d : Nat) (dflt : β) (h : d < n) :
    ((List.range n).map f).getD d dflt = f d := by
  rw [List.getD_eq_getElem?_getD, List.getElem?_map, List.getElem?_range h]
  rfl

/-- The index map `(d, k) ↦ (nfwd + 1) * k + d + 1` of the loop "Collect
sensitivity blocks in the right order". -/
theorem collect_index_map (nfwd : Nat) :
    (∀ n d k, d < nfwd → k < n →
      (nfwd + 1) * k + d + 1 < n * (nfwd + 1) ∧ ((nfwd + 1) * k + d + 1) % (nfwd + 1) ≠ 0) ∧
    (∀ d k d' k', d < nfwd → d' < nfwd → (nfwd + 1) * k + d + 1 = (nfwd + 1) * k' + d' + 1 →
      d = d' ∧ k = k') ∧
    (∀ n j, j < n * (nfwd + 1) → j % (nfwd + 1) ≠ 0 →
      ∃ d k, d < nfwd ∧ k < n ∧ j = (nfwd + 1) * k + d + 1) := by
  have hmod : ∀ d k, d < nfwd → ((nfwd + 1) * k + d + 1) % (nfwd + 1) = d + 1 := by
    intro d k hd
    rw [Nat.add_assoc, Nat.mul_add_mod, Nat.mod_eq_of_lt (by omega)]
  have hdiv : ∀ d k, d < nfwd → ((nfwd + 1) * k + d + 1) / (nfwd + 1) = k := by
    intro d k hd
    rw [Nat.add_assoc, Nat.mul_add_div (by omega), Nat.div_eq_of_lt (by omega), Nat.add_zero]
  refine ⟨fun n d k hd hk => ⟨?_, ?_⟩, fun d k d' k' hd hd' h => ⟨?_, ?_⟩, fun n j hj hm => ?_⟩
  · have h1 : (nfwd + 1) * (k + 1) ≤ (nfwd + 1) * n := Nat.mul_le_mul_left _ hk
    rw [Nat.mul_succ] at h1
    rw [Nat.mul_comm n]
    omega
  · rw [hmod d k hd]
    omega
  · have := congrArg (fun x => x % (nfwd + 1)) h
    simp only [hmod d k hd, hmod d' k' hd'] at this
    omega
  · have := congrArg (fun x => x / (nfwd + 1)) h
    simp only [hdiv d k hd, hdiv d' k' hd'] at this
    exact this
  · refine ⟨j % (nfwd + 1) - 1, j / (nfwd + 1), ?_, ?_, ?_⟩
    · have := Nat.mod_lt j (by omega : 0 < nfwd + 1)
      omega
    · exact Nat.div_lt_of_lt_mul (by rw [Nat.mul_comm]; exact hj)
    · have := Nat.div_add_mod j (nfwd + 1)
      omega

/-- Claim C27. In `get_forward` with `nfwd` requested directions: for a
grid-resolved input with more than one grid point, when `horzsplit_n` splits
into `nt` blocks, the vector of blocks handed to the augmented integrator has
`(nfwd + 1) * nt` entries, the entry `(nfwd + 1) * k` being the block `k` of
the nondifferentiated input and the entry `(nfwd + 1) * k + d + 1` the block
`k` of the seed of direction `d`; in the other branch the vector is the
nondifferentiated input followed by the `nfwd` seeds, the same order for a
single grid point. For an output, the vector `offset` has
`n_grid * (nfwd + 1) + 1` entries, and when the split has one block for each
pair of consecutive offsets the collected vector has `n_grid * nfwd` entries,
the entry `n_grid * d + k` (direction-major) being the split block
`(nfwd + 1) * k + d + 1`. The index map is injective, stays below
`n_grid * (nfwd + 1)` and reaches exactly the indices that are not a
multiple of `nfwd + 1`. -/
theorem get_forward_ordering {α : Type} [Inhabited α] (I : Integrator) (nfwd : Nat) :
    (∀ (size1_in : Int) (grid_in : Bool) (horzsplit_n : α → Nat → List α) (ret_in_i : α)
        (aug_in_i : List α),
      (∀ x, (horzsplit_n x I.tout.length).length = I.tout.length) →
      size1_in > 0 → grid_in = true → I.nt > 1 →
      ∃ v, get_forward_columns I nfwd size1_in grid_in horzsplit_n ret_in_i aug_in_i = some v ∧
        v.length = (nfwd + 1) * I.tout.length ∧
        ∀ k, k < I.tout.length →
          v.getD ((nfwd + 1) * k) default =
            (horzsplit_n ret_in_i I.tout.length).getD k default ∧
          ∀ d, d < nfwd →
            v.getD ((nfwd + 1) * k + (d + 1)) default =
              (horzsplit_n (aug_in_i.getD d default) I.tout.length).getD k default) ∧
    (∀ (size1_in : Int) (grid_in : Bool) (horzsplit_n : α → Nat → List α) (ret_in_i : α)
        (aug_in_i : List α),
      ¬ (size1_in > 0 ∧ grid_in = true ∧ I.nt > 1) → aug_in_i.length = nfwd →
      ∃ v, get_forward_columns I nfwd size1_in grid_in horzsplit_n ret_in_i aug_in_i = some v ∧
        v.length = (nfwd + 1) * 1 ∧
        v.getD ((nfwd + 1) * 0) default = ret_in_i ∧
        ∀ d, d < nfwd → v.getD ((nfwd + 1) * 0 + (d + 1)) default = aug_in_i.getD d default) ∧
    (∀ (grid_out : Bool) (size2_out : Int) (split : List α),
      (get_forward_offset (get_forward_n_grid I grid_out) nfwd size2_out).length =
        get_forward_n_grid I grid_out * (nfwd + 1) + 1 ∧
      (split.length + 1 =
          (get_forward_offset (get_forward_n_grid I grid_out) nfwd size2_out).length →
        ∃ w, get_forward_collect (get_forward_n_grid I grid_out) nfwd split = some w ∧
          w.length = get_forward_n_grid I grid_out * nfwd ∧
          ∀ d k, d < nfwd → k < get_forward_n_grid I grid_out →
            w.getD (get_forward_n_grid I grid_out * d + k) default =
              split.getD ((nfwd + 1) * k + d + 1) default)) ∧
    (∀ n d k, d < nfwd → k < n →
      (nfwd + 1) * k + d + 1 < n * (nfwd + 1) ∧ ((nfwd + 1) * k + d + 1) % (nfwd + 1) ≠ 0) ∧
    (∀ d k d' k', d < nfwd → d' < nfwd → (nfwd + 1) * k + d + 1 = (nfwd + 1) * k' + d' + 1 →
      d = d' ∧ k = k') ∧
    (∀ n j, j < n * (nfwd + 1) → j % (nfwd + 1) ≠ 0 →
      ∃ d k, d < nfwd ∧ k < n ∧ j = (nfwd + 1) * k + d + 1) := by
  refine ⟨?_, ?_, ?_, collect_index_map nfwd⟩
  · intro size1_in grid_in horzsplit_n ret_in_i aug_in_i hsplit h1 h2 h3
    have haug : ∀ d, d < nfwd →
        (((List.range nfwd).map fun d =>
          horzsplit_n (aug_in_i.getD d default) I.tout.length).getD d []) =
          horzsplit_n (aug_in_i.getD d default) I.tout.length :=
      fun d hd => getD_map_range _ nfwd d [] hd
    unfold get_forward_columns
    rw [if_pos ⟨h1, h2, h3⟩]
    dsimp only
    rw [reorder_columns_eq I.tout.length nfwd _ _ (hsplit _)
      (fun d hd => by rw [haug d hd]; exact hsplit _)]
    obtain ⟨hlen, hval⟩ := getD_flatMap_blocks
      (fun k => (horzsplit_n ret_in_i I.tout.length).getD k default ::
        (List.range nfwd).map fun d =>
          (((List.range nfwd).map fun d =>
            horzsplit_n (aug_in_i.getD d default) I.tout.length).getD d []).getD k default)
      (nfwd + 1) (fun k => by simp) I.tout.length
    refine ⟨_, rfl, hlen, fun k hk => ⟨?_, fun d hd => ?_⟩⟩
    · have := hval k 0 hk (Nat.succ_pos _)
      rw [Nat.add_zero] at this
      rw [this]
      rfl
    · rw [hval k (d + 1) hk (by omega), List.getD_cons_succ, getD_map_range _ nfwd d _ hd,
        haug d hd]
  · intro size1_in grid_in horzsplit_n ret_in_i aug_in_i hc haug
    unfold get_forward_columns
    rw [if_neg hc]
    refine ⟨_, rfl, by rw [List.length_cons, haug, Nat.mul_one], rfl, fun d _ => ?_⟩
    rw [Nat.mul_zero, Nat.zero_add, List.getD_cons_succ]
  · intro grid_out size2_out split
    have hoff := get_forward_offset_length nfwd size2_out (get_forward_n_grid I grid_out)
      (get_forward_n_grid I grid_out)
    refine ⟨hoff, fun hs => ?_⟩
    have hs' : split.length = get_forward_n_grid I grid_out * (nfwd + 1) := by
      have h2 : (get_forward_offset (get_forward_n_grid I grid_out) nfwd size2_out).length =
          get_forward_n_grid I grid_out * (nfwd + 1) + 1 := hoff
      omega
    rw [get_forward_collect_eq _ nfwd split hs']
    obtain ⟨hlen, hval⟩ := getD_flatMap_blocks
      (fun d => (List.range (get_forward_n_grid I grid_out)).map fun k =>
        split.getD ((nfwd + 1) * k + d + 1) default)
      (get_forward_n_grid I grid_out) (fun d => by simp) nfwd
    refine ⟨_, rfl, hlen, fun d k hd hk => ?_⟩
    rw [hval d k hd hk, getD_map_range _ _ k _ hk]

/-- Witness of claim C27 on `controlIntegrator` (three grid points) with two
directions, the blocks being numbers: the split of the nondifferentiated
input `0` is `[0, 1, 2]`, the splits of the seeds `10` and `20` are
`[10, 11, 12]` and `[20, 21, 22]`. -/
theorem get_forward_ordering_witness :
    get_forward_columns controlIntegrator 2 1 true
        (fun x n => (List.range n).map fun k => x + k) 0 [10, 20] =
      some [0, 10, 20, 1, 11, 21, 2, 12, 22] ∧
    get_forward_collect 3 2 [0, 10, 20, 1, 11, 21, 2, 12, 22] = some [10, 11, 12, 20, 21, 22] ∧
    ∃ v, get_forward_columns controlIntegrator 2 1 true
        (fun x n => (List.range n).map fun k => x + k) 0 [10, 20] = some v ∧
      v.length = (2 + 1) * 3 := by
  obtain ⟨v, h1, h2, -⟩ := (@get_forward_ordering Nat _ controlIntegrator 2).1 1 true
    (fun x n => (List.range n).map fun k => x + k) 0 [10, 20]
    (fun x => by simp) (by decide) rfl (by decide)
  exact ⟨by decide, by decide, v, h1, h2⟩

/-! ## Address of the sensitivity block of the adjoint quadrature seed -/

/-- Claim C28 fails on the code. In the pass `i` of their sensitivity loops,
`bquad_sp_forward` and `bquad_sp_reverse` hand the derivative of "quadB" the
seed block at `adj_quad + (i + 1) * nrp1 * nadj`, and `stepB` uses the offset
`nrp1 * nadj` for the first block, but `bdae_sp_forward` and
`bdae_sp_reverse` hand the derivative of "daeB" the address
`adj_quad + (i + 1) * nrz1 * nadj`. For the object configured by `init` from
`sampleOpts` (`nrz1 = 1`, `nrp1 = 2`, `nadj = 3`) and `adj_quad` at the
address 1000, the pass 0 of the helpers for the backward DAE addresses
1003, inside the nondifferentiated block `[1000, 1006)`, where the helpers
for the backward quadratures address 1006. -/
theorem adj_quad_offset_mismatch :
    (∀ (I : Integrator) (i x z p u adj_ode adj_alg adj_quad adj_x adj_z adj_p adj_u : Int)
        (arg : Int → Int),
      bdae_sp_forward_fwd_arg I i x z p u adj_ode adj_quad adj_x adj_z
          (bdae_sp_forward_arg x z p u adj_ode adj_quad arg)
          (BDYN_NUM_IN + BDAE_NUM_OUT + BDYN_ADJ_QUAD) =
        adj_quad + (i + 1) * I.nrz1 * I.nadj ∧
      bdae_sp_reverse_fwd_arg I i x z p u adj_ode adj_quad adj_x adj_z
          (bdae_sp_reverse_arg x z p u adj_ode adj_quad arg)
          (BDYN_NUM_IN + BDAE_NUM_OUT + BDYN_ADJ_QUAD) =
        adj_quad + (i + 1) * I.nrz1 * I.nadj ∧
      bquad_sp_forward_fwd_arg I i x z p u adj_ode adj_alg adj_quad adj_p adj_u
          (bquad_sp_forward_arg x z p u adj_ode adj_alg adj_quad arg)
          (BDYN_NUM_IN + BQUAD_NUM_OUT + BDYN_ADJ_QUAD) =
        adj_quad + (i + 1) * I.nrp1 * I.nadj ∧
      bquad_sp_reverse_fwd_arg I i x z p u adj_ode adj_alg adj_quad adj_p adj_u
          (bquad_sp_reverse_arg x z p u adj_ode adj_alg adj_quad arg)
          (BDYN_NUM_IN + BQUAD_NUM_OUT + BDYN_ADJ_QUAD) =
        adj_quad + (i + 1) * I.nrp1 * I.nadj) ∧
    (∀ (I : Integrator) (nv1 nrv1 t h x0 xf vf adj_xf rv0 adj_x0 adj_p adj_u mp mu madj_q : Int)
        (arg : Int → Int),
      stepB_fwd_arg I nv1 nrv1 x0 xf vf adj_xf rv0 adj_x0 adj_p adj_u mp mu madj_q
          (stepB_arg t h x0 xf vf adj_xf rv0 mp mu madj_q arg)
          (BSTEP_NUM_IN + BSTEP_NUM_OUT + BSTEP_ADJ_QF) =
        madj_q + I.nrp1 * I.nadj) ∧
    (Integrator.new 0 [1, 2]).init sampleOpts sampleEnv = .ok sampleIntegrator ∧
    sampleIntegrator.nrp = sampleIntegrator.nrp1 * sampleIntegrator.nadj *
      (1 + sampleIntegrator.nfwd) ∧
    bdae_sp_forward_fwd_arg sampleIntegrator 0 100 200 300 400 500 1000 600 700
        (bdae_sp_forward_arg 100 200 300 400 500 1000 (fun _ => nullptr))
        (BDYN_NUM_IN + BDAE_NUM_OUT + BDYN_ADJ_QUAD) = 1003 ∧
    bdae_sp_reverse_fwd_arg sampleIntegrator 0 100 200 300 400 500 1000 600 700
        (bdae_sp_reverse_arg 100 200 300 400 500 1000 (fun _ => nullptr))
        (BDYN_NUM_IN + BDAE_NUM_OUT + BDYN_ADJ_QUAD) = 1003 ∧
    bquad_sp_forward_fwd_arg sampleIntegrator 0 100 200 300 400 500 800 1000 600 700
        (bquad_sp_forward_arg 100 200 300 400 500 800 1000 (fun _ => nullptr))
        (BDYN_NUM_IN + BQUAD_NUM_OUT + BDYN_ADJ_QUAD) = 1006 ∧
    bquad_sp_reverse_fwd_arg sampleIntegrator 0 100 200 300 400 500 800 1000 600 700
        (bquad_sp_reverse_arg 100 200 300 400 500 800 1000 (fun _ => nullptr))
        (BDYN_NUM_IN + BQUAD_NUM_OUT + BDYN_ADJ_QUAD) = 1006 ∧
    (0 + 1) * sampleIntegrator.nrz1 * sampleIntegrator.nadj ≠
      (0 + 1) * sampleIntegrator.nrp1 * sampleIntegrator.nadj := by
  refine ⟨fun I i x z p u adj_ode adj_alg adj_quad adj_x adj_z adj_p adj_u arg =>
    ⟨?_, ?_, ?_, ?_⟩,
    fun I nv1 nrv1 t h x0 xf vf adj_xf rv0 adj_x0 adj_p adj_u mp mu madj_q arg => ?_,
    by decide!, by decide, by decide, by decide, by decide, by decide, by decide⟩
  · simp [bdae_sp_forward_fwd_arg, set_arg, BDYN_NUM_IN, BDAE_NUM_OUT, BDYN_ADJ_QUAD,
      BDYN_ADJ_ZERO]
  · simp [bdae_sp_reverse_fwd_arg, set_arg, BDYN_NUM_IN, BDAE_NUM_OUT, BDYN_ADJ_QUAD,
      BDYN_ADJ_ZERO]
  · simp [bquad_sp_forward_fwd_arg, set_arg, BDYN_NUM_IN, BQUAD_NUM_OUT, BDYN_ADJ_QUAD,
      BDYN_ADJ_ZERO]
  · simp [bquad_sp_reverse_fwd_arg, set_arg, BDYN_NUM_IN, BQUAD_NUM_OUT, BDYN_ADJ_QUAD,
      BDYN_ADJ_ZERO]
  · simp [stepB_fwd_arg, set_arg]

/-! ## Structural propagation: right-hand side of the forward solve -/

theorem getD_writeBlock_nat (buf : List Nat) (off : Nat) (vals : List Nat) (j : Nat) :
    (writeBlock buf off vals).getD j 0 =
      if j < buf.length ∧ off ≤ j ∧ j < off + vals.length then vals.getD (j - off) 0
      else buf.getD j 0 := by
  by_cases hj : j < buf.length
  · have h := getD_writeBlock buf off vals j hj
    by_cases hc : off ≤ j ∧ j < off + vals.length
    · rw [if_pos hc] at h
      rw [if_pos ⟨hj, hc⟩]
      exact h
    · rw [if_neg hc] at h
      rw [if_neg (fun h' => hc h'.2)]
      exact h
  · rw [if_neg (fun h' => hj h'.1)]
    have h := getD_writeBlock_of_ge buf off vals j (not_lt.1 hj)
    have h2 : buf.getD j 0 = 0 := by
      rw [List.getD_eq_getElem?_getD, List.getElem?_eq_none (not_lt.1 hj)]
      rfl
    rw [h2]
    exact h

theorem getD_readBlock_nat (buf : List Nat) (off n i : Nat) (hi : i < n) :
    (readBlock buf off n).getD i 0 = buf.getD (off + i) 0 :=
  getD_readBlock buf off n i hi

/-- The words handed to the structural solve of the forward pass: the first
`nx + nx` of them are copied from `tmp1`, the others are the words that the
scratch space held before. -/
theorem sp_forward_rhs_words (I : Integrator) (w : List Nat)
    (h2 : sp_w I + (I.nx.toNat + I.nz.toNat) ≤ w.length) (j : Nat)
    (hj : j < I.nx.toNat + I.nz.toNat) :
    (readBlock (fill_n (copy_n w (sp_tmp1 I) (I.nx.toNat + I.nx.toNat) (sp_w I)) (sp_tmp1 I)
        (I.nx.toNat + I.nz.toNat)) (sp_w I) (I.nx.toNat + I.nz.toNat)).getD j 0 =
      if j < I.nx.toNat + I.nx.toNat then w.getD (sp_tmp1 I + j) 0
      else w.getD (sp_w I + j) 0 := by
  have hw : sp_w I = sp_tmp1 I + (I.nx.toNat + I.nz.toNat) + I.nrx.toNat := rfl
  rw [getD_readBlock_nat _ _ _ _ hj]
  unfold fill_n copy_n
  rw [getD_writeBlock_nat, getD_writeBlock_nat, writeBlock_length, List.length_replicate,
    readBlock_length, if_neg (by omega)]
  by_cases hc : j < I.nx.toNat + I.nx.toNat
  · rw [if_pos ⟨by omega, by omega, by omega⟩, if_pos hc, Nat.add_sub_cancel_left]
    exact getD_readBlock_nat _ _ _ _ hc
  · rw [if_neg (by omega), if_neg hc]

theorem sp_forward_solve_rhs (S : SpCollaborators) (I : Integrator) (a : SpArgs)
    (s s1 : SpState) (k : Nat) (h : sp_forward_solve S I a s k = some s1) :
    s1.rhs = s.rhs ++ [readBlock (fill_n (copy_n s.w (sp_tmp1 I) (I.nx.toNat + I.nx.toNat)
      (sp_w I)) (sp_tmp1 I) (I.nx.toNat + I.nz.toNat)) (sp_w I) (I.nx.toNat + I.nz.toNat)] := by
  unfold sp_forward_solve at h
  simp only [bind, Option.bind, pure] at h
  split at h
  · cases h
  · rename_i s2 hs2
    split at hs2
    · split at hs2
      · cases hs2
      · cases hs2
        cases h
        rfl
    · cases hs2
      cases h
      rfl

/-- Claim C25 fails on the code. The statement before the structural solve
of the forward pass copies `nx + nx` words of `tmp1` to the right-hand side
`w`, not `nx + nz`: of the `nx + nz` words handed to the solve, those with an
index from `nx + nx` on are the words that the scratch space held before,
not the dependency words of `alg` just computed. For one state and two
algebraic variables, where the dependency vector just computed is
`[1, 1, 2]`, the right-hand side handed to the solve is `[1, 1, 0]`, and the
dependency of the second algebraic variable on the parameter is missing in
the output `zf = [1, 0]`. -/
theorem sp_forward_rhs_truncated :
    (∀ (S : SpCollaborators) (I : Integrator) (a : SpArgs) (s s1 : SpState) (k : Nat),
      sp_forward_solve S I a s k = some s1 →
      sp_w I + (I.nx.toNat + I.nz.toNat) ≤ s.w.length →
      ∃ b, s1.rhs = s.rhs ++ [b] ∧ b.length = I.nx.toNat + I.nz.toNat ∧
        ∀ j, j < I.nx.toNat + I.nz.toNat →
          b.getD j 0 = if j < I.nx.toNat + I.nx.toNat then s.w.getD (sp_tmp1 I + j) 0
            else s.w.getD (sp_w I + j) 0) ∧
    (sp_forward_dae spCollaborators spDaeIntegrator spDaeArgs
        { spDaeState with w := [1, 0, 0, 0, 0, 0, 0, 0] } 0).map
      (fun s => readBlock s.w (sp_tmp1 spDaeIntegrator) 3) = some [1, 1, 2] ∧
    (sp_forward spCollaborators spDaeIntegrator spDaeArgs spDaeState).map (fun s => s.rhs) =
      some [[1, 1, 0]] ∧
    (sp_forward spCollaborators spDaeIntegrator spDaeArgs spDaeState).map (fun s => s.zf) =
      some (some [1, 0]) := by
  refine ⟨fun S I a s s1 k h hlen => ?_, by decide, by decide, by decide⟩
  exact ⟨_, sp_forward_solve_rhs S I a s s1 k h, readBlock_length _ _ _,
    fun j hj => sp_forward_rhs_words I s.w hlen j hj⟩

/-! ## Structural propagation: carry of the backward pass -/

/-- Claim C26 fails on the code. The statement "Update tmp2" of the backward
pass copies `nx` words of `adj_x` to `tmp2`, not `nrx`: without quadrature
outputs, the words of `tmp2` with an index from `nx` on keep the value they
had before. For one state and two adjoint directions (`nx = 1`, `nrx = 2`),
after the pass for the last grid point the result of the structural solve is
`adj_x = [36, 40]` but the vector carried to the preceding grid point is
`tmp2 = [36, 8]`, and the output `adj_x0` is `[36, 8]`: the dependency of the
second adjoint direction on the control at the last grid point (bit 32) is
missing. -/
theorem sp_backward_carry_truncated :
    (∀ (S : SpCollaborators) (I : Integrator) (a : SpArgs) (s s1 : SpState) (k : Nat),
      sp_backward_carry S I a s k = some s1 → s.adj_p0 = none → s.adj_u = none →
      sp_tmp2 I + I.nrx.toNat ≤ s.w.length →
      ∀ j, j < I.nrx.toNat →
        s1.w.getD (sp_tmp2 I + j) 0 =
          if j < I.nx.toNat then s.w.getD (sp_adj_x I + j) 0 else s.w.getD (sp_tmp2 I + j) 0) ∧
    spAdjIntegrator.nrx = spAdjIntegrator.nrx1 * spAdjIntegrator.nadj *
      (1 + spAdjIntegrator.nfwd) ∧
    (sp_backward_step spCollaborators spAdjIntegrator spAdjArgs
        { spAdjState with w := [1, 0, 0, 1, 0, 0, 1, 0, 0, 0] } 1).map
      (fun s => (readBlock s.w (sp_adj_x spAdjIntegrator) 2,
        readBlock s.w (sp_tmp2 spAdjIntegrator) 2)) = some ([36, 40], [36, 8]) ∧
    (sp_forward spCollaborators spAdjIntegrator spAdjArgs spAdjState).map
      (fun s => s.adj_x0) = some (some [36, 8]) := by
  refine ⟨fun S I a s s1 k h hp hu hlen j hj => ?_, by decide, by decide, by decide⟩
  unfold sp_backward_carry at h
  rw [hp, hu] at h
  simp only [bind, Option.bind, pure, Option.isSome_none, Bool.false_eq_true, and_false,
    or_self, if_false] at h
  cases h
  show (copy_n s.w (sp_adj_x I) I.nx.toNat (sp_tmp2 I)).getD (sp_tmp2 I + j) 0 = _
  unfold copy_n
  rw [getD_writeBlock_nat, readBlock_length]
  by_cases hc : j < I.nx.toNat
  · rw [if_pos ⟨by omega, by omega, by omega⟩, if_pos hc, Nat.add_sub_cancel_left]
    exact getD_readBlock_nat _ _ _ _ hc
  · rw [if_neg (by omega), if_neg hc]

/-! ## Fixed-step integrators: one interval without events -/

/-- Without zero-crossing functions `advance` makes one event iteration with
one call of `advance_noevent`. -/
theorem advance_noevent_eq {σ : Type} (C : Collaborators σ) (I : Integrator) (n : Nat)
    (m : IntegratorMemory σ) (hne : I.ne = 0) :
    advance C I (n + 1) m =
      match C.advance_noevent { m with event_iter := 0 + 1, event_index := -1 } with
      | none => .error Err.solver
      | some m1 => .ok { m1 with t := m1.t_next, t_next := m1.t_next_out } := by
  have hne' : ¬ (I.ne > 0 ∧ m.t_next_out ≠ m.t_start) := by
    rw [hne]
    exact fun h => absurd h.1 (by decide)
  unfold advance advance_entry
  rw [if_neg hne']
  simp only [bind, Except.bind, pure, Except.pure]
  unfold advance_loop advance_iter advance_step
  simp only [bind, Except.bind, pure, Except.pure]
  cases h : C.advance_noevent { m with event_iter := 0 + 1, event_index := -1 } with
  | none =>
    have h' : C.advance_noevent
        { m with event_iter := ({ m with event_iter := 0 } : IntegratorMemory σ).event_iter + 1,
                 event_index := -1 } = none := h
    simp only [h', orFail]
  | some m1 =>
    have h' : C.advance_noevent
        { m with event_iter := ({ m with event_iter := 0 } : IntegratorMemory σ).event_iter + 1,
                 event_index := -1 } = some m1 := h
    simp only [h', orFail, hne, true_or, if_true]

/-- With no event selected the block "Trigger all event, if any" does
nothing. -/
theorem trigger_all_none {σ : Type} (C : Collaborators σ) (I : Integrator) (fuel : Nat)
    (m : IntegratorMemory σ) (h : m.event_index = -1) : trigger_all C I fuel m = .ok m := by
  unfold trigger_all
  rw [if_neg (by rw [h]; decide)]
  rfl

/-- Without zero-crossing functions the loop "Keep integrating" makes one
pass when it is entered with `t_next` at the next output time. -/
theorem integrate_loop_noevent {σ : Type} (C : Collaborators σ) (hC : C.Frame) (I : Integrator)
    (n n' : Nat) (b : Bool) (m : IntegratorMemory σ) (hne : I.ne = 0)
    (hnext : m.t_next = m.t_next_out) :
    integrate_loop C I (n + 1) (n' + 1) (b, m) =
      match C.advance_noevent
        { (if m.reset_solver then { C.reset m b with reset_solver := false } else m) with
          event_iter := 0 + 1, event_index := -1 } with
      | none => .error Err.solver
      | some m1 =>
        .ok (if m.reset_solver then false else b,
          { m1 with t := m1.t_next, t_next := m1.t_next_out }) := by
  have key : ∀ (b0 : Bool) (m0 : IntegratorMemory σ), m0.t_next = m0.t_next_out →
      (match (do
          let m ← advance C I (n + 1) m0
          let m ← trigger_all C I (n + 1) m
          pure (b0, m) : Except Err (Bool × IntegratorMemory σ)) with
        | Except.error e => Except.error e
        | Except.ok s1 =>
          if s1.2.t ≠ s1.2.t_next then integrate_loop C I (n + 1) n' s1 else Except.ok s1) =
      match C.advance_noevent { m0 with event_iter := 0 + 1, event_index := -1 } with
      | none => Except.error Err.solver
      | some m1 => Except.ok (b0, { m1 with t := m1.t_next, t_next := m1.t_next_out }) := by
    intro b0 m0 h0
    rw [advance_noevent_eq C I n m0 hne]
    cases h : C.advance_noevent { m0 with event_iter := 0 + 1, event_index := -1 } with
    | none => rfl
    | some m1 =>
      obtain ⟨-, -, a3, a4, -, -, -, -, a9, -, -, -⟩ := hC.advance_noevent_frame _ _ h
      have hidx : ({ m1 with t := m1.t_next, t_next := m1.t_next_out } :
          IntegratorMemory σ).event_index = -1 := a9
      simp only [bind, Except.bind, pure, Except.pure, trigger_all_none C I (n + 1) _ hidx]
      have ht : m1.t_next = m1.t_next_out := by
        rw [a3, a4]
        exact h0
      rw [if_neg (fun hc => hc ht)]
  unfold integrate_loop integrate_pass
  by_cases hr : m.reset_solver = true
  · simp only [hr, if_true]
    obtain ⟨-, -, r3, r4, -⟩ := hC.reset_frame m b
    exact key false { C.reset m b with reset_solver := false } (by rw [r3, r4]; exact hnext)
  · simp only [hr, if_false]
    exact key b m hnext

/-- The head of the loop body sets `t_next` to the next output time. -/
theorem interval_begin_next {σ : Type} (I : Integrator) (s : ForwardState σ) (k : Nat) :
    (interval_begin I s k).m.t_next = (interval_begin I s k).m.t_next_out ∧
    (interval_begin I s k).m.t_next = I.tout.getD k 0 ∧
    (interval_begin I s k).m.k = (k : Int) ∧ (interval_begin I s k).m.t = s.m.t ∧
    (interval_begin I s k).m.x = s.m.x ∧ (interval_begin I s k).m.solver = s.m.solver ∧
    (interval_begin I s k).m.tmp1 = s.m.tmp1 ∧
    (interval_begin I s k).first_call = s.first_call ∧
    ((k : Int) > s.k_stop → (interval_begin I s k).m.reset_solver = true) ∧
    (¬ (k : Int) > s.k_stop → (interval_begin I s k).m.reset_solver = s.m.reset_solver) := by
  unfold interval_begin
  dsimp only
  by_cases h : (k : Int) > s.k_stop
  · rw [if_pos h]
    exact ⟨rfl, rfl, rfl, rfl, rfl, rfl, rfl, rfl, fun _ => rfl, fun hn => absurd h hn⟩
  · rw [if_neg h]
    exact ⟨rfl, rfl, rfl, rfl, rfl, rfl, rfl, rfl, fun hp => absurd hp h, fun _ => rfl⟩

/-- In a grid interval without zero-crossing functions the loop "Keep
integrating" makes one pass, with one call of `advance_noevent`. -/
theorem eval_interval_noevent {σ : Type} (C : Collaborators σ) (hC : C.Frame) (I : Integrator)
    (fuel : Nat) (s : ForwardState σ) (k : Nat) (hne : I.ne = 0) (hfuel : 0 < fuel) :
    eval_interval C I fuel s k =
      match C.advance_noevent (noevent_entry C I s k) with
      | none => .error Err.solver
      | some m1 =>
        .ok (interval_end I { interval_begin I s k with
          first_call := noevent_first_call I s k
          m := { m1 with t := m1.t_next, t_next := m1.t_next_out } }) := by
  obtain ⟨n, rfl⟩ : ∃ n, fuel = n + 1 := ⟨fuel - 1, by omega⟩
  unfold eval_interval
  simp only [bind, Except.bind, pure, Except.pure]
  rw [integrate_loop_noevent C hC I n n _ _ hne (interval_begin_next I s k).1]
  unfold noevent_entry noevent_first_call
  dsimp only
  cases C.advance_noevent
      { (if (interval_begin I s k).m.reset_solver then
          { C.reset (interval_begin I s k).m (interval_begin I s k).first_call with
            reset_solver := false }
        else (interval_begin I s k).m) with
        event_iter := 0 + 1, event_index := -1 } with
  | none => rfl
  | some m1 => rfl

/-! ## Fixed-step integrators: forward steps -/

/-- What `stepF` leaves as it is: the bookkeeping of the driver, the work
vectors of the previous step, the tapes and the record of tape events. -/
theorem stepF_frame (cf : CalcFunction) (F : FixedStepIntegrator) (D : FixedStepDims)
    (m : IntegratorMemory FixedStepMemory) (t h : ℚ) (x0 v0 : List ℚ) :
    SameBookkeeping m (stepF cf F D m t h x0 v0) ∧
    (stepF cf F D m t h x0 v0).reset_solver = m.reset_solver ∧
    (stepF cf F D m t h x0 v0).tmp1 = m.tmp1 ∧
    (stepF cf F D m t h x0 v0).solver.v_prev = m.solver.v_prev ∧
    (stepF cf F D m t h x0 v0).solver.q_prev = m.solver.q_prev ∧
    (stepF cf F D m t h x0 v0).solver.x_tape = m.solver.x_tape ∧
    (stepF cf F D m t h x0 v0).solver.v_tape = m.solver.v_tape ∧
    (stepF cf F D m t h x0 v0).solver.log = m.solver.log := by
  unfold stepF SameBookkeeping
  dsimp only
  split <;> split <;> (try split) <;>
    exact ⟨⟨rfl, rfl, rfl, rfl, rfl, rfl, rfl, rfl, rfl, rfl, rfl, rfl⟩, rfl, rfl, rfl, rfl, rfl,
      rfl, rfl⟩

/-- One pass of the loop "Take steps" of `advance_noevent` with adjoint
support: the call of `stepF` is followed by the stores of the state into the
block `disc_[k] + j + 1` of `x_tape` and of the discretisation variables
into the block `disc_[k] + j` of `v_tape`. -/
theorem advance_substep_spec (cf : CalcFunction) (F : FixedStepIntegrator) (D : FixedStepDims)
    (h : ℚ) (m : IntegratorMemory FixedStepMemory) (j : Nat) (hnrx : F.base.nrx > 0) :
    SameBookkeeping m (advance_substep cf F D h m j) ∧
    (advance_substep cf F D h m j).reset_solver = m.reset_solver ∧
    (advance_substep cf F D h m j).tmp1.length = m.tmp1.length ∧
    (advance_substep cf F D h m j).solver.v_prev.length = m.solver.v_prev.length ∧
    (advance_substep cf F D h m j).solver.log = m.solver.log ++
      [TapeEvent.stepF (m.t + (j : ℚ) * h) h
        (readBlock (casadi_copy (some m.x) F.base.nx.toNat m.tmp1 0) 0 F.base.nx.toNat)
        (readBlock (casadi_copy (some m.solver.v) D.nv.toNat m.solver.v_prev 0) 0 D.nv.toNat)
        (readBlock (advance_substep cf F D h m j).x 0 F.base.nx.toNat)
        (readBlock (advance_substep cf F D h m j).solver.v 0 D.nv.toNat),
       TapeEvent.writeX (F.disc.getD m.k.toNat 0 + (j : Int) + 1),
       TapeEvent.writeV (F.disc.getD m.k.toNat 0 + (j : Int))] ∧
    (advance_substep cf F D h m j).solver.x_tape =
      casadi_copy (some (advance_substep cf F D h m j).x) F.base.nx.toNat m.solver.x_tape
        (F.base.nx * (F.disc.getD m.k.toNat 0 + (j : Int) + 1)).toNat ∧
    (advance_substep cf F D h m j).solver.v_tape =
      casadi_copy (some (advance_substep cf F D h m j).solver.v) D.nv.toNat m.solver.v_tape
        (D.nv * (F.disc.getD m.k.toNat 0 + (j : Int))).toNat := by
  unfold advance_substep
  dsimp only
  rw [if_pos hnrx]
  dsimp only
  obtain ⟨⟨a1, a2, a3, a4, a5, a6, a7, a8, a9, a10, a11, a12⟩, b1, b2, b3, b4, b5, b6, b7⟩ :=
    stepF_frame cf F D
      { m with
        tmp1 := casadi_copy (some m.x) F.base.nx.toNat m.tmp1 0
        solver := { m.solver with
          v_prev := casadi_copy (some m.solver.v) D.nv.toNat m.solver.v_prev 0
          q_prev := casadi_copy (some m.q) F.base.nq.toNat m.solver.q_prev 0 } }
      (m.t + (j : ℚ) * h) h (casadi_copy (some m.x) F.base.nx.toNat m.tmp1 0)
      (casadi_copy (some m.solver.v) D.nv.toNat m.solver.v_prev 0)
  refine ⟨⟨a1, a2, a3, a4, a5, a6, a7, a8, a9, a10, a11, a12⟩, b1, ?_, ?_, ?_, ?_, ?_⟩
  · rw [b2]
    exact writeBlock_length _ _ _
  · rw [b3]
    exact writeBlock_length _ _ _
  · rw [b7, a1]
    simp only [List.append_assoc, List.cons_append, List.nil_append]
  · rw [b5, a1]
  · rw [b6, a1]

theorem readBlock_copy_same (src buf : List ℚ) (n off : Nat) (hcap : off + n ≤ buf.length) :
    readBlock (casadi_copy (some src) n buf off) off n = readBlock src 0 n := by
  unfold casadi_copy
  dsimp only
  apply List.ext_getElem
  · rw [readBlock_length, readBlock_length]
  · intro i h1 h2
    rw [readBlock_length] at h1
    have e1 := getD_readBlock (writeBlock buf off (readBlock src 0 n)) off n i h1
    have e2 := getD_readBlock src 0 n i h1
    rw [List.getD_eq_getElem _ _ (by rw [readBlock_length]; exact h1)] at e1 e2
    rw [e1, e2]
    have e3 := getD_writeBlock_rat buf off (readBlock src 0 n) (off + i)
    rw [readBlock_length, if_pos ⟨by omega, by omega, by omega⟩, Nat.add_sub_cancel_left] at e3
    have e4 := getD_readBlock src 0 n i h1
    exact e3.trans e4

theorem readBlock_copy_other (src buf : List ℚ) (n off off' len : Nat)
    (hd : off' + len ≤ off ∨ off + n ≤ off') :
    readBlock (casadi_copy (some src) n buf off) off' len = readBlock buf off' len := by
  unfold casadi_copy
  dsimp only
  unfold readBlock
  apply List.map_congr_left
  intro i hi
  have hi' : i < len := List.mem_range.1 hi
  have e3 := getD_writeBlock_rat buf off ((List.range n).map fun i => src.getD (0 + i) default)
    (off' + i)
  rw [List.length_map, List.length_range, if_neg (by omega)] at e3
  exact e3

theorem casadi_copy_length (src : Option (List ℚ)) (buf : List ℚ) (n off : Nat) :
    (casadi_copy src n buf off).length = buf.length := by
  unfold casadi_copy
  cases src <;> exact writeBlock_length _ _ _

theorem toNat_mul_nat (a : Int) (b : Nat) (ha : 0 ≤ a) :
    (a * (b : Int)).toNat = a.toNat * b := by
  obtain ⟨n, rfl⟩ := Int.eq_ofNat_of_zero_le ha
  rw [← Int.natCast_mul, Int.toNat_ofNat, Int.toNat_ofNat]

theorem substep_memory_succ (cf : CalcFunction) (F : FixedStepIntegrator) (D : FixedStepDims)
    (h : ℚ) (m : IntegratorMemory FixedStepMemory) (j : Nat) :
    substep_memory cf F D h m (j + 1) =
      advance_substep cf F D h (substep_memory cf F D h m j) j := by
  unfold substep_memory
  rw [List.range_succ, List.foldl_append]
  rfl

/-- The first `n` passes of the loop "Take steps" of `advance_noevent` with
adjoint support, entered with `disc_[k] = d`: the tape events are those of the
forward steps `d, ..., d + n - 1`, the blocks of the tapes below these steps
are left as they are, and the step `d + j` stores its state in the block
`d + j + 1` of `x_tape` and its discretisation variables in the block `d + j`
of `v_tape`. -/
theorem substep_memory_spec (cf : CalcFunction) (F : FixedStepIntegrator) (D : FixedStepDims)
    (h : ℚ) (m : IntegratorMemory FixedStepMemory) (d : Nat) (hnrx : F.base.nrx > 0)
    (hnx : 0 ≤ F.base.nx) (hnv : 0 ≤ D.nv) (hd : F.disc.getD m.k.toNat 0 = (d : Int)) :
    ∀ n : Nat, F.base.nx.toNat * (d + n + 1) ≤ m.solver.x_tape.length →
      D.nv.toNat * (d + n) ≤ m.solver.v_tape.length →
      SameBookkeeping m (substep_memory cf F D h m n) ∧
      (substep_memory cf F D h m n).reset_solver = m.reset_solver ∧
      (substep_memory cf F D h m n).tmp1.length = m.tmp1.length ∧
      (substep_memory cf F D h m n).solver.v_prev.length = m.solver.v_prev.length ∧
      (substep_memory cf F D h m n).solver.x_tape.length = m.solver.x_tape.length ∧
      (substep_memory cf F D h m n).solver.v_tape.length = m.solver.v_tape.length ∧
      (substep_memory cf F D h m n).solver.log = m.solver.log ++
        (List.range n).flatMap (fun j =>
          [TapeEvent.stepF (m.t + (j : ℚ) * h) h
            (readBlock (casadi_copy (some (substep_memory cf F D h m j).x) F.base.nx.toNat
              (substep_memory cf F D h m j).tmp1 0) 0 F.base.nx.toNat)
            (readBlock (casadi_copy (some (substep_memory cf F D h m j).solver.v) D.nv.toNat
              (substep_memory cf F D h m j).solver.v_prev 0) 0 D.nv.toNat)
            (readBlock (substep_memory cf F D h m (j + 1)).x 0 F.base.nx.toNat)
            (readBlock (substep_memory cf F D h m (j + 1)).solver.v 0 D.nv.toNat),
           TapeEvent.writeX (((d + j : Nat) : Int) + 1),
           TapeEvent.writeV ((d + j : Nat) : Int)]) ∧
      (∀ b, b ≤ d →
        readBlock (substep_memory cf F D h m n).solver.x_tape (F.base.nx.toNat * b)
            F.base.nx.toNat =
          readBlock m.solver.x_tape (F.base.nx.toNat * b) F.base.nx.toNat) ∧
      (∀ b, b < d →
        readBlock (substep_memory cf F D h m n).solver.v_tape (D.nv.toNat * b) D.nv.toNat =
          readBlock m.solver.v_tape (D.nv.toNat * b) D.nv.toNat) ∧
      (∀ j, j < n →
        readBlock (substep_memory cf F D h m n).solver.x_tape (F.base.nx.toNat * (d + j + 1))
            F.base.nx.toNat =
          readBlock (substep_memory cf F D h m (j + 1)).x 0 F.base.nx.toNat ∧
        readBlock (substep_memory cf F D h m n).solver.v_tape (D.nv.toNat * (d + j))
            D.nv.toNat =
          readBlock (substep_memory cf F D h m (j + 1)).solver.v 0 D.nv.toNat) := by
  intro n
  induction n with
  | zero =>
    intro _ _
    exact ⟨⟨rfl, rfl, rfl, rfl, rfl, rfl, rfl, rfl, rfl, rfl, rfl, rfl⟩, rfl, rfl, rfl, rfl, rfl,
      (List.append_nil _).symm, fun _ _ => rfl, fun _ _ => rfl,
      fun j hj => absurd hj (Nat.not_lt_zero j)⟩
  | succ n ih =>
    intro hcx hcv
    have hcx' : F.base.nx.toNat * (d + n + 1) ≤ m.solver.x_tape.length := by
      have : F.base.nx.toNat * (d + n + 1) ≤ F.base.nx.toNat * (d + (n + 1) + 1) :=
        Nat.mul_le_mul_left _ (by omega)
      omega
    have hcv' : D.nv.toNat * (d + n) ≤ m.solver.v_tape.length := by
      have : D.nv.toNat * (d + n) ≤ D.nv.toNat * (d + (n + 1)) :=
        Nat.mul_le_mul_left _ (by omega)
      omega
    obtain ⟨⟨a1, a2, a3, a4, a5, a6, a7, a8, a9, a10, a11, a12⟩, i2, i3, i4, i5, i6, i7, i8, i9,
      i10⟩ := ih hcx' hcv'
    obtain ⟨⟨c1, c2, c3, c4, c5, c6, c7, c8, c9, c10, c11, c12⟩, s2, s3, s4, s5, s6, s7⟩ :=
      advance_substep_spec cf F D h (substep_memory cf F D h m n) n hnrx
    rw [← substep_memory_succ] at c1 c2 c3 c4 c5 c6 c7 c8 c9 c10 c11 c12 s2 s3 s4 s5 s6 s7
    rw [a1, hd] at s5 s6 s7
    have ox : (F.base.nx * ((d : Int) + (n : Int) + 1)).toNat = F.base.nx.toNat * (d + n + 1) := by
      have : (d : Int) + (n : Int) + 1 = ((d + n + 1 : Nat) : Int) := by push_cast; ring
      rw [this, toNat_mul_nat _ _ hnx]
    have ov : (D.nv * ((d : Int) + (n : Int))).toNat = D.nv.toNat * (d + n) := by
      have : (d : Int) + (n : Int) = ((d + n : Nat) : Int) := by push_cast; ring
      rw [this, toNat_mul_nat _ _ hnv]
    rw [ox] at s6
    rw [ov] at s7
    have hmx : F.base.nx.toNat * (d + (n + 1) + 1) =
        F.base.nx.toNat * (d + n + 1) + F.base.nx.toNat := by ring
    have hmv : D.nv.toNat * (d + (n + 1)) = D.nv.toNat * (d + n) + D.nv.toNat := by ring
    refine ⟨⟨c1.trans a1, c2.trans a2, c3.trans a3, c4.trans a4, c5.trans a5, c6.trans a6,
      c7.trans a7, c8.trans a8, c9.trans a9, c10.trans a10, c11.trans a11, c12.trans a12⟩,
      s2.trans i2, s3.trans i3, s4.trans i4, ?_, ?_, ?_, ?_, ?_, ?_⟩
    · rw [s6, casadi_copy_length, i5]
    · rw [s7, casadi_copy_length, i6]
    · rw [s5, i7, a2, List.range_succ, List.flatMap_append, List.append_assoc]
      simp only [List.flatMap_cons, List.flatMap_nil, List.append_nil]
      have e1 : (d : Int) + (n : Int) + 1 = ((d + n : Nat) : Int) + 1 := by push_cast; ring
      have e2 : (d : Int) + (n : Int) = ((d + n : Nat) : Int) := by push_cast; ring
      rw [e1, e2]
    · intro b hb
      rw [s6, readBlock_copy_other _ _ _ _ _ _ (Or.inl ?_)]
      · exact i8 b hb
      · have : F.base.nx.toNat * (b + 1) ≤ F.base.nx.toNat * (d + n + 1) :=
          Nat.mul_le_mul_left _ (by omega)
        rw [Nat.mul_succ] at this
        exact this
    · intro b hb
      rw [s7, readBlock_copy_other _ _ _ _ _ _ (Or.inl ?_)]
      · exact i9 b hb
      · have : D.nv.toNat * (b + 1) ≤ D.nv.toNat * (d + n) :=
          Nat.mul_le_mul_left _ (by omega)
        rw [Nat.mul_succ] at this
        exact this
    · intro j hj
      by_cases hjn : j = n
      · subst hjn
        constructor
        · rw [s6]
          exact readBlock_copy_same _ _ _ _ (by rw [i5]; omega)
        · rw [s7]
          exact readBlock_copy_same _ _ _ _ (by rw [i6]; omega)
      · have hlt : j < n := by omega
        obtain ⟨t1, t2⟩ := i10 j hlt
        constructor
        · rw [s6, readBlock_copy_other _ _ _ _ _ _ (Or.inl ?_)]
          · exact t1
          · have : F.base.nx.toNat * (d + j + 1 + 1) ≤ F.base.nx.toNat * (d + n + 1) :=
              Nat.mul_le_mul_left _ (by omega)
            rw [Nat.mul_succ] at this
            exact this
        · rw [s7, readBlock_copy_other _ _ _ _ _ _ (Or.inl ?_)]
          · exact t2
          · have : D.nv.toNat * (d + j + 1) ≤ D.nv.toNat * (d + n) :=
              Nat.mul_le_mul_left _ (by omega)
            rw [Nat.mul_succ] at this
            exact this

/-! ## Fixed-step integrators: forward sweep without events -/

theorem forward_events_from_append (steps : Nat → StepRecord) (lo a b : Nat) :
    forward_events_from steps lo (a + b) =
      forward_events_from steps lo a ++ forward_events_from steps (lo + a) b := by
  unfold forward_events_from
  rw [List.range_add, List.flatMap_append, List.flatMap_map]
  congr 1
  apply List.flatMap_congr
  intro j _
  rw [Nat.add_assoc]

theorem forward_events_from_congr (steps steps1 : Nat → StepRecord) (lo n : Nat)
    (h : ∀ i, lo ≤ i → i < lo + n → steps1 i = steps i) :
    forward_events_from steps1 lo n = forward_events_from steps lo n := by
  unfold forward_events_from
  apply List.flatMap_congr
  intro j hj
  rw [h (lo + j) (by omega) (by have := List.mem_range.1 hj; omega)]

theorem disc_monotone (F : FixedStepIntegrator) (hF : disc_shape F) :
    ∀ a b, a ≤ b → b ≤ F.base.tout.length → F.disc.getD a 0 ≤ F.disc.getD b 0 := by
  intro a b hab
  induction b with
  | zero =>
    intro _
    have : a = 0 := by omega
    subst this
    exact le_refl _
  | succ b ih =>
    intro hb
    by_cases h : a = b + 1
    · subst h
      exact le_refl _
    · exact le_trans (ih (by omega) (by omega)) (hF.2.2 b (by omega))

theorem disc_nonneg (F : FixedStepIntegrator) (hF : disc_shape F) (k : Nat)
    (hk : k ≤ F.base.tout.length) : 0 ≤ F.disc.getD k 0 := by
  have := disc_monotone F hF 0 k (Nat.zero_le _) hk
  rw [hF.2.1] at this
  exact this

theorem disc_last (F : FixedStepIntegrator) (hF : disc_shape F) :
    F.disc.getLastD 0 = F.disc.getD F.base.tout.length 0 := by
  obtain ⟨h1, -, -⟩ := hF
  rw [List.getLastD_eq_getLast?, List.getLast?_eq_getElem?, List.getD_eq_getElem?_getD, h1]
  rfl

theorem tapeInv_congr (F : FixedStepIntegrator) (D : FixedStepDims) (steps : Nat → StepRecord)
    (n : Nat) (m m1 : IntegratorMemory FixedStepMemory) (hs : m1.solver = m.solver)
    (hx : m1.x = m.x) (h : TapeInv F D steps n m) : TapeInv F D steps n m1 := by
  unfold TapeInv at h ⊢
  rw [hs, hx]
  exact h

theorem work_allocated_congr (F : FixedStepIntegrator) (D : FixedStepDims)
    (m m1 : IntegratorMemory FixedStepMemory)
    (hx : m1.solver.x_tape.length = m.solver.x_tape.length)
    (hv : m1.solver.v_tape.length = m.solver.v_tape.length)
    (ht : m1.tmp1.length = m.tmp1.length)
    (hp : m1.solver.v_prev.length = m.solver.v_prev.length) (h : work_allocated F D m) :
    work_allocated F D m1 := by
  unfold work_allocated tape_allocated at h ⊢
  rw [hx, hv, ht, hp]
  exact h

/-- The tapes hold all blocks up to the last entry of `disc_`. -/
theorem tape_capacity (F : FixedStepIntegrator) (D : FixedStepDims)
    (m : IntegratorMemory FixedStepMemory) (hF : disc_shape F) (hnx : 0 ≤ F.base.nx)
    (hnv : 0 ≤ D.nv) (hw : work_allocated F D m) (b : Nat)
    (hb : (b : Int) ≤ F.disc.getD F.base.tout.length 0) :
    F.base.nx.toNat * (b + 1) ≤ m.solver.x_tape.length ∧
    D.nv.toNat * b ≤ m.solver.v_tape.length := by
  obtain ⟨⟨h1, h2⟩, -, -⟩ := hw
  rw [disc_last F hF] at h1 h2
  obtain ⟨N, hN⟩ := Int.eq_ofNat_of_zero_le (disc_nonneg F hF _ (le_refl _))
  obtain ⟨nx, hx⟩ := Int.eq_ofNat_of_zero_le hnx
  obtain ⟨nv, hv⟩ := Int.eq_ofNat_of_zero_le hnv
  rw [hN] at h1 h2 hb
  rw [hx] at h1
  rw [hv] at h2
  rw [hx, hv, Int.toNat_ofNat, Int.toNat_ofNat]
  have hbN : b ≤ N := by exact_mod_cast hb
  have e1 : m.solver.x_tape.length = (N + 1) * nx := by exact_mod_cast h1
  have e2 : m.solver.v_tape.length = N * nv := by exact_mod_cast h2
  rw [e1, e2]
  constructor
  · rw [Nat.mul_comm]
    exact Nat.mul_le_mul_right _ (by omega)
  · rw [Nat.mul_comm]
    exact Nat.mul_le_mul_right _ hbN

/-- One event-free grid interval of the forward sweep with adjoint support:
from the memory handed to `advance_noevent` for the grid interval `n`, the
steps `disc_[n], ..., disc_[n + 1] - 1` are made and stored on the tapes. -/
theorem tape_interval (cf : CalcFunction) (F : FixedStepIntegrator) (D : FixedStepDims)
    (steps : Nat → StepRecord) (n : Nat) (e : IntegratorMemory FixedStepMemory)
    (hF : disc_shape F) (hnrx : F.base.nrx > 0) (hnx : 0 ≤ F.base.nx) (hnv : 0 ≤ D.nv)
    (hn : n < F.base.tout.length) (hk : e.k = (n : Int)) (ht : e.t = grid_start F.base n)
    (htn : e.t_next = F.base.tout.getD n 0) (hw : work_allocated F D e)
    (hinv : TapeInv F D steps n e) :
    ∃ steps1 : Nat → StepRecord,
      (∀ i, i < (F.disc.getD n 0).toNat → steps1 i = steps i) ∧
      TapeInv F D steps1 (n + 1) (F.advance_noevent cf D e) ∧
      work_allocated F D (F.advance_noevent cf D e) ∧
      SameBookkeeping e (F.advance_noevent cf D e) ∧
      (F.advance_noevent cf D e).reset_solver = e.reset_solver ∧
      readBlock (F.advance_noevent cf D e).solver.x_tape (F.base.nx.toNat * 0) F.base.nx.toNat =
        readBlock e.solver.x_tape (F.base.nx.toNat * 0) F.base.nx.toNat := by
  have hkn : e.k.toNat = n := by rw [hk]; rfl
  obtain ⟨d, hd⟩ := Int.eq_ofNat_of_zero_le (disc_nonneg F hF n (by omega))
  have hnj0 : 0 ≤ F.nj n := by
    unfold FixedStepIntegrator.nj
    have := hF.2.2 n hn
    omega
  obtain ⟨nj, hnj⟩ := Int.eq_ofNat_of_zero_le hnj0
  have hd1 : F.disc.getD (n + 1) 0 = ((d + nj : Nat) : Int) := by
    unfold FixedStepIntegrator.nj at hnj
    push_cast
    omega
  have hdk : F.disc.getD e.k.toNat 0 = (d : Int) := by rw [hkn]; exact hd
  have hh : (e.t_next - e.t) / ((F.nj e.k.toNat : Int) : ℚ) = grid_step F n := by
    unfold grid_step
    rw [hkn, htn, ht]
  have hcap := tape_capacity F D e hF hnx hnv hw (d + nj)
    (by rw [← hd1]; exact disc_monotone F hF (n + 1) _ (by omega) (le_refl _))
  have hspec := substep_memory_spec cf F D (grid_step F n) e d hnrx hnx hnv hdk
  obtain ⟨hbk, hrs, q3, q4, q5, q6, q7, q8, q9, q10⟩ := hspec nj hcap.1 hcap.2
  have hadv : F.advance_noevent cf D e =
      { substep_memory cf F D (grid_step F n) e nj with
        z := casadi_copy
          (some ((substep_memory cf F D (grid_step F n) e nj).solver.v.drop
            (D.nv - F.base.nz).toNat)) F.base.nz.toNat
          (substep_memory cf F D (grid_step F n) e nj).z 0 } := by
    unfold FixedStepIntegrator.advance_noevent
    dsimp only
    rw [hh, hkn, hnj, Int.toNat_ofNat]
    rfl
  obtain ⟨i1, i2, i3, i4⟩ := hinv
  rw [hd, Int.toNat_ofNat] at i1 i2 i3
  have hcapj : ∀ j, j ≤ nj → F.base.nx.toNat * (d + j + 1) ≤ e.solver.x_tape.length ∧
      D.nv.toNat * (d + j) ≤ e.solver.v_tape.length := by
    intro j hj
    have a : F.base.nx.toNat * (d + j + 1) ≤ F.base.nx.toNat * (d + nj + 1) :=
      Nat.mul_le_mul_left _ (by omega)
    have b : D.nv.toNat * (d + j) ≤ D.nv.toNat * (d + nj) := Nat.mul_le_mul_left _ (by omega)
    exact ⟨le_trans a hcap.1, le_trans b hcap.2⟩
  have hx0 : ∀ j, j < nj →
      readBlock (substep_memory cf F D (grid_step F n) e nj).solver.x_tape
        (F.base.nx.toNat * (d + j)) F.base.nx.toNat =
      readBlock (substep_memory cf F D (grid_step F n) e j).x 0 F.base.nx.toNat := by
    intro j hj
    cases j with
    | zero =>
      rw [Nat.add_zero, q8 d (le_refl _)]
      exact i3
    | succ j => exact (q10 j (by omega)).1
  refine ⟨fun i => if i < d then steps i
    else substep_record cf F D (grid_step F n) e (i - d), ?_, ?_, ?_, ?_, ?_, ?_⟩
  · intro i hi
    rw [hd, Int.toNat_ofNat] at hi
    dsimp only
    rw [if_pos hi]
  · rw [hadv]
    unfold TapeInv
    dsimp only
    rw [hd1, Int.toNat_ofNat]
    refine ⟨?_, ?_, ?_, ?_⟩
    · rw [q7, i1, forward_events_from_append, List.cons_append, Nat.zero_add]
      congr 2
      · exact (forward_events_from_congr steps _ 0 d
          (fun i _ hi => by rw [if_pos (by omega)])).symm
      · unfold forward_events_from
        apply List.flatMap_congr
        intro j hj
        have hjn : j < nj := List.mem_range.1 hj
        obtain ⟨-, -, t3, t4, -⟩ := hspec j (hcapj j (by omega)).1 (hcapj j (by omega)).2
        dsimp only
        rw [if_neg (by omega : ¬ d + j < d), Nat.add_sub_cancel_left]
        unfold forward_events substep_record
        dsimp only
        rw [readBlock_copy_same _ _ _ _ (by rw [t3]; have := hw.2.1; omega),
          readBlock_copy_same _ _ _ _ (by rw [t4]; have := hw.2.2; omega), ht]
    · intro i hi
      by_cases hid : i < d
      · rw [if_pos hid]
        obtain ⟨u1, u2, u3⟩ := i2 i hid
        exact ⟨(q8 i (by omega)).trans u1, (q8 (i + 1) (by omega)).trans u2,
          (q9 i hid).trans u3⟩
      · rw [if_neg hid]
        obtain ⟨j, rfl⟩ : ∃ j, i = d + j := ⟨i - d, by omega⟩
        have hjn : j < nj := by omega
        rw [Nat.add_sub_cancel_left]
        exact ⟨hx0 j hjn, (q10 j hjn).1, (q10 j hjn).2⟩
    · show readBlock (substep_memory cf F D (grid_step F n) e nj).solver.x_tape _ _ =
        readBlock (substep_memory cf F D (grid_step F n) e nj).x 0 F.base.nx.toNat
      cases nj with
      | zero =>
        rw [Nat.add_zero, q8 d (le_refl _)]
        exact i3
      | succ j => exact (q10 j (by omega)).1
    · intro k j hk hj
      by_cases hkn' : k < n
      · have hlt : (F.disc.getD k 0).toNat + j < d := by
          have h1 := disc_monotone F hF (k + 1) n (by omega) (by omega)
          have h2 := disc_nonneg F hF k (by omega)
          unfold FixedStepIntegrator.nj at hj
          omega
        rw [if_pos hlt]
        exact i4 k j hkn' hj
      · have hke : k = n := by omega
        subst hke
        rw [hd, Int.toNat_ofNat, if_neg (by omega : ¬ d + j < d), Nat.add_sub_cancel_left]
        unfold substep_record
        dsimp only
        rw [ht]
        exact ⟨rfl, rfl⟩
  · rw [hadv]
    exact work_allocated_congr F D e _ q5 q6 q3 q4 hw
  · rw [hadv]
    exact hbk
  · rw [hadv]
    exact hrs
  · rw [hadv]
    exact q8 0 (Nat.zero_le _)

theorem advance_substep_bookkeeping (cf : CalcFunction) (F : FixedStepIntegrator)
    (D : FixedStepDims) (h : ℚ) (m : IntegratorMemory FixedStepMemory) (j : Nat) :
    SameBookkeeping m (advance_substep cf F D h m j) := by
  obtain ⟨hb, -⟩ := stepF_frame cf F D
      { m with
        tmp1 := casadi_copy (some m.x) F.base.nx.toNat m.tmp1 0
        solver := { m.solver with
          v_prev := casadi_copy (some m.solver.v) D.nv.toNat m.solver.v_prev 0
          q_prev := casadi_copy (some m.q) F.base.nq.toNat m.solver.q_prev 0 } }
      (m.t + (j : ℚ) * h) h (casadi_copy (some m.x) F.base.nx.toNat m.tmp1 0)
      (casadi_copy (some m.solver.v) D.nv.toNat m.solver.v_prev 0)
  unfold advance_substep
  dsimp only
  split <;> exact hb

theorem substep_memory_bookkeeping (cf : CalcFunction) (F : FixedStepIntegrator)
    (D : FixedStepDims) (h : ℚ) (m : IntegratorMemory FixedStepMemory) :
    ∀ n, SameBookkeeping m (substep_memory cf F D h m n) := by
  intro n
  induction n with
  | zero => exact ⟨rfl, rfl, rfl, rfl, rfl, rfl, rfl, rfl, rfl, rfl, rfl, rfl⟩
  | succ n ih =>
    obtain ⟨a1, a2, a3, a4, a5, a6, a7, a8, a9, a10, a11, a12⟩ := ih
    obtain ⟨c1, c2, c3, c4, c5, c6, c7, c8, c9, c10, c11, c12⟩ :=
      advance_substep_bookkeeping cf F D h (substep_memory cf F D h m n) n
    rw [← substep_memory_succ] at c1 c2 c3 c4 c5 c6 c7 c8 c9 c10 c11 c12
    exact ⟨c1.trans a1, c2.trans a2, c3.trans a3, c4.trans a4, c5.trans a5, c6.trans a6,
      c7.trans a7, c8.trans a8, c9.trans a9, c10.trans a10, c11.trans a11, c12.trans a12⟩

/-- The virtual functions of `FixedStepIntegrator` leave the bookkeeping of
the driver as it is when `Integrator::reset` does. -/
theorem fixed_step_frame (cf : CalcFunction)
    (base_reset : IntegratorMemory FixedStepMemory → Bool → IntegratorMemory FixedStepMemory)
    (hR : BaseResetFrame base_reset) (F : FixedStepIntegrator) (D : FixedStepDims) (nan : ℚ) :
    (F.collaborators cf base_reset D nan).Frame := by
  constructor
  · intro m m1 h
    have h1 : m1 = F.advance_noevent cf D m := (Option.some.inj h).symm
    subst h1
    exact substep_memory_bookkeeping cf F D _ m _
  · intro m b
    have hb := hR.bookkeeping m b
    show SameBookkeeping m (F.reset base_reset D nan m b)
    unfold FixedStepIntegrator.reset
    dsimp only
    split
    · split <;> exact hb
    · exact hb

/-- The memory handed to `advance_noevent` in the grid interval `n` of an
event-free forward sweep with adjoint support: the first reset has stored
the state in the block 0 of `x_tape`, later resets leave the tapes as they
are. -/
theorem noevent_entry_tape (cf : CalcFunction)
    (base_reset : IntegratorMemory FixedStepMemory → Bool → IntegratorMemory FixedStepMemory)
    (hR : BaseResetFrame base_reset) (F : FixedStepIntegrator) (D : FixedStepDims) (nan : ℚ)
    (hF : disc_shape F) (hnrx : F.base.nrx > 0) (hnx : 0 ≤ F.base.nx) (hnv : 0 ≤ D.nv)
    (x0 : List ℚ) (n : Nat) (s : ForwardState FixedStepMemory)
    (hinv : ForwardTapeInv F D x0 n s) :
    (noevent_entry (F.collaborators cf base_reset D nan) F.base s n).k = (n : Int) ∧
    (noevent_entry (F.collaborators cf base_reset D nan) F.base s n).t = grid_start F.base n ∧
    (noevent_entry (F.collaborators cf base_reset D nan) F.base s n).t_next =
      F.base.tout.getD n 0 ∧
    (noevent_entry (F.collaborators cf base_reset D nan) F.base s n).t_next_out =
      F.base.tout.getD n 0 ∧
    (noevent_entry (F.collaborators cf base_reset D nan) F.base s n).reset_solver = false ∧
    work_allocated F D (noevent_entry (F.collaborators cf base_reset D nan) F.base s n) ∧
    (∃ steps : Nat → StepRecord,
      TapeInv F D steps n (noevent_entry (F.collaborators cf base_reset D nan) F.base s n)) ∧
    noevent_first_call F.base s n = false ∧
    readBlock (noevent_entry (F.collaborators cf base_reset D nan) F.base s n).solver.x_tape
      (F.base.nx.toNat * 0) F.base.nx.toNat = x0 := by
  obtain ⟨h1, h2, h3, h4⟩ := hinv
  obtain ⟨b1, b2, b3, b4, b5, b6, b7, b8, b9, b10⟩ := interval_begin_next F.base s n
  have b0 : (interval_begin F.base s n).m.t_next_out = F.base.tout.getD n 0 := b1 ▸ b2
  have hw0 : work_allocated F D (interval_begin F.base s n).m :=
    work_allocated_congr F D s.m _ (by rw [b6]) (by rw [b6]) (by rw [b7]) (by rw [b6]) h3
  unfold noevent_entry noevent_first_call
  dsimp only
  rcases h4 with ⟨hn0, hfc, hks, hlog, hx0⟩ | ⟨hnpos, hfc, hx0, steps, htape⟩
  · subst hn0
    have hrs : (interval_begin F.base s 0).m.reset_solver = true :=
      b9 (by rw [hks]; decide)
    rw [hrs, b8, hfc]
    simp only [if_true]
    obtain ⟨r1, r2, r3, r4, -⟩ := hR.bookkeeping (interval_begin F.base s 0).m true
    have rx := hR.state (interval_begin F.base s 0).m true
    have rs := hR.solver (interval_begin F.base s 0).m true
    have rt := hR.scratch (interval_begin F.base s 0).m true
    have hreset : (F.collaborators cf base_reset D nan).reset (interval_begin F.base s 0).m true =
        { base_reset (interval_begin F.base s 0).m true with
          solver := { (base_reset (interval_begin F.base s 0).m true).solver with
            v := writeBlock (base_reset (interval_begin F.base s 0).m true).solver.v 0
              (List.replicate D.nv.toNat nan)
            x_tape := casadi_copy (some (base_reset (interval_begin F.base s 0).m true).x)
              F.base.nx.toNat (base_reset (interval_begin F.base s 0).m true).solver.x_tape 0
            log := (base_reset (interval_begin F.base s 0).m true).solver.log ++
              [TapeEvent.writeX 0] } } := by
      show F.reset base_reset D nan (interval_begin F.base s 0).m true = _
      unfold FixedStepIntegrator.reset
      dsimp only
      rw [if_pos rfl, if_pos hnrx]
    rw [hreset]
    dsimp only
    have hcap := tape_capacity F D (interval_begin F.base s 0).m hF hnx hnv hw0 0
      (disc_nonneg F hF _ (le_refl _))
    have hblock : readBlock (casadi_copy (some (base_reset (interval_begin F.base s 0).m true).x)
        F.base.nx.toNat (base_reset (interval_begin F.base s 0).m true).solver.x_tape 0)
        (F.base.nx.toNat * 0) F.base.nx.toNat =
        readBlock (base_reset (interval_begin F.base s 0).m true).x 0 F.base.nx.toNat := by
      rw [Nat.mul_zero]
      exact readBlock_copy_same _ _ _ _ (by rw [rs]; have := hcap.1; omega)
    refine ⟨r1.trans b3, (r2.trans b4).trans h2, r3.trans b2, r4.trans b0, trivial, ?_, ?_,
      trivial, ?_⟩
    · unfold work_allocated tape_allocated
      dsimp only
      rw [casadi_copy_length, rs, rt]
      exact hw0
    · refine ⟨fun _ => ⟨0, 0, [], [], [], []⟩, ?_⟩
      unfold TapeInv
      dsimp only
      rw [hF.2.1]
      refine ⟨?_, fun i hi => absurd hi (Nat.not_lt_zero i), ?_,
        fun k j hk => absurd hk (Nat.not_lt_zero k)⟩
      · rw [rs, b6, hlog]
        rfl
      · exact hblock
    · rw [← hx0, ← b5, ← rx]
      exact hblock
  · have key : ∀ e : IntegratorMemory FixedStepMemory,
        SameBookkeeping (interval_begin F.base s n).m e →
        e.x = (interval_begin F.base s n).m.x →
        e.solver = (interval_begin F.base s n).m.solver →
        e.tmp1.length = (interval_begin F.base s n).m.tmp1.length →
        e.k = (n : Int) ∧ e.t = grid_start F.base n ∧ e.t_next = F.base.tout.getD n 0 ∧
        e.t_next_out = F.base.tout.getD n 0 ∧ work_allocated F D e ∧
        (∃ steps : Nat → StepRecord, TapeInv F D steps n e) ∧
        readBlock e.solver.x_tape (F.base.nx.toNat * 0) F.base.nx.toNat = x0 := by
      rintro e ⟨r1, r2, r3, r4, -⟩ rx rs rt
      refine ⟨r1.trans b3, (r2.trans b4).trans h2, r3.trans b2, r4.trans b0,
        work_allocated_congr F D _ e (by rw [rs]) (by rw [rs]) rt (by rw [rs]) hw0,
        ⟨steps, tapeInv_congr F D steps n s.m e (rs.trans b6) (rx.trans b5) htape⟩, ?_⟩
      rw [rs, b6]
      exact hx0
    by_cases hrs : (interval_begin F.base s n).m.reset_solver = true
    · rw [hrs, b8, hfc]
      simp only [if_true]
      have hreset : (F.collaborators cf base_reset D nan).reset (interval_begin F.base s n).m
          false = base_reset (interval_begin F.base s n).m false := by
        show F.reset base_reset D nan (interval_begin F.base s n).m false = _
        unfold FixedStepIntegrator.reset
        dsimp only
        rw [if_neg (by decide)]
      rw [hreset]
      obtain ⟨k1, k2, k3, k4, k5, k6, k7⟩ := key (base_reset (interval_begin F.base s n).m false)
        (hR.bookkeeping _ _) (hR.state _ _) (hR.solver _ _) (hR.scratch _ _)
      exact ⟨k1, k2, k3, k4, trivial, k5, k6, trivial, k7⟩
    · have hrs' : (interval_begin F.base s n).m.reset_solver = false := by
        cases hm : (interval_begin F.base s n).m.reset_solver
        · rfl
        · exact absurd hm hrs
      simp only [hrs, if_false]
      obtain ⟨k1, k2, k3, k4, k5, k6, k7⟩ := key (interval_begin F.base s n).m
        ⟨rfl, rfl, rfl, rfl, rfl, rfl, rfl, rfl, rfl, rfl, rfl, rfl⟩ rfl rfl rfl
      exact ⟨k1, k2, k3, k4, hrs', k5, k6, b8.trans hfc, k7⟩

/-- Invariant of the event-free forward sweep of a fixed-step integrator
with adjoint support: the sweep over the first `n` grid intervals returns,
and the tapes and the record of tape events are as `ForwardTapeInv` says. -/
theorem forward_tape_inv (cf : CalcFunction)
    (base_reset : IntegratorMemory FixedStepMemory → Bool → IntegratorMemory FixedStepMemory)
    (hR : BaseResetFrame base_reset) (F : FixedStepIntegrator) (D : FixedStepDims) (nan : ℚ)
    (hF : disc_shape F) (hne : F.base.ne = 0) (hnrx : F.base.nrx > 0) (hnx : 0 ≤ F.base.nx)
    (hnv : 0 ≤ D.nv) (fuel : Nat) (hfuel : 0 < fuel) (a : EvalArgs)
    (m : IntegratorMemory FixedStepMemory) (hw : work_allocated F D m)
    (hlog : m.solver.log = []) :
    ∀ n, n ≤ F.base.tout.length →
      ∃ s, forward_intervals (F.collaborators cf base_reset D nan) F.base fuel
          (eval_begin F.base a m) n = .ok s ∧
        ForwardTapeInv F D (readBlock (eval_begin F.base a m).m.x 0 F.base.nx.toNat) n s := by
  intro n
  induction n with
  | zero =>
    intro _
    refine ⟨eval_begin F.base a m, rfl, rfl, ?_, hw, Or.inl ⟨rfl, rfl, rfl, hlog, rfl⟩⟩
    unfold grid_start
    rw [if_pos rfl]
    rfl
  | succ n ih =>
    intro hn
    obtain ⟨s, hs, hinv⟩ := ih (by omega)
    have hC := fixed_step_frame cf base_reset hR F D nan
    obtain ⟨e1, e2, e3, e4, e5, e6, ⟨steps, e7⟩, e8, e9⟩ :=
      noevent_entry_tape cf base_reset hR F D nan hF hnrx hnx hnv _ n s hinv
    obtain ⟨steps1, -, t2, t3, ⟨c1, c2, c3, c4, -⟩, t5, t6⟩ :=
      tape_interval cf F D steps n _ hF hnrx hnx hnv (by omega) e1 e2 e3 e6 e7
    have hev : eval_interval (F.collaborators cf base_reset D nan) F.base fuel s n =
        .ok (interval_end F.base { interval_begin F.base s n with
          first_call := noevent_first_call F.base s n
          m := { F.advance_noevent cf D
              (noevent_entry (F.collaborators cf base_reset D nan) F.base s n) with
            t := (F.advance_noevent cf D
              (noevent_entry (F.collaborators cf base_reset D nan) F.base s n)).t_next
            t_next := (F.advance_noevent cf D
              (noevent_entry (F.collaborators cf base_reset D nan) F.base s n)).t_next_out } }) := by
      rw [eval_interval_noevent _ hC F.base fuel s n hne hfuel]
      rfl
    refine ⟨_, by unfold forward_intervals; rw [hs]; exact hev, ?_, ?_, ?_, Or.inr ⟨by omega, e8,
      t6.trans e9, steps1, ?_⟩⟩
    · exact t5.trans e5
    · show (F.advance_noevent cf D _).t_next = grid_start F.base (n + 1)
      rw [c3, e3]
      unfold grid_start
      rw [if_neg (by omega)]
      rfl
    · exact work_allocated_congr F D _ _ rfl rfl rfl rfl t3
    · exact tapeInv_congr F D steps1 (n + 1) _ _ rfl rfl t2

theorem forward_events_from_one (steps : Nat → StepRecord) (lo : Nat) :
    forward_events_from steps lo 1 = forward_events lo (steps lo) := by
  unfold forward_events_from
  have h : List.range 1 = [0] := rfl
  rw [h]
  simp only [List.flatMap_cons, List.flatMap_nil, List.append_nil, Nat.add_zero]

/-- The blocks of the tapes stored by the forward steps `0, ..., N - 1` after
the first reset: the blocks `0, ..., N` of `x_tape` and the blocks
`0, ..., N - 1` of `v_tape`, each once and in increasing order. -/
theorem forward_log_blocks (steps : Nat → StepRecord) :
    ∀ N : Nat,
      (TapeEvent.writeX 0 :: forward_events_from steps 0 N).filterMap TapeEvent.xBlock =
        (List.range (N + 1)).map Int.ofNat ∧
      (TapeEvent.writeX 0 :: forward_events_from steps 0 N).filterMap TapeEvent.vBlock =
        (List.range N).map Int.ofNat := by
  intro N
  induction N with
  | zero => exact ⟨rfl, rfl⟩
  | succ N ih =>
    obtain ⟨h1, h2⟩ := ih
    rw [forward_events_from_append, forward_events_from_one, Nat.zero_add, ← List.cons_append,
      List.filterMap_append, List.filterMap_append, h1, h2, List.range_succ (N + 1),
      List.map_append, List.range_succ N, List.map_append]
    exact ⟨rfl, rfl⟩

/-- Claim C23. In an event-free forward sweep (`ne = 0`, enough fuel for one
event iteration) of a fixed-step integrator with adjoint support
(`nrx > 0`), for a vector `disc_` with one entry per grid point after the
entry 0 and entries that do not decrease, with the tapes and work vectors of
the allocated sizes and `Integrator::reset` leaving the state, the
bookkeeping and the derived members as they are: the sweep returns; the
tape events are the store of the block 0 of `x_tape` at the first reset,
followed for each step `i = 0, ..., disc_.back() - 1` in increasing order by
the call of `stepF` and the stores of the block `i + 1` of `x_tape` and the
block `i` of `v_tape`, so that the blocks `0, ..., disc_.back()` of `x_tape`
and `0, ..., disc_.back() - 1` of `v_tape` are each stored once, in increasing
order and within the allocated sizes. After the sweep the block 0 of
`x_tape` is the initial state, the blocks `i` and `i + 1` of `x_tape` are the
states before and after the step `i` and the block `i` of `v_tape` holds the
discretisation variables after it; the step `j` of the grid interval `k` is
the step `disc_[k] + j`, made at the time `grid_start k + j * h` with the step
length `h = grid_step k`. -/
theorem tape_forward_sweep (cf : CalcFunction)
    (base_reset : IntegratorMemory FixedStepMemory → Bool → IntegratorMemory FixedStepMemory)
    (hR : BaseResetFrame base_reset) (F : FixedStepIntegrator) (D : FixedStepDims) (nan : ℚ)
    (hF : disc_shape F) (hne : F.base.ne = 0) (hnrx : F.base.nrx > 0) (hnx : 0 ≤ F.base.nx)
    (hnv : 0 ≤ D.nv) (hnt : 0 < F.base.tout.length) (fuel : Nat) (hfuel : 0 < fuel)
    (a : EvalArgs) (m : IntegratorMemory FixedStepMemory) (hw : work_allocated F D m)
    (hlog : m.solver.log = []) :
    ∃ (sf : ForwardState FixedStepMemory) (steps : Nat → StepRecord),
      eval_forward (F.collaborators cf base_reset D nan) F.base fuel a m = .ok sf ∧
      sf.m.solver.log =
        TapeEvent.writeX 0 :: forward_events_from steps 0 (F.disc.getLastD 0).toNat ∧
      sf.m.solver.log.filterMap TapeEvent.xBlock =
        (List.range ((F.disc.getLastD 0).toNat + 1)).map Int.ofNat ∧
      sf.m.solver.log.filterMap TapeEvent.vBlock =
        (List.range (F.disc.getLastD 0).toNat).map Int.ofNat ∧
      tape_allocated F D sf.m ∧
      readBlock sf.m.solver.x_tape (F.base.nx.toNat * 0) F.base.nx.toNat =
        readBlock (eval_begin F.base a m).m.x 0 F.base.nx.toNat ∧
      (∀ i, i < (F.disc.getLastD 0).toNat →
        readBlock sf.m.solver.x_tape (F.base.nx.toNat * i) F.base.nx.toNat = (steps i).x0 ∧
        readBlock sf.m.solver.x_tape (F.base.nx.toNat * (i + 1)) F.base.nx.toNat =
          (steps i).xf ∧
        readBlock sf.m.solver.v_tape (D.nv.toNat * i) D.nv.toNat = (steps i).vf) ∧
      (∀ k j : Nat, k < F.base.tout.length → (j : Int) < F.nj k →
        (F.disc.getD k 0).toNat + j < (F.disc.getLastD 0).toNat ∧
        (steps ((F.disc.getD k 0).toNat + j)).t =
          grid_start F.base k + (j : ℚ) * grid_step F k ∧
        (steps ((F.disc.getD k 0).toNat + j)).h = grid_step F k) := by
  obtain ⟨sf, hsf, -, -, hwf, hcase⟩ := forward_tape_inv cf base_reset hR F D nan hF hne hnrx
    hnx hnv fuel hfuel a m hw hlog F.base.tout.length (le_refl _)
  rcases hcase with ⟨h0, -⟩ | ⟨-, -, hx0, steps, i1, i2, -, i4⟩
  · omega
  · rw [← disc_last F hF] at i1 i2
    refine ⟨sf, steps, hsf, i1, ?_, ?_, hwf.1, hx0, i2, fun k j hk hj => ⟨?_, i4 k j hk hj⟩⟩
    · rw [i1]
      exact (forward_log_blocks steps _).1
    · rw [i1]
      exact (forward_log_blocks steps _).2
    · rw [disc_last F hF]
      have h1 := disc_monotone F hF (k + 1) _ (by omega) (le_refl _)
      have h2 := disc_nonneg F hF k (by omega)
      unfold FixedStepIntegrator.nj at hj
      omega

/-- Witness of claim C23 on `tapeIntegrator` (`disc_ = [0, 1, 3]`): the
forward sweep returns and has stored the blocks 0, 1, 2, 3 of `x_tape` and
the blocks 0, 1, 2 of `v_tape`, in this order. -/
theorem tape_forward_sweep_witness :
    ∃ sf : ForwardState FixedStepMemory,
      eval_forward (tapeIntegrator.collaborators tapeCalc (fun m _ => m) tapeDims 0)
        tapeIntegrator.base 1 tapeArgs tapeMemory = .ok sf ∧
      sf.m.solver.log.filterMap TapeEvent.xBlock = [0, 1, 2, 3] ∧
      sf.m.solver.log.filterMap TapeEvent.vBlock = [0, 1, 2] := by
  obtain ⟨sf, steps, h1, -, h3, h4, -⟩ := tape_forward_sweep tapeCalc (fun m _ => m)
    ⟨fun _ _ => ⟨rfl, rfl, rfl, rfl, rfl, rfl, rfl, rfl, rfl, rfl, rfl, rfl⟩, fun _ _ => rfl,
      fun _ _ => rfl, fun _ _ => rfl⟩
    tapeIntegrator tapeDims 0 (by unfold disc_shape; decide) (by decide) (by decide) (by decide)
    (by decide) (by decide) 1 (by decide) tapeArgs tapeMemory
    (by unfold work_allocated tape_allocated; decide) rfl
  exact ⟨sf, h1, h3, h4⟩

/-! ## Fixed-step integrators: backward steps -/

/-- What `stepB` leaves as it is: the bookkeeping of the driver, the tapes and
the record of tape events. -/
theorem stepB_frame (cf : CalcFunction) (F : FixedStepIntegrator) (D : FixedStepDims)
    (m : IntegratorMemory FixedStepMemory) (t h : ℚ) (x0 xf vf : List ℚ) :
    SameBookkeeping m (stepB cf F D m t h x0 xf vf) ∧
    (stepB cf F D m t h x0 xf vf).solver.x_tape = m.solver.x_tape ∧
    (stepB cf F D m t h x0 xf vf).solver.v_tape = m.solver.v_tape ∧
    (stepB cf F D m t h x0 xf vf).solver.log = m.solver.log := by
  unfold stepB SameBookkeeping
  dsimp only
  split <;> split <;> (try split) <;>
    exact ⟨⟨rfl, rfl, rfl, rfl, rfl, rfl, rfl, rfl, rfl, rfl, rfl, rfl⟩, rfl, rfl, rfl⟩

/-- One pass of the loop "Take steps" of `retreat`: one call of `stepB`, for
the tape index `disc_[k] + j`, with the blocks of the tapes at this index;
the tapes are left as they are. -/
theorem retreat_substep_spec (cf : CalcFunction) (F : FixedStepIntegrator) (D : FixedStepDims)
    (h : ℚ) (m : IntegratorMemory FixedStepMemory) (j : Nat) :
    (retreat_substep cf F D h m j).k = m.k ∧
    (retreat_substep cf F D h m j).t = m.t ∧
    (retreat_substep cf F D h m j).t_next = m.t_next ∧
    (retreat_substep cf F D h m j).solver.x_tape = m.solver.x_tape ∧
    (retreat_substep cf F D h m j).solver.v_tape = m.solver.v_tape ∧
    (retreat_substep cf F D h m j).solver.log = m.solver.log ++ [retreat_event F D m h j] := by
  unfold retreat_substep retreat_event
  dsimp only
  refine ⟨?_, ?_, ?_, ?_, ?_, ?_⟩
  · rw [(stepB_frame cf F D _ _ _ _ _ _).1.1]
  · rw [(stepB_frame cf F D _ _ _ _ _ _).1.2.1]
  · rw [(stepB_frame cf F D _ _ _ _ _ _).1.2.2.1]
  · rw [(stepB_frame cf F D _ _ _ _ _ _).2.1]
  · rw [(stepB_frame cf F D _ _ _ _ _ _).2.2.1]
  · rw [(stepB_frame cf F D _ _ _ _ _ _).2.2.2]
    dsimp only
    rw [readBlock_drop, readBlock_drop, readBlock_drop, Nat.add_zero, Nat.add_zero,
      Nat.add_zero]

theorem retreat_event_congr (F : FixedStepIntegrator) (D : FixedStepDims)
    (m m1 : IntegratorMemory FixedStepMemory) (h : ℚ) (j : Nat) (hk : m1.k = m.k)
    (ht : m1.t_next = m.t_next) (hx : m1.solver.x_tape = m.solver.x_tape)
    (hv : m1.solver.v_tape = m.solver.v_tape) :
    retreat_event F D m1 h j = retreat_event F D m h j := by
  unfold retreat_event
  rw [hk, ht, hx, hv]

/-- The loop "Take steps" of `retreat` over the list `js` of step indices:
one call of `stepB` for each, in the order of the list. -/
theorem retreat_fold_spec (cf : CalcFunction) (F : FixedStepIntegrator) (D : FixedStepDims)
    (h : ℚ) : ∀ (js : List Nat) (m : IntegratorMemory FixedStepMemory),
      (js.foldl (retreat_substep cf F D h) m).k = m.k ∧
      (js.foldl (retreat_substep cf F D h) m).t = m.t ∧
      (js.foldl (retreat_substep cf F D h) m).t_next = m.t_next ∧
      (js.foldl (retreat_substep cf F D h) m).solver.x_tape = m.solver.x_tape ∧
      (js.foldl (retreat_substep cf F D h) m).solver.v_tape = m.solver.v_tape ∧
      (js.foldl (retreat_substep cf F D h) m).solver.log =
        m.solver.log ++ js.map (retreat_event F D m h) := by
  intro js
  induction js with
  | nil =>
    intro m
    exact ⟨rfl, rfl, rfl, rfl, rfl, (List.append_nil _).symm⟩
  | cons j js ih =>
    intro m
    obtain ⟨a1, a2, a3, a4, a5, a6⟩ := retreat_substep_spec cf F D h m j
    obtain ⟨b1, b2, b3, b4, b5, b6⟩ := ih (retreat_substep cf F D h m j)
    rw [List.foldl_cons]
    refine ⟨b1.trans a1, b2.trans a2, b3.trans a3, b4.trans a4, b5.trans a5, ?_⟩
    rw [b6, a6, List.map_cons, List.append_assoc, List.singleton_append]
    congr 2
    apply List.map_congr_left
    intro i _
    exact retreat_event_congr F D m _ h i a1 a3 a4 a5

theorem backward_events_from_append (steps : Nat → StepRecord) (lo a b : Nat) :
    backward_events_from steps (lo + a) b ++ backward_events_from steps lo a =
      backward_events_from steps lo (a + b) := by
  unfold backward_events_from
  rw [List.range_add, List.reverse_append, List.map_append]
  congr 1
  rw [← List.map_reverse (fun x => a + x), List.map_map]
  apply List.map_congr_left
  intro j _
  show backward_event (lo + a + j) (steps (lo + a + j)) =
    backward_event (lo + (a + j)) (steps (lo + (a + j)))
  rw [Nat.add_assoc]

/-- The tape event of a pass of the loop "Take steps" of `retreat` in the grid
interval `k` of a backward sweep, on the tapes left by an event-free forward
sweep with the steps `steps`: the backward step for the tape index
`disc_[k] + j`, with the time, the step length and the tape blocks of the
forward step with this index. -/
theorem retreat_event_eq (F : FixedStepIntegrator) (D : FixedStepDims)
    (steps : Nat → StepRecord) (k : Nat) (m : IntegratorMemory FixedStepMemory)
    (hF : disc_shape F) (hnx : 0 ≤ F.base.nx) (hnv : 0 ≤ D.nv)
    (hk : k < F.base.tout.length) (hmk : m.k = (k : Int))
    (ht : m.t = F.base.tout.getD k 0) (htn : m.t_next = grid_start F.base k)
    (hblocks : ∀ i, i < (F.disc.getD F.base.tout.length 0).toNat →
      readBlock m.solver.x_tape (F.base.nx.toNat * i) F.base.nx.toNat = (steps i).x0 ∧
      readBlock m.solver.x_tape (F.base.nx.toNat * (i + 1)) F.base.nx.toNat = (steps i).xf ∧
      readBlock m.solver.v_tape (D.nv.toNat * i) D.nv.toNat = (steps i).vf)
    (htimes : ∀ k j : Nat, k < F.base.tout.length → (j : Int) < F.nj k →
      (steps ((F.disc.getD k 0).toNat + j)).t =
        grid_start F.base k + (j : ℚ) * grid_step F k ∧
      (steps ((F.disc.getD k 0).toNat + j)).h = grid_step F k)
    (j : Nat) (hj : j < (F.nj k).toNat) :
    retreat_event F D m ((m.t - m.t_next) / ((F.nj m.k.toNat : Int) : ℚ)) j =
      backward_event ((F.disc.getD k 0).toNat + j) (steps ((F.disc.getD k 0).toNat + j)) := by
  have hkn : m.k.toNat = k := by rw [hmk]; rfl
  obtain ⟨d, hd⟩ := Int.eq_ofNat_of_zero_le (disc_nonneg F hF k (by omega))
  have hmono := disc_monotone F hF (k + 1) _ (by omega) (le_refl _)
  have hjn : (j : Int) < F.nj k := by omega
  have hjN : d + j < (F.disc.getD F.base.tout.length 0).toNat := by
    unfold FixedStepIntegrator.nj at hjn
    omega
  obtain ⟨t1, t2⟩ := htimes k j hk hjn
  obtain ⟨c1, c2, c3⟩ := hblocks (d + j) hjN
  have hdt : (F.disc.getD k 0).toNat = d := by rw [hd]; rfl
  rw [hdt] at t1 t2
  unfold retreat_event backward_event
  rw [hkn, hdt]
  have hh : (m.t - m.t_next) / ((F.nj k : Int) : ℚ) = grid_step F k := by
    unfold grid_step
    rw [htn, ht]
  have e1 : F.disc.getD k 0 + (j : Int) = ((d + j : Nat) : Int) := by
    rw [hd]; push_cast; rfl
  have e2 : F.disc.getD k 0 + (j : Int) + 1 = ((d + j + 1 : Nat) : Int) := by
    rw [hd]; push_cast; rfl
  rw [hh, e2, e1, toNat_mul_nat _ _ hnx, toNat_mul_nat _ _ hnx, toNat_mul_nat _ _ hnv, c1, c2,
    c3, t1, t2, htn]

/-- The call of `retreat` for the grid interval `k` of a backward sweep, on the
tapes left by an event-free forward sweep with the steps `steps`: the
backward steps for the tape indices `disc_[k+1] - 1` down to `disc_[k]`, in
decreasing order; the tapes are left as they are. -/
theorem retreat_interval (cf : CalcFunction) (F : FixedStepIntegrator) (D : FixedStepDims)
    (steps : Nat → StepRecord) (k : Nat) (m : IntegratorMemory FixedStepMemory)
    (u : Option (List ℚ))
    (hF : disc_shape F) (hnx : 0 ≤ F.base.nx) (hnv : 0 ≤ D.nv)
    (hk : k < F.base.tout.length) (hmk : m.k = (k : Int))
    (ht : m.t = F.base.tout.getD k 0) (htn : m.t_next = grid_start F.base k)
    (hblocks : ∀ i, i < (F.disc.getD F.base.tout.length 0).toNat →
      readBlock m.solver.x_tape (F.base.nx.toNat * i) F.base.nx.toNat = (steps i).x0 ∧
      readBlock m.solver.x_tape (F.base.nx.toNat * (i + 1)) F.base.nx.toNat = (steps i).xf ∧
      readBlock m.solver.v_tape (D.nv.toNat * i) D.nv.toNat = (steps i).vf)
    (htimes : ∀ k j : Nat, k < F.base.tout.length → (j : Int) < F.nj k →
      (steps ((F.disc.getD k 0).toNat + j)).t =
        grid_start F.base k + (j : ℚ) * grid_step F k ∧
      (steps ((F.disc.getD k 0).toNat + j)).h = grid_step F k) :
    (F.retreat cf D m u).1.solver.x_tape = m.solver.x_tape ∧
    (F.retreat cf D m u).1.solver.v_tape = m.solver.v_tape ∧
    (F.retreat cf D m u).1.solver.log =
      m.solver.log ++ backward_events_from steps (F.disc.getD k 0).toNat (F.nj k).toNat := by
  have hkn : m.k.toNat = k := by rw [hmk]; rfl
  unfold FixedStepIntegrator.retreat
  dsimp only
  obtain ⟨-, -, -, b4, b5, b6⟩ := retreat_fold_spec cf F D
    ((m.t - m.t_next) / ((F.nj m.k.toNat : Int) : ℚ)) (List.range (F.nj m.k.toNat).toNat).reverse
    { m with u := casadi_copy u F.base.nu.toNat m.u 0 }
  refine ⟨b4, b5, ?_⟩
  rw [b6]
  show m.solver.log ++ _ = _
  congr 1
  unfold backward_events_from
  rw [hkn]
  apply List.map_congr_left
  intro j hj
  have hj1 : j < (F.nj k).toNat := List.mem_range.1 (List.mem_reverse.1 hj)
  have h1 := retreat_event_eq F D steps k m hF hnx hnv hk hmk ht htn hblocks htimes j hj1
  rw [hkn] at h1
  rw [← h1]
  exact retreat_event_congr F D m _ _ j rfl rfl rfl rfl

/-- The head of a pass of the loop "Integrate backward" of `eval` for a
fixed-step integrator: the output index and the time are set; the tapes and
the record of tape events are left as they are. -/
theorem backward_impulse_tape (cf : CalcFunction) (F : FixedStepIntegrator) (D : FixedStepDims)
    (a : EvalArgs) (s : BackwardState FixedStepMemory) (k : Nat) :
    (backward_impulse (F.backward cf D) F.base a s k).m.k = (k : Int) ∧
    (backward_impulse (F.backward cf D) F.base a s k).m.t = F.base.tout.getD k 0 ∧
    (backward_impulse (F.backward cf D) F.base a s k).m.solver.x_tape = s.m.solver.x_tape ∧
    (backward_impulse (F.backward cf D) F.base a s k).m.solver.v_tape = s.m.solver.v_tape ∧
    (backward_impulse (F.backward cf D) F.base a s k).m.solver.log = s.m.solver.log := by
  unfold backward_impulse
  dsimp only
  split <;> exact ⟨rfl, rfl, rfl, rfl, rfl⟩

theorem backward_t_next (I : Integrator) (k : Nat) :
    (if (k : Int) - 1 < 0 then I.t0 else I.tout.getD ((k : Int) - 1).toNat 0) =
      grid_start I k := by
  unfold grid_start
  by_cases h : k = 0
  · rw [if_pos h, if_pos (by omega)]
  · rw [if_neg h, if_neg (by omega)]
    congr 1
    omega

/-- One pass of the loop "Integrate backward" of `eval` for a fixed-step
integrator, on the tapes left by an event-free forward sweep with the steps
`steps`, when an impulse is or has been present: the backward steps for the
tape indices `disc_[k+1] - 1` down to `disc_[k]` are made, in decreasing
order. -/
theorem backward_pass_tape (cf : CalcFunction) (F : FixedStepIntegrator) (D : FixedStepDims)
    (steps : Nat → StepRecord) (a : EvalArgs) (s : BackwardState FixedStepMemory) (k : Nat)
    (hF : disc_shape F) (hnx : 0 ≤ F.base.nx) (hnv : 0 ≤ D.nv)
    (hk : k < F.base.tout.length)
    (hany : s.any_impulse = true ∨ seed_nonzero F.base a k)
    (hblocks : ∀ i, i < (F.disc.getD F.base.tout.length 0).toNat →
      readBlock s.m.solver.x_tape (F.base.nx.toNat * i) F.base.nx.toNat = (steps i).x0 ∧
      readBlock s.m.solver.x_tape (F.base.nx.toNat * (i + 1)) F.base.nx.toNat = (steps i).xf ∧
      readBlock s.m.solver.v_tape (D.nv.toNat * i) D.nv.toNat = (steps i).vf)
    (htimes : ∀ k j : Nat, k < F.base.tout.length → (j : Int) < F.nj k →
      (steps ((F.disc.getD k 0).toNat + j)).t =
        grid_start F.base k + (j : ℚ) * grid_step F k ∧
      (steps ((F.disc.getD k 0).toNat + j)).h = grid_step F k) :
    (backward_interval (F.backward cf D) F.base a s k).any_impulse = true ∧
    (backward_interval (F.backward cf D) F.base a s k).m.solver.x_tape = s.m.solver.x_tape ∧
    (backward_interval (F.backward cf D) F.base a s k).m.solver.v_tape = s.m.solver.v_tape ∧
    (backward_interval (F.backward cf D) F.base a s k).m.solver.log =
      s.m.solver.log ++ backward_events_from steps (F.disc.getD k 0).toNat (F.nj k).toNat := by
  obtain ⟨i1, i2, i3, i4, i5⟩ := backward_impulse_tape cf F D a s k
  have hany1 := (backward_impulse_spec (F.backward cf D) F.base a s k).1.2 hany
  rw [← i3, ← i4] at hblocks
  unfold backward_interval backward_retreat
  dsimp only
  rw [if_pos hany1]
  dsimp only
  refine ⟨hany1, ?_⟩
  rw [← i3, ← i4, ← i5]
  exact retreat_interval cf F D steps k _ _ hF hnx hnv hk i1 i2 (backward_t_next F.base k)
    hblocks htimes

/-- Invariant of the loop "Integrate backward" of `eval` for a fixed-step
integrator with an impulse at the last grid point, on the tapes left by an
event-free forward sweep with the steps `steps`: after `n` passes the
backward steps for the tape indices `disc_.back() - 1` down to
`disc_[nt - n]` have been made, in decreasing order. -/
theorem backward_tape_inv (cf : CalcFunction) (F : FixedStepIntegrator) (D : FixedStepDims)
    (steps : Nat → StepRecord) (a : EvalArgs) (s0 : BackwardState FixedStepMemory)
    (hF : disc_shape F) (hnx : 0 ≤ F.base.nx) (hnv : 0 ≤ D.nv)
    (hseed : seed_nonzero F.base a (F.base.tout.length - 1))
    (hblocks : ∀ i, i < (F.disc.getD F.base.tout.length 0).toNat →
      readBlock s0.m.solver.x_tape (F.base.nx.toNat * i) F.base.nx.toNat = (steps i).x0 ∧
      readBlock s0.m.solver.x_tape (F.base.nx.toNat * (i + 1)) F.base.nx.toNat = (steps i).xf ∧
      readBlock s0.m.solver.v_tape (D.nv.toNat * i) D.nv.toNat = (steps i).vf)
    (htimes : ∀ k j : Nat, k < F.base.tout.length → (j : Int) < F.nj k →
      (steps ((F.disc.getD k 0).toNat + j)).t =
        grid_start F.base k + (j : ℚ) * grid_step F k ∧
      (steps ((F.disc.getD k 0).toNat + j)).h = grid_step F k) :
    ∀ n, n ≤ F.base.tout.length →
      (backward_intervals (F.backward cf D) F.base a s0 n).m.solver.x_tape =
        s0.m.solver.x_tape ∧
      (backward_intervals (F.backward cf D) F.base a s0 n).m.solver.v_tape =
        s0.m.solver.v_tape ∧
      (0 < n → (backward_intervals (F.backward cf D) F.base a s0 n).any_impulse = true) ∧
      (backward_intervals (F.backward cf D) F.base a s0 n).m.solver.log =
        s0.m.solver.log ++
          backward_events_from steps (F.disc.getD (F.base.tout.length - n) 0).toNat
            ((F.disc.getD F.base.tout.length 0).toNat -
              (F.disc.getD (F.base.tout.length - n) 0).toNat) := by
  intro n
  induction n with
  | zero =>
    intro _
    refine ⟨rfl, rfl, fun h => absurd h (Nat.lt_irrefl 0), ?_⟩
    rw [Nat.sub_zero, Nat.sub_self]
    exact (List.append_nil _).symm
  | succ n ih =>
    intro hn
    obtain ⟨h1, h2, h3, h4⟩ := ih (by omega)
    have hk : F.base.tout.length - 1 - n < F.base.tout.length := by omega
    have hany : (backward_intervals (F.backward cf D) F.base a s0 n).any_impulse = true ∨
        seed_nonzero F.base a (F.base.tout.length - 1 - n) := by
      by_cases h0 : n = 0
      · subst h0
        exact Or.inr hseed
      · exact Or.inl (h3 (by omega))
    rw [← h1, ← h2] at hblocks
    obtain ⟨p1, p2, p3, p4⟩ := backward_pass_tape cf F D steps a
      (backward_intervals (F.backward cf D) F.base a s0 n) (F.base.tout.length - 1 - n)
      hF hnx hnv hk hany hblocks htimes
    have hstep : backward_intervals (F.backward cf D) F.base a s0 (n + 1) =
        backward_interval (F.backward cf D) F.base a
          (backward_intervals (F.backward cf D) F.base a s0 n) (F.base.tout.length - 1 - n) :=
      rfl
    rw [hstep]
    refine ⟨p2.trans h1, p3.trans h2, fun _ => p1, ?_⟩
    rw [p4, h4, List.append_assoc]
    congr 1
    have e1 : F.base.tout.length - n = (F.base.tout.length - 1 - n) + 1 := by omega
    have e2 : F.base.tout.length - (n + 1) = F.base.tout.length - 1 - n := by omega
    rw [e1, e2]
    have d0 := disc_nonneg F hF (F.base.tout.length - 1 - n) (by omega)
    have d1 := hF.2.2 (F.base.tout.length - 1 - n) hk
    have d2 := disc_monotone F hF (F.base.tout.length - 1 - n + 1) _ (by omega) (le_refl _)
    have e3 : (F.disc.getD (F.base.tout.length - 1 - n + 1) 0).toNat =
        (F.disc.getD (F.base.tout.length - 1 - n) 0).toNat +
          (F.nj (F.base.tout.length - 1 - n)).toNat := by
      unfold FixedStepIntegrator.nj
      omega
    rw [e3, backward_events_from_append]
    congr 1
    unfold FixedStepIntegrator.nj
    omega

theorem forward_log_tapeind (steps : Nat → StepRecord) :
    ∀ N : Nat,
      (TapeEvent.writeX 0 :: forward_events_from steps 0 N).filterMap TapeEvent.tapeind = [] := by
  intro N
  induction N with
  | zero => rfl
  | succ N ih =>
    rw [forward_events_from_append, forward_events_from_one, ← List.cons_append,
      List.filterMap_append, ih]
    rfl

theorem backward_log_tapeind (steps : Nat → StepRecord) (lo : Nat) :
    ∀ l : List Nat,
      (l.map fun j => backward_event (lo + j) (steps (lo + j))).filterMap TapeEvent.tapeind =
        l.map fun j => ((lo + j : Nat) : Int) := by
  intro l
  induction l with
  | nil => rfl
  | cons j l ih =>
    rw [List.map_cons, List.map_cons, ← ih]
    rfl

/-- Claim C24. For a fixed-step integrator with adjoint support (`nrx > 0`)
and without zero-crossing functions, a vector `disc_` with one entry per grid
point after the entry 0 and entries that do not decrease, and a nonzero
adjoint seed at the last grid point: `eval` returns, and with `steps i` the
record of the forward step `i` (time, step length, state before and after,
discretisation variables after; these are the blocks `i` and `i + 1` of
`x_tape` and the block `i` of `v_tape`), a call of `retreat` for the grid
interval `k`, entered as `eval` enters it (output index `k`, time `tout[k]`,
`t_next` the start of the interval) on the tapes of the forward sweep,
makes the backward steps for the tape indices `disc_[k+1] - 1` down to
`disc_[k]`, in decreasing order, each with the time and step length of the
forward step with this index and with its tape blocks as `x0`, `xf` and
`vf`; over the backward sweep the tape indices `disc_.back() - 1` down to 0
are each visited once, in the reverse of the forward order. -/
theorem tape_backward_sweep (cf : CalcFunction)
    (base_reset : IntegratorMemory FixedStepMemory → Bool → IntegratorMemory FixedStepMemory)
    (hR : BaseResetFrame base_reset) (F : FixedStepIntegrator) (D : FixedStepDims) (nan : ℚ)
    (hF : disc_shape F) (hne : F.base.ne = 0) (hnrx : F.base.nrx > 0) (hnx : 0 ≤ F.base.nx)
    (hnv : 0 ≤ D.nv) (hnt : 0 < F.base.tout.length) (fuel : Nat) (hfuel : 0 < fuel)
    (a : EvalArgs) (m : IntegratorMemory FixedStepMemory) (hw : work_allocated F D m)
    (hlog : m.solver.log = [])
    (hseed : seed_nonzero F.base a (F.base.tout.length - 1)) (adj_x adj_p adj_u : List ℚ) :
    ∃ (sf : ForwardState FixedStepMemory) (sb : BackwardState FixedStepMemory)
      (steps : Nat → StepRecord),
      eval (F.collaborators cf base_reset D nan) (F.backward cf D) F.base fuel a m
        adj_x adj_p adj_u = .ok (sf, sb) ∧
      sf.m.solver.log =
        TapeEvent.writeX 0 :: forward_events_from steps 0 (F.disc.getLastD 0).toNat ∧
      (∀ i, i < (F.disc.getLastD 0).toNat →
        readBlock sf.m.solver.x_tape (F.base.nx.toNat * i) F.base.nx.toNat = (steps i).x0 ∧
        readBlock sf.m.solver.x_tape (F.base.nx.toNat * (i + 1)) F.base.nx.toNat =
          (steps i).xf ∧
        readBlock sf.m.solver.v_tape (D.nv.toNat * i) D.nv.toNat = (steps i).vf) ∧
      (∀ (k : Nat) (mk : IntegratorMemory FixedStepMemory) (u : Option (List ℚ)),
        k < F.base.tout.length → mk.k = (k : Int) → mk.t = F.base.tout.getD k 0 →
        mk.t_next = grid_start F.base k → mk.solver.x_tape = sf.m.solver.x_tape →
        mk.solver.v_tape = sf.m.solver.v_tape →
        (F.retreat cf D mk u).1.solver.log = mk.solver.log ++
          backward_events_from steps (F.disc.getD k 0).toNat (F.nj k).toNat ∧
        ((F.disc.getD k 0).toNat + (F.nj k).toNat : Int) = F.disc.getD (k + 1) 0) ∧
      sb.m.solver.x_tape = sf.m.solver.x_tape ∧ sb.m.solver.v_tape = sf.m.solver.v_tape ∧
      sb.m.solver.log =
        sf.m.solver.log ++ backward_events_from steps 0 (F.disc.getLastD 0).toNat ∧
      sb.m.solver.log.filterMap TapeEvent.tapeind =
        ((List.range (F.disc.getLastD 0).toNat).map Int.ofNat).reverse := by
  obtain ⟨sf, hsf, -, -, -, hcase⟩ := forward_tape_inv cf base_reset hR F D nan hF hne hnrx
    hnx hnv fuel hfuel a m hw hlog F.base.tout.length (le_refl _)
  rcases hcase with ⟨h0, -⟩ | ⟨-, -, -, steps, i1, i2, -, i4⟩
  · omega
  have hev : eval (F.collaborators cf base_reset D nan) (F.backward cf D) F.base fuel a m
      adj_x adj_p adj_u = .ok (sf, eval_backward (F.backward cf D) F.base a sf.m sf.k_stop
        adj_x adj_p adj_u) := by
    unfold eval
    have hsf1 : eval_forward (F.collaborators cf base_reset D nan) F.base fuel a m = .ok sf :=
      hsf
    rw [hsf1]
  obtain ⟨b1, b2, -, b4⟩ := backward_tape_inv cf F D steps a
    (backward_entry F D sf.m adj_x adj_p adj_u) hF hnx hnv hseed i2 i4 F.base.tout.length
    (le_refl _)
  have hd0 : (F.disc.getD 0 0).toNat = 0 := by rw [hF.2.1]; rfl
  rw [Nat.sub_self, hd0, Nat.sub_zero] at b4
  have hmem : (eval_backward (F.backward cf D) F.base a sf.m sf.k_stop adj_x adj_p adj_u).m =
      { (backward_intervals (F.backward cf D) F.base a
          (backward_entry F D sf.m adj_x adj_p adj_u) F.base.tout.length).m with
        k := max 0 (F.base.nt - 1) } := by
    unfold eval_backward
    dsimp only
    rw [if_pos hnrx]
    rfl
  have hlogb : (eval_backward (F.backward cf D) F.base a sf.m sf.k_stop adj_x adj_p
      adj_u).m.solver.log = sf.m.solver.log ++
        backward_events_from steps 0 (F.disc.getD F.base.tout.length 0).toNat := by
    rw [hmem]
    exact b4
  rw [← disc_last F hF] at i1 i2 hlogb
  refine ⟨sf, _, steps, hev, i1, i2, ?_, ?_, ?_, hlogb, ?_⟩
  · intro k mk u hk hmk ht htn hx hv
    rw [disc_last F hF, ← hx, ← hv] at i2
    refine ⟨(retreat_interval cf F D steps k mk u hF hnx hnv hk hmk ht htn i2 i4).2.2, ?_⟩
    have d0 := disc_nonneg F hF k (by omega)
    have d1 := hF.2.2 k hk
    unfold FixedStepIntegrator.nj
    omega
  · rw [hmem]
    exact b1
  · rw [hmem]
    exact b2
  · rw [hlogb, i1, List.filterMap_append, forward_log_tapeind, List.nil_append]
    unfold backward_events_from
    rw [backward_log_tapeind, ← List.map_reverse]
    congr 1
    funext j
    show ((0 + j : Nat) : Int) = Int.ofNat j
    rw [Nat.zero_add]
    rfl

/-- Witness of claim C24 on `tapeIntegrator` (`disc_ = [0, 1, 3]`) with the
adjoint seed 1 at the last grid point: `eval` returns and the backward steps
have been made for the tape indices 2, 1, 0, in this order. -/
theorem tape_backward_sweep_witness :
    ∃ (sf : ForwardState FixedStepMemory) (sb : BackwardState FixedStepMemory),
      eval (tapeIntegrator.collaborators tapeCalc (fun m _ => m) tapeDims 0)
        (tapeIntegrator.backward tapeCalc tapeDims) tapeIntegrator.base 1 tapeArgs tapeMemory
        [0] [] [] = .ok (sf, sb) ∧
      sb.m.solver.log.filterMap TapeEvent.tapeind = [2, 1, 0] := by
  obtain ⟨sf, sb, steps, h1, -, -, -, -, -, -, h8⟩ := tape_backward_sweep tapeCalc
    (fun m _ => m)
    ⟨fun _ _ => ⟨rfl, rfl, rfl, rfl, rfl, rfl, rfl, rfl, rfl, rfl, rfl, rfl⟩, fun _ _ => rfl,
      fun _ _ => rfl, fun _ _ => rfl⟩
    tapeIntegrator tapeDims 0 (by unfold disc_shape; decide) (by decide) (by decide) (by decide)
    (by decide) (by decide) 1 (by decide) tapeArgs tapeMemory
    (by unfold work_allocated tape_allocated; decide) rfl (by decide!) [0] [] []
  exact ⟨sf, sb, h1, h8⟩

end Casadi
